import Mathlib

/-!
# RealMedia demultiplexer (`src/input/r_real.cpp`), DTS packet lengths
# (`src/common/dts.h`), the analyzer index (`src/mmg/kax_analyzer.h`), the
# language lookup (`src/common/iso639.cpp`), powers of two
# (`src/common/math.cpp`) and the merge configuration of the GUI
# (`src/mkvtoolnix-gui/merge/mux_config.cpp`)

A shallow embedding of `real_reader_c`: the magic-number probe, the track
directory, the probe for bitstream ids, the choice and the creation of the
audio packetizers, the audio queue, the AAC splitter, the keyframe forcing, the
RealVideo dimension probe, the packed-video path, the frame loop `read` and the
progress; of the two length functions of the DTS `header_t`; of
`kax_analyzer_c::find`; of `map_to_iso639_2_code` with its table; of
`round_to_nearest_pow2` and `int_log2`; and of the three builders
`buildFileNumbers`, `buildTrackOrder` and `buildAppendToMapping` of
`MuxConfig`.  Stateful member functions become functions on an explicit
`real_demuxer_t` record; the packetizer that a track is bound to is
represented by the list of packets it has been handed (`delivered`).  Objects
that are reached through pointers are addressed by natural numbers.  Machine
arithmetic that can wrap is written with an explicit modulus.  Code that can
fault (an integer division by zero, a read past the end of a buffer, a null
pointer that is dereferenced) returns `Option`, `none` being the fault; a loop
that need not end is given a bound on its iterations, `none` saying that the
bound was used up.
-/

/-! ## DTS frame headers (`src/common/dts.h`) -/

namespace mtx.dts

/-- The frame kinds of `frametype_e`. -/
inductive frametype_e
  | termination
  | normal
  deriving DecidableEq

/-- The fields of `header_t` that the two length functions read.  The three
numbers are `unsigned int` in the source. -/
structure header_t where
  frametype : frametype_e
  deficit_sample_count : Nat
  num_pcm_sample_blocks : Nat
  core_sampling_frequency : Nat
  deriving DecidableEq

/-- Modulus of `unsigned int` arithmetic. -/
def UINT32_MOD : Nat := 4294967296

/-- The `int` that a 32-bit pattern stands for (conversion `unsigned int` to
`int`). -/
def to_int32 (x : Nat) : Int :=
  if x % UINT32_MOD < 2147483648 then ((x % UINT32_MOD : Nat) : Int)
  else ((x % UINT32_MOD : Nat) : Int) - 4294967296

/-- The 32-bit pattern of an `int` (conversion `int` to `unsigned int`). -/
def to_uint32 (i : Int) : Nat :=
  (i % 4294967296).toNat

/-- Embeds `header_t::get_packet_length_in_core_samples`.  The product is
computed in `unsigned int` and stored in an `int`; the subtraction of the
unsigned deficit is again computed in `unsigned int`. -/
def header_t.get_packet_length_in_core_samples (h : header_t) : Int :=
  let r : Int := to_int32 ((h.num_pcm_sample_blocks % UINT32_MOD) * 32)
  if h.frametype = frametype_e.termination then
    to_int32 (to_uint32 r + UINT32_MOD - h.deficit_sample_count % UINT32_MOD)
  else r

/-- Embeds `header_t::get_packet_length_in_nanoseconds`, with the `double`
arithmetic of the source taken as exact arithmetic on rational numbers: the
rounding of the result to a `double`, and the infinities of a division by
zero, are not represented. -/
def header_t.get_packet_length_in_nanoseconds (h : header_t) : ℚ :=
  (h.get_packet_length_in_core_samples : ℚ) * 1000000000 / (h.core_sampling_frequency : ℚ)

end mtx.dts

/-! ## The index of the Matroska analyzer (`src/mmg/kax_analyzer.h`) -/

namespace kax_analyzer_c

/-- An element id of libebml (`EbmlId`): the value of the id and its length in
bytes.  Two ids are equal when both agree. -/
structure EbmlId where
  Value : Nat
  Length : Nat
  deriving DecidableEq

/-- The class `analyzer_data_c`: one entry of the index, the id of a top-level
element, its position in the file and its size. -/
structure analyzer_data_c where
  id : EbmlId
  pos : Int
  size : Int
  deriving DecidableEq

/-- The loop of `find`, from the value `i` of the `uint32_t` counter.  The
first argument bounds the number of iterations that are followed.  The
counter is incremented modulo 2^32, and the position that is returned is
converted from `uint32_t` to the `int` result. -/
def find_loop (data : List analyzer_data_c) (id : EbmlId) : Nat → Nat → Option Int
  | 0, _ => none
  | fuel + 1, i =>
      if i < data.length then
        match data[i]? with
        | none => none
        | some entry =>
            if id = entry.id then some (mtx.dts.to_int32 i)
            else find_loop data id fuel ((i + 1) % mtx.dts.UINT32_MOD)
      else some (-1)

/-- Embeds `kax_analyzer_c::find` on the index `data`.  The loop ends after at
most `data.size() + 1` evaluations of its condition unless the counter wraps
around before it reaches the size; in that case it runs forever over the first
2^32 entries, and the result is `none`. -/
def find (data : List analyzer_data_c) (id : EbmlId) : Option Int :=
  find_loop data id (data.length + 1) 0

/-- An index of three entries in which the id 0x1549A966 occurs twice. -/
def sample_index : List analyzer_data_c :=
  [ { id := { Value := 0x114D9B74, Length := 4 }, pos := 48, size := 60 },
    { id := { Value := 0x1549A966, Length := 4 }, pos := 108, size := 70 },
    { id := { Value := 0x1549A966, Length := 4 }, pos := 178, size := 20 } ]

/-- An entry of an index whose id is 0xEC (a void element). -/
def sample_void : analyzer_data_c :=
  { id := { Value := 0xEC, Length := 1 }, pos := 0, size := 0 }

/-- An entry of an index whose id is 0x1254C367. -/
def sample_tags : analyzer_data_c :=
  { id := { Value := 0x1254C367, Length := 4 }, pos := 0, size := 0 }

/-- An index of `n` void elements followed by one element with the id
0x1254C367. -/
def sample_long_index (n : Nat) : List analyzer_data_c :=
  List.replicate n sample_void ++ [sample_tags]

end kax_analyzer_c

/-! ## The language table and its lookup (`src/common/iso639.cpp`) -/

namespace iso639

/-- One entry of the language table (`iso639_language_t`, declared in
`iso639.h`): the English name or names, the ISO 639-2 code, and the ISO 639-1
code and the terminology abbreviation, either of which can be `NULL`.  A C
string is represented by the characters before its terminating NUL. -/
structure iso639_language_t where
  english_name : String
  iso639_2_code : String
  iso639_1_code : Option String
  terminology_abbrev : Option String
  deriving DecidableEq

/-- The table `iso639_languages` (lines 22-509), without the entry of `NULL`s
that ends it: the loops over the table stop at that entry.  The lines that are
commented out in the source are not part of the table; the entry `Javanese`
has three initialisers, which leaves its terminology abbreviation `NULL`. -/
def iso639_languages : List iso639_language_t :=
  [
    iso639_language_t.mk "Abkhazian" "abk" (some "ab") none,
    iso639_language_t.mk "Achinese" "ace" none none,
    iso639_language_t.mk "Acoli" "ach" none none,
    iso639_language_t.mk "Adangme" "ada" none none,
    iso639_language_t.mk "Afar" "aar" (some "aa") none,
    iso639_language_t.mk "Afrihili" "afh" none none,
    iso639_language_t.mk "Afrikaans" "afr" (some "af") none,
    iso639_language_t.mk "Afro-Asiatic (Other)" "afa" none none,
    iso639_language_t.mk "Akan" "aka" (some "ak") none,
    iso639_language_t.mk "Akkadian" "akk" none none,
    iso639_language_t.mk "Albanian" "alb" (some "sq") (some "sqi"),
    iso639_language_t.mk "Aleut" "ale" none none,
    iso639_language_t.mk "Algonquian languages" "alg" none none,
    iso639_language_t.mk "Altaic (Other)" "tut" none none,
    iso639_language_t.mk "Amharic" "amh" (some "am") none,
    iso639_language_t.mk "Apache languages" "apa" none none,
    iso639_language_t.mk "Arabic" "ara" (some "ar") none,
    iso639_language_t.mk "Aragonese" "arg" (some "an") none,
    iso639_language_t.mk "Aramaic" "arc" none none,
    iso639_language_t.mk "Arapaho" "arp" none none,
    iso639_language_t.mk "Araucanian" "arn" none none,
    iso639_language_t.mk "Arawak" "arw" none none,
    iso639_language_t.mk "Armenian" "arm" (some "hy") (some "hye"),
    iso639_language_t.mk "Artificial (Other)" "art" none none,
    iso639_language_t.mk "Assamese" "asm" (some "as") none,
    iso639_language_t.mk "Asturian; Bable" "ast" none none,
    iso639_language_t.mk "Athapascan languages" "ath" none none,
    iso639_language_t.mk "Australian languages" "aus" none none,
    iso639_language_t.mk "Austronesian (Other)" "map" none none,
    iso639_language_t.mk "Avaric" "ava" (some "av") none,
    iso639_language_t.mk "Avestan" "ave" (some "ae") none,
    iso639_language_t.mk "Awadhi" "awa" none none,
    iso639_language_t.mk "Aymara" "aym" (some "ay") none,
    iso639_language_t.mk "Azerbaijani" "aze" (some "az") none,
    iso639_language_t.mk "Bable; Asturian" "ast" none none,
    iso639_language_t.mk "Balinese" "ban" none none,
    iso639_language_t.mk "Baltic (Other)" "bat" none none,
    iso639_language_t.mk "Baluchi" "bal" none none,
    iso639_language_t.mk "Bambara" "bam" (some "bm") none,
    iso639_language_t.mk "Bamileke languages" "bai" none none,
    iso639_language_t.mk "Banda" "bad" none none,
    iso639_language_t.mk "Bantu (Other)" "bnt" none none,
    iso639_language_t.mk "Basa" "bas" none none,
    iso639_language_t.mk "Bashkir" "bak" (some "ba") none,
    iso639_language_t.mk "Basque" "baq" (some "eu") (some "eus"),
    iso639_language_t.mk "Batak (Indonesia)" "btk" none none,
    iso639_language_t.mk "Beja" "bej" none none,
    iso639_language_t.mk "Belarusian" "bel" (some "be") none,
    iso639_language_t.mk "Bemba" "bem" none none,
    iso639_language_t.mk "Bengali" "ben" (some "bn") none,
    iso639_language_t.mk "Berber (Other)" "ber" none none,
    iso639_language_t.mk "Bhojpuri" "bho" none none,
    iso639_language_t.mk "Bihari" "bih" (some "bh") none,
    iso639_language_t.mk "Bikol" "bik" none none,
    iso639_language_t.mk "Bini" "bin" none none,
    iso639_language_t.mk "Bislama" "bis" (some "bi") none,
    iso639_language_t.mk "Bokmål, Norwegian; Norwegian Bokmål" "nob" (some "nb") none,
    iso639_language_t.mk "Bosnian" "bos" (some "bs") none,
    iso639_language_t.mk "Braj" "bra" none none,
    iso639_language_t.mk "Breton" "bre" (some "br") none,
    iso639_language_t.mk "Buginese" "bug" none none,
    iso639_language_t.mk "Bulgarian" "bul" (some "bg") none,
    iso639_language_t.mk "Buriat" "bua" none none,
    iso639_language_t.mk "Burmese" "bur" (some "my") (some "mya"),
    iso639_language_t.mk "Caddo" "cad" none none,
    iso639_language_t.mk "Carib" "car" none none,
    iso639_language_t.mk "Castilian" "spa" (some "es") none,
    iso639_language_t.mk "Catalan" "cat" (some "ca") none,
    iso639_language_t.mk "Caucasian (Other)" "cau" none none,
    iso639_language_t.mk "Cebuano" "ceb" none none,
    iso639_language_t.mk "Celtic (Other)" "cel" none none,
    iso639_language_t.mk "Central American Indian (Other)" "cai" none none,
    iso639_language_t.mk "Chagatai" "chg" none none,
    iso639_language_t.mk "Chamic languages" "cmc" none none,
    iso639_language_t.mk "Chamorro" "cha" (some "ch") none,
    iso639_language_t.mk "Chechen" "che" (some "ce") none,
    iso639_language_t.mk "Cherokee" "chr" none none,
    iso639_language_t.mk "Chewa; Chichewa; Nyanja" "nya" (some "ny") none,
    iso639_language_t.mk "Cheyenne" "chy" none none,
    iso639_language_t.mk "Chibcha" "chb" none none,
    iso639_language_t.mk "Chichewa; Chewa; Nyanja" "nya" (some "ny") none,
    iso639_language_t.mk "Chinese" "chi" (some "zh") (some "zho"),
    iso639_language_t.mk "Chinook jargon" "chn" none none,
    iso639_language_t.mk "Chipewyan" "chp" none none,
    iso639_language_t.mk "Choctaw" "cho" none none,
    iso639_language_t.mk "Chuang; Zhuang" "zha" (some "za") none,
    iso639_language_t.mk "Church Slavic; Old Church Slavonic" "chu" (some "cu") none,
    iso639_language_t.mk "Old Church Slavonic; Old Slavonic; " "chu" (some "cu") none,
    iso639_language_t.mk "Church Slavonic; Old Bulgarian; Church Slavic;" "chu" (some "cu") none,
    iso639_language_t.mk "Old Slavonic; Church Slavonic; Old Bulgarian;" "chu" (some "cu") none,
    iso639_language_t.mk "Church Slavic; Old Church Slavonic" "chu" (some "cu") none,
    iso639_language_t.mk "Chuukese" "chk" none none,
    iso639_language_t.mk "Chuvash" "chv" (some "cv") none,
    iso639_language_t.mk "Coptic" "cop" none none,
    iso639_language_t.mk "Cornish" "cor" (some "kw") none,
    iso639_language_t.mk "Corsican" "cos" (some "co") none,
    iso639_language_t.mk "Cree" "cre" (some "cr") none,
    iso639_language_t.mk "Creek" "mus" none none,
    iso639_language_t.mk "Creoles and pidgins (Other)" "crp" none none,
    iso639_language_t.mk "Creoles and pidgins," "cpe" none none,
    iso639_language_t.mk "Creoles and pidgins," "cpf" none none,
    iso639_language_t.mk "Creoles and pidgins," "cpp" none none,
    iso639_language_t.mk "Croatian; Hrvatske" "scr" (some "hr") (some "hrv"),
    iso639_language_t.mk "Cushitic (Other)" "cus" none none,
    iso639_language_t.mk "Czech" "cze" (some "cs") (some "ces"),
    iso639_language_t.mk "Dakota" "dak" none none,
    iso639_language_t.mk "Danish" "dan" (some "da") none,
    iso639_language_t.mk "Dargwa" "dar" none none,
    iso639_language_t.mk "Dayak" "day" none none,
    iso639_language_t.mk "Delaware" "del" none none,
    iso639_language_t.mk "Dinka" "din" none none,
    iso639_language_t.mk "Divehi" "div" (some "dv") none,
    iso639_language_t.mk "Dogri" "doi" none none,
    iso639_language_t.mk "Dogrib" "dgr" none none,
    iso639_language_t.mk "Dravidian (Other)" "dra" none none,
    iso639_language_t.mk "Duala" "dua" none none,
    iso639_language_t.mk "Dutch; Flemish" "dut" (some "nl") (some "nld"),
    iso639_language_t.mk "Dutch, Middle (ca. 1050-1350)" "dum" none none,
    iso639_language_t.mk "Dyula" "dyu" none none,
    iso639_language_t.mk "Dzongkha" "dzo" (some "dz") none,
    iso639_language_t.mk "Efik" "efi" none none,
    iso639_language_t.mk "Egyptian (Ancient)" "egy" none none,
    iso639_language_t.mk "Ekajuk" "eka" none none,
    iso639_language_t.mk "Elamite" "elx" none none,
    iso639_language_t.mk "English" "eng" (some "en") none,
    iso639_language_t.mk "English, Middle (1100-1500)" "enm" none none,
    iso639_language_t.mk "English, Old (ca.450-1100)" "ang" none none,
    iso639_language_t.mk "Esperanto" "epo" (some "eo") none,
    iso639_language_t.mk "Estonian" "est" (some "et") none,
    iso639_language_t.mk "Ewe" "ewe" (some "ee") none,
    iso639_language_t.mk "Ewondo" "ewo" none none,
    iso639_language_t.mk "Fang" "fan" none none,
    iso639_language_t.mk "Fanti" "fat" none none,
    iso639_language_t.mk "Faroese" "fao" (some "fo") none,
    iso639_language_t.mk "Fijian" "fij" (some "fj") none,
    iso639_language_t.mk "Finnish" "fin" (some "fi") none,
    iso639_language_t.mk "Finno-Ugrian (Other)" "fiu" none none,
    iso639_language_t.mk "Fon" "fon" none none,
    iso639_language_t.mk "French" "fre" (some "fr") (some "fra"),
    iso639_language_t.mk "French, Middle (ca.1400-1600)" "frm" none none,
    iso639_language_t.mk "French, Old (842-ca.1400)" "fro" none none,
    iso639_language_t.mk "Frisian" "fry" (some "fy") none,
    iso639_language_t.mk "Friulian" "fur" none none,
    iso639_language_t.mk "Fulah" "ful" (some "ff") none,
    iso639_language_t.mk "Ga" "gaa" none none,
    iso639_language_t.mk "Gaelic; Scottish Gaelic" "gla" (some "gd") (some "gdh"),
    iso639_language_t.mk "Gallegan" "glg" (some "gl") none,
    iso639_language_t.mk "Ganda" "lug" (some "lg") none,
    iso639_language_t.mk "Gayo" "gay" none none,
    iso639_language_t.mk "Gbaya" "gba" none none,
    iso639_language_t.mk "Geez" "gez" none none,
    iso639_language_t.mk "Georgian" "geo" (some "ka") (some "kat"),
    iso639_language_t.mk "German" "ger" (some "de") (some "deu"),
    iso639_language_t.mk "German, Low; Saxon, Low; Low German; Low Saxon" "nds" none none,
    iso639_language_t.mk "German, Middle High (ca.1050-1500)" "gmh" none none,
    iso639_language_t.mk "German, Old High (ca.750-1050)" "goh" none none,
    iso639_language_t.mk "Germanic (Other)" "gem" none none,
    iso639_language_t.mk "Gikuyu; Kikuyu" "kik" (some "ki") none,
    iso639_language_t.mk "Gilbertese" "gil" none none,
    iso639_language_t.mk "Gondi" "gon" none none,
    iso639_language_t.mk "Gorontalo" "gor" none none,
    iso639_language_t.mk "Gothic" "got" none none,
    iso639_language_t.mk "Grebo" "grb" none none,
    iso639_language_t.mk "Greek, Ancient (to 1453)" "grc" none none,
    iso639_language_t.mk "Greek" "gre" (some "el") (some "ell"),
    iso639_language_t.mk "Greenlandic; Kalaallisut" "kal" (some "kl") none,
    iso639_language_t.mk "Guarani" "grn" (some "gn") none,
    iso639_language_t.mk "Gujarati" "guj" (some "gu") none,
    iso639_language_t.mk "GwichŽin" "gwi" none none,
    iso639_language_t.mk "Haida" "hai" none none,
    iso639_language_t.mk "Hausa" "hau" (some "ha") none,
    iso639_language_t.mk "Hawaiian" "haw" none none,
    iso639_language_t.mk "Hebrew" "heb" (some "he") none,
    iso639_language_t.mk "Hebrew" "heb" (some "iw") none,
    iso639_language_t.mk "Herero" "her" (some "hz") none,
    iso639_language_t.mk "Hiligaynon" "hil" none none,
    iso639_language_t.mk "Himachali" "him" none none,
    iso639_language_t.mk "Hindi" "hin" (some "hi") none,
    iso639_language_t.mk "Hiri Motu" "hmo" (some "ho") none,
    iso639_language_t.mk "Hittite" "hit" none none,
    iso639_language_t.mk "Hmong" "hmn" none none,
    iso639_language_t.mk "Hungarian" "hun" (some "hu") none,
    iso639_language_t.mk "Hupa" "hup" none none,
    iso639_language_t.mk "Iban" "iba" none none,
    iso639_language_t.mk "Icelandic" "ice" (some "is") (some "isl"),
    iso639_language_t.mk "Ido" "ido" (some "io") none,
    iso639_language_t.mk "Igbo" "ibo" (some "ig") none,
    iso639_language_t.mk "Ijo" "ijo" none none,
    iso639_language_t.mk "Iloko" "ilo" none none,
    iso639_language_t.mk "Inari Sami" "smn" none none,
    iso639_language_t.mk "Indic (Other)" "inc" none none,
    iso639_language_t.mk "Indo-European (Other)" "ine" none none,
    iso639_language_t.mk "Indonesian" "ind" (some "id") none,
    iso639_language_t.mk "Ingush" "inh" none none,
    iso639_language_t.mk "Interlingua (International" "ina" (some "ia") none,
    iso639_language_t.mk "Interlingue" "ile" (some "ie") none,
    iso639_language_t.mk "Inuktitut" "iku" (some "iu") none,
    iso639_language_t.mk "Inupiaq" "ipk" (some "ik") none,
    iso639_language_t.mk "Iranian (Other)" "ira" none none,
    iso639_language_t.mk "Irish" "gle" (some "ga") (some "iri"),
    iso639_language_t.mk "Irish, Middle (900-1200)" "mga" none none,
    iso639_language_t.mk "Irish, Old (to 900)" "sga" none none,
    iso639_language_t.mk "Iroquoian languages" "iro" none none,
    iso639_language_t.mk "Italian" "ita" (some "it") none,
    iso639_language_t.mk "Japanese" "jpn" (some "ja") none,
    iso639_language_t.mk "Javanese" "jav" (some "jv") none,
    iso639_language_t.mk "Judeo-Arabic" "jrb" none none,
    iso639_language_t.mk "Judeo-Persian" "jpr" none none,
    iso639_language_t.mk "Kabardian" "kbd" none none,
    iso639_language_t.mk "Kabyle" "kab" none none,
    iso639_language_t.mk "Kachin" "kac" none none,
    iso639_language_t.mk "Kalaallisut; Greenlandic" "kal" (some "kl") none,
    iso639_language_t.mk "Kamba" "kam" none none,
    iso639_language_t.mk "Kannada" "kan" (some "kn") none,
    iso639_language_t.mk "Kanuri" "kau" (some "kr") none,
    iso639_language_t.mk "Kara-Kalpak" "kaa" none none,
    iso639_language_t.mk "Karen" "kar" none none,
    iso639_language_t.mk "Kashmiri" "kas" (some "ks") none,
    iso639_language_t.mk "Kawi" "kaw" none none,
    iso639_language_t.mk "Kazakh" "kaz" (some "kk") none,
    iso639_language_t.mk "Khasi" "kha" none none,
    iso639_language_t.mk "Khmer" "khm" (some "km") none,
    iso639_language_t.mk "Khoisan (Other)" "khi" none none,
    iso639_language_t.mk "Khotanese" "kho" none none,
    iso639_language_t.mk "Kikuyu; Gikuyu" "kik" (some "ki") none,
    iso639_language_t.mk "Kimbundu" "kmb" none none,
    iso639_language_t.mk "Kinyarwanda" "kin" (some "rw") none,
    iso639_language_t.mk "Kirghiz" "kir" (some "ky") none,
    iso639_language_t.mk "Klingon; tlhlngan-Hol" "tlh" none none,
    iso639_language_t.mk "Komi" "kom" (some "kv") none,
    iso639_language_t.mk "Kongo" "kon" (some "kg") none,
    iso639_language_t.mk "Konkani" "kok" none none,
    iso639_language_t.mk "Korean" "kor" (some "ko") none,
    iso639_language_t.mk "Kosraean" "kos" none none,
    iso639_language_t.mk "Kpelle" "kpe" none none,
    iso639_language_t.mk "Kru" "kro" none none,
    iso639_language_t.mk "Kuanyama; Kwanyama" "kua" (some "kj") none,
    iso639_language_t.mk "Kumyk" "kum" none none,
    iso639_language_t.mk "Kurdish" "kur" (some "ku") none,
    iso639_language_t.mk "Kurukh" "kru" none none,
    iso639_language_t.mk "Kutenai" "kut" none none,
    iso639_language_t.mk "Kwanyama, Kuanyama" "kua" (some "kj") none,
    iso639_language_t.mk "Ladino" "lad" none none,
    iso639_language_t.mk "Lahnda" "lah" none none,
    iso639_language_t.mk "Lamba" "lam" none none,
    iso639_language_t.mk "Lao" "lao" (some "lo") none,
    iso639_language_t.mk "Latin" "lat" (some "la") none,
    iso639_language_t.mk "Latvian" "lav" (some "lv") none,
    iso639_language_t.mk "Letzeburgesch; Luxembourgish" "ltz" (some "lb") none,
    iso639_language_t.mk "Lezghian" "lez" none none,
    iso639_language_t.mk "Limburgan; Limburger; Limburgish" "lim" (some "li") none,
    iso639_language_t.mk "Limburger; Limburgan; Limburgish;" "lim" (some "li") none,
    iso639_language_t.mk "Limburgish; Limburger; Limburgan" "lim" (some "li") none,
    iso639_language_t.mk "Lingala" "lin" (some "ln") none,
    iso639_language_t.mk "Lithuanian" "lit" (some "lt") none,
    iso639_language_t.mk "Low German; Low Saxon; German, Low; Saxon, Low" "nds" none none,
    iso639_language_t.mk "Low Saxon; Low German; Saxon, Low; German, Low" "nds" none none,
    iso639_language_t.mk "Lozi" "loz" none none,
    iso639_language_t.mk "Luba-Katanga" "lub" (some "lu") none,
    iso639_language_t.mk "Luba-Lulua" "lua" none none,
    iso639_language_t.mk "Luiseno" "lui" none none,
    iso639_language_t.mk "Lule Sami" "smj" none none,
    iso639_language_t.mk "Lunda" "lun" none none,
    iso639_language_t.mk "Luo (Kenya and Tanzania)" "luo" none none,
    iso639_language_t.mk "Lushai" "lus" none none,
    iso639_language_t.mk "Luxembourgish; Letzeburgesch" "ltz" (some "lb") none,
    iso639_language_t.mk "Macedonian" "mac" (some "mk") (some "mkd"),
    iso639_language_t.mk "Madurese" "mad" none none,
    iso639_language_t.mk "Magahi" "mag" none none,
    iso639_language_t.mk "Maithili" "mai" none none,
    iso639_language_t.mk "Makasar" "mak" none none,
    iso639_language_t.mk "Malagasy" "mlg" (some "mg") none,
    iso639_language_t.mk "Malay" "may" (some "ms") (some "msa"),
    iso639_language_t.mk "Malayalam" "mal" (some "ml") none,
    iso639_language_t.mk "Maltese" "mlt" (some "mt") none,
    iso639_language_t.mk "Manchu" "mnc" none none,
    iso639_language_t.mk "Mandar" "mdr" none none,
    iso639_language_t.mk "Mandingo" "man" none none,
    iso639_language_t.mk "Manipuri" "mni" none none,
    iso639_language_t.mk "Manobo languages" "mno" none none,
    iso639_language_t.mk "Manx" "glv" (some "gv") none,
    iso639_language_t.mk "Maori" "mao" (some "mi") (some "mri"),
    iso639_language_t.mk "Marathi" "mar" (some "mr") none,
    iso639_language_t.mk "Mari" "chm" none none,
    iso639_language_t.mk "Marshallese" "mah" (some "mh") none,
    iso639_language_t.mk "Marwari" "mwr" none none,
    iso639_language_t.mk "Masai" "mas" none none,
    iso639_language_t.mk "Mayan languages" "myn" none none,
    iso639_language_t.mk "Mende" "men" none none,
    iso639_language_t.mk "Micmac" "mic" none none,
    iso639_language_t.mk "Minangkabau" "min" none none,
    iso639_language_t.mk "Miscellaneous languages" "mis" none none,
    iso639_language_t.mk "Mohawk" "moh" none none,
    iso639_language_t.mk "Moldavian" "mol" (some "mo") none,
    iso639_language_t.mk "Mon-Khmer (Other)" "mkh" none none,
    iso639_language_t.mk "Mongo" "lol" none none,
    iso639_language_t.mk "Mongolian" "mon" (some "mn") none,
    iso639_language_t.mk "Mossi" "mos" none none,
    iso639_language_t.mk "Multiple languages" "mul" none none,
    iso639_language_t.mk "Munda languages" "mun" none none,
    iso639_language_t.mk "Nahuatl" "nah" none none,
    iso639_language_t.mk "Nauru" "nau" (some "na") none,
    iso639_language_t.mk "Navaho, Navajo" "nav" (some "nv") none,
    iso639_language_t.mk "Navajo; Navaho" "nav" (some "nv") none,
    iso639_language_t.mk "Ndebele, North" "nde" (some "nd") none,
    iso639_language_t.mk "Ndebele, South" "nbl" (some "nr") none,
    iso639_language_t.mk "Ndonga" "ndo" (some "ng") none,
    iso639_language_t.mk "Neapolitan" "nap" none none,
    iso639_language_t.mk "Nepali" "nep" (some "ne") none,
    iso639_language_t.mk "Newari" "new" none none,
    iso639_language_t.mk "Nias" "nia" none none,
    iso639_language_t.mk "Niger-Kordofanian (Other)" "nic" none none,
    iso639_language_t.mk "Nilo-Saharan (Other)" "ssa" none none,
    iso639_language_t.mk "Niuean" "niu" none none,
    iso639_language_t.mk "Norse, Old" "non" none none,
    iso639_language_t.mk "North American Indian (Other)" "nai" none none,
    iso639_language_t.mk "Northern Sami" "sme" (some "se") none,
    iso639_language_t.mk "North Ndebele" "nde" (some "nd") none,
    iso639_language_t.mk "Norwegian" "nor" (some "no") none,
    iso639_language_t.mk "Norwegian Bokmål; Bokmål, Norwegian" "nob" (some "nb") none,
    iso639_language_t.mk "Norwegian Nynorsk; Nynorsk, Norwegian" "nno" (some "nn") none,
    iso639_language_t.mk "Nubian languages" "nub" none none,
    iso639_language_t.mk "Nyamwezi" "nym" none none,
    iso639_language_t.mk "Nyanja; Chichewa; Chewa" "nya" (some "ny") none,
    iso639_language_t.mk "Nyankole" "nyn" none none,
    iso639_language_t.mk "Nynorsk, Norwegian; Norwegian Nynorsk" "nno" (some "nn") none,
    iso639_language_t.mk "Nyoro" "nyo" none none,
    iso639_language_t.mk "Nzima" "nzi" none none,
    iso639_language_t.mk "Occitan (post 1500, NULL\x7d,; Provençal" "oci" (some "oc") none,
    iso639_language_t.mk "Ojibwa" "oji" (some "oj") none,
    iso639_language_t.mk "Old Bulgarian; Old Slavonic; Church Slavonic;" "chu" (some "cu") none,
    iso639_language_t.mk "Oriya" "ori" (some "or") none,
    iso639_language_t.mk "Oromo" "orm" (some "om") none,
    iso639_language_t.mk "Osage" "osa" none none,
    iso639_language_t.mk "Ossetian; Ossetic" "oss" (some "os") none,
    iso639_language_t.mk "Ossetic; Ossetian" "oss" (some "os") none,
    iso639_language_t.mk "Otomian languages" "oto" none none,
    iso639_language_t.mk "Pahlavi" "pal" none none,
    iso639_language_t.mk "Palauan" "pau" none none,
    iso639_language_t.mk "Pali" "pli" (some "pi") none,
    iso639_language_t.mk "Pampanga" "pam" none none,
    iso639_language_t.mk "Pangasinan" "pag" none none,
    iso639_language_t.mk "Panjabi" "pan" (some "pa") none,
    iso639_language_t.mk "Papiamento" "pap" none none,
    iso639_language_t.mk "Papuan (Other)" "paa" none none,
    iso639_language_t.mk "Persian" "per" (some "fa") (some "fas"),
    iso639_language_t.mk "Persian, Old (ca.600-400 B.C.)" "peo" none none,
    iso639_language_t.mk "Philippine (Other)" "phi" none none,
    iso639_language_t.mk "Phoenician" "phn" none none,
    iso639_language_t.mk "Pohnpeian" "pon" none none,
    iso639_language_t.mk "Polish" "pol" (some "pl") none,
    iso639_language_t.mk "Portuguese" "por" (some "pt") none,
    iso639_language_t.mk "Prakrit languages" "pra" none none,
    iso639_language_t.mk "Provençal; Occitan (post 1500)" "oci" (some "oc") none,
    iso639_language_t.mk "Provençal, Old (to 1500)" "pro" none none,
    iso639_language_t.mk "Pushto" "pus" (some "ps") none,
    iso639_language_t.mk "Quechua" "que" (some "qu") none,
    iso639_language_t.mk "Raeto-Romance" "roh" (some "rm") none,
    iso639_language_t.mk "Rajasthani" "raj" none none,
    iso639_language_t.mk "Rapanui" "rap" none none,
    iso639_language_t.mk "Rarotongan" "rar" none none,
    iso639_language_t.mk "Reserved for local use" "qaa-qtz" none none,
    iso639_language_t.mk "Romance (Other)" "roa" none none,
    iso639_language_t.mk "Romanian" "rum" (some "ro") (some "ron"),
    iso639_language_t.mk "Romany" "rom" none none,
    iso639_language_t.mk "Rundi" "run" (some "rn") none,
    iso639_language_t.mk "Russian" "rus" (some "ru") none,
    iso639_language_t.mk "Salishan languages" "sal" none none,
    iso639_language_t.mk "Samaritan Aramaic" "sam" none none,
    iso639_language_t.mk "Sami languages (Other)" "smi" none none,
    iso639_language_t.mk "Samoan" "smo" (some "sm") none,
    iso639_language_t.mk "Sandawe" "sad" none none,
    iso639_language_t.mk "Sango" "sag" (some "sg") none,
    iso639_language_t.mk "Sanskrit" "san" (some "sa") none,
    iso639_language_t.mk "Santali" "sat" none none,
    iso639_language_t.mk "Sardinian" "srd" (some "sc") none,
    iso639_language_t.mk "Sasak" "sas" none none,
    iso639_language_t.mk "Saxon, Low; German, Low; Low Saxon; Low German" "nds" none none,
    iso639_language_t.mk "Scots" "sco" none none,
    iso639_language_t.mk "Scottish Gaelic; Gaelic" "gla" (some "gd") none,
    iso639_language_t.mk "Selkup" "sel" none none,
    iso639_language_t.mk "Semitic (Other)" "sem" none none,
    iso639_language_t.mk "Serbian" "scc" (some "sr") (some "srp"),
    iso639_language_t.mk "Serer" "srr" none none,
    iso639_language_t.mk "Shan" "shn" none none,
    iso639_language_t.mk "Shona" "sna" (some "sn") none,
    iso639_language_t.mk "Sichuan Yi" "iii" (some "ii") none,
    iso639_language_t.mk "Sidamo" "sid" none none,
    iso639_language_t.mk "Sign languages" "sgn" none none,
    iso639_language_t.mk "Siksika" "bla" none none,
    iso639_language_t.mk "Sindhi" "snd" (some "sd") none,
    iso639_language_t.mk "Sinhalese" "sin" (some "si") none,
    iso639_language_t.mk "Sino-Tibetan (Other)" "sit" none none,
    iso639_language_t.mk "Siouan languages" "sio" none none,
    iso639_language_t.mk "Skolt Sami" "sms" none none,
    iso639_language_t.mk "Slave (Athapascan)" "den" none none,
    iso639_language_t.mk "Slavic (Other)" "sla" none none,
    iso639_language_t.mk "Slovak" "slo" (some "sk") (some "slk"),
    iso639_language_t.mk "Slovenian" "slv" (some "sl") none,
    iso639_language_t.mk "Sogdian" "sog" none none,
    iso639_language_t.mk "Somali" "som" (some "so") none,
    iso639_language_t.mk "Songhai" "son" none none,
    iso639_language_t.mk "Soninke" "snk" none none,
    iso639_language_t.mk "Sorbian languages" "wen" none none,
    iso639_language_t.mk "Sotho, Northern" "nso" none none,
    iso639_language_t.mk "Sotho, Southern" "sot" (some "st") none,
    iso639_language_t.mk "South American Indian (Other)" "sai" none none,
    iso639_language_t.mk "Southern Sami" "sma" none none,
    iso639_language_t.mk "South Ndebele" "nbl" (some "nr") none,
    iso639_language_t.mk "Spanish" "spa" (some "es") none,
    iso639_language_t.mk "Sukuma" "suk" none none,
    iso639_language_t.mk "Sumerian" "sux" none none,
    iso639_language_t.mk "Sundanese" "sun" (some "su") none,
    iso639_language_t.mk "Susu" "sus" none none,
    iso639_language_t.mk "Swahili" "swa" (some "sw") none,
    iso639_language_t.mk "Swati" "ssw" (some "ss") none,
    iso639_language_t.mk "Swedish" "swe" (some "sv") none,
    iso639_language_t.mk "Syriac" "syr" none none,
    iso639_language_t.mk "Tagalog" "tgl" (some "tl") none,
    iso639_language_t.mk "Tahitian" "tah" (some "ty") none,
    iso639_language_t.mk "Tai (Other)" "tai" none none,
    iso639_language_t.mk "Tajik" "tgk" (some "tg") none,
    iso639_language_t.mk "Tamashek" "tmh" none none,
    iso639_language_t.mk "Tamil" "tam" (some "ta") none,
    iso639_language_t.mk "Tatar" "tat" (some "tt") none,
    iso639_language_t.mk "Telugu" "tel" (some "te") none,
    iso639_language_t.mk "Tereno" "ter" none none,
    iso639_language_t.mk "Tetum" "tet" none none,
    iso639_language_t.mk "Thai" "tha" (some "th") none,
    iso639_language_t.mk "Tibetan" "tib" (some "bo") (some "bod"),
    iso639_language_t.mk "Tigre" "tig" none none,
    iso639_language_t.mk "Tigrinya" "tir" (some "ti") none,
    iso639_language_t.mk "Timne" "tem" none none,
    iso639_language_t.mk "Tiv" "tiv" none none,
    iso639_language_t.mk "Tlingit" "tli" none none,
    iso639_language_t.mk "Tok Pisin" "tpi" none none,
    iso639_language_t.mk "Tokelau" "tkl" none none,
    iso639_language_t.mk "Tonga (Nyasa)" "tog" none none,
    iso639_language_t.mk "Tonga (Tonga Islands)" "ton" (some "to") none,
    iso639_language_t.mk "Tsimshian" "tsi" none none,
    iso639_language_t.mk "Tsonga" "tso" (some "ts") none,
    iso639_language_t.mk "Tswana" "tsn" (some "tn") none,
    iso639_language_t.mk "Tumbuka" "tum" none none,
    iso639_language_t.mk "Tupi languages" "tup" none none,
    iso639_language_t.mk "Turkish" "tur" (some "tr") none,
    iso639_language_t.mk "Turkish, Ottoman (1500-1928)" "ota" none none,
    iso639_language_t.mk "Turkmen" "tuk" (some "tk") none,
    iso639_language_t.mk "Tuvalu" "tvl" none none,
    iso639_language_t.mk "Tuvinian" "tyv" none none,
    iso639_language_t.mk "Twi" "twi" (some "tw") none,
    iso639_language_t.mk "Ugaritic" "uga" none none,
    iso639_language_t.mk "Uighur" "uig" (some "ug") none,
    iso639_language_t.mk "Ukrainian" "ukr" (some "uk") none,
    iso639_language_t.mk "Umbundu" "umb" none none,
    iso639_language_t.mk "Undetermined" "und" none none,
    iso639_language_t.mk "Urdu" "urd" (some "ur") none,
    iso639_language_t.mk "Uzbek" "uzb" (some "uz") none,
    iso639_language_t.mk "Vai" "vai" none none,
    iso639_language_t.mk "Venda" "ven" (some "ve") none,
    iso639_language_t.mk "Vietnamese" "vie" (some "vi") none,
    iso639_language_t.mk "Volapük" "vol" (some "vo") none,
    iso639_language_t.mk "Votic" "vot" none none,
    iso639_language_t.mk "Wakashan languages" "wak" none none,
    iso639_language_t.mk "Walamo" "wal" none none,
    iso639_language_t.mk "Walloon" "wln" (some "wa") none,
    iso639_language_t.mk "Waray" "war" none none,
    iso639_language_t.mk "Washo" "was" none none,
    iso639_language_t.mk "Welsh" "wel" (some "cy") (some "cym"),
    iso639_language_t.mk "Wolof" "wol" (some "wo") none,
    iso639_language_t.mk "Xhosa" "xho" (some "xh") none,
    iso639_language_t.mk "Yakut" "sah" none none,
    iso639_language_t.mk "Yao" "yao" none none,
    iso639_language_t.mk "Yapese" "yap" none none,
    iso639_language_t.mk "Yiddish" "yid" (some "yi") none,
    iso639_language_t.mk "Yoruba" "yor" (some "yo") none,
    iso639_language_t.mk "Yupik languages" "ypk" none none,
    iso639_language_t.mk "Zande" "znd" none none,
    iso639_language_t.mk "Zapotec" "zap" none none,
    iso639_language_t.mk "Zenaga" "zen" none none,
    iso639_language_t.mk "Zhuang; Chuang" "zha" (some "za") none,
    iso639_language_t.mk "Zulu" "zul" (some "zu") none,
    iso639_language_t.mk "Zuni" "zun" none none
  ]

/-- The function `tolower` of the C locale on a character: the letters `A` .. `Z`
are moved to `a` .. `z`, every other character is left alone.  The result is
the code of the character. -/
def tolower (c : Char) : Nat :=
  if 65 ≤ c.toNat ∧ c.toNat ≤ 90 then c.toNat + 32 else c.toNat

/-- The loop of `strcasecmp(a, b)` over the characters of two strings: 0 when
no difference is found up to the end of both; otherwise the difference of the
first two characters that differ when the case of letters is ignored, or -1
and 1 when one string ends before the other (only the sign of a result other
than 0 is specified). -/
def strcasecmp_chars : List Char → List Char → Int
  | [], [] => 0
  | [], _ :: _ => -1
  | _ :: _, [] => 1
  | a :: as, b :: bs =>
      if tolower a ≠ tolower b then (tolower a : Int) - (tolower b : Int)
      else strcasecmp_chars as bs

/-- The function `strcasecmp` on two strings. -/
def strcasecmp (a b : String) : Int :=
  strcasecmp_chars a.data b.data

/-- The loop of `strncasecmp(a, b, n)`: as `strcasecmp`, over at most `n`
characters. -/
def strncasecmp_chars : List Char → List Char → Nat → Int
  | _, _, 0 => 0
  | [], [], _ + 1 => 0
  | [], _ :: _, _ + 1 => -1
  | _ :: _, [], _ + 1 => 1
  | a :: as, b :: bs, n + 1 =>
      if tolower a ≠ tolower b then (tolower a : Int) - (tolower b : Int)
      else strncasecmp_chars as bs n

/-- The function `strncasecmp` on two strings. -/
def strncasecmp (a b : String) (n : Nat) : Int :=
  strncasecmp_chars a.data b.data n

/-- The length `strlen(s)`, counted in characters, the unit in which
`strncasecmp_chars` compares: the first `strlen(s)` bytes of two strings agree
exactly when their first characters, as many as `s` has, agree. -/
def strlen (s : String) : Nat :=
  s.length

/-- Modelled from the spec: `split(src, ";")` belongs to the string helpers of
`common.cpp`, which is not among the sources.  It cuts a string at every
semicolon (the character 59); the pieces are returned in order, without the
semicolons. -/
def split_chars : List Char → List (List Char)
  | [] => [[]]
  | c :: cs =>
      if c.toNat = 59 then [] :: split_chars cs
      else
        match split_chars cs with
        | [] => [[c]]
        | piece :: pieces => (c :: piece) :: pieces

/-- A blank (32) or a tab (9), the characters that `strip` removes. -/
def isblanktab (c : Char) : Bool :=
  c.toNat = 32 || c.toNat = 9

/-- Modelled from the spec: `strip` belongs to the string helpers of
`common.cpp`, which is not among the sources.  It removes the blanks and tabs
at the start and at the end of a string. -/
def strip_chars (s : List Char) : List Char :=
  ((s.dropWhile isblanktab).reverse.dropWhile isblanktab).reverse

/-- The names of an entry: `split(english_name, ";")` followed by `strip`
(lines 614-615 and 626-627). -/
def names (entry : iso639_language_t) : List String :=
  (split_chars entry.english_name.data).map (fun piece => String.mk (strip_chars piece))

/-- The condition of the first loop (lines 606-610): `s` is the ISO 639-2 code,
the terminology abbreviation or the ISO 639-1 code of the entry. -/
def code_matches (s : String) (entry : iso639_language_t) : Bool :=
  entry.iso639_2_code == s ||
  (match entry.terminology_abbrev with
   | none => false
   | some code => code == s) ||
  (match entry.iso639_1_code with
   | none => false
   | some code => code == s)

/-- The inner loop of lines 616-618: some name of the entry equals `s` when the
case of letters is ignored. -/
def name_matches (s : String) (entry : iso639_language_t) : Bool :=
  (names entry).any (fun name => strcasecmp s name == 0)

/-- The inner loop of lines 628-630: `s` is the beginning of some name of the
entry when the case of letters is ignored. -/
def short_name_matches (s : String) (entry : iso639_language_t) : Bool :=
  (names entry).any (fun name => strncasecmp s name (strlen s) == 0)

/-- The shape that the three loops over the table share (lines 605-611,
613-619 and 625-631): from the entry with the index `i` on, return the index
of the first entry that satisfies the condition; `none` when the end of the
table is reached. -/
def table_loop (condition : iso639_language_t → Bool) :
    List iso639_language_t → Nat → Option Nat
  | [], _ => none
  | entry :: rest, i => if condition entry then some i else table_loop condition rest (i + 1)

/-- Embeds `map_to_iso639_2_code`, with the table that it searches as an
argument (the source searches `iso639_languages`).  The index is an `int` in
the source; the table has far fewer than 2^31 entries. -/
def map_to_iso639_2_code (table : List iso639_language_t) (s : String)
    (allow_short_english_name : Bool) : Int :=
  match table_loop (code_matches s) table 0 with
  | some i => (i : Int)
  | none =>
      match table_loop (name_matches s) table 0 with
      | some i => (i : Int)
      | none =>
          if !allow_short_english_name then -1
          else
            match table_loop (short_name_matches s) table 0 with
            | some i => (i : Int)
            | none => -1

/-- The first way of matching in the words of the specification: `s` equals
the ISO 639-2 code, the terminology abbreviation or the ISO 639-1 code of the
entry. -/
def is_code_of (s : String) (entry : iso639_language_t) : Prop :=
  entry.iso639_2_code = s ∨ entry.terminology_abbrev = some s ∨ entry.iso639_1_code = some s

/-- The second way of matching in the words of the specification: one of the
semicolon-separated, stripped English names of the entry equals `s` when the
case of letters is ignored. -/
def is_name_of (s : String) (entry : iso639_language_t) : Prop :=
  ∃ piece ∈ split_chars entry.english_name.data,
    (strip_chars piece).map tolower = s.data.map tolower

/-- The English name of an entry lists several names: it contains a
semicolon. -/
def lists_several_names (entry : iso639_language_t) : Bool :=
  entry.english_name.data.any (fun c => c.toNat = 59)

/-- A code of the table as the table writes them: the first character is not
a capital letter, and no character is a semicolon. -/
def is_plain_code (code : String) : Bool :=
  (match code.data with
   | [] => true
   | c :: _ => !(decide (65 ≤ c.toNat) && decide (c.toNat ≤ 90))) &&
  code.data.all (fun c => c.toNat ≠ 59)

/-- An entry as the table writes them: the English name starts with a capital
letter, the three codes are plain, and an English name without a semicolon is
its own single name (it neither starts nor ends with a blank). -/
def is_plain_entry (entry : iso639_language_t) : Bool :=
  (match entry.english_name.data with
   | [] => false
   | c :: _ => decide (65 ≤ c.toNat) && decide (c.toNat ≤ 90)) &&
  is_plain_code entry.iso639_2_code &&
  (match entry.terminology_abbrev with
   | none => true
   | some code => is_plain_code code) &&
  (match entry.iso639_1_code with
   | none => true
   | some code => is_plain_code code) &&
  (lists_several_names entry || names entry == [entry.english_name])

/-! ## The names of the table after case folding

The definitions of this section do not embed code.  They list the names of a
table next to the codes of their entries, and compare them bucket by bucket,
for the theorems on `map_to_iso639_2_code`. -/

/-- A name of an entry after the case folding of `strcasecmp`, and the
ISO 639-2 code of the entry. -/
structure name_key_t where
  key : List Nat
  code : String
  deriving DecidableEq

/-- The names of an entry (`split` followed by `strip`, as in `names`) after
case folding, each with the ISO 639-2 code of the entry. -/
def name_keys (entry : iso639_language_t) : List name_key_t :=
  (split_chars entry.english_name.data).map
    (fun piece => name_key_t.mk ((strip_chars piece).map tolower) entry.iso639_2_code)

/-- A name that is not empty, of an entry whose code is neither `cpf` nor
`cpp`. -/
def is_regular_key (p : name_key_t) : Bool :=
  !p.key.isEmpty && p.code != "cpf" && p.code != "cpp"

/-- The bucket of a name: the sum of its characters modulo 128. -/
def key_hash (key : List Nat) : Nat :=
  key.sum % 128

/-- The regular names of a table, each with its bucket. -/
def table_name_keys (table : List iso639_language_t) : List (Nat × name_key_t) :=
  ((table.flatMap name_keys).filter is_regular_key).map (fun p => (key_hash p.key, p))

/-- The name `a` and every name of the list that equals it have the same
code. -/
def agree_all (a : name_key_t) : List name_key_t → Bool
  | [] => true
  | c :: rest => (a.key != c.key || a.code == c.code) && agree_all a rest

/-- Any two equal names of the list have the same code. -/
def agree_pairwise : List name_key_t → Bool
  | [] => true
  | a :: rest => agree_all a rest && agree_pairwise rest

/-- Any two equal names in one of the buckets below `b` have the same code. -/
def buckets_agree (l : List (Nat × name_key_t)) : Nat → Bool
  | 0 => true
  | b + 1 => agree_pairwise ((l.filter (fun p => p.1 == b)).map Prod.snd) && buckets_agree l b

/-- A name as the table writes them, or the empty string: it starts with a
capital letter or has more than seven characters. -/
def is_name_shaped (name : String) : Bool :=
  match name.data with
  | [] => true
  | c :: rest => (decide (65 ≤ c.toNat) && decide (c.toNat ≤ 90)) || decide (7 ≤ rest.length)

/-- A code of at most seven characters. -/
def is_short_code (code : String) : Bool :=
  decide (code.data.length ≤ 7)

/-- The three codes of the entry have at most seven characters, and its names
are shaped as names. -/
def is_regular_entry (entry : iso639_language_t) : Bool :=
  is_short_code entry.iso639_2_code &&
  (match entry.terminology_abbrev with
   | none => true
   | some code => is_short_code code) &&
  (match entry.iso639_1_code with
   | none => true
   | some code => is_short_code code) &&
  (names entry).all is_name_shaped

/-- The code is `cpf` or `cpp`: the two entries whose English name the table
cuts short to `Creoles and pidgins,` (the lines that continue the names are
commented out, lines 122-127), which is the name of the entry `cpe` before
them. -/
def is_cut_short (entry : iso639_language_t) : Bool :=
  entry.iso639_2_code == "cpf" || entry.iso639_2_code == "cpp"

end iso639

/-! ## Powers of two (`src/common/math.cpp`) -/

namespace mtx.math

/-- The number of values of a `uint64_t`. -/
def UINT64_RANGE : Nat := 18446744073709551616

/-- The expression `(value > x ? value - x : x - value)` of the loop of
`round_to_nearest_pow2`, on `uint64_t`; neither subtraction wraps. -/
def distance (value x : Nat) : Nat :=
  if value > x then value - x else x - value

/-- The two variables of the loop of `round_to_nearest_pow2`. -/
structure pow2_state where
  best_value : Nat
  test_value : Nat
  deriving DecidableEq

/-- The state before the loop: `best_value = 0`, `test_value = 1`. -/
def pow2_start : pow2_state :=
  { best_value := 0, test_value := 1 }

/-- The condition of the loop, `0x8000000000000000ull >= test_value`. -/
def loop_condition (s : pow2_state) : Bool :=
  decide (0x8000000000000000 ≥ s.test_value)

/-- The `if` of the loop body (lines 26-28): the candidate replaces
`best_value` when it is strictly nearer to `value`. -/
def update (value best_value test_value : Nat) : Nat :=
  if distance value test_value < distance value best_value then test_value else best_value

/-- One run of the loop body (lines 26-29): the update of `best_value`, then
`test_value <<= 1` in `uint64_t`. -/
def loop_body (value : Nat) (s : pow2_state) : pow2_state :=
  { best_value := update value s.best_value s.test_value,
    test_value := (s.test_value <<< 1) % UINT64_RANGE }

/-- The `while` loop of `round_to_nearest_pow2`; the first argument bounds the
number of iterations, and `none` says that the loop is still running when the
bound is used up. -/
def round_to_nearest_pow2_loop (value : Nat) : Nat → pow2_state → Option Nat
  | 0, _ => none
  | fuel + 1, s =>
      if loop_condition s then round_to_nearest_pow2_loop value fuel (loop_body value s)
      else some s.best_value

/-- Embeds `round_to_nearest_pow2`, with a bound on the number of
iterations. -/
def round_to_nearest_pow2 (fuel value : Nat) : Option Nat :=
  round_to_nearest_pow2_loop value fuel pow2_start

/-- The candidates `2 ^ 0, 2 ^ 1, ..., 2 ^ 63`, in order. -/
def candidates : List Nat :=
  (List.range 64).map (fun k => 2 ^ k)

/-- The value that the update rule of the loop leaves in `best_value` when it
is applied to the candidates in order, starting from `best_value = 0`. -/
def best_of_candidates (value : Nat) : Nat :=
  candidates.foldl (update value) 0

/-- The `for` loop of `int_log2`, counted by the number of bits still to be
tested: `bits` stands for `bit + 1`, so the bit tested is `bits - 1` and the
loop ends with `-1` when `bit` has passed 0. -/
def int_log2_loop (value : Nat) : Nat → Int
  | 0 => -1
  | bit + 1 =>
      if value &&& (1 <<< bit) ≠ 0 then (bit : Int)
      else int_log2_loop value bit

/-- Embeds `int_log2`: the loop starts at bit 63. -/
def int_log2 (value : Nat) : Int :=
  int_log2_loop value 64

end mtx.math

/-! ## The merge configuration of the GUI (`src/mkvtoolnix-gui/merge/mux_config.cpp`) -/

namespace mtx.gui.Merge

/-- Modelled from the spec: the kinds of a track of the merge tool.  `Track` is
declared in `track.h`, which is not among the sources; the four kinds that
`isAudio`, `isVideo`, `isSubtitles` and `isButtons` test for are kept apart,
together with the kinds that none of the four tests accepts. -/
inductive TrackType
  | Audio
  | Video
  | Subtitles
  | Buttons
  | Attachment
  | Chapters
  | Tags
  | GlobalTags
  deriving DecidableEq

/-- The fields of a `Track` that the builders read.  A `Track *` and a
`SourceFile *` are addresses (natural numbers); `m_appendedTo = none` is the
null pointer. -/
structure Track where
  m_file : Nat
  m_id : Int
  m_muxThis : Bool
  m_type : TrackType
  m_appendedTo : Option Nat
  m_appendedTracks : List Nat

/-- Modelled from the spec: `Track::isAudio` (declared in `track.h`). -/
def Track.isAudio (track : Track) : Bool :=
  track.m_type == TrackType.Audio

/-- Modelled from the spec: `Track::isVideo` (declared in `track.h`). -/
def Track.isVideo (track : Track) : Bool :=
  track.m_type == TrackType.Video

/-- Modelled from the spec: `Track::isSubtitles` (declared in `track.h`). -/
def Track.isSubtitles (track : Track) : Bool :=
  track.m_type == TrackType.Subtitles

/-- Modelled from the spec: `Track::isButtons` (declared in `track.h`). -/
def Track.isButtons (track : Track) : Bool :=
  track.m_type == TrackType.Buttons

/-- The field of a `SourceFile` that `buildFileNumbers` reads: the addresses
of the appended files, in order. -/
structure SourceFile where
  m_appendedFiles : List Nat

/-- The lists `m_files` and `m_tracks` of a `MuxConfig`, as lists of
addresses, with the objects that the addresses point to. -/
structure MuxConfig where
  m_files : List Nat
  m_tracks : List Nat
  file_at : Nat → SourceFile
  track_at : Nat → Track

/-- The number of values of an `unsigned int`. -/
def UINT_RANGE : Nat := 4294967296

/-- A `QHash<SourceFile *, unsigned int>`: the number stored for an address,
if any. -/
structure FileNumbers where
  lookup : Nat → Option Nat

/-- The empty hash. -/
def FileNumbers.empty : FileNumbers :=
  { lookup := fun _ => none }

/-- The assignment `fileNumbers[key] = number`: a number stored before for the
same key is replaced. -/
def FileNumbers.insert (fileNumbers : FileNumbers) (key number : Nat) : FileNumbers :=
  { lookup := fun k => if k = key then some number else fileNumbers.lookup k }

/-- The call `fileNumbers.value(key)`: the number stored for the key, and
the default value 0 of `unsigned int` if none is stored. -/
def FileNumbers.value (fileNumbers : FileNumbers) (key : Nat) : Nat :=
  (fileNumbers.lookup key).getD 0

/-- The statement `fileNumbers[file.get()] = number++` on the hash and the
counter, which is an `unsigned int`. -/
def numberFile (state : FileNumbers × Nat) (file : Nat) : FileNumbers × Nat :=
  (state.1.insert file state.2, (state.2 + 1) % UINT_RANGE)

/-- Embeds `MuxConfig::buildFileNumbers`: the outer loop runs over `m_files`,
the inner loop over the appended files of the file. -/
def MuxConfig.buildFileNumbers (cfg : MuxConfig) : FileNumbers :=
  (cfg.m_files.foldl
    (fun state file =>
      (cfg.file_at file).m_appendedFiles.foldl numberFile (numberFile state file))
    (FileNumbers.empty, 0)).1

/-- The condition of line 363 and of line 380 on the kind of a track. -/
def Track.isMuxable (track : Track) : Bool :=
  track.isAudio || track.isVideo || track.isSubtitles || track.isButtons

/-- The condition of lines 361-363 of `buildTrackOrder`. -/
def MuxConfig.inTrackOrder (cfg : MuxConfig) (track : Track) : Bool :=
  track.m_muxThis
    && (match track.m_appendedTo with
        | none => true
        | some appendedTo => (cfg.track_at appendedTo).m_muxThis)
    && track.isMuxable

/-- The string `Q("%1:%2").arg(fileNumber).arg(trackId)`. -/
def formatTrack (fileNumber : Nat) (trackId : Int) : String :=
  toString fileNumber ++ ":" ++ toString trackId

/-- Embeds `MuxConfig::buildTrackOrder`. -/
def MuxConfig.buildTrackOrder (cfg : MuxConfig) (fileNumbers : FileNumbers) : List String :=
  let trackOrder : List String :=
    cfg.m_tracks.foldl
      (fun trackOrder address =>
        let track := cfg.track_at address
        if cfg.inTrackOrder track then
          trackOrder ++ [formatTrack (fileNumbers.value track.m_file) track.m_id]
        else trackOrder)
      []
  if trackOrder.length > 1 then ["--track-order", String.intercalate "," trackOrder]
  else []

/-- The string `Q("%1:%2:%3:%4")` with its four arguments. -/
def formatAppend (sourceFileNumber : Nat) (sourceTrackId : Int) (destinationFileNumber : Nat)
    (destinationTrackId : Int) : String :=
  toString sourceFileNumber ++ ":" ++ toString sourceTrackId ++ ":"
    ++ toString destinationFileNumber ++ ":" ++ toString destinationTrackId

/-- The variables of the loops of `buildAppendToMapping`. -/
structure AppendState where
  appendToMapping : List String
  currentDestinationFileNumber : Nat
  currentDestinationTrackId : Int

/-- The body of the inner loop of `buildAppendToMapping` (lines 380-385) for
one source track. -/
def appendSource (cfg : MuxConfig) (fileNumbers : FileNumbers) (state : AppendState)
    (address : Nat) : AppendState :=
  let sourceTrack := cfg.track_at address
  if sourceTrack.m_muxThis && sourceTrack.isMuxable then
    { appendToMapping := state.appendToMapping
        ++ [formatAppend (fileNumbers.value sourceTrack.m_file) sourceTrack.m_id
              state.currentDestinationFileNumber state.currentDestinationTrackId],
      currentDestinationFileNumber := fileNumbers.value sourceTrack.m_file,
      currentDestinationTrackId := sourceTrack.m_id }
  else state

/-- Embeds `MuxConfig::buildAppendToMapping`. -/
def MuxConfig.buildAppendToMapping (cfg : MuxConfig) (fileNumbers : FileNumbers) :
    List String :=
  let appendToMapping : List String :=
    cfg.m_tracks.foldl
      (fun appendToMapping address =>
        let destinationTrack := cfg.track_at address
        (destinationTrack.m_appendedTracks.foldl (appendSource cfg fileNumbers)
          { appendToMapping := appendToMapping,
            currentDestinationFileNumber := fileNumbers.value destinationTrack.m_file,
            currentDestinationTrackId := destinationTrack.m_id }).appendToMapping)
      []
  if appendToMapping.isEmpty then [] else ["--append-to", String.intercalate "," appendToMapping]

/-- A track as an entry names it: the number of its file and its id. -/
structure TrackName where
  fileNumber : Nat
  trackId : Int
  deriving DecidableEq

/-- One entry of the append mapping: the source track and the track it is
appended to. -/
structure AppendEntry where
  source : TrackName
  target : TrackName
  deriving DecidableEq

/-- The text of an entry, `source file:source id:target file:target id`. -/
def AppendEntry.text (entry : AppendEntry) : String :=
  formatAppend entry.source.fileNumber entry.source.trackId
    entry.target.fileNumber entry.target.trackId

/-- The name of a track under the given file numbers. -/
def trackName (fileNumbers : FileNumbers) (track : Track) : TrackName :=
  { fileNumber := fileNumbers.value track.m_file, trackId := track.m_id }

/-- The chain of a destination in the words of the claim: one entry per
source, in order; the first entry has the destination as its target and every
later entry the source of the entry before it. -/
def chain (destination : TrackName) (sources : List TrackName) : List AppendEntry :=
  List.zipWith AppendEntry.mk sources (destination :: sources)

/-- The appended tracks of a destination track that give an entry: those that
are muxed and of kind audio, video, subtitles or buttons, in list order. -/
def MuxConfig.chainSources (cfg : MuxConfig) (destination : Track) : List Track :=
  (destination.m_appendedTracks.map cfg.track_at).filter
    (fun track => track.m_muxThis && track.isMuxable)

/-- All entries of the append mapping: the chains of the tracks of
`m_tracks`, one after the other. -/
def MuxConfig.appendEntries (cfg : MuxConfig) (fileNumbers : FileNumbers) : List AppendEntry :=
  (cfg.m_tracks.map cfg.track_at).flatMap
    (fun destination =>
      chain (trackName fileNumbers destination)
        ((cfg.chainSources destination).map (trackName fileNumbers)))

/-- The tracks that qualify for the track order, in the words of the claim:
muxed, not appended or appended to a muxed track, and of kind audio, video,
subtitles or buttons. -/
def MuxConfig.qualifies (cfg : MuxConfig) (track : Track) : Bool :=
  track.m_muxThis
    && (track.m_appendedTo.isNone
        || (track.m_appendedTo.any (fun appendedTo => (cfg.track_at appendedTo).m_muxThis)))
    && (track.m_type == TrackType.Audio || track.m_type == TrackType.Video
        || track.m_type == TrackType.Subtitles || track.m_type == TrackType.Buttons)

/-- All files in the order of the numbering: each file of `m_files`, followed
at once by its appended files. -/
def MuxConfig.allFiles (cfg : MuxConfig) : List Nat :=
  cfg.m_files.flatMap (fun file => file :: (cfg.file_at file).m_appendedFiles)

/-- A configuration used as a concrete input: the files 10 and 20, of which
file 10 has the appended files 11 and 12; file 10 has a video track (address
100) and an audio track (101), the appended files have a video track each
(110, 120) and file 11 an audio track that is not muxed (111), file 20 has a
subtitle track (200) and a chapter track (201). -/
def sample_config : MuxConfig :=
  { m_files := [10, 20],
    m_tracks := [100, 101, 200, 201],
    file_at := fun address =>
      if address = 10 then { m_appendedFiles := [11, 12] } else { m_appendedFiles := [] },
    track_at := fun address =>
      if address = 100 then
        { m_file := 10, m_id := 0, m_muxThis := true, m_type := TrackType.Video,
          m_appendedTo := none, m_appendedTracks := [110, 111, 120] }
      else if address = 101 then
        { m_file := 10, m_id := 1, m_muxThis := true, m_type := TrackType.Audio,
          m_appendedTo := none, m_appendedTracks := [] }
      else if address = 110 then
        { m_file := 11, m_id := 0, m_muxThis := true, m_type := TrackType.Video,
          m_appendedTo := some 100, m_appendedTracks := [] }
      else if address = 111 then
        { m_file := 11, m_id := 1, m_muxThis := false, m_type := TrackType.Audio,
          m_appendedTo := some 100, m_appendedTracks := [] }
      else if address = 120 then
        { m_file := 12, m_id := 0, m_muxThis := true, m_type := TrackType.Video,
          m_appendedTo := some 100, m_appendedTracks := [] }
      else if address = 200 then
        { m_file := 20, m_id := 0, m_muxThis := true, m_type := TrackType.Subtitles,
          m_appendedTo := none, m_appendedTracks := [] }
      else
        { m_file := 20, m_id := 1, m_muxThis := true, m_type := TrackType.Chapters,
          m_appendedTo := none, m_appendedTracks := [] } }

end mtx.gui.Merge

namespace real_reader_c

/-! ## Data model -/

/-- One byte of a frame buffer (`unsigned char`). -/
abbrev byte_t := Fin 256

/-- The bytes owned by a `memory_c`. -/
abbrev memory_c := List byte_t

/-- Modulus of `uint64_t` arithmetic. -/
def UINT64_MOD : Nat := 18446744073709551616

/-- The value of `a - b` computed in `uint64_t`. -/
def sub_u64 (a b : Nat) : Nat :=
  (a % UINT64_MOD + UINT64_MOD - b % UINT64_MOD) % UINT64_MOD

/-- The track kinds of librmff (`RMFF_TRACK_TYPE_*`). -/
inductive rmff_track_type
  | unknown
  | audio
  | video
  deriving DecidableEq

/-- The part of `rmff_track_t` that `real_reader_c` looks at: the id, the kind,
and the three fields of the MDPR header. -/
structure rmff_track_t where
  id : Nat
  type : rmff_track_type
  type_specific_size : Nat
  type_specific_data : memory_c
  mime_type : Option String
  deriving DecidableEq

/-- A queued audio frame (`rv_segment_t`): the payload and the frame flags. -/
structure rv_segment_t where
  data : memory_c
  flags : Nat
  deriving DecidableEq

/-- A packet handed to a packetizer through `process`.  An argument that the
call site leaves to the constructor default is `none`. -/
structure packet_t where
  data : memory_c
  timecode : Option Nat
  duration : Option Nat
  bref : Option Int
  fref : Option Int := none
  deriving DecidableEq

/-- The video header fields of the track entry of a packetizer that
`set_dimensions` rewrites. -/
structure track_video_t where
  pixel_width : Nat
  pixel_height : Nat
  display_width : Nat
  display_height : Nat
  deriving DecidableEq

/-- The per-track record `real_demuxer_t`.  `delivered` is the sequence of
packets handed to the packetizer `PTZR(ptzr)`, oldest first,
`displacement` the value last passed to `set_displacement_maybe`, and
`track_video` the video header last written to the track entry of the
packetizer (`none` while `set_dimensions` has not rewritten it). -/
structure real_demuxer_t where
  ptzr : Int
  track : rmff_track_t
  bsid : Int
  channels : Nat
  samples_per_second : Nat
  bits_per_sample : Nat
  width : Nat
  height : Nat
  fourcc : List byte_t
  is_aac : Bool
  rv_dimensions : Bool
  force_keyframe_flag : Bool
  cook_audio_fix : Bool
  fps_fixed : Nat
  private_data : Option memory_c
  private_size : Nat
  extra_data : Option memory_c
  extra_data_size : Nat
  first_frame : Bool
  num_packets : Nat
  last_timecode : Nat
  ref_timecode : Int
  segments : List rv_segment_t
  delivered : List packet_t
  displacement : Option Nat
  track_video : Option track_video_t := none
  deriving DecidableEq

/-- Modelled from the spec: the constructor `real_demuxer_t(track)` is declared
in `r_real.h`, which is not among the sources.  Following the data model of the
spec, a new track has no output sink bound (`ptzr = -1`), an empty pending
queue, a packet count of zero, the first-frame flag set and the
forced-keyframe flag clear. -/
def real_demuxer_t.create (track : rmff_track_t) : real_demuxer_t :=
  { ptzr := -1, track := track, bsid := 0, channels := 0, samples_per_second := 0,
    bits_per_sample := 0, width := 0, height := 0, fourcc := [], is_aac := false,
    rv_dimensions := false, force_keyframe_flag := false, cook_audio_fix := false,
    fps_fixed := 0, private_data := none, private_size := 0, extra_data := none,
    extra_data_size := 0, first_frame := true, num_packets := 0, last_timecode := 0,
    ref_timecode := 0, segments := [], delivered := [], displacement := none }

/-- The state of the reader that the frame loop works on. -/
structure reader_state where
  demuxers : List real_demuxer_t
  done : Bool
  deriving DecidableEq

/-! ## The audio time-smoothing queue (lines 530-587) -/

/-- Embeds `queue_one_audio_frame`: push a new segment, remember the timecode. -/
def queue_one_audio_frame (dmx : real_demuxer_t) (mem : memory_c) (timecode flags : Nat) :
    real_demuxer_t :=
  { dmx with
    segments := dmx.segments ++ [{ data := mem, flags := flags }],
    last_timecode := timecode }

/-- The `for` loop of `deliver_audio_frames` (lines 573-583) over the pending
segments: every segment becomes a packet at `last_timecode` with the given
duration; the backward reference is `-1` for a keyframe and the running
`ref_timecode` otherwise; a segment with bit 2 set moves `ref_timecode`.
`KF` is `RMFF_FRAME_FLAG_KEYFRAME`, declared in librmff. -/
def deliver_audio_loop (KF last_timecode duration : Nat) :
    List rv_segment_t → Int → List packet_t → Int × List packet_t
  | [], ref, sink => (ref, sink)
  | segment :: rest, ref, sink =>
      let packet : packet_t :=
        { data := segment.data,
          timecode := some last_timecode,
          duration := some duration,
          bref := some (if segment.flags &&& KF = KF then -1 else ref) }
      let ref1 : Int := if segment.flags &&& 2 = 2 then (last_timecode : Int) else ref
      deliver_audio_loop KF last_timecode duration rest ref1 (sink ++ [packet])

/-- Embeds `deliver_audio_frames`. -/
def deliver_audio_frames (KF : Nat) (dmx : real_demuxer_t) (duration : Nat) : real_demuxer_t :=
  if dmx.segments.isEmpty || dmx.ptzr == -1 then dmx
  else
    let r := deliver_audio_loop KF dmx.last_timecode duration dmx.segments
      dmx.ref_timecode dmx.delivered
    { dmx with
      ref_timecode := r.1,
      delivered := r.2,
      num_packets := dmx.num_packets + dmx.segments.length,
      segments := [] }

/-- Embeds `queue_audio_frames`.  The subtraction and the division are done in
`uint64_t`; the divisor is non-zero on the branch that divides. -/
def queue_audio_frames (KF : Nat) (dmx : real_demuxer_t) (mem : memory_c)
    (timecode flags : Nat) : real_demuxer_t :=
  if dmx.segments.isEmpty || dmx.last_timecode == timecode then
    queue_one_audio_frame dmx mem timecode flags
  else
    queue_one_audio_frame
      (deliver_audio_frames KF dmx (sub_u64 timecode dmx.last_timecode / dmx.segments.length))
      mem timecode flags

/-- The body of the loop of `finish` (lines 455-457) for one demuxer.  The
quotient `last_timecode / num_packets` is evaluated before the call, so a
divisor of zero is a fault (`none`). -/
def finish_one (KF : Nat) (dmx : real_demuxer_t) : Option real_demuxer_t :=
  if dmx.track.type = rmff_track_type.audio ∧ ¬ dmx.segments.isEmpty then
    if dmx.num_packets = 0 then none
    else some (deliver_audio_frames KF dmx (dmx.last_timecode / dmx.num_packets))
  else some dmx

/-- The loop of `finish` over all demuxers, in order. -/
def finish_loop (KF : Nat) : List real_demuxer_t → Option (List real_demuxer_t)
  | [] => some []
  | dmx :: rest =>
      match finish_one KF dmx with
      | none => none
      | some d =>
          match finish_loop KF rest with
          | none => none
          | some ds => some (d :: ds)

/-- Embeds `finish`: flush every audio track, then set `done`.  The result
code is always `FILE_STATUS_DONE`. -/
def finish (KF : Nat) (rd : reader_state) : Option reader_state :=
  match finish_loop KF rd.demuxers with
  | none => none
  | some ds => some { demuxers := ds, done := true }

/-! ## The AAC sub-packet splitter (lines 589-625) -/

/-- The read `chunk[i]`, with the bounds check made explicit: `none` is a read
outside the buffer. -/
def read_u8 (chunk : memory_c) (i : Nat) : Option Nat :=
  match chunk.get? i with
  | some b => some b.val
  | none => none

/-- Modelled from the spec: `get_uint16_be` belongs to the endianness helpers,
which are not among the sources.  It reads a 16-bit big-endian number from the
two bytes at `i` and `i + 1`. -/
def get_uint16_be (chunk : memory_c) (i : Nat) : Option Nat :=
  match read_u8 chunk i, read_u8 chunk (i + 1) with
  | some hi, some lo => some (hi * 256 + lo)
  | _, _ => none

/-- Modelled from the spec: `get_uint32_be`, the 32-bit big-endian companion of
`get_uint16_be`. -/
def get_uint32_be (chunk : memory_c) (i : Nat) : Option Nat :=
  match get_uint16_be chunk i, get_uint16_be chunk (i + 2) with
  | some hi, some lo => some (hi * 65536 + lo)
  | _, _ => none

/-- The bytes `idx .. idx + len - 1` of a buffer, as taken by
`memory_c(&chunk[idx], len, false)`, `memcpy` and `safememdup`; `none` if the
range leaves the buffer. -/
def sub_memory (chunk : memory_c) (idx len : Nat) : Option memory_c :=
  if idx + len ≤ chunk.length then some ((chunk.drop idx).take len) else none

/-- The packet built by `packet_t(memory)`: only the payload is given. -/
def packet_t.of_memory (m : memory_c) : packet_t :=
  { data := m, timecode := none, duration := none, bref := none }

/-- The first loop of `deliver_aac_frames` (lines 607-612).  The first argument
counts the iterations still to run, `i` is the loop variable. -/
def aac_len_check_loop (chunk : memory_c) : Nat → Nat → Nat → Option Nat
  | 0, _, len_check => some len_check
  | k + 1, i, len_check =>
      match get_uint16_be chunk (2 + i * 2) with
      | none => none
      | some sub_length => aac_len_check_loop chunk k (i + 1) (len_check + sub_length)

/-- The second loop of `deliver_aac_frames` (lines 620-624): one packet per
table entry, cut out of the chunk at `data_idx`. -/
def aac_deliver_loop (chunk : memory_c) : Nat → Nat → Nat → List packet_t → Option (List packet_t)
  | 0, _, _, sink => some sink
  | k + 1, i, data_idx, sink =>
      match get_uint16_be chunk (2 + i * 2) with
      | none => none
      | some sub_length =>
          match sub_memory chunk data_idx sub_length with
          | none => none
          | some m =>
              aac_deliver_loop chunk k (i + 1) (data_idx + sub_length)
                (sink ++ [packet_t.of_memory m])

/-- Embeds `deliver_aac_frames`.  The three early returns (after a warning)
leave the track as it is; `none` is a read outside the chunk. -/
def deliver_aac_frames (dmx : real_demuxer_t) (mem : memory_c) : Option real_demuxer_t :=
  let length := mem.length
  if 2 > length then some dmx
  else
    match read_u8 mem 1 with
    | none => none
    | some b =>
        let num_sub_packets := b >>> 4
        if 2 + num_sub_packets * 2 > length then some dmx
        else
          match aac_len_check_loop mem num_sub_packets 0 (2 + num_sub_packets * 2) with
          | none => none
          | some len_check =>
              if len_check ≠ length then some dmx
              else
                match aac_deliver_loop mem num_sub_packets 0 (2 + num_sub_packets * 2)
                    dmx.delivered with
                | none => none
                | some sink => some { dmx with delivered := sink }

/-- The number of sub-packets a chunk declares, `chunk[1] >> 4` (line 599),
taken as 0 when the chunk has no byte 1. -/
def aac_num_sub_packets (chunk : memory_c) : Nat :=
  (chunk.getD 1 0).val >>> 4

/-- The `i`-th entry of the length table, the 16-bit big-endian number in the
bytes `2 + i * 2` and `3 + i * 2` (lines 608 and 621); a byte outside the chunk
counts as 0. -/
def aac_sub_length (chunk : memory_c) (i : Nat) : Nat :=
  (chunk.getD (2 + i * 2) 0).val * 256 + (chunk.getD (2 + i * 2 + 1) 0).val

/-- The sum of the first `i` entries of the length table. -/
def aac_table_sum (chunk : memory_c) : Nat → Nat
  | 0 => 0
  | i + 1 => aac_table_sum chunk i + aac_sub_length chunk i

/-- The value of `data_idx` when the second loop reaches entry `i`: the header
and the table, then the sub-packets before `i`. -/
def aac_data_idx (chunk : memory_c) (i : Nat) : Nat :=
  2 + aac_num_sub_packets chunk * 2 + aac_table_sum chunk i

/-! ## The frame loop `read` (lines 490-527) -/

/-- The part of `rmff_frame_t` that `read` uses. -/
structure rmff_frame_t where
  id : Nat
  timecode : Nat
  flags : Nat
  data : memory_c
  deriving DecidableEq

/-- What the packed-video path (`assemble_video_packet`, `set_dimensions`)
leaves behind in the track for one frame: the pixel size, the
dimensions-confirmed flag and the packets handed on.  The reassembly itself is
done by librmff. -/
structure video_effect where
  width : Nat
  height : Nat
  rv_dimensions : Bool
  packets : List packet_t

/-- Lines 498-505 of `read`: update of `force_keyframe_flag` and of the flags
of the frame.  `KF` is `RMFF_FRAME_FLAG_KEYFRAME`. -/
def force_keyframe (KF : Nat) (dmx : real_demuxer_t) (flags : Nat) : real_demuxer_t × Nat :=
  let dmx1 :=
    if dmx.cook_audio_fix && dmx.first_frame && (flags &&& KF != KF) then
      { dmx with force_keyframe_flag := true }
    else dmx
  let dmx2 :=
    if dmx1.force_keyframe_flag && (flags &&& KF == KF) then
      { dmx1 with force_keyframe_flag := false }
    else dmx1
  let flags1 := if dmx2.force_keyframe_flag then flags ||| KF else flags
  (dmx2, flags1)

/-- Lines 490-525 of `read`, for a frame whose demuxer was found and has a
packetizer: the keyframe forcing, the routing by track kind, and the reset of
`first_frame`.  `V` stands for the packed-video path. -/
def read_frame (KF : Nat) (V : real_demuxer_t → rmff_frame_t → video_effect)
    (dmx : real_demuxer_t) (frame : rmff_frame_t) : Option real_demuxer_t :=
  let timecode := frame.timecode * 1000000
  let r := force_keyframe KF dmx frame.flags
  let dmx1 := r.1
  let frame1 : rmff_frame_t := { frame with flags := r.2 }
  let routed : Option real_demuxer_t :=
    if dmx1.track.type = rmff_track_type.video then
      let e := V dmx1 frame1
      some { dmx1 with
        width := e.width, height := e.height, rv_dimensions := e.rv_dimensions,
        delivered := dmx1.delivered ++ e.packets }
    else if dmx1.is_aac then
      let dmx2 :=
        if dmx1.first_frame then
          { dmx1 with ref_timecode := (timecode : Int), displacement := some timecode }
        else dmx1
      deliver_aac_frames dmx2 frame1.data
    else
      some (queue_audio_frames KF dmx1 frame1.data timecode frame1.flags)
  match routed with
  | none => none
  | some dmx3 => some { dmx3 with first_frame := false }

/-- The states a track goes through when `read` routes the given frames to it
one after the other: the state after each frame, in order. -/
def read_frames (KF : Nat) (V : real_demuxer_t → rmff_frame_t → video_effect) :
    real_demuxer_t → List rmff_frame_t → Option (List real_demuxer_t)
  | _, [] => some []
  | dmx, frame :: rest =>
      match read_frame KF V dmx frame with
      | none => none
      | some dmx1 =>
          match read_frames KF V dmx1 rest with
          | none => none
          | some states => some (dmx1 :: states)

/-! ## The track directory `parse_headers` (lines 183-294) -/

/-- The byte offsets of the fields of `real_video_props_t`,
`real_audio_v4_props_t` and `real_audio_v5_props_t` that `parse_headers` reads,
and the sizes of the two audio structures.  The structures are declared in
`r_real.h`, which is not among the sources. -/
structure props_layout where
  rvp_fourcc2 : Nat
  rvp_width : Nat
  rvp_height : Nat
  rvp_fps : Nat
  ra4p_version1 : Nat
  ra4p_sample_rate : Nat
  ra4p_channels : Nat
  ra4p_sample_size : Nat
  ra4p_sizeof : Nat
  ra5p_sample_rate : Nat
  ra5p_channels : Nat
  ra5p_sample_size : Nat
  ra5p_fourcc3 : Nat
  ra5p_sizeof : Nat

/-- The mime string of audio tracks. -/
def MIME_AUDIO : String := "audio/x-pn-realaudio"

/-- The mime string of video tracks. -/
def MIME_VIDEO : String := "video/x-pn-realvideo"

/-- The outcome of the loop body of `parse_headers` for one track. -/
inductive track_result
  | skipped
  | produced (dmx : real_demuxer_t)
  deriving DecidableEq

/-- Lines 210-222: the video branch.  The frame rate is kept as the 16.16
fixed-point number read from the file. -/
def parse_video_track (L : props_layout) (track : rmff_track_t) (dmx : real_demuxer_t) :
    Option track_result :=
  let ts_data := track.type_specific_data
  let ts_size := track.type_specific_size
  match sub_memory ts_data L.rvp_fourcc2 4, get_uint16_be ts_data L.rvp_width,
      get_uint16_be ts_data L.rvp_height, get_uint32_be ts_data L.rvp_fps,
      sub_memory ts_data 0 ts_size with
  | some fourcc, some width, some height, some fps, some priv =>
      some (track_result.produced { dmx with
        fourcc := fourcc, width := width, height := height, fps_fixed := fps,
        private_data := some priv, private_size := ts_size })
  | _, _, _, _, _ => none

/-- Lines 240-263: audio header version 4. The result is `ok` and the track. -/
def parse_audio_v4 (L : props_layout) (track : rmff_track_t) (dmx : real_demuxer_t) :
    Option (Bool × real_demuxer_t) :=
  let ts_data := track.type_specific_data
  let ts_size := track.type_specific_size
  match get_uint16_be ts_data L.ra4p_sample_rate, get_uint16_be ts_data L.ra4p_channels,
      get_uint16_be ts_data L.ra4p_sample_size with
  | some rate, some channels, some bits =>
      let dmx1 := { dmx with
        samples_per_second := rate, channels := channels, bits_per_sample := bits }
      let p0 := L.ra4p_sizeof
      match read_u8 ts_data p0 with
      | none => none
      | some slen0 =>
          let p1 := p0 + (slen0 + 1)
          match read_u8 ts_data p1 with
          | none => none
          | some slen =>
              let p2 := p1 + 1
              if 4 ≠ slen then some (false, dmx1)
              else
                match sub_memory ts_data p2 4 with
                | none => none
                | some fourcc =>
                    let dmx2 := { dmx1 with fourcc := fourcc }
                    let p3 := p2 + 4
                    if ts_size > p3 then
                      match sub_memory ts_data p3 (ts_size - p3) with
                      | none => none
                      | some extra =>
                          some (true, { dmx2 with
                            extra_data_size := ts_size - p3, extra_data := some extra })
                    else some (true, dmx2)
  | _, _, _ => none

/-- Lines 266-276: audio header version 5. -/
def parse_audio_v5 (L : props_layout) (track : rmff_track_t) (dmx : real_demuxer_t) :
    Option (Bool × real_demuxer_t) :=
  let ts_data := track.type_specific_data
  let ts_size := track.type_specific_size
  match get_uint16_be ts_data L.ra5p_sample_rate, get_uint16_be ts_data L.ra5p_channels,
      get_uint16_be ts_data L.ra5p_sample_size, sub_memory ts_data L.ra5p_fourcc3 4 with
  | some rate, some channels, some bits, some fourcc =>
      let dmx1 := { dmx with
        samples_per_second := rate, channels := channels, bits_per_sample := bits,
        fourcc := fourcc }
      if L.ra5p_sizeof + 4 < ts_size then
        match sub_memory ts_data (4 + L.ra5p_sizeof) (ts_size - 4 - L.ra5p_sizeof) with
        | none => none
        | some extra =>
            some (true, { dmx1 with
              extra_data_size := ts_size - 4 - L.ra5p_sizeof, extra_data := some extra })
      else some (true, dmx1)
  | _, _, _, _ => none

/-- Lines 224-292: the audio branch. -/
def parse_audio_track (L : props_layout) (track : rmff_track_t) (dmx : real_demuxer_t) :
    Option track_result :=
  let ts_data := track.type_specific_data
  let ts_size := track.type_specific_size
  match get_uint16_be ts_data L.ra4p_version1 with
  | none => none
  | some version =>
      let parsed : Option (Bool × real_demuxer_t) :=
        if 3 = version then
          some (true, { dmx with
            samples_per_second := 8000, channels := 1, bits_per_sample := 16,
            extra_data_size := 0, fourcc := [49, 52, 95, 52] })
        else if 4 = version then parse_audio_v4 L track dmx
        else if 5 = version then parse_audio_v5 L track dmx
        else some (false, dmx)
      match parsed with
      | none => none
      | some (ok, dmx1) =>
          if ok then
            match sub_memory ts_data 0 ts_size with
            | none => none
            | some priv =>
                some (track_result.produced { dmx1 with
                  private_data := some priv, private_size := ts_size })
          else some track_result.skipped

/-- The body of the loop of `parse_headers` (lines 191-292) for one track.
`requested` is `demuxing_requested` of the generic reader. -/
def parse_track (L : props_layout) (requested : Char → Nat → Bool) (track : rmff_track_t) :
    Option track_result :=
  if track.type = rmff_track_type.unknown ∨ track.type_specific_size = 0 then
    some track_result.skipped
  else if track.type = rmff_track_type.video ∧ ¬ requested 'v' track.id then
    some track_result.skipped
  else if track.type = rmff_track_type.audio ∧ ¬ requested 'a' track.id then
    some track_result.skipped
  else if track.mime_type = none ∨
      (track.mime_type ≠ some MIME_AUDIO ∧ track.mime_type ≠ some MIME_VIDEO) then
    some track_result.skipped
  else
    let dmx := real_demuxer_t.create track
    if track.type = rmff_track_type.video then parse_video_track L track dmx
    else if track.type = rmff_track_type.audio then parse_audio_track L track dmx
    else some track_result.skipped

/-- The loop of `parse_headers` over the tracks of the file, appending to
`demuxers`. -/
def parse_headers_loop (L : props_layout) (requested : Char → Nat → Bool) :
    List rmff_track_t → List real_demuxer_t → Option (List real_demuxer_t)
  | [], demuxers => some demuxers
  | track :: rest, demuxers =>
      match parse_track L requested track with
      | none => none
      | some track_result.skipped => parse_headers_loop L requested rest demuxers
      | some (track_result.produced dmx) =>
          parse_headers_loop L requested rest (demuxers ++ [dmx])

/-- Embeds `parse_headers`, as the constructor calls it (no demuxers yet).
`headers_ok` says whether `rmff_read_headers` returned `RMFF_ERR_OK`. -/
def parse_headers (L : props_layout) (requested : Char → Nat → Bool) (headers_ok : Bool)
    (tracks : List rmff_track_t) : Option (List real_demuxer_t) :=
  if ¬ headers_ok then some []
  else parse_headers_loop L requested tracks []

/-! ## The bit cursor and the RealVideo dimension probe (lines 677-723) -/

/-- The three ways a step of the dimension probe can end: with a value, with
the out-of-range condition of the bit cursor (an exception in the source), or
with a read outside the memory the buffer pointer points to (`fault`). -/
inductive cursor_result (α : Type)
  | ok (a : α)
  | out_of_range
  | fault
  deriving DecidableEq

/-- Modelled from the spec: `bit_cursor_c` is declared in `bit_cursor.h`, which
is not among the sources.  A cursor is constructed over a buffer and its
length `size` (in bytes) and keeps a bit position.  `buf` holds the bytes that
really exist at the buffer pointer. -/
structure bit_cursor_c where
  buf : memory_c
  size : Nat
  pos : Nat
  deriving DecidableEq

/-- The bit number `j` of a buffer, the most significant bit of a byte first;
a bit outside the buffer counts as 0. -/
def bit_at (buf : memory_c) (j : Nat) : Nat :=
  ((buf.getD (j / 8) 0).val >>> (7 - j % 8)) % 2

/-- The number written in the `n` bits that start at bit `pos`. -/
def bits_value (buf : memory_c) (pos : Nat) : Nat → Nat
  | 0 => 0
  | n + 1 => bits_value buf pos n * 2 + bit_at buf (pos + n)

/-- Modelled from the spec: "read N bits", advancing the bit position; it
fails with the out-of-range condition if the read would cross the end of the
buffer (`size` bytes).  A read inside `size` that touches a byte which does
not exist is a fault. -/
def bit_cursor_c.get_bits (bc : bit_cursor_c) (n : Nat) : cursor_result (Nat × bit_cursor_c) :=
  if bc.pos + n > 8 * bc.size then cursor_result.out_of_range
  else if 0 < n ∧ bc.pos + n > 8 * bc.buf.length then cursor_result.fault
  else cursor_result.ok (bits_value bc.buf bc.pos n, { bc with pos := bc.pos + n })

/-- Modelled from the spec: "skip N bits"; it fails with the out-of-range
condition if the skip would cross the end of the buffer. -/
def bit_cursor_c.skip_bits (bc : bit_cursor_c) (n : Nat) : cursor_result bit_cursor_c :=
  if bc.pos + n > 8 * bc.size then cursor_result.out_of_range
  else cursor_result.ok { bc with pos := bc.pos + n }

/-- The width table `cw` of `get_rv_dimensions`. -/
def cw : List Nat := [160, 176, 240, 320, 352, 640, 704, 0]

/-- The first height table `ch1` of `get_rv_dimensions`. -/
def ch1 : List Nat := [120, 132, 144, 240, 288, 480, 0, 0]

/-- The second height table `ch2` of `get_rv_dimensions`. -/
def ch2 : List Nat := [180, 360, 576, 0]

/-- The addition `w += (c << 2)` on the `int` variables `w` and `h` of
`get_rv_dimensions`.  The value of an `int` is kept as its 32-bit pattern (its
residue modulo 2^32, in two's complement), so an addition that overflows wraps
around, and the assignments `width = w` and `height = h` to the `uint32_t`
references read the pattern as it is.  No addition overflows while four times
the sum of the codes stays below 2^31. -/
def add_int32 (a b : Nat) : Nat :=
  (a + b) % mtx.dts.UINT32_MOD

/-- The two `do ... while (c == 255)` loops of `get_rv_dimensions` (lines
695-698 and 708-711): read an 8-bit code, add four times the code to the
`int` accumulator, go on while the code is 255.  The first argument bounds the
number of iterations; when it is used up the result is `fault`, which the
bound that `get_rv_dimensions` passes never lets happen. -/
def rv_escape_loop : Nat → bit_cursor_c → Nat → cursor_result (Nat × bit_cursor_c)
  | 0, _, _ => cursor_result.fault
  | fuel + 1, bc, w =>
      match bc.get_bits 8 with
      | cursor_result.ok (c, bc1) =>
          if c = 255 then rv_escape_loop fuel bc1 (add_int32 w (c <<< 2))
          else cursor_result.ok (add_int32 w (c <<< 2), bc1)
      | cursor_result.out_of_range => cursor_result.out_of_range
      | cursor_result.fault => cursor_result.fault

/-- Lines 690-699 of `get_rv_dimensions`: the width. -/
def rv_width (fuel : Nat) (bc : bit_cursor_c) : cursor_result (Nat × bit_cursor_c) :=
  match bc.get_bits 3 with
  | cursor_result.ok (v, bc1) =>
      let w := cw.getD v 0
      if 0 = w then rv_escape_loop fuel bc1 w
      else cursor_result.ok (w, bc1)
  | cursor_result.out_of_range => cursor_result.out_of_range
  | cursor_result.fault => cursor_result.fault

/-- Lines 701-713 of `get_rv_dimensions`: the height. -/
def rv_height (fuel : Nat) (bc : bit_cursor_c) : cursor_result (Nat × bit_cursor_c) :=
  match bc.get_bits 3 with
  | cursor_result.ok (c, bc1) =>
      let h := ch1.getD c 0
      if 0 = h then
        match bc1.get_bits 1 with
        | cursor_result.ok (v, bc2) =>
            let c1 := ((c <<< 1) ||| v) &&& 3
            let h1 := ch2.getD c1 0
            if 0 = h1 then rv_escape_loop fuel bc2 h1
            else cursor_result.ok (h1, bc2)
        | cursor_result.out_of_range => cursor_result.out_of_range
        | cursor_result.fault => cursor_result.fault
      else cursor_result.ok (h, bc1)
  | cursor_result.out_of_range => cursor_result.out_of_range
  | cursor_result.fault => cursor_result.fault

/-- The `try` block of `get_rv_dimensions` (lines 688-716): skip 26 bits, then
the width, then the height.  Every iteration of an escape loop reads a whole
byte, so `size + 1` iterations are never used up. -/
def rv_decode (buf : memory_c) (size : Nat) : cursor_result (Nat × Nat) :=
  let bc : bit_cursor_c := { buf := buf, size := size, pos := 0 }
  match bc.skip_bits 13 with
  | cursor_result.ok bc1 =>
      match bc1.skip_bits 13 with
      | cursor_result.ok bc2 =>
          match rv_width (size + 1) bc2 with
          | cursor_result.ok (w, bc3) =>
              match rv_height (size + 1) bc3 with
              | cursor_result.ok (h, _) => cursor_result.ok (w, h)
              | cursor_result.out_of_range => cursor_result.out_of_range
              | cursor_result.fault => cursor_result.fault
          | cursor_result.out_of_range => cursor_result.out_of_range
          | cursor_result.fault => cursor_result.fault
      | cursor_result.out_of_range => cursor_result.out_of_range
      | cursor_result.fault => cursor_result.fault
  | cursor_result.out_of_range => cursor_result.out_of_range
  | cursor_result.fault => cursor_result.fault

/-- Embeds `get_rv_dimensions`.  `width` and `height` are the values the two
reference parameters have at the call; the result is the return value and
the values they have afterwards (the 32-bit patterns of `w` and `h`, see
`add_int32`).  An exception of the cursor is caught and gives `false`; `none`
is a read outside the memory at `buf`. -/
def get_rv_dimensions (buf : memory_c) (size width height : Nat) : Option (Bool × Nat × Nat) :=
  match rv_decode buf size with
  | cursor_result.ok (w, h) => some (true, w, h)
  | cursor_result.out_of_range => some (false, width, height)
  | cursor_result.fault => none

/-! ## The dimension code in the words of the specification

The following five definitions do not embed code.  They state, following the
description of the dimension code, what `get_rv_dimensions` is to be compared
with. -/

/-- The 8-bit codes read from bit `p` on are `k + 1` codes up to and including
the first code different from 255: the first `k` are 255, the next is not. -/
def spec_escape_run (buf : memory_c) (p k : Nat) : Prop :=
  (∀ i, i < k → bits_value buf (p + 8 * i) 8 = 255) ∧ bits_value buf (p + 8 * k) 8 ≠ 255

/-- The sum of the first `k + 1` 8-bit codes read from bit `p` on. -/
def spec_escape_sum (buf : memory_c) (p k : Nat) : Nat :=
  ((List.range (k + 1)).map (fun i => bits_value buf (p + 8 * i) 8)).sum

/-- The width `w` as the specification describes it, and the bit `pw` at which
the width ends, for a buffer of `size` bytes: after 26 skipped bits, the
3-bit code `v` selects `cw[v]` for `v` in 0..6; for `v` = 7 the width is four
times the sum of the 8-bit codes up to and including the first code different
from 255.  All bits read lie inside the buffer. -/
def spec_width (buf : memory_c) (size pw w : Nat) : Prop :=
  (bits_value buf 26 3 < 7 ∧ 29 ≤ 8 * size ∧ w = cw.getD (bits_value buf 26 3) 0 ∧ pw = 29) ∨
  (bits_value buf 26 3 = 7 ∧ ∃ k, spec_escape_run buf 29 k ∧ 29 + 8 * (k + 1) ≤ 8 * size ∧
    w = 4 * spec_escape_sum buf 29 k ∧ pw = 29 + 8 * (k + 1))

/-- The height `h` as the specification describes it, read from bit `pw` on:
the 3-bit code `c` selects `ch1[c]` for `c` in 0..5; for `c` in {6, 7} one more
bit `b` is read and the height is 180, 360 or 576 for (c, b) = (6, 0), (6, 1),
(7, 0), and for (7, 1) four times the sum of the 8-bit codes up to and
including the first code different from 255.  All bits read lie inside the
buffer. -/
def spec_height (buf : memory_c) (size pw h : Nat) : Prop :=
  (bits_value buf pw 3 < 6 ∧ pw + 3 ≤ 8 * size ∧ h = ch1.getD (bits_value buf pw 3) 0) ∨
  (pw + 4 ≤ 8 * size ∧
    ((bits_value buf pw 3 = 6 ∧ bits_value buf (pw + 3) 1 = 0 ∧ h = 180) ∨
     (bits_value buf pw 3 = 6 ∧ bits_value buf (pw + 3) 1 = 1 ∧ h = 360) ∨
     (bits_value buf pw 3 = 7 ∧ bits_value buf (pw + 3) 1 = 0 ∧ h = 576))) ∨
  (bits_value buf pw 3 = 7 ∧ bits_value buf (pw + 3) 1 = 1 ∧
    ∃ k, spec_escape_run buf (pw + 4) k ∧ pw + 4 + 8 * (k + 1) ≤ 8 * size ∧
      h = 4 * spec_escape_sum buf (pw + 4) k)

/-- Some bit read or skip of the dimension code would cross the end of a
buffer of `size` bytes: the 26 skipped bits and the 3-bit width code do not
fit; or the width escape codes are 255 up to the end of the buffer; or the
width is read (ending at bit `pw`) and the 3-bit height code, the bit after it
(needed for the codes 6 and 7), or the height escape codes do not fit. -/
def spec_over_read (buf : memory_c) (size : Nat) : Prop :=
  8 * size < 29 ∨
  (bits_value buf 26 3 = 7 ∧
    ∀ i, 29 + 8 * (i + 1) ≤ 8 * size → bits_value buf (29 + 8 * i) 8 = 255) ∨
  (∃ pw w, spec_width buf size pw w ∧
    (8 * size < pw + 3 ∨ (6 ≤ bits_value buf pw 3 ∧ 8 * size < pw + 4) ∨
      (bits_value buf pw 3 = 7 ∧ bits_value buf (pw + 3) 1 = 1 ∧
        ∀ i, pw + 4 + 8 * (i + 1) ≤ 8 * size → bits_value buf (pw + 4 + 8 * i) 8 = 255)))

/-! ## `set_dimensions` and `assemble_video_packet` (lines 653-675, 725-786) -/

/-- The fields of the track info `ti` that `set_dimensions` reads.  The
aspect ratio itself is a `float` and enters through the function `AR`. -/
structure track_info_c where
  aspect_ratio_given : Bool
  display_dimensions_given : Bool
  display_width : Nat
  display_height : Nat
  deriving DecidableEq

/-- Embeds `set_dimensions`.  `buffer` holds the `size` bytes of the frame.
`AR width height` stands for the display size that lines 762-769 compute in
`float` arithmetic from the aspect ratio.  `none` is a read outside the
frame. -/
def set_dimensions (ti : track_info_c) (AR : Nat → Nat → Nat × Nat) (dmx : real_demuxer_t)
    (buffer : memory_c) (size : Nat) : Option real_demuxer_t :=
  match read_u8 buffer 0 with
  | none => none
  | some b0 =>
      let p := 1 + 2 * 4 * (b0 + 1)
      if p + 10 ≥ size then some dmx
      else
        match get_rv_dimensions (buffer.drop p) size 0 0 with
        | none => none
        | some (false, _, _) => some dmx
        | some (true, width, height) =>
            if dmx.width ≠ width ∨ dmx.height ≠ height then
              let disp : Nat × Nat :=
                if !ti.aspect_ratio_given && !ti.display_dimensions_given then
                  (dmx.width, dmx.height)
                else if ti.display_dimensions_given then
                  (ti.display_width, ti.display_height)
                else AR width height
              some { dmx with
                width := width, height := height,
                track_video := some
                  { pixel_width := width, pixel_height := height,
                    display_width := disp.1, display_height := disp.2 },
                rv_dimensions := true }
            else some { dmx with rv_dimensions := true }

/-- The frame classifications `VFT_IFRAME`, `VFT_PFRAMEAUTOMATIC` and
`VFT_NOBFRAME`, declared with the packetizers. -/
structure vft_t where
  VFT_IFRAME : Int
  VFT_PFRAMEAUTOMATIC : Int
  VFT_NOBFRAME : Int

/-- What librmff answers during one call of `assemble_video_packet`: the
result of `rmff_assemble_packed_video_frame`, and the frames that
`rmff_get_packed_video_frame` hands out, in order, before it returns `NULL`. -/
structure rmff_assembly where
  result : Int
  frames : List rmff_frame_t

/-- The `while` loop of `assemble_video_packet` (lines 663-674) over the
assembled frames. -/
def assemble_video_loop (vft : vft_t) (KF : Nat) (ti : track_info_c)
    (AR : Nat → Nat → Nat × Nat) : List rmff_frame_t → real_demuxer_t → Option real_demuxer_t
  | [], dmx => some dmx
  | assembled :: rest, dmx =>
      let probed : Option real_demuxer_t :=
        if !dmx.rv_dimensions then
          set_dimensions ti AR dmx assembled.data assembled.data.length
        else some dmx
      match probed with
      | none => none
      | some dmx1 =>
          let packet : packet_t :=
            { data := assembled.data,
              timecode := some (assembled.timecode * 1000000),
              duration := some 0,
              bref := some (if assembled.flags &&& KF = KF then vft.VFT_IFRAME
                            else vft.VFT_PFRAMEAUTOMATIC),
              fref := some vft.VFT_NOBFRAME }
          assemble_video_loop vft KF ti AR rest
            { dmx1 with delivered := dmx1.delivered ++ [packet] }

/-- Embeds `assemble_video_packet`. -/
def assemble_video_packet (vft : vft_t) (KF : Nat) (ti : track_info_c)
    (AR : Nat → Nat → Nat × Nat) (dmx : real_demuxer_t) (asm : rmff_assembly) :
    Option real_demuxer_t :=
  if 0 > asm.result then some dmx
  else assemble_video_loop vft KF ti AR asm.frames dmx

/-! ## The whole of `read` (lines 467-528) -/

/-- The result codes of `read`. -/
inductive file_status_e
  | FILE_STATUS_DONE
  | FILE_STATUS_MOREDATA
  deriving DecidableEq

/-- The part of the librmff file that the reader looks at: the two frame
counters that `read` compares, and the position of the file handle that
`file->io->tell` reports and `file->io->seek` sets. -/
structure rmff_file_t where
  num_packets_read : Nat
  num_packets_in_chunk : Nat
  pos : Nat := 0
  deriving DecidableEq

/-- What a call of `read` leaves: the state of the reader, the result code,
and whether the warning about a short file was given. -/
structure read_outcome where
  state : reader_state
  status : file_status_e
  warned : Bool
  deriving DecidableEq

/-- The search of `find_demuxer`, counting the position: the first demuxer
whose track has the id, with its position in `demuxers`. -/
def find_demuxer_from : List real_demuxer_t → Nat → Nat → Option (Nat × real_demuxer_t)
  | [], _, _ => none
  | dmx :: rest, id, i =>
      if dmx.track.id = id then some (i, dmx) else find_demuxer_from rest id (i + 1)

/-- Embeds `find_demuxer`; `none` is the null pointer. -/
def find_demuxer (demuxers : List real_demuxer_t) (id : Nat) : Option (Nat × real_demuxer_t) :=
  find_demuxer_from demuxers id 0

/-- Lines 474-478 and 484-488 of `read`: the end of the stream. -/
def read_finish (KF : Nat) (rd : reader_state) (file : rmff_file_t) : Option read_outcome :=
  match finish KF rd with
  | none => none
  | some rd1 =>
      some { state := rd1, status := file_status_e.FILE_STATUS_DONE,
             warned := decide (file.num_packets_read < file.num_packets_in_chunk) }

/-- Embeds `read`.  `size` is what `rmff_get_next_frame_size` returns and
`next` what `rmff_read_next_frame` returns (`none` for `NULL`); `file` holds
the counters as they are when they are compared.  A demuxer is changed in
place, through the pointer that `find_demuxer` returns. -/
def read (KF : Nat) (V : real_demuxer_t → rmff_frame_t → video_effect) (rd : reader_state)
    (size : Int) (next : Option rmff_frame_t) (file : rmff_file_t) : Option read_outcome :=
  if rd.done then
    some { state := rd, status := file_status_e.FILE_STATUS_DONE, warned := false }
  else if 0 ≥ size then read_finish KF rd file
  else
    match next with
    | none => read_finish KF rd file
    | some frame =>
        match find_demuxer rd.demuxers frame.id with
        | none =>
            some { state := rd, status := file_status_e.FILE_STATUS_MOREDATA, warned := false }
        | some (i, dmx) =>
            if dmx.ptzr = -1 then
              some { state := rd, status := file_status_e.FILE_STATUS_MOREDATA,
                     warned := false }
            else
              match read_frame KF V dmx frame with
              | none => none
              | some dmx1 =>
                  some { state := { rd with demuxers := rd.demuxers.set i dmx1 },
                         status := file_status_e.FILE_STATUS_MOREDATA, warned := false }

/-! ## Inputs used for the concrete evaluations -/

/-- An audio track of the directory, used as a concrete input. -/
def sample_audio_track : rmff_track_t :=
  { id := 1, type := rmff_track_type.audio, type_specific_size := 0,
    type_specific_data := [], mime_type := some MIME_AUDIO }

/-- A new demuxer for `sample_audio_track` with packetizer number 0 attached. -/
def sample_audio_dmx : real_demuxer_t :=
  { real_demuxer_t.create sample_audio_track with ptzr := 0 }

/-- Three frames pending at timecode 150 on `sample_audio_dmx`. -/
def sample_pending_150 : real_demuxer_t :=
  queue_audio_frames 2 (queue_audio_frames 2 (queue_audio_frames 2 sample_audio_dmx [1] 150 2)
    [2] 150 0) [3] 150 0

/-- Three frames pending at timecode 100 on `sample_audio_dmx`. -/
def sample_pending_100 : real_demuxer_t :=
  queue_audio_frames 2 (queue_audio_frames 2 (queue_audio_frames 2 sample_audio_dmx [1] 100 2)
    [2] 100 0) [3] 100 0

/-- A field layout used for the concrete evaluations: the offsets of the
fields when the three structures are laid out packed, in the order in which
the RealMedia format stores them. -/
def sample_layout : props_layout :=
  { rvp_fourcc2 := 8, rvp_width := 12, rvp_height := 14, rvp_fps := 22,
    ra4p_version1 := 4, ra4p_sample_rate := 48, ra4p_channels := 54,
    ra4p_sample_size := 52, ra4p_sizeof := 56,
    ra5p_sample_rate := 54, ra5p_channels := 60, ra5p_sample_size := 58,
    ra5p_fourcc3 := 66, ra5p_sizeof := 70 }

/-- A video track of the directory with a 34-byte properties block
(`RV30`, 320 x 240, 25 frames per second). -/
def sample_video_track : rmff_track_t :=
  { id := 0, type := rmff_track_type.video, type_specific_size := 34,
    type_specific_data :=
      [0, 0, 0, 34, 86, 73, 68, 79, 82, 86, 51, 48, 1, 64, 0, 240, 0, 12,
       0, 0, 0, 0, 0, 25, 0, 0, 0, 0, 0, 0, 0, 0, 0, 0],
    mime_type := some MIME_VIDEO }

/-- An audio track with a version-3 header whose mime string is not one of
the two RealMedia strings. -/
def sample_foreign_mime_track : rmff_track_t :=
  { id := 1, type := rmff_track_type.audio, type_specific_size := 6,
    type_specific_data := [46, 114, 97, 253, 0, 3],
    mime_type := some "application/octet-stream" }

/-- An audio track with a version-3 header and no mime string. -/
def sample_no_mime_track : rmff_track_t :=
  { id := 2, type := rmff_track_type.audio, type_specific_size := 6,
    type_specific_data := [46, 114, 97, 253, 0, 3],
    mime_type := none }

/-- A track directory with one RealVideo track and two tracks that the mime
check rejects. -/
def sample_directory : List rmff_track_t :=
  [sample_foreign_mime_track, sample_video_track, sample_no_mime_track]

/-- An audio track with a version-3 header. -/
def sample_audio_v3_track : rmff_track_t :=
  { id := 3, type := rmff_track_type.audio, type_specific_size := 6,
    type_specific_data := [46, 114, 97, 253, 0, 3],
    mime_type := some MIME_AUDIO }

/-- An audio track whose header has the unsupported version 9. -/
def sample_audio_v9_track : rmff_track_t :=
  { id := 4, type := rmff_track_type.audio, type_specific_size := 6,
    type_specific_data := [46, 114, 97, 253, 0, 9],
    mime_type := some MIME_AUDIO }

/-- An audio track with a version-4 header under `sample_layout`: 44100 Hz,
16 bits, 2 channels, an empty first string and the 4-byte tag `cook`. -/
def sample_audio_v4_track : rmff_track_t :=
  { id := 5, type := rmff_track_type.audio, type_specific_size := 62,
    type_specific_data :=
      [46, 114, 97, 253, 0, 4, 0, 0, 0, 0, 0, 0, 0, 0, 0, 0,
       0, 0, 0, 0, 0, 0, 0, 0, 0, 0, 0, 0, 0, 0, 0, 0,
       0, 0, 0, 0, 0, 0, 0, 0, 0, 0, 0, 0, 0, 0, 0, 0,
       172, 68, 0, 0, 0, 16, 0, 2, 0, 4, 99, 111, 111, 107],
    mime_type := some MIME_AUDIO }

/-- A RealVideo frame of 20 bytes: a table of one entry (9 bytes), then the
dimension code of 352 x 288. -/
def sample_rv_frame : memory_c :=
  [0, 0, 0, 0, 0, 0, 0, 0, 0, 0, 0, 0, 36, 0, 0, 0, 0, 0, 0, 0]

/-- A video demuxer with packetizer number 1 for which the directory declared
320 x 240. -/
def sample_video_dmx : real_demuxer_t :=
  { real_demuxer_t.create sample_video_track with ptzr := 1, width := 320, height := 240 }

/-- A track info in which both an aspect ratio and display dimensions
(640 x 480) are given. -/
def sample_ti_both : track_info_c :=
  { aspect_ratio_given := true, display_dimensions_given := true,
    display_width := 640, display_height := 480 }

/-- The display size of lines 762-769 for the aspect ratio 2. -/
def sample_aspect_2 (width height : Nat) : Nat × Nat :=
  if width < 2 * height then (height * 2, height) else (width, width / 2)

/-- A packed-video path that leaves nothing behind, for the evaluation of
`read` on audio frames. -/
def sample_no_video (_dmx : real_demuxer_t) (_frame : rmff_frame_t) : video_effect :=
  { width := 0, height := 0, rv_dimensions := false, packets := [] }

/-- A reader with the one audio track `sample_audio_dmx`, at the start of the
stream. -/
def sample_reader : reader_state :=
  { demuxers := [sample_audio_dmx], done := false }

/-- A track info in which neither an aspect ratio nor display dimensions are
given. -/
def sample_ti_none : track_info_c :=
  { aspect_ratio_given := false, display_dimensions_given := false,
    display_width := 0, display_height := 0 }

/-- Values for the three frame classifications. -/
def sample_vft : vft_t :=
  { VFT_IFRAME := -1, VFT_PFRAMEAUTOMATIC := -2, VFT_NOBFRAME := -1 }

/-! ## The frame rate of a video track (line 218) -/

/-- The value that line 218 gives `dmx->fps` for the 32-bit number `i` of the
properties block, `(float)((i & 0xffff0000) >> 16) + ((float)(i & 0x0000ffff)) / 65536.0`,
with the floating-point arithmetic taken as exact arithmetic on rational
numbers (the rounding of the sum to a `float` is not represented). -/
def fps_of (i : Nat) : ℚ :=
  (((i &&& 0xffff0000) >>> 16 : Nat) : ℚ) + ((i &&& 0x0000ffff : Nat) : ℚ) / 65536

/-- The frame rate `dmx->fps` of a video track. -/
def real_demuxer_t.fps (dmx : real_demuxer_t) : ℚ :=
  fps_of dmx.fps_fixed

/-! ## C strings of bytes: `strncasecmp` and `strcasecmp` -/

/-- The function `tolower` of the C locale on a byte: the letters `A` .. `Z`
(65 .. 90) are moved to `a` .. `z`, every other byte is left alone. -/
def tolower (c : Nat) : Nat :=
  if 65 ≤ c ∧ c ≤ 90 then c + 32 else c

/-- The character of a C string at its head; past the end of the bytes that
are given stands the terminating NUL. -/
def c_head (s : List byte_t) : Nat :=
  match s with
  | [] => 0
  | c :: _ => c.val

/-- The loop of `strncasecmp(a, b, n)`: compare at most `n` characters,
ignoring the case of letters, and stop at a NUL.  The result is 0 when no
difference was found, and the difference of the first two characters that
differ otherwise. -/
def strncasecmp : List byte_t → List byte_t → Nat → Int
  | _, _, 0 => 0
  | a, b, n + 1 =>
      let ca := tolower (c_head a)
      let cb := tolower (c_head b)
      if ca ≠ cb then (ca : Int) - (cb : Int)
      else if ca = 0 then 0
      else strncasecmp a.tail b.tail n

/-- The function `strcasecmp(a, b)`: `strncasecmp` without a limit on the number
of characters (the comparison ends at the NUL of the shorter string at the
latest). -/
def strcasecmp (a b : List byte_t) : Int :=
  strncasecmp a b (a.length + b.length + 1)

/-- The tag `.RMF` at the start of a RealMedia file. -/
def TAG_RMF : List byte_t := [46, 82, 77, 70]

/-- The codec tag `DNET`. -/
def TAG_DNET : List byte_t := [68, 78, 69, 84]

/-- The codec tag `racp`. -/
def TAG_RACP : List byte_t := [114, 97, 99, 112]

/-! ## `probe_file` (lines 121-143) -/

/-- Modelled from the spec: the abstract file I/O capability `mm_io_c` (declared
in `mm_io.h`, which is not among the sources), as a file held in memory: the
bytes of the file and the read position.  Opening, seeking to the beginning
and reading do not fail on such a file, so the exceptions that `probe_file`
catches (and answers with 0) have no counterpart. -/
structure mm_io_c where
  content : memory_c
  pos : Nat
  deriving DecidableEq

/-- The call `setFilePointer(offset, seek_beginning)`. -/
def mm_io_c.setFilePointer (io : mm_io_c) (offset : Nat) : mm_io_c :=
  { io with pos := offset }

/-- The call `read(buffer, n)`: the bytes read (fewer than `n` at the end of the
file) and the file with the position moved past them. -/
def mm_io_c.read (io : mm_io_c) (n : Nat) : memory_c × mm_io_c :=
  let got := (io.content.drop io.pos).take n
  (got, { io with pos := io.pos + got.length })

/-- Embeds `probe_file`: the result and the state in which the file is left. -/
def probe_file (io : mm_io_c) (size : Int) : Int × mm_io_c :=
  if 4 > size then (0, io)
  else
    let io1 := io.setFilePointer 0
    let r := io1.read 4
    let data := r.1
    if data.length ≠ 4 then (0, r.2)
    else
      let io2 := r.2.setFilePointer 0
      if strncasecmp data TAG_RMF 4 ≠ 0 then (0, io2)
      else (1, io2)

/-! ## `get_progress` (lines 627-630) -/

/-- Embeds `get_progress`.  The two counters are fields of the `rmff_file_t` of
librmff (`librmff.h` is not among the sources); `W` is the modulus of their
unsigned type, 2^32 for the `uint32_t` that librmff declares them with.  The
product `100 * num_packets_read` is computed in that type, so modulo `W`; the
quotient is converted to the `int` that the function returns.  A divisor of
zero is a fault (`none`). -/
def get_progress (W : Nat) (file : rmff_file_t) : Option Int :=
  if file.num_packets_in_chunk % W = 0 then none
  else
    some (mtx.dts.to_int32
      ((100 * (file.num_packets_read % W)) % W / (file.num_packets_in_chunk % W)))

/-! ## Further inputs used for the concrete evaluations -/

/-- A video track whose type-specific data are the 34-byte properties block of
`sample_video_track` followed by the two bytes 1 and 2. -/
def sample_video_track_36 : rmff_track_t :=
  { id := 0, type := rmff_track_type.video, type_specific_size := 36,
    type_specific_data :=
      [0, 0, 0, 34, 86, 73, 68, 79, 82, 86, 51, 48, 1, 64, 0, 240, 0, 12,
       0, 0, 0, 0, 0, 25, 128, 0, 0, 0, 0, 0, 0, 0, 0, 0, 1, 2],
    mime_type := some MIME_VIDEO }

/-- An audio track with a version-5 header under `sample_layout`: the 70-byte
structure, four more bytes, and an extra configuration of three bytes. -/
def sample_audio_v5_track : rmff_track_t :=
  { id := 6, type := rmff_track_type.audio, type_specific_size := 77,
    type_specific_data :=
      [46, 114, 97, 253, 0, 5, 0, 0, 0, 0, 0, 0, 0, 0, 0, 0,
       0, 0, 0, 0, 0, 0, 0, 0, 0, 0, 0, 0, 0, 0, 0, 0,
       0, 0, 0, 0, 0, 0, 0, 0, 0, 0, 0, 0, 0, 0, 0, 0,
       0, 0, 0, 0, 0, 0, 172, 68, 0, 0, 0, 16, 0, 2, 103, 101,
       110, 114, 114, 97, 97, 99, 1, 0, 0, 0, 7, 8, 9],
    mime_type := some MIME_AUDIO }

/-- A RealMedia file in memory whose tag is written in small letters. -/
def sample_rmf_lower : mm_io_c :=
  { content := [46, 114, 109, 102, 0, 0, 0, 18, 0, 0], pos := 7 }

/-- A RealMedia file in memory that starts with `.RMF`. -/
def sample_rmf : mm_io_c :=
  { content := [46, 82, 77, 70, 0, 0, 0, 18, 0, 0], pos := 7 }

/-! ## `get_information_from_data` (lines 788-827) -/

/-- What `get_information_from_data` leaves: the demuxers, the file, and the
frames that were read from the file, in the order in which they were read. -/
structure information_outcome where
  demuxers : List real_demuxer_t
  file : rmff_file_t
  frames : List rmff_frame_t
  deriving DecidableEq

/-- The test `!strcasecmp(dmx->fourcc, "DNET")` of lines 796, 811 and 819. -/
def is_dnet (dmx : real_demuxer_t) : Bool :=
  strcasecmp dmx.fourcc TAG_DNET == 0

/-- Lines 816-822: `information_found` after a frame, true unless some
demuxer with the tag `DNET` still has the bitstream id -1. -/
def information_found (demuxers : List real_demuxer_t) : Bool :=
  demuxers.all (fun dmx => !(is_dnet dmx && dmx.bsid == -1))

/-- The `while` loop of lines 802-823.  `next` is `rmff_read_next_frame` of
librmff: the frame read and the file after the read, `none` for `NULL`.  The
first argument bounds the number of frames that are followed.  A `NULL` frame
is dereferenced in line 804, and a frame of fewer than five bytes is read past
its end in line 812: both are faults.  The bytes of a frame are `unsigned
char` (line 665 hands `data` to a parameter of that type), so the byte that is
shifted is not negative. -/
def information_loop (next : rmff_file_t → Option (rmff_frame_t × rmff_file_t)) :
    Nat → Bool → rmff_file_t → List real_demuxer_t → List rmff_frame_t →
      Option (rmff_file_t × List real_demuxer_t × List rmff_frame_t)
  | _, true, file, demuxers, frames => some (file, demuxers, frames)
  | 0, false, _, _, _ => none
  | fuel + 1, false, file, demuxers, frames =>
      match next file with
      | none => none
      | some (frame, file1) =>
          match find_demuxer demuxers frame.id with
          | none => information_loop next fuel false file1 demuxers (frames ++ [frame])
          | some (i, dmx) =>
              let updated : Option real_demuxer_t :=
                if is_dnet dmx then
                  match read_u8 frame.data 4 with
                  | none => none
                  | some b => some { dmx with bsid := ((b >>> 3 : Nat) : Int) }
                else some dmx
              match updated with
              | none => none
              | some dmx1 =>
                  let demuxers1 := demuxers.set i dmx1
                  information_loop next fuel (information_found demuxers1) file1 demuxers1
                    (frames ++ [frame])

/-- Embeds `get_information_from_data`: remember the position, mark every
`DNET` track as unknown, read frames until every such track has a bitstream
id, then seek back and reset the counter of frames read. -/
def get_information_from_data (next : rmff_file_t → Option (rmff_frame_t × rmff_file_t))
    (fuel : Nat) (file : rmff_file_t) (demuxers : List real_demuxer_t) :
    Option information_outcome :=
  let old_pos := file.pos
  let demuxers0 := demuxers.map (fun dmx => if is_dnet dmx then { dmx with bsid := -1 } else dmx)
  let found0 := !(demuxers.any is_dnet)
  match information_loop next fuel found0 file demuxers0 [] with
  | none => none
  | some (file1, demuxers1, frames) =>
      some { demuxers := demuxers1,
             file := { file1 with pos := old_pos, num_packets_read := 0 },
             frames := frames }

/-- A demuxer with the tag `dnet` for the track 7, no packetizer attached. -/
def sample_dnet_dmx : real_demuxer_t :=
  { real_demuxer_t.create { sample_audio_track with id := 7 } with
    fourcc := [100, 110, 101, 116], samples_per_second := 44100, channels := 2 }

/-- A stream of three frames, read one after the other by position: a frame of
a track that is not demultiplexed, a frame of track 1, and a frame of track 7
whose byte 4 is 0x40. -/
def sample_stream (file : rmff_file_t) : Option (rmff_frame_t × rmff_file_t) :=
  match [({ id := 9, timecode := 0, flags := 2, data := [1, 2, 3] } : rmff_frame_t),
         { id := 1, timecode := 0, flags := 2, data := [4, 5, 6, 7, 8, 9] },
         { id := 7, timecode := 10, flags := 2, data := [11, 119, 0, 0, 64, 0] }][file.pos]? with
  | none => none
  | some frame =>
      some (frame, { file with pos := file.pos + 1,
                               num_packets_read := file.num_packets_read + 1 })

/-- The two demuxers of the evaluation of `get_information_from_data`: the
audio track 1 and the `dnet` track 7, whose bitstream id is not known (0 from
the constructor). -/
def sample_dnet_demuxers : List real_demuxer_t :=
  [sample_audio_dmx, sample_dnet_dmx]

/-! ## `create_aac_audio_packetizer` (lines 313-389) -/

/-- What `parse_aac_data` writes through its five reference parameters when it
succeeds. -/
structure aac_header_t where
  profile : Int
  channels : Nat
  sample_rate : Nat
  output_sample_rate : Nat
  sbr : Bool
  deriving DecidableEq

/-- The `aac_packetizer_c` that line 374 creates: the profile, the sample rate
and the channel count given to the constructor, and the frequency given to
`set_audio_output_sampling_freq` in line 379 (`none` if that call is not
made). -/
structure aac_packetizer_t where
  profile : Int
  sample_rate : Nat
  channels : Nat
  output_sampling_freq : Option Nat
  deriving DecidableEq

/-- What `create_aac_audio_packetizer` leaves: the track, the packetizer, and
the values of the local variables `detected_profile`, `sbr`,
`output_sample_rate` and `extra_data_parsed` at the end, the header that
`parse_aac_data` delivered (`none` if it was not called), and whether the
warning of line 382 was given. -/
structure aac_outcome where
  dmx : real_demuxer_t
  packetizer : aac_packetizer_t
  detected_profile : Int
  sbr : Bool
  output_sample_rate : Nat
  extra_data_parsed : Bool
  header : Option aac_header_t
  warned : Bool
  deriving DecidableEq

/-- Lines 324-338: the call of `parse_aac_data` on the extra data.  The outer
`none` is a fault (a read outside the extra data) or the end of the program
through `mxerror` when `parse_aac_data` fails; the inner `none` says that the
extra data were not parsed.  The sum `4 + extra_len` and the difference
`extra_len - 1` are computed in `uint32_t`. -/
def aac_parse_extra_data (parse_aac_data : memory_c → Int → Option aac_header_t)
    (dmx : real_demuxer_t) : Option (Option aac_header_t) :=
  if 4 < dmx.extra_data_size then
    match dmx.extra_data with
    | none => none
    | some extra =>
        match get_uint32_be extra 0 with
        | none => none
        | some extra_len =>
            if (4 + extra_len) % mtx.dts.UINT32_MOD ≤ dmx.extra_data_size then
              match parse_aac_data (extra.drop 5)
                  (mtx.dts.to_int32 ((extra_len + mtx.dts.UINT32_MOD - 1) % mtx.dts.UINT32_MOD)) with
              | none => none
              | some header => some (some header)
            else some none
  else some none

/-- Lines 357-358: some entry of `ti.all_aac_is_sbr`, for the track or for the
key -1 that stands for all tracks, says that the track is SBR. -/
def sbr_requested (all_aac_is_sbr : Int → Option Bool) (tid : Int) : Bool :=
  all_aac_is_sbr tid == some true || all_aac_is_sbr (-1) == some true

/-- Lines 363-364: some entry of `ti.all_aac_is_sbr`, for the track or for the
key -1, says that the track is not SBR. -/
def sbr_denied (all_aac_is_sbr : Int → Option Bool) (tid : Int) : Bool :=
  all_aac_is_sbr tid == some false || all_aac_is_sbr (-1) == some false

/-- Embeds `create_aac_audio_packetizer`.  `SBR` is `AAC_PROFILE_SBR`,
`parse_aac_data` the parser of the AAC configuration (`none` when it returns
false), `all_aac_is_sbr` the map `ti.all_aac_is_sbr` (`none` where the map has
no key) and `new_ptzr` the number that `add_packetizer` returns.  The five
local variables `profile`, `channels`, `sample_rate`, `output_sample_rate` and
`sbr` are kept in a record of the type of the header; `channels` and
`sample_rate` are not initialised in the source and are assigned before they
are read.  The local `int sample_rate` is doubled in `int`: a result above
2^31 - 1 is a fault. -/
def create_aac_audio_packetizer (SBR : Int)
    (parse_aac_data : memory_c → Int → Option aac_header_t)
    (all_aac_is_sbr : Int → Option Bool) (new_ptzr : Int) (dmx : real_demuxer_t) :
    Option aac_outcome :=
  let tid : Int := (dmx.track.id : Int)
  match aac_parse_extra_data parse_aac_data dmx with
  | none => none
  | some header =>
      let extra_data_parsed := header.isSome
      -- lines 319-338
      let v1 : aac_header_t :=
        match header with
        | none =>
            { profile := -1, channels := 0, sample_rate := 0, output_sample_rate := 0,
              sbr := false }
        | some hd => if hd.sbr then { hd with profile := SBR } else hd
      -- lines 340-351
      let step : Option (aac_header_t × real_demuxer_t) :=
        if -1 = v1.profile then
          let v2 := { v1 with channels := dmx.channels, sample_rate := dmx.samples_per_second }
          if strcasecmp dmx.fourcc TAG_RACP = 0 ∨ 44100 > v2.sample_rate then
            if 2 * v2.sample_rate > 2147483647 then none
            else some ({ v2 with output_sample_rate := 2 * v2.sample_rate, sbr := true }, dmx)
          else some (v2, dmx)
        else
          some (v1, { dmx with channels := v1.channels, samples_per_second := v1.sample_rate })
      match step with
      | none => none
      | some (v, dmx1) =>
          -- lines 353-365
          let detected_profile := v.profile
          let profile2 : Int := if v.sbr then SBR else v.profile
          let profile3 : Int := if sbr_requested all_aac_is_sbr tid then SBR else profile2
          let profile : Int :=
            if -1 ≠ detected_profile ∧ sbr_denied all_aac_is_sbr tid then detected_profile
            else profile3
          -- lines 371-388
          some
            { dmx := { dmx1 with is_aac := true, ptzr := new_ptzr, ref_timecode := -1 },
              packetizer :=
                { profile := profile, sample_rate := v.sample_rate, channels := v.channels,
                  output_sampling_freq :=
                    if SBR = profile then some v.output_sample_rate else none },
              detected_profile := detected_profile,
              sbr := v.sbr,
              output_sample_rate := v.output_sample_rate,
              extra_data_parsed := extra_data_parsed,
              header := header,
              warned := decide (SBR ≠ profile) && !extra_data_parsed }

/-- A demuxer for an AAC track with the id 8, the tag `raac`, two channels at
44100 Hz and no extra data. -/
def sample_raac_dmx : real_demuxer_t :=
  { real_demuxer_t.create { sample_audio_track with id := 8 } with
    fourcc := [114, 97, 97, 99], samples_per_second := 44100, channels := 2 }

/-- The demuxer `sample_raac_dmx` with nine bytes of extra data: the length 5
and five bytes of configuration. -/
def sample_raac_extra_dmx : real_demuxer_t :=
  { sample_raac_dmx with
    extra_data := some [0, 0, 0, 5, 2, 19, 144, 86, 229], extra_data_size := 9 }

/-- A parser of AAC configurations that finds the profile 1 with SBR, two
channels at 24000 Hz and an output rate of 48000 Hz in every input. -/
def sample_parse_sbr (_data : memory_c) (_size : Int) : Option aac_header_t :=
  some { profile := 1, channels := 2, sample_rate := 24000, output_sample_rate := 48000,
         sbr := true }

/-- A parser of AAC configurations that fails on every input. -/
def sample_parse_fails (_data : memory_c) (_size : Int) : Option aac_header_t :=
  none

/-- The map `all_aac_is_sbr` with the one entry `key -> value`. -/
def sample_override (key : Int) (value : Bool) (k : Int) : Option Bool :=
  if k = key then some value else none

/-! ## Sequences of calls: `queue_audio_frames` and `read` -/

/-- The arguments of one call of `queue_audio_frames`. -/
structure queue_call where
  mem : memory_c
  timecode : Nat
  flags : Nat
  deriving DecidableEq

/-- The segment that `queue_one_audio_frame` pushes for a call. -/
def queue_call.segment (call : queue_call) : rv_segment_t :=
  { data := call.mem, flags := call.flags }

/-- The track after `queue_audio_frames` has been called with the arguments of
a list of calls, one after the other. -/
def queue_all (KF : Nat) (dmx : real_demuxer_t) (calls : List queue_call) : real_demuxer_t :=
  calls.foldl (fun d call => queue_audio_frames KF d call.mem call.timecode call.flags) dmx

/-- The reader after `read` has been called once for each frame of a list,
each time with a positive frame size and the frame as the next frame of the
file; `none` when one of the calls faults. -/
def read_all (KF : Nat) (V : real_demuxer_t → rmff_frame_t → video_effect)
    (file : rmff_file_t) : reader_state → List rmff_frame_t → Option reader_state
  | rd, [] => some rd
  | rd, frame :: rest =>
      match read KF V rd 1 (some frame) file with
      | none => none
      | some outcome => read_all KF V file outcome.state rest

/-- A frame of 20 bytes: a table of one entry (9 bytes), then 11 bytes in which
the width code is 7 (no table width) and every bit after it is set, so that
every escape code reads 255. -/
def sample_escape_frame : memory_c :=
  [0, 0, 0, 0, 0, 0, 0, 0, 0, 0, 0, 0, 63, 255, 255, 255, 255, 255, 255, 255]

/-! ## `create_audio_packetizer` (lines 391-408) -/

/-- The loop of `strncmp(a, b, n)`: compare at most `n` characters and stop at
a NUL.  The result is 0 when no difference was found, and the difference of
the first two characters that differ otherwise. -/
def strncmp : List byte_t → List byte_t → Nat → Int
  | _, _, 0 => 0
  | a, b, n + 1 =>
      let ca := c_head a
      let cb := c_head b
      if ca ≠ cb then (ca : Int) - (cb : Int)
      else if ca = 0 then 0
      else strncmp a.tail b.tail n

/-- The codec tag `dnet`. -/
def TAG_dnet : List byte_t := [100, 110, 101, 116]

/-- The codec tag `raac`. -/
def TAG_raac : List byte_t := [114, 97, 97, 99]

/-- The codec tag `COOK`. -/
def TAG_COOK : List byte_t := [67, 79, 79, 75]

/-- The packetizer that `create_audio_packetizer` makes for a track: the AC3
packetizer of `create_dnet_audio_packetizer`, which is given `dmx->bsid`, the
AAC packetizer of `create_aac_audio_packetizer`, or the RealAudio packetizer
`ra_packetizer_c`. -/
inductive audio_packetizer_e
  | ac3
  | aac
  | realaudio
  deriving DecidableEq

/-- The branches of `create_audio_packetizer`: the packetizer that is made,
and the value of `cook_audio_fix` afterwards. -/
def create_audio_packetizer (dmx : real_demuxer_t) : audio_packetizer_e × Bool :=
  if strncmp dmx.fourcc TAG_dnet 4 = 0 then (audio_packetizer_e.ac3, dmx.cook_audio_fix)
  else if strcasecmp dmx.fourcc TAG_raac = 0 ∨ strcasecmp dmx.fourcc TAG_RACP = 0 then
    (audio_packetizer_e.aac, dmx.cook_audio_fix)
  else if strcasecmp dmx.fourcc TAG_COOK = 0 then (audio_packetizer_e.realaudio, true)
  else (audio_packetizer_e.realaudio, dmx.cook_audio_fix)

/-- Three calls of `queue_audio_frames`, used as a concrete input: two frames
at timecode 100, then one at timecode 200. -/
def sample_calls : List queue_call :=
  [{ mem := [1], timecode := 100, flags := 2 },
   { mem := [2], timecode := 100, flags := 0 },
   { mem := [3], timecode := 200, flags := 0 }]

/-- Three frames of track 1 that share the timecode 7, used as a concrete
input. -/
def sample_frames_one_timecode : List rmff_frame_t :=
  [{ id := 1, timecode := 7, flags := 2, data := [1] },
   { id := 1, timecode := 7, flags := 0, data := [2] },
   { id := 1, timecode := 7, flags := 0, data := [3] }]

/-- The state of the one track of `sample_reader` while frames of a single
timecode `t` are routed to it: nothing has been delivered. -/
def one_timecode_state (t : Nat) (n : Nat) (dmx : real_demuxer_t) : Prop :=
  dmx.ptzr = 0 ∧ dmx.track = sample_audio_track ∧ dmx.is_aac = false
  ∧ dmx.cook_audio_fix = false ∧ dmx.force_keyframe_flag = false
  ∧ dmx.num_packets = 0 ∧ dmx.segments.length = n
  ∧ (dmx.segments = [] ∨ dmx.last_timecode = t * 1000000)

/-! ## Inputs used for the concrete evaluations of whole sequences -/

/-- A directory used as a concrete input: a version-3 track, a version-9
track, a version-4 track, the same version-4 track with tag length 5, and a
video track. -/
def sample_versions_directory : List rmff_track_t :=
  [sample_audio_v3_track, sample_audio_v9_track, sample_audio_v4_track,
   { sample_audio_v4_track with
     id := 6,
     type_specific_data := sample_audio_v4_track.type_specific_data.set 57 5 },
   sample_video_track]

/-- A frame whose width is written with `n + 1` escape codes, used as a
concrete input for every `n`: three bytes 0, the byte 0x3F (width code 7 and
the first three bits of the first escape code), `n` bytes 0xFF and a byte 0.
The escape codes are `n` times 255 and then 224; the height code is 0. -/
def sample_long_escape_frame (n : Nat) : memory_c :=
  [0, 0, 0, 63] ++ List.replicate n 255 ++ [0]

/-! ## Theorems: the audio time-smoothing queue -/

/-- When `b <= a` and `a` is a `uint64_t`, the unsigned difference is the
ordinary one. -/
theorem sub_u64_of_le (a b : Nat) (hba : b ≤ a) (ha : a < UINT64_MOD) :
    sub_u64 a b = a - b := by
  unfold sub_u64 UINT64_MOD at *
  omega

/-- The loop of `deliver_audio_frames` appends one packet per pending segment,
in queue order, each at `last_timecode` and with the given duration. -/
theorem deliver_audio_loop_sink (KF L d : Nat) :
    ∀ (segs : List rv_segment_t) (ref : Int) (sink : List packet_t),
      ∃ ps : List packet_t,
        (deliver_audio_loop KF L d segs ref sink).2 = sink ++ ps ∧
        ps.map (fun p => p.data) = segs.map (fun s => s.data) ∧
        ∀ p ∈ ps, p.timecode = some L ∧ p.duration = some d := by
  intro segs
  induction segs with
  | nil =>
      intro ref sink
      exact ⟨[], by simp [deliver_audio_loop]⟩
  | cons seg rest ih =>
      intro ref sink
      obtain ⟨ps, h1, h2, h3⟩ :=
        ih (if seg.flags &&& 2 = 2 then (L : Int) else ref)
          (sink ++ [{ data := seg.data, timecode := some L, duration := some d,
                      bref := some (if seg.flags &&& KF = KF then -1 else ref) }])
      refine ⟨{ data := seg.data, timecode := some L, duration := some d,
                bref := some (if seg.flags &&& KF = KF then -1 else ref) } :: ps, ?_, ?_, ?_⟩
      · simp only [deliver_audio_loop]
        rw [h1]
        simp
      · simp [h2]
      · intro p hp
        rcases List.mem_cons.mp hp with h | h
        · subst h
          exact ⟨rfl, rfl⟩
        · exact h3 p h

/-- What `deliver_audio_frames` does to a track with a packetizer and a
non-empty queue. -/
theorem deliver_audio_frames_flush (KF : Nat) (dmx : real_demuxer_t) (d : Nat)
    (hp : dmx.ptzr ≠ -1) (hk : dmx.segments ≠ []) :
    ∃ ps : List packet_t,
      (deliver_audio_frames KF dmx d).delivered = dmx.delivered ++ ps ∧
      ps.map (fun p => p.data) = dmx.segments.map (fun s => s.data) ∧
      (∀ p ∈ ps, p.timecode = some dmx.last_timecode ∧ p.duration = some d) ∧
      (deliver_audio_frames KF dmx d).segments = [] ∧
      (deliver_audio_frames KF dmx d).num_packets = dmx.num_packets + dmx.segments.length ∧
      (deliver_audio_frames KF dmx d).last_timecode = dmx.last_timecode ∧
      (deliver_audio_frames KF dmx d).ptzr = dmx.ptzr ∧
      (deliver_audio_frames KF dmx d).track = dmx.track := by
  obtain ⟨ps, h1, h2, h3⟩ :=
    deliver_audio_loop_sink KF dmx.last_timecode d dmx.segments dmx.ref_timecode dmx.delivered
  have hne : dmx.segments.isEmpty = false := by
    cases hs : dmx.segments with
    | nil => exact absurd hs hk
    | cons a l => rfl
  have hpz : (dmx.ptzr == -1) = false := by simpa using hp
  refine ⟨ps, ?_, h2, h3, ?_, ?_, ?_, ?_, ?_⟩ <;>
    simp [deliver_audio_frames, hne, hpz, h1]

/-- What `queue_audio_frames` does on a timecode change, with the duration as
the code computes it (in `uint64_t`). -/
theorem queue_audio_frames_change (KF : Nat) (dmx : real_demuxer_t) (mem : memory_c)
    (t flags : Nat) (hp : dmx.ptzr ≠ -1) (hk : dmx.segments ≠ [])
    (hne : dmx.last_timecode ≠ t) :
    ∃ ps : List packet_t,
      (queue_audio_frames KF dmx mem t flags).delivered = dmx.delivered ++ ps ∧
      ps.map (fun p => p.data) = dmx.segments.map (fun s => s.data) ∧
      (∀ p ∈ ps, p.timecode = some dmx.last_timecode ∧
        p.duration = some (sub_u64 t dmx.last_timecode / dmx.segments.length)) ∧
      (queue_audio_frames KF dmx mem t flags).segments = [{ data := mem, flags := flags }] ∧
      (queue_audio_frames KF dmx mem t flags).last_timecode = t ∧
      (queue_audio_frames KF dmx mem t flags).num_packets
        = dmx.num_packets + dmx.segments.length := by
  obtain ⟨ps, h1, h2, h3, h4, h5, _, _, _⟩ :=
    deliver_audio_frames_flush KF dmx (sub_u64 t dmx.last_timecode / dmx.segments.length) hp hk
  have hne1 : dmx.segments.isEmpty = false := by
    cases hs : dmx.segments with
    | nil => exact absurd hs hk
    | cons a l => rfl
  have hne2 : (dmx.last_timecode == t) = false := by simpa using hne
  refine ⟨ps, ?_, h2, h3, ?_, ?_, ?_⟩ <;>
    simp [queue_audio_frames, queue_one_audio_frame, hne1, hne2, h1, h4, h5]

/-- C1 (as stated, refuted): with three frames pending at timecode 150 and an
incoming frame at timecode 100, `queue_audio_frames` gives every delivered
packet the duration 6148914691236517188 (the unsigned subtraction wraps), not
(100 - 150) div 3, so the claim fails for a timecode that goes backwards. -/
theorem queue_audio_frames_backwards_counterexample :
    ((queue_audio_frames 2 sample_pending_150 [4] 100 0).delivered.map (fun p => p.duration)
        = [some 6148914691236517188, some 6148914691236517188, some 6148914691236517188]) ∧
    ¬ (let dmx := sample_pending_150
       let r := queue_audio_frames 2 dmx [4] 100 0
       let ps := r.delivered.drop dmx.delivered.length
       r.delivered.take dmx.delivered.length = dmx.delivered ∧
       ps.length = dmx.segments.length ∧
       ps.map (fun p => p.data) = dmx.segments.map (fun s => s.data) ∧
       (∀ p ∈ ps, p.timecode = some dmx.last_timecode ∧
          p.duration.map Int.ofNat
            = some (((100 : Int) - (dmx.last_timecode : Int)) / (dmx.segments.length : Int))) ∧
       r.segments = [{ data := [4], flags := 0 }] ∧
       r.last_timecode = 100) := by
  decide

/-- C1 (amended): on a track with a packetizer whose pending queue holds
k >= 1 frames with last timecode L, an incoming frame with a timecode t > L
(t a `uint64_t`) makes `queue_audio_frames` deliver exactly k packets, in queue
order, each with start timecode L and duration (t - L) div k; afterwards the
pending queue holds exactly the incoming frame and `last_timecode` is t. -/
theorem queue_audio_frames_flush_forward (KF : Nat) (dmx : real_demuxer_t) (mem : memory_c)
    (t flags : Nat) (hp : dmx.ptzr ≠ -1) (hk : dmx.segments ≠ [])
    (hlt : dmx.last_timecode < t) (ht : t < UINT64_MOD) :
    let r := queue_audio_frames KF dmx mem t flags
    let ps := r.delivered.drop dmx.delivered.length
    r.delivered.take dmx.delivered.length = dmx.delivered ∧
    ps.length = dmx.segments.length ∧
    ps.map (fun p => p.data) = dmx.segments.map (fun s => s.data) ∧
    (∀ p ∈ ps, p.timecode = some dmx.last_timecode ∧
       p.duration.map Int.ofNat
         = some (((t : Int) - (dmx.last_timecode : Int)) / (dmx.segments.length : Int))) ∧
    r.segments = [{ data := mem, flags := flags }] ∧
    r.last_timecode = t := by
  obtain ⟨ps, h1, h2, h3, h4, h5, _⟩ :=
    queue_audio_frames_change KF dmx mem t flags hp hk (Nat.ne_of_lt hlt)
  have hlen : ps.length = dmx.segments.length := by
    have := congrArg List.length h2
    simpa using this
  have hd : ((sub_u64 t dmx.last_timecode / dmx.segments.length : Nat) : Int)
      = ((t : Int) - (dmx.last_timecode : Int)) / (dmx.segments.length : Int) := by
    rw [sub_u64_of_le t dmx.last_timecode (Nat.le_of_lt hlt) ht]
    rw [Int.natCast_div, Nat.cast_sub (Nat.le_of_lt hlt)]
  simp only [h1, List.drop_left, List.take_left, true_and]
  refine ⟨hlen, h2, ?_, h4, h5⟩
  intro p hp
  obtain ⟨ha, hb⟩ := h3 p hp
  refine ⟨ha, ?_⟩
  rw [hb]
  simp only [Option.map_some']
  exact congrArg some hd

/-- Witness for C1: timecodes 100, 100, 100, 150. -/
theorem queue_audio_frames_flush_forward_witness :
    (let dmx := sample_pending_100
     let r := queue_audio_frames 2 dmx [4] 150 0
     let ps := r.delivered.drop dmx.delivered.length
     r.delivered.take dmx.delivered.length = dmx.delivered ∧
     ps.length = dmx.segments.length ∧
     ps.map (fun p => p.data) = dmx.segments.map (fun s => s.data) ∧
     (∀ p ∈ ps, p.timecode = some dmx.last_timecode ∧
        p.duration.map Int.ofNat
          = some (((150 : Int) - (dmx.last_timecode : Int)) / (dmx.segments.length : Int))) ∧
     r.segments = [{ data := [4], flags := 0 }] ∧
     r.last_timecode = 150) ∧
    (queue_audio_frames 2 sample_pending_100 [4] 150 0).delivered
      = [{ data := [1], timecode := some 100, duration := some 16, bref := some (-1) },
         { data := [2], timecode := some 100, duration := some 16, bref := some 100 },
         { data := [3], timecode := some 100, duration := some 16, bref := some 100 }] :=
  ⟨queue_audio_frames_flush_forward 2 sample_pending_100 [4] 150 0 (by decide) (by decide)
      (by decide) (by decide),
   by decide⟩

/-- C7: if the pending queue is empty, or the incoming timecode equals
`last_timecode`, `queue_audio_frames` appends the frame at the end of the
pending queue, sets `last_timecode` to the incoming timecode, delivers no
packet and leaves `num_packets` unchanged. -/
theorem queue_audio_frames_append (KF : Nat) (dmx : real_demuxer_t) (mem : memory_c)
    (t flags : Nat) (h : dmx.segments = [] ∨ dmx.last_timecode = t) :
    (queue_audio_frames KF dmx mem t flags).segments
      = dmx.segments ++ [{ data := mem, flags := flags }] ∧
    (queue_audio_frames KF dmx mem t flags).last_timecode = t ∧
    (queue_audio_frames KF dmx mem t flags).delivered = dmx.delivered ∧
    (queue_audio_frames KF dmx mem t flags).num_packets = dmx.num_packets := by
  have hc : (dmx.segments.isEmpty || dmx.last_timecode == t) = true := by
    rcases h with h | h
    · simp [h]
    · simp [h]
  simp [queue_audio_frames, queue_one_audio_frame, hc]

/-- Witness for C7: a fourth frame at timecode 100 joins three pending ones. -/
theorem queue_audio_frames_append_witness :
    (sample_pending_100.segments = [] ∨ sample_pending_100.last_timecode = 100) ∧
    (queue_audio_frames 2 sample_pending_100 [4] 100 0).segments
      = sample_pending_100.segments ++ [{ data := [4], flags := 0 }] ∧
    (queue_audio_frames 2 sample_pending_100 [4] 100 0).last_timecode = 100 ∧
    (queue_audio_frames 2 sample_pending_100 [4] 100 0).delivered
      = sample_pending_100.delivered ∧
    (queue_audio_frames 2 sample_pending_100 [4] 100 0).num_packets
      = sample_pending_100.num_packets :=
  ⟨by decide, queue_audio_frames_append 2 sample_pending_100 [4] 100 0 (by decide)⟩

/-- C8 (as stated, refuted): timecodes 100, 100, 100, 150.  The three flushed
frames get the duration 16, and 100 + 3 * 16 = 148 is not the new timecode
150. -/
theorem flushed_group_end_counterexample :
    ((queue_audio_frames 2 sample_pending_100 [4] 150 0).delivered.map (fun p => p.duration)
        = [some 16, some 16, some 16]) ∧
    ¬ (let dmx := sample_pending_100
       let r := queue_audio_frames 2 dmx [4] 150 0
       let ps := r.delivered.drop dmx.delivered.length
       ∀ p ∈ ps, p.duration.map (fun d => dmx.last_timecode + dmx.segments.length * d)
         = some 150) := by
  decide

/-- C8 (amended): for a flush triggered by a timecode change from L to a later
timecode t (in `uint64_t`) with k pending frames, the assigned duration d
satisfies L + k * d <= t < L + k * d + k: the group, taken as k back-to-back
frames of duration d starting at L, ends at most k - 1 units before t, and it
ends exactly at t if and only if k divides t - L. -/
theorem flushed_group_end (KF : Nat) (dmx : real_demuxer_t) (mem : memory_c)
    (t flags : Nat) (hp : dmx.ptzr ≠ -1) (hk : dmx.segments ≠ [])
    (hlt : dmx.last_timecode < t) (ht : t < UINT64_MOD) :
    let r := queue_audio_frames KF dmx mem t flags
    let ps := r.delivered.drop dmx.delivered.length
    ps.length = dmx.segments.length ∧
    ∀ p ∈ ps, ∃ d : Nat, p.duration = some d ∧
      dmx.last_timecode + dmx.segments.length * d ≤ t ∧
      t < dmx.last_timecode + dmx.segments.length * d + dmx.segments.length ∧
      (dmx.last_timecode + dmx.segments.length * d = t
        ↔ dmx.segments.length ∣ t - dmx.last_timecode) := by
  obtain ⟨ps, h1, h2, h3, _⟩ :=
    queue_audio_frames_change KF dmx mem t flags hp hk (Nat.ne_of_lt hlt)
  have hlen : ps.length = dmx.segments.length := by
    have := congrArg List.length h2
    simpa using this
  have hkpos : 0 < dmx.segments.length := List.length_pos.mpr hk
  simp only [h1, List.drop_left]
  refine ⟨hlen, ?_⟩
  intro p hp
  obtain ⟨_, hb⟩ := h3 p hp
  rw [sub_u64_of_le t dmx.last_timecode (Nat.le_of_lt hlt) ht] at hb
  refine ⟨_, hb, ?_, ?_, ?_⟩
  · have := Nat.mul_div_le (t - dmx.last_timecode) dmx.segments.length
    omega
  · have := Nat.lt_mul_div_succ (t - dmx.last_timecode) hkpos
    rw [Nat.mul_add, Nat.mul_one] at this
    omega
  · have hle := Nat.mul_div_le (t - dmx.last_timecode) dmx.segments.length
    constructor
    · intro h
      exact ⟨(t - dmx.last_timecode) / dmx.segments.length, by omega⟩
    · intro h
      have := Nat.mul_div_cancel' h
      omega

/-- Witness for C8: timecodes 100, 100, 100, 160; the group ends at 160. -/
theorem flushed_group_end_witness :
    (let dmx := sample_pending_100
     let r := queue_audio_frames 2 dmx [4] 160 0
     let ps := r.delivered.drop dmx.delivered.length
     ps.length = dmx.segments.length ∧
     ∀ p ∈ ps, ∃ d : Nat, p.duration = some d ∧
       dmx.last_timecode + dmx.segments.length * d ≤ 160 ∧
       160 < dmx.last_timecode + dmx.segments.length * d + dmx.segments.length ∧
       (dmx.last_timecode + dmx.segments.length * d = 160
         ↔ dmx.segments.length ∣ 160 - dmx.last_timecode)) ∧
    (queue_audio_frames 2 sample_pending_100 [4] 160 0).delivered.map (fun p => p.duration)
      = [some 20, some 20, some 20] :=
  ⟨flushed_group_end 2 sample_pending_100 [4] 160 0 (by decide) (by decide) (by decide)
      (by decide),
   by decide⟩

/-! ## Theorems: the end-of-stream flush -/

/-- A track that is not audio, or whose queue is empty, is left alone by the
loop body of `finish`: nothing is delivered. -/
theorem finish_one_idle (KF : Nat) (dmx : real_demuxer_t)
    (h : dmx.track.type ≠ rmff_track_type.audio ∨ dmx.segments = []) :
    finish_one KF dmx = some dmx := by
  rcases h with h | h
  · simp [finish_one, h]
  · simp [finish_one, h]

/-- When at least one packet was delivered before, the loop body of `finish`
delivers every pending frame of an audio track at `last_timecode` with the
duration `last_timecode / num_packets` and empties the queue. -/
theorem finish_one_flush (KF : Nat) (dmx : real_demuxer_t)
    (ha : dmx.track.type = rmff_track_type.audio) (hp : dmx.ptzr ≠ -1)
    (hk : dmx.segments ≠ []) (hn : 0 < dmx.num_packets) :
    ∃ (r : real_demuxer_t) (ps : List packet_t),
      finish_one KF dmx = some r ∧
      r.delivered = dmx.delivered ++ ps ∧
      ps.map (fun p => p.data) = dmx.segments.map (fun s => s.data) ∧
      (∀ p ∈ ps, p.timecode = some dmx.last_timecode ∧
        p.duration = some (dmx.last_timecode / dmx.num_packets)) ∧
      r.segments = [] := by
  obtain ⟨ps, h1, h2, h3, h4, _⟩ :=
    deliver_audio_frames_flush KF dmx (dmx.last_timecode / dmx.num_packets) hp hk
  have hne : dmx.segments.isEmpty = false := by
    cases hs : dmx.segments with
    | nil => exact absurd hs hk
    | cons a l => rfl
  have hn0 : dmx.num_packets ≠ 0 := Nat.pos_iff_ne_zero.mp hn
  exact ⟨_, ps, by simp [finish_one, ha, hne, hn0], h1, h2, h3, h4⟩

/-- The payloads delivered so far followed by the payloads still pending are
the payloads queued so far: `queue_audio_frames` adds the new payload at the
end and neither loses nor reorders one. -/
theorem queue_audio_frames_payloads (KF : Nat) (dmx : real_demuxer_t) (mem : memory_c)
    (t flags : Nat) (hp : dmx.ptzr ≠ -1) :
    (queue_audio_frames KF dmx mem t flags).delivered.map (fun p => p.data)
        ++ (queue_audio_frames KF dmx mem t flags).segments.map (fun s => s.data)
      = (dmx.delivered.map (fun p => p.data) ++ dmx.segments.map (fun s => s.data)) ++ [mem] := by
  by_cases h : dmx.segments = [] ∨ dmx.last_timecode = t
  · have hc : (dmx.segments.isEmpty || dmx.last_timecode == t) = true := by
      rcases h with h | h
      · simp [h]
      · simp [h]
    simp [queue_audio_frames, queue_one_audio_frame, hc]
  · have hk : dmx.segments ≠ [] := fun hh => h (Or.inl hh)
    have hne : dmx.last_timecode ≠ t := fun hh => h (Or.inr hh)
    obtain ⟨ps, h1, h2, _, h4, _⟩ := queue_audio_frames_change KF dmx mem t flags hp hk hne
    rw [h1, h4]
    simp [h2]

/-- C5 (evaluation at the failing input): three frames were queued at timecode
500 on an audio track with a packetizer, so none was delivered yet and
`num_packets` is 0.  `finish` then divides 500 by 0: it faults, and no pending
frame is delivered. -/
theorem finish_first_group_faults :
    (queue_audio_frames 2 (queue_audio_frames 2 (queue_audio_frames 2 sample_audio_dmx
        [1] 500 2) [2] 500 0) [3] 500 0).num_packets = 0 ∧
    (queue_audio_frames 2 (queue_audio_frames 2 (queue_audio_frames 2 sample_audio_dmx
        [1] 500 2) [2] 500 0) [3] 500 0).segments.length = 3 ∧
    finish 2 { demuxers := [queue_audio_frames 2 (queue_audio_frames 2 (queue_audio_frames 2
        sample_audio_dmx [1] 500 2) [2] 500 0) [3] 500 0], done := false } = none := by
  decide

/-- C6 (evaluation at the failing input): a single frame is queued on an audio
track with a packetizer and `finish` follows.  The frame is still pending,
`num_packets` is 0, and `finish` faults on the division: the sink never
receives the frame. -/
theorem single_frame_then_finish_faults :
    (queue_audio_frames 2 sample_audio_dmx [7] 100 2).delivered = [] ∧
    (queue_audio_frames 2 sample_audio_dmx [7] 100 2).segments
      = [{ data := [7], flags := 2 }] ∧
    finish 2 { demuxers := [queue_audio_frames 2 sample_audio_dmx [7] 100 2],
               done := false } = none := by
  decide

/-! ## Theorems: the AAC sub-packet splitter -/

/-- A read inside the chunk returns the byte. -/
theorem read_u8_eq (chunk : memory_c) (i : Nat) (h : i < chunk.length) :
    read_u8 chunk i = some (chunk.getD i 0).val := by
  unfold read_u8
  simp [List.getD, List.get?_eq_getElem?, List.getElem?_eq_getElem h]

/-- Reading the `i`-th table entry succeeds when its two bytes are inside the
chunk. -/
theorem get_uint16_be_table (chunk : memory_c) (i : Nat) (h : 2 + i * 2 + 1 < chunk.length) :
    get_uint16_be chunk (2 + i * 2) = some (aac_sub_length chunk i) := by
  unfold get_uint16_be aac_sub_length
  rw [read_u8_eq chunk (2 + i * 2) (by omega), read_u8_eq chunk (2 + i * 2 + 1) h]

/-- The partial sums of the length table grow with the number of entries. -/
theorem aac_table_sum_mono (chunk : memory_c) (i : Nat) :
    ∀ k, aac_table_sum chunk i ≤ aac_table_sum chunk (i + k) := by
  intro k
  induction k with
  | zero => exact Nat.le_refl _
  | succ k ih =>
      have : aac_table_sum chunk (i + (k + 1))
          = aac_table_sum chunk (i + k) + aac_sub_length chunk (i + k) := rfl
      omega

/-- The first loop adds the table entries to `len_check`. -/
theorem aac_len_check_loop_eq (chunk : memory_c) (base : Nat) :
    ∀ (k i : Nat), 2 + (i + k) * 2 ≤ chunk.length →
      aac_len_check_loop chunk k i (base + aac_table_sum chunk i)
        = some (base + aac_table_sum chunk (i + k)) := by
  intro k
  induction k with
  | zero => intro i _; rfl
  | succ k ih =>
      intro i h
      have hi : 2 + i * 2 + 1 < chunk.length := by omega
      have hrec := ih (i + 1) (by omega)
      have hs : aac_table_sum chunk (i + 1) = aac_table_sum chunk i + aac_sub_length chunk i := rfl
      simp only [aac_len_check_loop, get_uint16_be_table chunk i hi]
      rw [Nat.add_assoc, ← hs, hrec]
      have hidx : i + 1 + k = i + (k + 1) := by omega
      rw [hidx]

/-- The second loop appends one packet per table entry, cut at the running
`data_idx`, provided the table and all slices fit into the chunk. -/
theorem aac_deliver_loop_eq (chunk : memory_c) (base : Nat) :
    ∀ (k i : Nat) (sink : List packet_t), 2 + (i + k) * 2 ≤ chunk.length →
      base + aac_table_sum chunk (i + k) ≤ chunk.length →
      aac_deliver_loop chunk k i (base + aac_table_sum chunk i) sink
        = some (sink ++ (List.range' i k).map (fun j =>
            packet_t.of_memory
              ((chunk.drop (base + aac_table_sum chunk j)).take (aac_sub_length chunk j)))) := by
  intro k
  induction k with
  | zero => intro i sink _ _; simp [aac_deliver_loop]
  | succ k ih =>
      intro i sink h hb
      have hi : 2 + i * 2 + 1 < chunk.length := by omega
      have hs : aac_table_sum chunk (i + 1) = aac_table_sum chunk i + aac_sub_length chunk i := rfl
      have hmono := aac_table_sum_mono chunk (i + 1) k
      have hidx : i + 1 + k = i + (k + 1) := by omega
      rw [hidx] at hmono
      have hfit : base + aac_table_sum chunk i + aac_sub_length chunk i ≤ chunk.length := by
        omega
      have hrec := ih (i + 1)
        (sink ++ [packet_t.of_memory
          ((chunk.drop (base + aac_table_sum chunk i)).take (aac_sub_length chunk i))])
        (by omega) (by rw [hidx]; exact hb)
      simp only [aac_deliver_loop, get_uint16_be_table chunk i hi, sub_memory, hfit, if_true]
      rw [Nat.add_assoc, ← hs, hrec]
      simp [List.range']

/-- Closed form of `deliver_aac_frames`: it never faults; an accepted chunk is
split into its declared slices, any other chunk leaves the track unchanged. -/
theorem deliver_aac_frames_eq (dmx : real_demuxer_t) (mem : memory_c) :
    deliver_aac_frames dmx mem
      = some (if 2 ≤ mem.length ∧ aac_data_idx mem (aac_num_sub_packets mem) = mem.length then
          { dmx with delivered := dmx.delivered ++
              (List.range (aac_num_sub_packets mem)).map (fun j =>
                packet_t.of_memory
                  ((mem.drop (aac_data_idx mem j)).take (aac_sub_length mem j))) }
        else dmx) := by
  by_cases h2 : 2 ≤ mem.length
  · have hb : read_u8 mem 1 = some (mem.getD 1 0).val := read_u8_eq mem 1 (by omega)
    have hlt : ¬ (2 > mem.length) := by omega
    have hn : (mem.getD 1 0).val >>> 4 = aac_num_sub_packets mem := rfl
    simp only [deliver_aac_frames, hlt, if_false, hb, hn]
    by_cases ht : 2 + aac_num_sub_packets mem * 2 > mem.length
    · have hne : aac_data_idx mem (aac_num_sub_packets mem) ≠ mem.length := by
        unfold aac_data_idx
        omega
      simp [ht, hne]
    · have hfit : 2 + (0 + aac_num_sub_packets mem) * 2 ≤ mem.length := by omega
      have hlen := aac_len_check_loop_eq mem (2 + aac_num_sub_packets mem * 2)
        (aac_num_sub_packets mem) 0 hfit
      simp only [aac_table_sum, Nat.add_zero, Nat.zero_add] at hlen
      simp only [ht, if_false, hlen]
      by_cases hc : aac_data_idx mem (aac_num_sub_packets mem) = mem.length
      · have hc1 : 2 + aac_num_sub_packets mem * 2
            + aac_table_sum mem (aac_num_sub_packets mem) = mem.length := hc
        have hdl := aac_deliver_loop_eq mem (2 + aac_num_sub_packets mem * 2)
          (aac_num_sub_packets mem) 0 dmx.delivered hfit (by rw [Nat.zero_add]; omega)
        simp only [aac_table_sum, Nat.add_zero] at hdl
        simp only [hc1, ne_eq, not_true_eq_false, if_false, hdl, h2, hc, and_self, if_true]
        simp [List.range_eq_range', aac_data_idx]
      · have hc1 : ¬ (2 + aac_num_sub_packets mem * 2
            + aac_table_sum mem (aac_num_sub_packets mem) = mem.length) := hc
        simp [hc1, hc]
  · have hlt : 2 > mem.length := by omega
    simp [deliver_aac_frames, hlt, h2]

/-- The first `k` slices, put together, are the first `l_0 + ... + l_(k-1)`
bytes after the table. -/
theorem aac_slices_join (mem : memory_c) (base : Nat) :
    ∀ k, ((List.range k).map (fun j =>
        (mem.drop (base + aac_table_sum mem j)).take (aac_sub_length mem j))).flatten
      = (mem.drop base).take (aac_table_sum mem k) := by
  intro k
  induction k with
  | zero => simp [aac_table_sum]
  | succ k ih =>
      rw [List.range_succ, List.map_append, List.flatten_append, ih]
      simp only [List.map_cons, List.map_nil, List.flatten_cons, List.flatten_nil,
        List.append_nil, aac_table_sum]
      rw [List.take_add, List.drop_drop]

/-- C2: `deliver_aac_frames` always returns, and with n = byte[1] >> 4 declared
sub-packets and table entries l_0 .. l_(n-1), the number of packets it hands to
the sink is n when the chunk has at least 2 bytes and
2 + 2n + (l_0 + ... + l_(n-1)) equals its length, and 0 in every other case
(shorter than the header, shorter than the table, or a length-sum mismatch). -/
theorem deliver_aac_frames_count (dmx : real_demuxer_t) (mem : memory_c) :
    ∃ r : real_demuxer_t,
      deliver_aac_frames dmx mem = some r ∧
      r.delivered.length = dmx.delivered.length +
        (if 2 ≤ mem.length ∧
            2 + 2 * aac_num_sub_packets mem + aac_table_sum mem (aac_num_sub_packets mem)
              = mem.length
         then aac_num_sub_packets mem else 0) := by
  refine ⟨_, deliver_aac_frames_eq dmx mem, ?_⟩
  have hidx : aac_data_idx mem (aac_num_sub_packets mem)
      = 2 + 2 * aac_num_sub_packets mem + aac_table_sum mem (aac_num_sub_packets mem) := by
    unfold aac_data_idx
    omega
  rw [hidx]
  split <;> simp

/-- C3: whenever a chunk is accepted, the packets handed to the sink are, in
table order, the slices of the chunk that start at
2 + 2n + (l_0 + ... + l_(i-1)) and have l_i bytes; each lies inside the chunk,
they follow one another without gap or overlap, and their concatenation is
the chunk from offset 2 + 2n to its end. -/
theorem deliver_aac_frames_split (dmx : real_demuxer_t) (mem : memory_c)
    (h2 : 2 ≤ mem.length)
    (hsum : 2 + 2 * aac_num_sub_packets mem + aac_table_sum mem (aac_num_sub_packets mem)
      = mem.length) :
    ∃ r : real_demuxer_t,
      deliver_aac_frames dmx mem = some r ∧
      r.delivered = dmx.delivered ++ (List.range (aac_num_sub_packets mem)).map (fun i =>
        packet_t.of_memory
          ((mem.drop (2 + 2 * aac_num_sub_packets mem + aac_table_sum mem i)).take
            (aac_sub_length mem i))) ∧
      (∀ i, i < aac_num_sub_packets mem →
        ((mem.drop (2 + 2 * aac_num_sub_packets mem + aac_table_sum mem i)).take
            (aac_sub_length mem i)).length = aac_sub_length mem i ∧
        2 + 2 * aac_num_sub_packets mem + aac_table_sum mem i + aac_sub_length mem i
          ≤ mem.length) ∧
      ((List.range (aac_num_sub_packets mem)).map (fun i =>
          (mem.drop (2 + 2 * aac_num_sub_packets mem + aac_table_sum mem i)).take
            (aac_sub_length mem i))).flatten
        = mem.drop (2 + 2 * aac_num_sub_packets mem) := by
  have hidx : ∀ j, aac_data_idx mem j
      = 2 + 2 * aac_num_sub_packets mem + aac_table_sum mem j := by
    intro j
    unfold aac_data_idx
    omega
  have hfit : ∀ i, i < aac_num_sub_packets mem →
      2 + 2 * aac_num_sub_packets mem + aac_table_sum mem i + aac_sub_length mem i
        ≤ mem.length := by
    intro i hi
    have hs : aac_table_sum mem (i + 1) = aac_table_sum mem i + aac_sub_length mem i := rfl
    have hmono := aac_table_sum_mono mem (i + 1) (aac_num_sub_packets mem - (i + 1))
    have he : i + 1 + (aac_num_sub_packets mem - (i + 1)) = aac_num_sub_packets mem := by omega
    rw [he] at hmono
    omega
  refine ⟨_, deliver_aac_frames_eq dmx mem, ?_, ?_, ?_⟩
  · simp only [hidx, h2, hsum, and_self, if_true]
  · intro i hi
    refine ⟨?_, hfit i hi⟩
    have := hfit i hi
    rw [List.length_take, List.length_drop]
    omega
  · rw [aac_slices_join mem (2 + 2 * aac_num_sub_packets mem) (aac_num_sub_packets mem)]
    apply List.take_of_length_le
    rw [List.length_drop]
    omega

/-- Witness for C3: a chunk declaring two sub-packets of 1 and 2 bytes. -/
theorem deliver_aac_frames_split_witness :
    ∃ r : real_demuxer_t,
      deliver_aac_frames sample_audio_dmx [0, 32, 0, 1, 0, 2, 10, 20, 30] = some r ∧
      r.delivered = sample_audio_dmx.delivered ++
        (List.range (aac_num_sub_packets [0, 32, 0, 1, 0, 2, 10, 20, 30])).map (fun i =>
          packet_t.of_memory
            ((List.drop (2 + 2 * aac_num_sub_packets [0, 32, 0, 1, 0, 2, 10, 20, 30]
                + aac_table_sum [0, 32, 0, 1, 0, 2, 10, 20, 30] i)
              ([0, 32, 0, 1, 0, 2, 10, 20, 30] : memory_c)).take
              (aac_sub_length [0, 32, 0, 1, 0, 2, 10, 20, 30] i))) ∧
      (∀ i, i < aac_num_sub_packets [0, 32, 0, 1, 0, 2, 10, 20, 30] →
        ((List.drop (2 + 2 * aac_num_sub_packets [0, 32, 0, 1, 0, 2, 10, 20, 30]
              + aac_table_sum [0, 32, 0, 1, 0, 2, 10, 20, 30] i)
            ([0, 32, 0, 1, 0, 2, 10, 20, 30] : memory_c)).take
            (aac_sub_length [0, 32, 0, 1, 0, 2, 10, 20, 30] i)).length
          = aac_sub_length [0, 32, 0, 1, 0, 2, 10, 20, 30] i ∧
        2 + 2 * aac_num_sub_packets [0, 32, 0, 1, 0, 2, 10, 20, 30]
            + aac_table_sum [0, 32, 0, 1, 0, 2, 10, 20, 30] i
            + aac_sub_length [0, 32, 0, 1, 0, 2, 10, 20, 30] i
          ≤ ([0, 32, 0, 1, 0, 2, 10, 20, 30] : memory_c).length) ∧
      ((List.range (aac_num_sub_packets [0, 32, 0, 1, 0, 2, 10, 20, 30])).map (fun i =>
          (List.drop (2 + 2 * aac_num_sub_packets [0, 32, 0, 1, 0, 2, 10, 20, 30]
              + aac_table_sum [0, 32, 0, 1, 0, 2, 10, 20, 30] i)
            ([0, 32, 0, 1, 0, 2, 10, 20, 30] : memory_c)).take
            (aac_sub_length [0, 32, 0, 1, 0, 2, 10, 20, 30] i))).flatten
        = List.drop (2 + 2 * aac_num_sub_packets [0, 32, 0, 1, 0, 2, 10, 20, 30])
            ([0, 32, 0, 1, 0, 2, 10, 20, 30] : memory_c) :=
  deliver_aac_frames_split sample_audio_dmx [0, 32, 0, 1, 0, 2, 10, 20, 30]
    (by decide) (by decide)

/-- The accepted chunk of the witness, evaluated: two packets, `[10]` and
`[20, 30]`. -/
theorem deliver_aac_frames_split_example :
    (deliver_aac_frames sample_audio_dmx [0, 32, 0, 1, 0, 2, 10, 20, 30]).map
        (fun r => r.delivered.map (fun p => p.data))
      = some [[10], [20, 30]] := by
  decide

/-- A header declaring 3 sub-packets with a 6-byte table whose lengths
(1, 1, 1) do not add up to the 2 payload bytes: nothing is emitted. -/
theorem deliver_aac_frames_mismatch_example :
    deliver_aac_frames sample_audio_dmx [0, 48, 0, 1, 0, 1, 0, 1, 10, 20]
      = some sample_audio_dmx := by
  decide

/-- C4: for every chunk, of any length and content, `deliver_aac_frames` never
takes the out-of-range branch: every read of byte 1, of the table bytes and
every slice it cuts stays inside the chunk.  In particular, when the table is
read (2 + 2n <= length) its bytes 2 + 2i and 3 + 2i, i < n, are inside the
chunk, and when slices are cut (2 + 2n + sum = length) every byte of the i-th
slice is. -/
theorem deliver_aac_frames_in_bounds (dmx : real_demuxer_t) (mem : memory_c) :
    (deliver_aac_frames dmx mem).isSome = true ∧
    (2 + aac_num_sub_packets mem * 2 ≤ mem.length →
      ∀ i, i < aac_num_sub_packets mem →
        2 + i * 2 < mem.length ∧ 3 + i * 2 < mem.length ∧
        get_uint16_be mem (2 + i * 2) = some (aac_sub_length mem i)) ∧
    (2 + aac_num_sub_packets mem * 2 + aac_table_sum mem (aac_num_sub_packets mem)
        = mem.length →
      ∀ i, i < aac_num_sub_packets mem → ∀ j, j < aac_sub_length mem i →
        aac_data_idx mem i + j < mem.length) := by
  refine ⟨?_, ?_, ?_⟩
  · rw [deliver_aac_frames_eq]
    rfl
  · intro h i hi
    have h3 : 2 + i * 2 + 1 < mem.length := by omega
    exact ⟨by omega, by omega, get_uint16_be_table mem i h3⟩
  · intro h i hi j hj
    have hs : aac_table_sum mem (i + 1) = aac_table_sum mem i + aac_sub_length mem i := rfl
    have hmono := aac_table_sum_mono mem (i + 1) (aac_num_sub_packets mem - (i + 1))
    have he : i + 1 + (aac_num_sub_packets mem - (i + 1)) = aac_num_sub_packets mem := by omega
    rw [he] at hmono
    unfold aac_data_idx
    omega

/-! ## Theorems: keyframe forcing in `read` -/

/-- A COOK track receiving frames with flags 0, 0, 2, 0: the flag is set by the
first frame, cleared by the third, and the queued flags are 2, 2, 2, 0. -/
theorem force_keyframe_example :
    (read_frames 2 (fun _ _ => { width := 0, height := 0, rv_dimensions := false, packets := [] })
        { sample_audio_dmx with cook_audio_fix := true }
        [{ id := 1, timecode := 0, flags := 0, data := [1] },
         { id := 1, timecode := 0, flags := 0, data := [2] },
         { id := 1, timecode := 0, flags := 2, data := [3] },
         { id := 1, timecode := 0, flags := 0, data := [4] }]).map
      (fun states => states.map (fun s => (s.force_keyframe_flag, s.segments.map (fun g => g.flags))))
    = some [(true, [2]), (true, [2, 2]), (false, [2, 2, 2]), (false, [2, 2, 2, 0])] := by
  decide


/-! ## Theorems: the track directory -/

/-- The video branch keeps the demuxer bound to its track. -/
theorem parse_video_track_track (L : props_layout) (track : rmff_track_t) (dmx r : real_demuxer_t)
    (h : parse_video_track L track dmx = some (track_result.produced r)) :
    r.track = dmx.track := by
  unfold parse_video_track at h
  dsimp only at h
  split at h
  · simp only [Option.some.injEq, track_result.produced.injEq] at h
    subst h
    rfl
  · simp at h

/-- The version-4 branch keeps the demuxer bound to its track. -/
theorem parse_audio_v4_track (L : props_layout) (track : rmff_track_t) (dmx r : real_demuxer_t)
    (ok : Bool) (h : parse_audio_v4 L track dmx = some (ok, r)) :
    r.track = dmx.track := by
  unfold parse_audio_v4 at h
  dsimp only at h
  repeat' split at h
  all_goals first
    | (simp only [Option.some.injEq, Prod.mk.injEq] at h; obtain ⟨_, h⟩ := h; subst h; rfl)
    | (simp at h)

/-- The version-5 branch keeps the demuxer bound to its track. -/
theorem parse_audio_v5_track (L : props_layout) (track : rmff_track_t) (dmx r : real_demuxer_t)
    (ok : Bool) (h : parse_audio_v5 L track dmx = some (ok, r)) :
    r.track = dmx.track := by
  unfold parse_audio_v5 at h
  dsimp only at h
  repeat' split at h
  all_goals first
    | (simp only [Option.some.injEq, Prod.mk.injEq] at h; obtain ⟨_, h⟩ := h; subst h; rfl)
    | (simp at h)

/-- The audio branch keeps the demuxer bound to its track. -/
theorem parse_audio_track_track (L : props_layout) (track : rmff_track_t) (dmx r : real_demuxer_t)
    (h : parse_audio_track L track dmx = some (track_result.produced r)) :
    r.track = dmx.track := by
  unfold parse_audio_track at h
  dsimp only at h
  split at h
  · simp at h
  · rename_i version _
    split at h
    · simp at h
    · rename_i ok dmx1 hparsed
      have hd : dmx1.track = dmx.track := by
        by_cases h3 : 3 = version
        · simp only [h3, if_true, Option.some.injEq, Prod.mk.injEq] at hparsed
          obtain ⟨_, hh⟩ := hparsed
          subst hh
          rfl
        · by_cases h4 : 4 = version
          · simp only [h3, if_false, h4, if_true] at hparsed
            exact parse_audio_v4_track L track dmx dmx1 ok hparsed
          · by_cases h5 : 5 = version
            · simp only [h3, if_false, h4, h5, if_true] at hparsed
              exact parse_audio_v5_track L track dmx dmx1 ok hparsed
            · simp only [h3, if_false, h4, h5, Option.some.injEq, Prod.mk.injEq] at hparsed
              obtain ⟨_, hh⟩ := hparsed
              subst hh
              rfl
      split at h
      · split at h
        · simp at h
        · simp only [Option.some.injEq, track_result.produced.injEq] at h
          subst h
          exact hd
      · simp at h

/-- A demuxer that the loop body produces belongs to the track it was given,
and that track has one of the two RealMedia mime strings. -/
theorem parse_track_produced (L : props_layout) (requested : Char → Nat → Bool)
    (track : rmff_track_t) (r : real_demuxer_t)
    (h : parse_track L requested track = some (track_result.produced r)) :
    r.track = track ∧
    (track.mime_type = some MIME_AUDIO ∨ track.mime_type = some MIME_VIDEO) := by
  unfold parse_track at h
  split at h
  · simp at h
  · split at h
    · simp at h
    · split at h
      · simp at h
      · split at h
        · simp at h
        · rename_i hm
          have hmime : track.mime_type = some MIME_AUDIO ∨ track.mime_type = some MIME_VIDEO := by
            by_cases ha : track.mime_type = some MIME_AUDIO
            · exact Or.inl ha
            · by_cases hv : track.mime_type = some MIME_VIDEO
              · exact Or.inr hv
              · exact absurd (Or.inr ⟨ha, hv⟩) hm
          refine ⟨?_, hmime⟩
          split at h
          · exact parse_video_track_track L track _ r h
          · split at h
            · exact parse_audio_track_track L track _ r h
            · simp at h

/-- A track without one of the two RealMedia mime strings is skipped by the
loop body, without any read of its type-specific data. -/
theorem parse_track_bad_mime (L : props_layout) (requested : Char → Nat → Bool)
    (track : rmff_track_t)
    (hbad : track.mime_type = none ∨
      (track.mime_type ≠ some MIME_AUDIO ∧ track.mime_type ≠ some MIME_VIDEO)) :
    parse_track L requested track = some track_result.skipped := by
  unfold parse_track
  rw [if_pos hbad]
  split
  · rfl
  · split
    · rfl
    · split
      · rfl
      · rfl

/-- Every demuxer in the result of the loop was there before or was produced
from a track of the directory that has a RealMedia mime string. -/
theorem parse_headers_loop_mem (L : props_layout) (requested : Char → Nat → Bool) :
    ∀ (tracks : List rmff_track_t) (acc ds : List real_demuxer_t),
      parse_headers_loop L requested tracks acc = some ds →
      ∀ d ∈ ds, d ∈ acc ∨
        (d.track ∈ tracks ∧
          (d.track.mime_type = some MIME_AUDIO ∨ d.track.mime_type = some MIME_VIDEO)) := by
  intro tracks
  induction tracks with
  | nil =>
      intro acc ds h d hd
      simp only [parse_headers_loop, Option.some.injEq] at h
      subst h
      exact Or.inl hd
  | cons t rest ih =>
      intro acc ds h d hd
      simp only [parse_headers_loop] at h
      split at h
      · simp at h
      · rcases ih acc ds h d hd with h1 | ⟨h1, h2⟩
        · exact Or.inl h1
        · exact Or.inr ⟨List.mem_cons_of_mem _ h1, h2⟩
      · rename_i dmx hpt
        obtain ⟨e1, e2⟩ := parse_track_produced L requested t dmx hpt
        rcases ih (acc ++ [dmx]) ds h d hd with h1 | ⟨h1, h2⟩
        · rcases List.mem_append.mp h1 with h3 | h3
          · exact Or.inl h3
          · simp only [List.mem_singleton] at h3
            subst h3
            refine Or.inr ⟨?_, ?_⟩
            · rw [e1]; exact List.mem_cons_self _ _
            · rw [e1]; exact e2
        · exact Or.inr ⟨List.mem_cons_of_mem _ h1, h2⟩


/-- C10: a track whose mime string is absent, or is neither
"audio/x-pn-realaudio" nor "video/x-pn-realvideo", is skipped by the loop body
of `parse_headers`, and for every track directory no demuxer of the produced
list belongs to such a track: every produced demuxer belongs to a track of the
directory that has one of the two mime strings. -/
theorem parse_headers_mime_filter (L : props_layout) (requested : Char → Nat → Bool)
    (headers_ok : Bool) (tracks : List rmff_track_t) (track : rmff_track_t)
    (hbad : track.mime_type = none ∨
      (track.mime_type ≠ some MIME_AUDIO ∧ track.mime_type ≠ some MIME_VIDEO)) :
    parse_track L requested track = some track_result.skipped ∧
    (∀ ds : List real_demuxer_t, parse_headers L requested headers_ok tracks = some ds →
      ∀ d ∈ ds, d.track ≠ track ∧ d.track ∈ tracks ∧
        (d.track.mime_type = some MIME_AUDIO ∨ d.track.mime_type = some MIME_VIDEO)) := by
  refine ⟨parse_track_bad_mime L requested track hbad, ?_⟩
  intro ds h d hd
  have hgood : d.track ∈ tracks ∧
      (d.track.mime_type = some MIME_AUDIO ∨ d.track.mime_type = some MIME_VIDEO) := by
    unfold parse_headers at h
    split at h
    · simp only [Option.some.injEq] at h
      subst h
      simp at hd
    · rcases parse_headers_loop_mem L requested tracks [] ds h d hd with h1 | h1
      · simp at h1
      · exact h1
  refine ⟨?_, hgood.1, hgood.2⟩
  intro heq
  rw [heq] at hgood
  rcases hbad with hn | ⟨ha, hv⟩
  · rcases hgood.2 with g | g <;> rw [hn] at g <;> simp at g
  · rcases hgood.2 with g | g
    · exact ha g
    · exact hv g

/-- Witness for C10: in `sample_directory` the track with the mime string
"application/octet-stream" is skipped; only the RealVideo track is produced. -/
theorem parse_headers_mime_filter_witness :
    (sample_foreign_mime_track.mime_type = none ∨
      (sample_foreign_mime_track.mime_type ≠ some MIME_AUDIO ∧
        sample_foreign_mime_track.mime_type ≠ some MIME_VIDEO)) ∧
    (parse_track sample_layout (fun _ _ => true) sample_foreign_mime_track
        = some track_result.skipped ∧
      (∀ ds : List real_demuxer_t,
        parse_headers sample_layout (fun _ _ => true) true sample_directory = some ds →
        ∀ d ∈ ds, d.track ≠ sample_foreign_mime_track ∧ d.track ∈ sample_directory ∧
          (d.track.mime_type = some MIME_AUDIO ∨ d.track.mime_type = some MIME_VIDEO))) ∧
    (parse_headers sample_layout (fun _ _ => true) true sample_directory).map
        (fun ds => ds.map (fun d => [d.track.id, d.width, d.height]))
      = some [[0, 320, 240]] :=
  ⟨by decide,
   parse_headers_mime_filter sample_layout (fun _ _ => true) true sample_directory
     sample_foreign_mime_track (by decide),
   by decide⟩

/-- The track of the witness is well-formed apart from its mime string: with
"audio/x-pn-realaudio" in its place the loop body produces a demuxer for it. -/
theorem parse_track_mime_only_example :
    parse_track sample_layout (fun _ _ => true)
        { sample_foreign_mime_track with mime_type := some MIME_AUDIO }
      = some (track_result.produced
          { real_demuxer_t.create { sample_foreign_mime_track with mime_type := some MIME_AUDIO }
            with samples_per_second := 8000, channels := 1, bits_per_sample := 16,
                 fourcc := [49, 52, 95, 52], private_data := some [46, 114, 97, 253, 0, 3],
                 private_size := 6 }) := by
  decide

/-! ## Theorems: the reference timecode of a flush -/

/-- The loop of `deliver_audio_frames` over a concatenation runs over the
first part and continues over the second. -/
theorem deliver_audio_loop_append (KF L d : Nat) :
    ∀ (xs ys : List rv_segment_t) (ref : Int) (sink : List packet_t),
      deliver_audio_loop KF L d (xs ++ ys) ref sink
        = deliver_audio_loop KF L d ys (deliver_audio_loop KF L d xs ref sink).1
            (deliver_audio_loop KF L d xs ref sink).2 := by
  intro xs
  induction xs with
  | nil => intro ys ref sink; rfl
  | cons x xs ih =>
      intro ys ref sink
      simp only [List.cons_append, deliver_audio_loop]
      exact ih ys _ _

/-- The loop of `deliver_audio_frames` appends exactly one packet per
segment to the sink. -/
theorem deliver_audio_loop_length (KF L d : Nat) :
    ∀ (segs : List rv_segment_t) (ref : Int) (sink : List packet_t),
      ∃ ps : List packet_t,
        (deliver_audio_loop KF L d segs ref sink).2 = sink ++ ps ∧ ps.length = segs.length := by
  intro segs ref sink
  obtain ⟨ps, h1, h2, _⟩ := deliver_audio_loop_sink KF L d segs ref sink
  refine ⟨ps, h1, ?_⟩
  have := congrArg List.length h2
  simpa using this

/-- One more segment at the end of the queue: the packet it becomes and the
reference timecode it leaves. -/
theorem deliver_audio_loop_snoc (KF L d : Nat) (xs : List rv_segment_t) (s : rv_segment_t)
    (ref : Int) (sink : List packet_t) :
    deliver_audio_loop KF L d (xs ++ [s]) ref sink
      = (if s.flags &&& 2 = 2 then (L : Int) else (deliver_audio_loop KF L d xs ref sink).1,
         (deliver_audio_loop KF L d xs ref sink).2 ++
           [{ data := s.data, timecode := some L, duration := some d,
              bref := some (if s.flags &&& KF = KF then -1
                            else (deliver_audio_loop KF L d xs ref sink).1) }]) := by
  rw [deliver_audio_loop_append]
  rfl

/-- The packet made from the `i`-th pending segment. -/
theorem deliver_audio_loop_get (KF L d : Nat) (segs : List rv_segment_t) (ref : Int)
    (sink : List packet_t) (i : Nat) (s : rv_segment_t) (hs : segs[i]? = some s) :
    (deliver_audio_loop KF L d segs ref sink).2[sink.length + i]?
      = some { data := s.data, timecode := some L, duration := some d,
               bref := some (if s.flags &&& KF = KF then -1
                             else (deliver_audio_loop KF L d (segs.take i) ref sink).1) } ∧
    (deliver_audio_loop KF L d (segs.take (i + 1)) ref sink).1
      = (if s.flags &&& 2 = 2 then (L : Int)
         else (deliver_audio_loop KF L d (segs.take i) ref sink).1) := by
  have hi : i < segs.length := by
    by_contra hc
    rw [List.getElem?_eq_none (by omega)] at hs
    exact absurd hs (by simp)
  have htake : segs.take (i + 1) = segs.take i ++ [s] := by
    rw [List.take_succ, hs]
    rfl
  have hsplit : segs = (segs.take i ++ [s]) ++ segs.drop (i + 1) := by
    rw [← htake, List.take_append_drop]
  obtain ⟨ps0, hp0, hl0⟩ := deliver_audio_loop_length KF L d (segs.take i) ref sink
  have hl0' : ps0.length = i := by
    rw [hl0, List.length_take]
    omega
  constructor
  · obtain ⟨ps1, hp1, _⟩ := deliver_audio_loop_length KF L d (segs.drop (i + 1))
      (deliver_audio_loop KF L d (segs.take i ++ [s]) ref sink).1
      (deliver_audio_loop KF L d (segs.take i ++ [s]) ref sink).2
    have h := deliver_audio_loop_append KF L d (segs.take i ++ [s]) (segs.drop (i + 1)) ref sink
    rw [← hsplit] at h
    rw [h, hp1, deliver_audio_loop_snoc, hp0]
    simp only [List.append_assoc]
    rw [List.getElem?_append_right (by omega)]
    rw [List.getElem?_append_right (by omega)]
    simp [hl0']
  · rw [htake, deliver_audio_loop_snoc]

/-- The reference timecode left by `deliver_audio_frames` on a track with a
packetizer is the one the loop computes, whatever the queue. -/
theorem deliver_audio_frames_ref (KF : Nat) (dmx : real_demuxer_t) (d : Nat)
    (xs : List rv_segment_t) (hp : dmx.ptzr ≠ -1) :
    (deliver_audio_frames KF { dmx with segments := xs } d).ref_timecode
      = (deliver_audio_loop KF dmx.last_timecode d xs dmx.ref_timecode dmx.delivered).1 ∧
    (deliver_audio_frames KF { dmx with segments := xs } d).delivered
      = (deliver_audio_loop KF dmx.last_timecode d xs dmx.ref_timecode dmx.delivered).2 := by
  have hpz : (dmx.ptzr == -1) = false := by simpa using hp
  cases xs with
  | nil => simp [deliver_audio_frames, deliver_audio_loop]
  | cons x xs => simp [deliver_audio_frames, hpz]

/-- C19: a flush by `deliver_audio_frames` on a track with a packetizer, the
pending frames taken in order.  With `ref_at i` the reference timecode of the
track after the first `i` pending frames: the packet of frame `i` carries -1 as
backward reference when the frame has the keyframe flag and `ref_at i`
otherwise; after a frame with bit value 2 set the reference timecode is
`last_timecode`, after a frame without it the reference timecode is unchanged;
`ref_at 0` is the reference timecode before the flush and the one left after
the flush is `ref_at` of the queue length. -/
theorem deliver_audio_frames_reference_timecode (KF : Nat) (dmx : real_demuxer_t) (d : Nat)
    (hp : dmx.ptzr ≠ -1) :
    let ref_at := fun (i : Nat) =>
      (deliver_audio_frames KF { dmx with segments := dmx.segments.take i } d).ref_timecode
    ref_at 0 = dmx.ref_timecode ∧
    (deliver_audio_frames KF dmx d).ref_timecode = ref_at dmx.segments.length ∧
    ∀ (i : Nat) (s : rv_segment_t), dmx.segments[i]? = some s →
      (deliver_audio_frames KF dmx d).delivered[dmx.delivered.length + i]?
        = some { data := s.data, timecode := some dmx.last_timecode, duration := some d,
                 bref := some (if s.flags &&& KF = KF then -1 else ref_at i) } ∧
      ref_at (i + 1) = (if s.flags &&& 2 = 2 then (dmx.last_timecode : Int) else ref_at i) := by
  intro ref_at
  have hall : ∀ xs, (deliver_audio_frames KF { dmx with segments := xs } d).ref_timecode
      = (deliver_audio_loop KF dmx.last_timecode d xs dmx.ref_timecode dmx.delivered).1 :=
    fun xs => (deliver_audio_frames_ref KF dmx d xs hp).1
  have hself : ({ dmx with segments := dmx.segments } : real_demuxer_t) = dmx := rfl
  refine ⟨?_, ?_, ?_⟩
  · show (deliver_audio_frames KF { dmx with segments := dmx.segments.take 0 } d).ref_timecode
      = dmx.ref_timecode
    rw [hall]
    rfl
  · show (deliver_audio_frames KF dmx d).ref_timecode
      = (deliver_audio_frames KF
          { dmx with segments := dmx.segments.take dmx.segments.length } d).ref_timecode
    rw [List.take_length]
  · intro i s hs
    obtain ⟨h1, h2⟩ := deliver_audio_loop_get KF dmx.last_timecode d dmx.segments
      dmx.ref_timecode dmx.delivered i s hs
    show (deliver_audio_frames KF dmx d).delivered[dmx.delivered.length + i]? = _ ∧
      (deliver_audio_frames KF { dmx with segments := dmx.segments.take (i + 1) } d).ref_timecode
        = (if s.flags &&& 2 = 2 then (dmx.last_timecode : Int)
           else (deliver_audio_frames KF
             { dmx with segments := dmx.segments.take i } d).ref_timecode)
    rw [hall, hall]
    refine ⟨?_, h2⟩
    have hd := (deliver_audio_frames_ref KF dmx d dmx.segments hp).2
    rw [hself] at hd
    rw [hd, h1]
    simp only [ref_at, hall]


/-- Witness for C19: three frames pending at timecode 100, the first with flags
2 (keyframe bit and bit 2), on a track whose reference timecode is 0. -/
theorem deliver_audio_frames_reference_timecode_witness :
    sample_pending_100.ptzr ≠ -1 ∧
    (deliver_audio_frames 2 sample_pending_100 16).delivered.map (fun p => p.bref)
      = [some (-1), some 100, some 100] ∧
    (deliver_audio_frames 2 sample_pending_100 16).ref_timecode = 100 ∧
    (deliver_audio_frames 2 sample_pending_100 16).ref_timecode
      = (deliver_audio_frames 2
          { sample_pending_100 with
            segments := sample_pending_100.segments.take sample_pending_100.segments.length }
          16).ref_timecode :=
  ⟨by decide, by decide, by decide,
   (deliver_audio_frames_reference_timecode 2 sample_pending_100 16 (by decide)).2.1⟩

/-! ## Theorems: the track directory, track by track -/

/-- The loop of `parse_headers` in closed form: it faults if the loop body
faults on some track, and otherwise appends, in directory order, the demuxers
of the tracks on which the loop body produces one. -/
theorem parse_headers_loop_eq (L : props_layout) (requested : Char → Nat → Bool) :
    ∀ (tracks : List rmff_track_t) (acc : List real_demuxer_t),
      parse_headers_loop L requested tracks acc
        = if tracks.all (fun t => (parse_track L requested t).isSome) then
            some (acc ++ tracks.filterMap (fun t =>
              match parse_track L requested t with
              | some (track_result.produced d) => some d
              | _ => none))
          else none := by
  intro tracks
  induction tracks with
  | nil => intro acc; simp [parse_headers_loop]
  | cons t rest ih =>
      intro acc
      simp only [parse_headers_loop]
      cases h : parse_track L requested t with
      | none => simp [h]
      | some r =>
          cases r with
          | skipped =>
              simp only [ih acc]
              simp [h]
          | produced d =>
              simp only [ih (acc ++ [d])]
              simp [h]

/-- C11: `parse_headers` treats every track of the directory on its own.  The
produced list is, in directory order, the demuxers of exactly those tracks on
which the loop body produces one (the loop faults only if the loop body faults
on some track, that is, reads outside its type-specific data); the outcome of
the loop body for a track depends on the request flags only through the two
flags of that track's id; and a skipped track (unsupported header version,
wrong tag length, or any other skip) can be removed from the directory without
changing the produced list. -/
theorem parse_headers_isolated (L : props_layout) (requested : Char → Nat → Bool)
    (tracks : List rmff_track_t) :
    (parse_headers L requested true tracks
      = if tracks.all (fun t => (parse_track L requested t).isSome) then
          some (tracks.filterMap (fun t =>
            match parse_track L requested t with
            | some (track_result.produced d) => some d
            | _ => none))
        else none) ∧
    (∀ (requested' : Char → Nat → Bool) (t : rmff_track_t),
      requested' 'v' t.id = requested 'v' t.id → requested' 'a' t.id = requested 'a' t.id →
      parse_track L requested' t = parse_track L requested t) ∧
    (∀ (pre post : List rmff_track_t) (t : rmff_track_t),
      parse_track L requested t = some track_result.skipped →
      parse_headers L requested true (pre ++ t :: post)
        = parse_headers L requested true (pre ++ post)) := by
  have hclosed : ∀ ts : List rmff_track_t, parse_headers L requested true ts
      = if ts.all (fun t => (parse_track L requested t).isSome) then
          some (ts.filterMap (fun t =>
            match parse_track L requested t with
            | some (track_result.produced d) => some d
            | _ => none))
        else none := by
    intro ts
    unfold parse_headers
    rw [parse_headers_loop_eq]
    simp
  refine ⟨hclosed tracks, ?_, ?_⟩
  · intro requested' t hv ha
    unfold parse_track
    rw [hv, ha]
  · intro pre post t ht
    rw [hclosed, hclosed]
    simp [List.filterMap_append, ht]


/-- A 16-bit read whose two bytes are inside the buffer succeeds. -/
theorem get_uint16_be_some (chunk : memory_c) (i : Nat) (h : i + 2 ≤ chunk.length) :
    get_uint16_be chunk i
      = some ((chunk.getD i 0).val * 256 + (chunk.getD (i + 1) 0).val) := by
  unfold get_uint16_be
  rw [read_u8_eq chunk i (by omega), read_u8_eq chunk (i + 1) (by omega)]

/-- A slice that ends inside the buffer can be taken. -/
theorem sub_memory_some (chunk : memory_c) (idx len : Nat) (h : idx + len ≤ chunk.length) :
    sub_memory chunk idx len = some ((chunk.drop idx).take len) := by
  unfold sub_memory
  rw [if_pos h]

/-- The version-5 branch never clears `ok`. -/
theorem parse_audio_v5_ok (L : props_layout) (track : rmff_track_t) (dmx r : real_demuxer_t)
    (ok : Bool) (h : parse_audio_v5 L track dmx = some (ok, r)) : ok = true := by
  unfold parse_audio_v5 at h
  dsimp only at h
  repeat' split at h
  all_goals first
    | (simp only [Option.some.injEq, Prod.mk.injEq] at h; exact h.1.symm)
    | (simp at h)

/-- The version-4 branch keeps `ok` exactly when the second length byte after
the fixed structure is 4. -/
theorem parse_audio_v4_ok (L : props_layout) (track : rmff_track_t) (dmx r : real_demuxer_t)
    (ok : Bool) (h : parse_audio_v4 L track dmx = some (ok, r)) :
    ∃ s0 s1 : Nat,
      read_u8 track.type_specific_data L.ra4p_sizeof = some s0 ∧
      read_u8 track.type_specific_data (L.ra4p_sizeof + (s0 + 1)) = some s1 ∧
      (ok = true ↔ s1 = 4) := by
  unfold parse_audio_v4 at h
  dsimp only at h
  split at h
  · split at h
    · simp at h
    · rename_i s0 hs0
      split at h
      · simp at h
      · rename_i s1 hs1
        refine ⟨s0, s1, hs0, hs1, ?_⟩
        split at h
        · rename_i hne
          simp only [Option.some.injEq, Prod.mk.injEq] at h
          constructor
          · intro hok
            rw [hok] at h
            exact absurd h.1 (by decide)
          · intro h4
            exact absurd h4.symm hne
        · rename_i heq
          have h4 : s1 = 4 := by
            by_contra hc
            exact heq (fun hh => hc hh.symm)
          have hok : ok = true := by
            repeat' split at h
            all_goals first
              | (simp only [Option.some.injEq, Prod.mk.injEq] at h; exact h.1.symm)
              | (simp at h)
          exact ⟨fun _ => h4, fun _ => hok⟩
  · simp at h

/-- Whenever the audio branch returns, the track is produced exactly when the
header version is 3 or 5, or is 4 with a second length byte of 4. -/
theorem parse_audio_track_result (L : props_layout) (track : rmff_track_t)
    (dmx : real_demuxer_t) (r : track_result)
    (h : parse_audio_track L track dmx = some r) :
    ∃ v : Nat, get_uint16_be track.type_specific_data L.ra4p_version1 = some v ∧
      ((∃ d, r = track_result.produced d) ↔
        (v = 3 ∨ v = 5 ∨ (v = 4 ∧ ∃ s0 : Nat,
          read_u8 track.type_specific_data L.ra4p_sizeof = some s0 ∧
          read_u8 track.type_specific_data (L.ra4p_sizeof + (s0 + 1)) = some 4))) := by
  unfold parse_audio_track at h
  dsimp only at h
  split at h
  · simp at h
  · rename_i v hv
    refine ⟨v, hv, ?_⟩
    split at h
    · simp at h
    · rename_i ok dmx1 hparsed
      have hprod : (∃ d, r = track_result.produced d) ↔ ok = true := by
        cases ok with
        | true =>
            simp only [if_true] at h
            split at h
            · simp at h
            · simp only [Option.some.injEq] at h
              exact ⟨fun _ => rfl, fun _ => ⟨_, h.symm⟩⟩
        | false =>
            simp only [Bool.false_eq_true, if_false, Option.some.injEq] at h
            constructor
            · rintro ⟨d, hd⟩
              rw [hd] at h
              exact absurd h (by simp)
            · intro hh
              exact absurd hh (by decide)
      rw [hprod]
      by_cases h3 : 3 = v
      · simp only [h3, if_true, Option.some.injEq, Prod.mk.injEq] at hparsed
        exact ⟨fun _ => Or.inl h3.symm, fun _ => hparsed.1.symm⟩
      · by_cases h4 : 4 = v
        · simp only [h3, if_false, h4, if_true] at hparsed
          obtain ⟨s0, s1, e0, e1, e2⟩ := parse_audio_v4_ok L track dmx dmx1 ok hparsed
          constructor
          · intro hok
            refine Or.inr (Or.inr ⟨h4.symm, s0, e0, ?_⟩)
            rw [e1, e2.mp hok]
          · rintro (hh | hh | ⟨_, t0, f0, f1⟩)
            · omega
            · omega
            · rw [e0, Option.some.injEq] at f0
              subst f0
              rw [e1, Option.some.injEq] at f1
              exact e2.mpr f1
        · by_cases h5 : 5 = v
          · simp only [h3, if_false, h4, h5, if_true] at hparsed
            have hok := parse_audio_v5_ok L track dmx dmx1 ok hparsed
            exact ⟨fun _ => Or.inr (Or.inl h5.symm), fun _ => hok⟩
          · simp only [h3, if_false, h4, h5, Option.some.injEq, Prod.mk.injEq] at hparsed
            constructor
            · intro hok
              rw [hok] at hparsed
              exact absurd hparsed.1 (by decide)
            · rintro (hh | hh | ⟨hh, _⟩) <;> omega

/-- For an audio track that passes the type, size, request and mime filters
the loop body is the audio branch on a new demuxer. -/
theorem parse_track_audio (L : props_layout) (requested : Char → Nat → Bool)
    (t : rmff_track_t) (hty : t.type = rmff_track_type.audio) (hsz : t.type_specific_size ≠ 0)
    (hreq : requested 'a' t.id = true)
    (hm : t.mime_type = some MIME_AUDIO ∨ t.mime_type = some MIME_VIDEO) :
    parse_track L requested t = parse_audio_track L t (real_demuxer_t.create t) := by
  have hnm : ¬ (t.mime_type = none ∨
      (t.mime_type ≠ some MIME_AUDIO ∧ t.mime_type ≠ some MIME_VIDEO)) := by
    rintro (h | ⟨h1, h2⟩)
    · rcases hm with g | g <;> rw [h] at g <;> simp at g
    · rcases hm with g | g
      · exact h1 g
      · exact h2 g
  unfold parse_track
  simp [hty, hsz, hreq, hnm]

/-- Existence for the audio branch: which reads have to lie inside the
type-specific data for the branch to return, and what it returns then. -/
theorem parse_audio_track_returns (L : props_layout) (t : rmff_track_t) (dmx : real_demuxer_t)
    (v : Nat) (hv : get_uint16_be t.type_specific_data L.ra4p_version1 = some v) :
    (v ≠ 3 → v ≠ 4 → v ≠ 5 → parse_audio_track L t dmx = some track_result.skipped) ∧
    (v = 3 → t.type_specific_size ≤ t.type_specific_data.length →
      ∃ d, parse_audio_track L t dmx = some (track_result.produced d)) ∧
    (v = 5 →
      L.ra5p_sample_rate + 2 ≤ t.type_specific_data.length →
      L.ra5p_channels + 2 ≤ t.type_specific_data.length →
      L.ra5p_sample_size + 2 ≤ t.type_specific_data.length →
      L.ra5p_fourcc3 + 4 ≤ t.type_specific_data.length →
      t.type_specific_size ≤ t.type_specific_data.length →
      ∃ d, parse_audio_track L t dmx = some (track_result.produced d)) ∧
    (v = 4 →
      L.ra4p_sample_rate + 2 ≤ t.type_specific_data.length →
      L.ra4p_channels + 2 ≤ t.type_specific_data.length →
      L.ra4p_sample_size + 2 ≤ t.type_specific_data.length →
      ∀ s0 s1 : Nat, read_u8 t.type_specific_data L.ra4p_sizeof = some s0 →
        read_u8 t.type_specific_data (L.ra4p_sizeof + (s0 + 1)) = some s1 →
        (s1 ≠ 4 → parse_audio_track L t dmx = some track_result.skipped) ∧
        (s1 = 4 → L.ra4p_sizeof + (s0 + 1) + 1 + 4 ≤ t.type_specific_data.length →
          t.type_specific_size ≤ t.type_specific_data.length →
          ∃ d, parse_audio_track L t dmx = some (track_result.produced d))) := by
  refine ⟨?_, ?_, ?_, ?_⟩
  · intro h3 h4 h5
    have e3 : ¬ (3 = v) := fun h => h3 h.symm
    have e4 : ¬ (4 = v) := fun h => h4 h.symm
    have e5 : ¬ (5 = v) := fun h => h5 h.symm
    simp [parse_audio_track, hv, e3, e4, e5]
  · intro h3 hsz
    subst h3
    have hpriv := sub_memory_some t.type_specific_data 0 t.type_specific_size (by omega)
    simp [parse_audio_track, hv, hpriv]
  · intro h5 b1 b2 b3 b4 hsz
    subst h5
    have hpriv := sub_memory_some t.type_specific_data 0 t.type_specific_size (by omega)
    by_cases hx : L.ra5p_sizeof + 4 < t.type_specific_size
    · simp [parse_audio_track, hv, parse_audio_v5, get_uint16_be_some _ _ b1,
        get_uint16_be_some _ _ b2, get_uint16_be_some _ _ b3, sub_memory_some _ _ _ b4, hx,
        sub_memory_some t.type_specific_data (4 + L.ra5p_sizeof)
          (t.type_specific_size - 4 - L.ra5p_sizeof) (by omega), hpriv]
    · simp [parse_audio_track, hv, parse_audio_v5, get_uint16_be_some _ _ b1,
        get_uint16_be_some _ _ b2, get_uint16_be_some _ _ b3, sub_memory_some _ _ _ b4, hx,
        hpriv]
  · intro h4 b1 b2 b3 s0 s1 hs0 hs1
    subst h4
    constructor
    · intro hne
      have hne' : ¬ (4 = s1) := fun h => hne h.symm
      simp [parse_audio_track, hv, parse_audio_v4, get_uint16_be_some _ _ b1,
        get_uint16_be_some _ _ b2, get_uint16_be_some _ _ b3, hs0, hs1, hne']
    · intro h4 bt hsz
      subst h4
      have hpriv := sub_memory_some t.type_specific_data 0 t.type_specific_size (by omega)
      by_cases hx : t.type_specific_size > L.ra4p_sizeof + (s0 + 1) + 1 + 4
      · simp [parse_audio_track, hv, parse_audio_v4, get_uint16_be_some _ _ b1,
          get_uint16_be_some _ _ b2, get_uint16_be_some _ _ b3, hs0, hs1,
          sub_memory_some _ _ _ bt, hx,
          sub_memory_some t.type_specific_data (L.ra4p_sizeof + (s0 + 1) + 1 + 4)
            (t.type_specific_size - (L.ra4p_sizeof + (s0 + 1) + 1 + 4)) (by omega), hpriv]
      · simp [parse_audio_track, hv, parse_audio_v4, get_uint16_be_some _ _ b1,
          get_uint16_be_some _ _ b2, get_uint16_be_some _ _ b3, hs0, hs1,
          sub_memory_some _ _ _ bt, hx, hpriv]

/-- The produced list of `parse_headers` in closed form: the loop returns
exactly when the loop body returns for every track, and the list then holds,
in directory order, the demuxers of the tracks that the loop body produces. -/
theorem parse_headers_closed (L : props_layout) (requested : Char → Nat → Bool)
    (tracks : List rmff_track_t) :
    parse_headers L requested true tracks
      = if tracks.all (fun t => (parse_track L requested t).isSome) then
          some (tracks.filterMap (fun t =>
            match parse_track L requested t with
            | some (track_result.produced d) => some d
            | _ => none))
        else none := by
  unfold parse_headers
  rw [parse_headers_loop_eq, if_neg (by simp)]
  simp only [List.nil_append]

/-- A track of the directory has a demuxer in the produced list exactly when
the loop body produces one for it. -/
theorem parse_headers_produces (L : props_layout) (requested : Char → Nat → Bool)
    (tracks : List rmff_track_t) (demuxers : List real_demuxer_t)
    (h : parse_headers L requested true tracks = some demuxers)
    (t : rmff_track_t) (ht : t ∈ tracks) :
    ∃ r, parse_track L requested t = some r ∧
      ((∃ d ∈ demuxers, d.track = t) ↔ ∃ d, r = track_result.produced d) := by
  rw [parse_headers_closed] at h
  by_cases hall : tracks.all (fun t => (parse_track L requested t).isSome) = true
  · rw [if_pos hall, Option.some.injEq] at h
    have hsome := List.all_eq_true.mp hall t ht
    obtain ⟨r, hr⟩ := Option.isSome_iff_exists.mp hsome
    refine ⟨r, hr, ?_, ?_⟩
    · rintro ⟨d, hd, hdt⟩
      rw [← h, List.mem_filterMap] at hd
      obtain ⟨t1, _, h1⟩ := hd
      cases hp : parse_track L requested t1 with
      | none => simp [hp] at h1
      | some r1 =>
          cases r1 with
          | skipped => simp [hp] at h1
          | produced d1 =>
              simp only [hp, Option.some.injEq] at h1
              subst h1
              have := (parse_track_produced L requested t1 d1 hp).1
              rw [hdt] at this
              subst this
              rw [hp, Option.some.injEq] at hr
              exact ⟨d1, hr.symm⟩
    · rintro ⟨d, hd⟩
      subst hd
      refine ⟨d, ?_, (parse_track_produced L requested t d hr).1⟩
      rw [← h, List.mem_filterMap]
      exact ⟨t, ht, by simp [hr]⟩
  · rw [if_neg hall] at h
    exact absurd h (by simp)

/-- C12: the audio tracks of the directory that pass the type, size, request
and mime filters, in the list that `parse_headers` produces.  Whenever
`parse_headers` returns, such a track has a demuxer in the produced list if
and only if its header version is 3, or 5, or is 4 and the second length byte
after the fixed version-4 structure is 4; a track with any other version, or a
version-4 track with another tag length, has none.  `parse_headers` returns
exactly when the loop body returns for every track of the directory, and for
such a track the loop body returns when the reads of its branch stay inside
the type-specific data: any version other than 3, 4, 5 is skipped; version 3
and version 5 are produced; version 4 is skipped when the tag length is not 4
and produced when it is. -/
theorem parse_headers_audio_versions (L : props_layout) (requested : Char → Nat → Bool)
    (tracks : List rmff_track_t) (t : rmff_track_t) (ht : t ∈ tracks)
    (hty : t.type = rmff_track_type.audio) (hsz : t.type_specific_size ≠ 0)
    (hreq : requested 'a' t.id = true)
    (hm : t.mime_type = some MIME_AUDIO ∨ t.mime_type = some MIME_VIDEO) :
    (∀ demuxers : List real_demuxer_t, parse_headers L requested true tracks = some demuxers →
      ∃ v : Nat, get_uint16_be t.type_specific_data L.ra4p_version1 = some v ∧
        ((∃ d ∈ demuxers, d.track = t) ↔
          (v = 3 ∨ v = 5 ∨ (v = 4 ∧ ∃ s0 : Nat,
            read_u8 t.type_specific_data L.ra4p_sizeof = some s0 ∧
            read_u8 t.type_specific_data (L.ra4p_sizeof + (s0 + 1)) = some 4)))) ∧
    ((parse_headers L requested true tracks).isSome
      = tracks.all (fun x => (parse_track L requested x).isSome)) ∧
    (∀ r : track_result, parse_track L requested t = some r →
      ∃ v : Nat, get_uint16_be t.type_specific_data L.ra4p_version1 = some v ∧
        ((∃ d, r = track_result.produced d) ↔
          (v = 3 ∨ v = 5 ∨ (v = 4 ∧ ∃ s0 : Nat,
            read_u8 t.type_specific_data L.ra4p_sizeof = some s0 ∧
            read_u8 t.type_specific_data (L.ra4p_sizeof + (s0 + 1)) = some 4)))) ∧
    (∀ v : Nat, get_uint16_be t.type_specific_data L.ra4p_version1 = some v →
      (v ≠ 3 → v ≠ 4 → v ≠ 5 → parse_track L requested t = some track_result.skipped) ∧
      (v = 3 → t.type_specific_size ≤ t.type_specific_data.length →
        ∃ d, parse_track L requested t = some (track_result.produced d)) ∧
      (v = 5 →
        L.ra5p_sample_rate + 2 ≤ t.type_specific_data.length →
        L.ra5p_channels + 2 ≤ t.type_specific_data.length →
        L.ra5p_sample_size + 2 ≤ t.type_specific_data.length →
        L.ra5p_fourcc3 + 4 ≤ t.type_specific_data.length →
        t.type_specific_size ≤ t.type_specific_data.length →
        ∃ d, parse_track L requested t = some (track_result.produced d)) ∧
      (v = 4 →
        L.ra4p_sample_rate + 2 ≤ t.type_specific_data.length →
        L.ra4p_channels + 2 ≤ t.type_specific_data.length →
        L.ra4p_sample_size + 2 ≤ t.type_specific_data.length →
        ∀ s0 s1 : Nat, read_u8 t.type_specific_data L.ra4p_sizeof = some s0 →
          read_u8 t.type_specific_data (L.ra4p_sizeof + (s0 + 1)) = some s1 →
          (s1 ≠ 4 → parse_track L requested t = some track_result.skipped) ∧
          (s1 = 4 → L.ra4p_sizeof + (s0 + 1) + 1 + 4 ≤ t.type_specific_data.length →
            t.type_specific_size ≤ t.type_specific_data.length →
            ∃ d, parse_track L requested t = some (track_result.produced d)))) := by
  have haudio := parse_track_audio L requested t hty hsz hreq hm
  refine ⟨?_, ?_, ?_, ?_⟩
  · intro demuxers h
    obtain ⟨r, hr, hiff⟩ := parse_headers_produces L requested tracks demuxers h t ht
    rw [haudio] at hr
    obtain ⟨v, hv, hres⟩ := parse_audio_track_result L t _ r hr
    exact ⟨v, hv, hiff.trans hres⟩
  · rw [parse_headers_closed]
    by_cases hall : tracks.all (fun t => (parse_track L requested t).isSome) = true
    · rw [if_pos hall, hall]
      rfl
    · rw [if_neg hall]
      simp only [Bool.not_eq_true] at hall
      rw [hall]
      rfl
  · rw [haudio]
    exact fun r h => parse_audio_track_result L t _ r h
  · rw [haudio]
    exact fun v hv => parse_audio_track_returns L t _ v hv

/-- Witness for C12: in the list that `parse_headers` produces for
`sample_versions_directory` the version-4 track `sample_audio_v4_track` (tag
length 4) has a demuxer, and the version-9 track has none. -/
theorem parse_headers_audio_versions_witness :
    (sample_audio_v4_track ∈ sample_versions_directory
      ∧ sample_audio_v9_track ∈ sample_versions_directory)
    ∧ ∃ demuxers, parse_headers sample_layout (fun _ _ => true) true sample_versions_directory
        = some demuxers
      ∧ (∃ d ∈ demuxers, d.track = sample_audio_v4_track)
      ∧ ¬ (∃ d ∈ demuxers, d.track = sample_audio_v9_track) := by
  have h4 : sample_audio_v4_track ∈ sample_versions_directory := by decide
  have h9 : sample_audio_v9_track ∈ sample_versions_directory := by decide
  refine ⟨⟨h4, h9⟩, _, rfl, ?_, ?_⟩
  · obtain ⟨v, hv, hiff⟩ :=
      (parse_headers_audio_versions sample_layout (fun _ _ => true) sample_versions_directory
        sample_audio_v4_track h4 (by decide) (by decide) (by decide) (by decide)).1 _ rfl
    have e : get_uint16_be sample_audio_v4_track.type_specific_data sample_layout.ra4p_version1
        = some 4 := by decide
    rw [e, Option.some.injEq] at hv
    subst hv
    exact hiff.mpr (Or.inr (Or.inr ⟨rfl, 0, by decide, by decide⟩))
  · obtain ⟨v, hv, hiff⟩ :=
      (parse_headers_audio_versions sample_layout (fun _ _ => true) sample_versions_directory
        sample_audio_v9_track h9 (by decide) (by decide) (by decide) (by decide)).1 _ rfl
    have e : get_uint16_be sample_audio_v9_track.type_specific_data sample_layout.ra4p_version1
        = some 9 := by decide
    rw [e, Option.some.injEq] at hv
    subst hv
    intro hex
    rcases hiff.mp hex with h | h | ⟨h, _⟩ <;> omega

/-- A directory with a version-3 track, a version-9 track, a version-4 track,
the same version-4 track with tag length 5, and a video track: the second and
the fourth are skipped, the others are produced in directory order with their
own parameters. -/
theorem parse_headers_versions_example :
    (parse_headers sample_layout (fun _ _ => true) true
        [sample_audio_v3_track, sample_audio_v9_track, sample_audio_v4_track,
         { sample_audio_v4_track with
           id := 6,
           type_specific_data := sample_audio_v4_track.type_specific_data.set 57 5 },
         sample_video_track]).map
      (fun ds => ds.map (fun d => [d.track.id, d.samples_per_second, d.channels,
        d.bits_per_sample, d.width, d.height]))
    = some [[3, 8000, 1, 16, 0, 0], [5, 44100, 2, 16, 0, 0], [0, 0, 0, 0, 320, 240]] := by
  decide

/-! ## Theorems: the dimension probe -/

/-- A read that stays inside the buffer returns the bits and advances. -/
theorem get_bits_ok (bc : bit_cursor_c) (n : Nat) (h1 : bc.pos + n ≤ 8 * bc.size)
    (h2 : bc.size ≤ bc.buf.length) :
    bc.get_bits n
      = cursor_result.ok (bits_value bc.buf bc.pos n, { bc with pos := bc.pos + n }) := by
  unfold bit_cursor_c.get_bits
  have e1 : ¬ (bc.pos + n > 8 * bc.size) := by omega
  have e2 : ¬ (0 < n ∧ bc.pos + n > 8 * bc.buf.length) := by omega
  rw [if_neg e1, if_neg e2]

/-- A read that would cross the end of the buffer fails. -/
theorem get_bits_out_of_range (bc : bit_cursor_c) (n : Nat) (h1 : 8 * bc.size < bc.pos + n) :
    bc.get_bits n = cursor_result.out_of_range := by
  unfold bit_cursor_c.get_bits
  rw [if_pos h1]

/-- The sum of the first `k + 2` codes, split into the first code and the
codes counted from the next byte. -/
theorem escape_sum_shift (code : Nat → Nat) (pos k : Nat) :
    ((List.range (k + 1 + 1)).map (fun i => code (pos + 8 * i))).sum
      = code pos + ((List.range (k + 1)).map (fun i => code (pos + 8 + 8 * i))).sum := by
  rw [List.range_succ_eq_map, List.map_cons, List.sum_cons, List.map_map]
  congr 2
  apply List.map_congr_left
  intro i _
  simp only [Function.comp, Nat.succ_eq_add_one]
  rw [show pos + 8 * (i + 1) = pos + 8 + 8 * i by omega]

/-- The escape loop with the 8-bit codes named by a function `code`. -/
theorem rv_escape_loop_codes (buf : memory_c) (size : Nat) (hsz : size ≤ buf.length)
    (code : Nat → Nat) (hcode : ∀ p, bits_value buf p 8 = code p) :
    ∀ (fuel pos w : Nat), (8 * size - pos) / 8 < fuel →
      (rv_escape_loop fuel { buf := buf, size := size, pos := pos } w
          = cursor_result.out_of_range ∧
        ∀ i, pos + 8 * (i + 1) ≤ 8 * size → code (pos + 8 * i) = 255) ∨
      (∃ k, (∀ i, i < k → code (pos + 8 * i) = 255) ∧
        code (pos + 8 * k) ≠ 255 ∧ pos + 8 * (k + 1) ≤ 8 * size ∧
        rv_escape_loop fuel { buf := buf, size := size, pos := pos } w
          = cursor_result.ok
              ((w + 4 * ((List.range (k + 1)).map (fun i => code (pos + 8 * i))).sum)
                % mtx.dts.UINT32_MOD,
               { buf := buf, size := size, pos := pos + 8 * (k + 1) })) := by
  intro fuel
  induction fuel with
  | zero => intro pos w h; omega
  | succ fuel ih =>
      intro pos w hfuel
      by_cases hfit : pos + 8 ≤ 8 * size
      · have hg := get_bits_ok { buf := buf, size := size, pos := pos } 8 hfit hsz
        simp only [hcode] at hg
        simp only [rv_escape_loop, hg]
        by_cases hc : code pos = 255
        · rw [if_pos hc]
          rcases ih (pos + 8) (add_int32 w (code pos <<< 2)) (by omega) with
            ⟨h1, h2⟩ | ⟨k, h1, h2, h3, h4⟩
          · left
            refine ⟨h1, ?_⟩
            intro i hi
            cases i with
            | zero => exact hc
            | succ j =>
                have := h2 j (by omega)
                rw [show pos + 8 * (j + 1) = pos + 8 + 8 * j by omega]
                exact this
          · right
            refine ⟨k + 1, ?_, ?_, by omega, ?_⟩
            · intro i hi
              cases i with
              | zero => exact hc
              | succ j =>
                  have := h1 j (by omega)
                  rw [show pos + 8 * (j + 1) = pos + 8 + 8 * j by omega]
                  exact this
            · rw [show pos + 8 * (k + 1) = pos + 8 + 8 * k by omega]
              exact h2
            · rw [h4, escape_sum_shift code pos k, Nat.shiftLeft_eq]
              rw [show pos + 8 + 8 * (k + 1) = pos + 8 * (k + 1 + 1) by omega]
              unfold add_int32
              rw [Nat.mod_add_mod]
              congr 3
              omega
        · rw [if_neg hc]
          right
          refine ⟨0, ?_, hc, by omega, ?_⟩
          · intro i hi; omega
          · rw [Nat.shiftLeft_eq]
            have hone : ((List.range (0 + 1)).map (fun i => code (pos + 8 * i))).sum
                = code pos := by
              simp [List.range_succ]
            rw [hone]
            unfold add_int32
            congr 3
            omega
      · left
        have hg := get_bits_out_of_range { buf := buf, size := size, pos := pos } 8
          (by simp only; omega)
        simp only [rv_escape_loop, hg]
        refine ⟨trivial, ?_⟩
        intro i hi
        omega

/-- The escape loop with enough iterations: its three possible outcomes in
terms of the codes. -/
theorem rv_escape_loop_cases (buf : memory_c) (size : Nat) (hsz : size ≤ buf.length)
    (code : Nat → Nat) (hcode : ∀ p, bits_value buf p 8 = code p)
    (fuel pos w : Nat) (hfuel : (8 * size - pos) / 8 < fuel) :
    (rv_escape_loop fuel { buf := buf, size := size, pos := pos } w = cursor_result.out_of_range
      ↔ ∀ i, pos + 8 * (i + 1) ≤ 8 * size → code (pos + 8 * i) = 255) ∧
    (∀ k, (∀ i, i < k → code (pos + 8 * i) = 255) → code (pos + 8 * k) ≠ 255 →
      pos + 8 * (k + 1) ≤ 8 * size →
      rv_escape_loop fuel { buf := buf, size := size, pos := pos } w
        = cursor_result.ok
            ((w + 4 * ((List.range (k + 1)).map (fun i => code (pos + 8 * i))).sum)
              % mtx.dts.UINT32_MOD,
             { buf := buf, size := size, pos := pos + 8 * (k + 1) })) ∧
    rv_escape_loop fuel { buf := buf, size := size, pos := pos } w ≠ cursor_result.fault := by
  rcases rv_escape_loop_codes buf size hsz code hcode fuel pos w hfuel with
    ⟨h1, h2⟩ | ⟨k, h1, h2, h3, h4⟩
  · refine ⟨⟨fun _ => h2, fun _ => h1⟩, ?_, ?_⟩
    · intro k _ hk hfit
      exact absurd (h2 k hfit) hk
    · rw [h1]
      intro hh
      cases hh
  · refine ⟨⟨?_, ?_⟩, ?_, ?_⟩
    · intro hh
      rw [h4] at hh
      cases hh
    · intro hall
      exact absurd (hall k h3) h2
    · intro k' hrun hk' hfit
      have hkk : k' = k := by
        rcases Nat.lt_trichotomy k' k with hlt | heq | hgt
        · exact absurd (h1 k' hlt) hk'
        · exact heq
        · exact absurd (hrun k hgt) h2
      subst hkk
      exact h4
    · rw [h4]
      intro hh
      cases hh

/-- A number written in `n` bits is below `2 ^ n`. -/
theorem bits_value_lt (buf : memory_c) (pos : Nat) : ∀ n, bits_value buf pos n < 2 ^ n := by
  intro n
  induction n with
  | zero => simp [bits_value]
  | succ n ih =>
      have hb : bit_at buf (pos + n) < 2 := by
        unfold bit_at
        omega
      have : bits_value buf pos (n + 1) = bits_value buf pos n * 2 + bit_at buf (pos + n) := rfl
      rw [this, Nat.pow_succ]
      omega

/-- The width step at bit `pos`, with the 3-bit code called `v`. -/
theorem rv_width_cases (buf : memory_c) (size : Nat) (hsz : size ≤ buf.length)
    (code : Nat → Nat) (hcode : ∀ p, bits_value buf p 8 = code p)
    (fuel pos v : Nat) (hv : bits_value buf pos 3 = v) (hfuel : size < fuel) :
    (rv_width fuel { buf := buf, size := size, pos := pos } = cursor_result.out_of_range
      ↔ (8 * size < pos + 3 ∨
          (v = 7 ∧ ∀ i, pos + 3 + 8 * (i + 1) ≤ 8 * size → code (pos + 3 + 8 * i) = 255))) ∧
    (pos + 3 ≤ 8 * size → v < 7 →
      rv_width fuel { buf := buf, size := size, pos := pos }
        = cursor_result.ok (cw.getD v 0, { buf := buf, size := size, pos := pos + 3 })) ∧
    (v = 7 → ∀ k, (∀ i, i < k → code (pos + 3 + 8 * i) = 255) →
      code (pos + 3 + 8 * k) ≠ 255 → pos + 3 + 8 * (k + 1) ≤ 8 * size →
      rv_width fuel { buf := buf, size := size, pos := pos }
        = cursor_result.ok
            ((4 * ((List.range (k + 1)).map (fun i => code (pos + 3 + 8 * i))).sum)
              % mtx.dts.UINT32_MOD,
             { buf := buf, size := size, pos := pos + 3 + 8 * (k + 1) })) ∧
    rv_width fuel { buf := buf, size := size, pos := pos } ≠ cursor_result.fault := by
  have hv8 : v < 8 := by
    have := bits_value_lt buf pos 3
    rw [hv] at this
    simpa using this
  by_cases hfit : pos + 3 ≤ 8 * size
  · have hg := get_bits_ok { buf := buf, size := size, pos := pos } 3 hfit hsz
    simp only [hv] at hg
    obtain ⟨e1, e2, e3⟩ := rv_escape_loop_cases buf size hsz code hcode fuel (pos + 3) 0
      (by omega)
    by_cases h7 : v = 7
    · subst h7
      have hw : rv_width fuel { buf := buf, size := size, pos := pos }
          = rv_escape_loop fuel { buf := buf, size := size, pos := pos + 3 } 0 := by
        simp [rv_width, hg, cw]
      rw [hw]
      refine ⟨?_, ?_, ?_, e3⟩
      · rw [e1]
        constructor
        · intro h; exact Or.inr ⟨rfl, h⟩
        · rintro (h | ⟨_, h⟩)
          · omega
          · exact h
      · intro _ hlt; omega
      · intro _ k hrun hk hfitk
        have := e2 k hrun hk hfitk
        rw [this, Nat.zero_add]
    · have hlt : v < 7 := by omega
      have hne : ¬ (0 = cw.getD v 0) := by
        interval_cases v <;> simp [cw]
      have hw : rv_width fuel { buf := buf, size := size, pos := pos }
          = cursor_result.ok (cw.getD v 0, { buf := buf, size := size, pos := pos + 3 }) := by
        simp only [rv_width, hg]
        rw [if_neg hne]
      rw [hw]
      refine ⟨?_, fun _ _ => rfl, fun h => absurd h h7, by intro hh; cases hh⟩
      constructor
      · intro hh; cases hh
      · rintro (h | ⟨h, _⟩)
        · omega
        · exact absurd h h7
  · have hg := get_bits_out_of_range { buf := buf, size := size, pos := pos } 3
      (by simp only; omega)
    have hw : rv_width fuel { buf := buf, size := size, pos := pos }
        = cursor_result.out_of_range := by
      simp only [rv_width, hg]
    rw [hw]
    refine ⟨⟨fun _ => Or.inl (by omega), fun _ => rfl⟩, fun h => absurd h hfit, ?_,
      by intro hh; cases hh⟩
    intro _ k _ _ hk
    omega

/-- The height step at bit `pos`, with the 3-bit code called `c` and the bit
after it called `b`. -/
theorem rv_height_cases (buf : memory_c) (size : Nat) (hsz : size ≤ buf.length)
    (code : Nat → Nat) (hcode : ∀ p, bits_value buf p 8 = code p)
    (fuel pos c b : Nat) (hc : bits_value buf pos 3 = c) (hb : bits_value buf (pos + 3) 1 = b)
    (hfuel : size < fuel) :
    (rv_height fuel { buf := buf, size := size, pos := pos } = cursor_result.out_of_range
      ↔ (8 * size < pos + 3 ∨ (6 ≤ c ∧ 8 * size < pos + 4) ∨
          (c = 7 ∧ b = 1 ∧
            ∀ i, pos + 4 + 8 * (i + 1) ≤ 8 * size → code (pos + 4 + 8 * i) = 255))) ∧
    (pos + 3 ≤ 8 * size → c < 6 →
      rv_height fuel { buf := buf, size := size, pos := pos }
        = cursor_result.ok (ch1.getD c 0, { buf := buf, size := size, pos := pos + 3 })) ∧
    (pos + 4 ≤ 8 * size → 6 ≤ c → ¬ (c = 7 ∧ b = 1) →
      rv_height fuel { buf := buf, size := size, pos := pos }
        = cursor_result.ok
            (if c = 6 ∧ b = 0 then 180 else if c = 6 ∧ b = 1 then 360 else 576,
             { buf := buf, size := size, pos := pos + 4 })) ∧
    (c = 7 → b = 1 → ∀ k, (∀ i, i < k → code (pos + 4 + 8 * i) = 255) →
      code (pos + 4 + 8 * k) ≠ 255 → pos + 4 + 8 * (k + 1) ≤ 8 * size →
      rv_height fuel { buf := buf, size := size, pos := pos }
        = cursor_result.ok
            ((4 * ((List.range (k + 1)).map (fun i => code (pos + 4 + 8 * i))).sum)
              % mtx.dts.UINT32_MOD,
             { buf := buf, size := size, pos := pos + 4 + 8 * (k + 1) })) ∧
    rv_height fuel { buf := buf, size := size, pos := pos } ≠ cursor_result.fault := by
  have hc8 : c < 8 := by
    have := bits_value_lt buf pos 3
    rw [hc] at this
    simpa using this
  have hb2 : b < 2 := by
    have := bits_value_lt buf (pos + 3) 1
    rw [hb] at this
    simpa using this
  by_cases hfit : pos + 3 ≤ 8 * size
  · have hg := get_bits_ok { buf := buf, size := size, pos := pos } 3 hfit hsz
    simp only [hc] at hg
    by_cases h6 : c < 6
    · have hne : ¬ (0 = ch1.getD c 0) := by
        interval_cases c <;> simp [ch1]
      have hh : rv_height fuel { buf := buf, size := size, pos := pos }
          = cursor_result.ok (ch1.getD c 0, { buf := buf, size := size, pos := pos + 3 }) := by
        simp only [rv_height, hg]
        rw [if_neg hne]
      rw [hh]
      refine ⟨⟨(fun h => by cases h), ?_⟩, fun _ _ => rfl, fun _ h => by omega,
        fun h => by omega, by intro h; cases h⟩
      rintro (h | ⟨h, _⟩ | ⟨h, _⟩) <;> omega
    · have hz : 0 = ch1.getD c 0 := by
        have : c = 6 ∨ c = 7 := by omega
        rcases this with h | h <;> subst h <;> simp [ch1]
      by_cases hfit4 : pos + 4 ≤ 8 * size
      · have hg1 := get_bits_ok { buf := buf, size := size, pos := pos + 3 } 1
          (by simp only; omega) hsz
        simp only [hb] at hg1
        obtain ⟨e1, e2, e3⟩ := rv_escape_loop_cases buf size hsz code hcode fuel (pos + 4) 0
          (by omega)
        by_cases h71 : c = 7 ∧ b = 1
        · obtain ⟨h7, h1⟩ := h71
          subst h7 h1
          have hh : rv_height fuel { buf := buf, size := size, pos := pos }
              = rv_escape_loop fuel { buf := buf, size := size, pos := pos + 4 } 0 := by
            simp only [rv_height, hg, hg1]
            rfl
          rw [hh]
          refine ⟨?_, fun _ h => by omega, fun _ _ h => absurd ⟨rfl, rfl⟩ h, ?_, e3⟩
          · rw [e1]
            constructor
            · intro h; exact Or.inr (Or.inr ⟨rfl, rfl, h⟩)
            · rintro (h | ⟨_, h⟩ | ⟨_, _, h⟩)
              · omega
              · omega
              · exact h
          · intro _ _ k hrun hk hfitk
            have := e2 k hrun hk hfitk
            rw [this, Nat.zero_add]
        · have hh : rv_height fuel { buf := buf, size := size, pos := pos }
              = cursor_result.ok
                  (if c = 6 ∧ b = 0 then 180 else if c = 6 ∧ b = 1 then 360 else 576,
                   { buf := buf, size := size, pos := pos + 4 }) := by
            have hcases : (c = 6 ∧ b = 0) ∨ (c = 6 ∧ b = 1) ∨ (c = 7 ∧ b = 0) := by omega
            rcases hcases with ⟨p, q⟩ | ⟨p, q⟩ | ⟨p, q⟩ <;> subst p q <;>
              simp only [rv_height, hg, hg1] <;> rfl
          rw [hh]
          refine ⟨⟨(fun h => by cases h), ?_⟩, fun _ h => by omega, fun _ _ _ => rfl,
            fun p q => absurd ⟨p, q⟩ h71, by intro h; cases h⟩
          rintro (h | ⟨_, h⟩ | ⟨p, q, _⟩)
          · omega
          · omega
          · exact absurd ⟨p, q⟩ h71
      · have hg1 := get_bits_out_of_range { buf := buf, size := size, pos := pos + 3 } 1
          (by simp only; omega)
        have hh : rv_height fuel { buf := buf, size := size, pos := pos }
            = cursor_result.out_of_range := by
          simp only [rv_height, hg]
          rw [if_pos hz]
          simp only [hg1]
        rw [hh]
        refine ⟨⟨fun _ => Or.inr (Or.inl ⟨by omega, by omega⟩), fun _ => rfl⟩,
          fun _ h => by omega, fun h => absurd h hfit4, ?_, by intro h; cases h⟩
        intro _ _ k _ _ hk
        omega
  · have hg := get_bits_out_of_range { buf := buf, size := size, pos := pos } 3
      (by simp only; omega)
    have hh : rv_height fuel { buf := buf, size := size, pos := pos }
        = cursor_result.out_of_range := by
      simp only [rv_height, hg]
    rw [hh]
    refine ⟨⟨fun _ => Or.inl (by omega), fun _ => rfl⟩, fun h => absurd h hfit,
      fun h => by omega, ?_, by intro h; cases h⟩
    intro _ _ k _ _ hk
    omega

/-- When some whole code inside the buffer differs from 255, there is a first
one. -/
theorem escape_first (code : Nat → Nat) (pos size : Nat)
    (h : ¬ ∀ i, pos + 8 * (i + 1) ≤ 8 * size → code (pos + 8 * i) = 255) :
    ∃ k, (∀ i, i < k → code (pos + 8 * i) = 255) ∧ code (pos + 8 * k) ≠ 255 ∧
      pos + 8 * (k + 1) ≤ 8 * size := by
  classical
  have hex : ∃ i, pos + 8 * (i + 1) ≤ 8 * size ∧ code (pos + 8 * i) ≠ 255 := by
    by_contra hc
    apply h
    intro i hi
    by_contra hne
    exact hc ⟨i, hi, hne⟩
  refine ⟨Nat.find hex, ?_, (Nat.find_spec hex).2, (Nat.find_spec hex).1⟩
  intro i hi
  by_contra hne
  have hfit : pos + 8 * (i + 1) ≤ 8 * size := by
    have := (Nat.find_spec hex).1
    omega
  exact Nat.find_min hex hi ⟨hfit, hne⟩

/-- The `try` block in terms of its two steps. -/
theorem rv_decode_steps (buf : memory_c) (size : Nat) :
    (8 * size < 26 → rv_decode buf size = cursor_result.out_of_range) ∧
    (26 ≤ 8 * size →
      rv_decode buf size
        = match rv_width (size + 1) { buf := buf, size := size, pos := 26 } with
          | cursor_result.ok (w, bc3) =>
              match rv_height (size + 1) bc3 with
              | cursor_result.ok (h, _) => cursor_result.ok (w, h)
              | cursor_result.out_of_range => cursor_result.out_of_range
              | cursor_result.fault => cursor_result.fault
          | cursor_result.out_of_range => cursor_result.out_of_range
          | cursor_result.fault => cursor_result.fault) := by
  constructor
  · intro h
    unfold rv_decode bit_cursor_c.skip_bits
    by_cases h13 : 0 + 13 > 8 * size
    · simp [h13]
    · have h26 : 0 + 13 + 13 > 8 * size := by omega
      simp [h13, h26]
  · intro h
    unfold rv_decode bit_cursor_c.skip_bits
    have h13 : ¬ (0 + 13 > 8 * size) := by omega
    have h26 : ¬ (0 + 13 + 13 > 8 * size) := by omega
    simp only [h13, h26, if_false]

/-- The table values of the width are their own 32-bit patterns. -/
theorem cw_mod (v : Nat) : cw.getD v 0 % mtx.dts.UINT32_MOD = cw.getD v 0 := by
  apply Nat.mod_eq_of_lt
  have h : cw.getD v 0 ≤ 704 := by
    unfold cw
    rcases Nat.lt_or_ge v 8 with hv | hv
    · interval_cases v <;> simp
    · rw [List.getD_eq_default _ _ (by simpa using hv)]
      omega
  unfold mtx.dts.UINT32_MOD
  omega

/-- The table values of the height are their own 32-bit patterns. -/
theorem ch1_mod (c : Nat) : ch1.getD c 0 % mtx.dts.UINT32_MOD = ch1.getD c 0 := by
  apply Nat.mod_eq_of_lt
  have h : ch1.getD c 0 ≤ 480 := by
    unfold ch1
    rcases Nat.lt_or_ge c 8 with hv | hv
    · interval_cases c <;> simp
    · rw [List.getD_eq_default _ _ (by simpa using hv)]
      omega
  unfold mtx.dts.UINT32_MOD
  omega

/-- The width step after the 26 skipped bits: the code returns the 32-bit
pattern of what the specification describes. -/
theorem rv_width_of_spec (buf : memory_c) (size : Nat) (hsz : size ≤ buf.length)
    (pw w : Nat) (h : spec_width buf size pw w) :
    rv_width (size + 1) { buf := buf, size := size, pos := 26 }
      = cursor_result.ok (w % mtx.dts.UINT32_MOD, { buf := buf, size := size, pos := pw }) := by
  obtain ⟨_, e2, e3, _⟩ := rv_width_cases buf size hsz (fun p => bits_value buf p 8)
    (fun _ => rfl) (size + 1) 26 (bits_value buf 26 3) rfl (by omega)
  rcases h with ⟨h1, h2, h3, h4⟩ | ⟨h1, k, ⟨h2, h3⟩, h4, h5, h6⟩
  · rw [h3, h4, cw_mod]
    exact e2 h2 h1
  · rw [h5, h6]
    exact e3 h1 k h2 h3 h4

/-- The height step at bit `pw`: the code returns the 32-bit pattern of what
the specification describes. -/
theorem rv_height_of_spec (buf : memory_c) (size : Nat) (hsz : size ≤ buf.length)
    (pw h : Nat) (hs : spec_height buf size pw h) :
    ∃ ph, rv_height (size + 1) { buf := buf, size := size, pos := pw }
      = cursor_result.ok (h % mtx.dts.UINT32_MOD, { buf := buf, size := size, pos := ph }) := by
  obtain ⟨_, e2, e3, e4, _⟩ := rv_height_cases buf size hsz (fun p => bits_value buf p 8)
    (fun _ => rfl) (size + 1) pw (bits_value buf pw 3) (bits_value buf (pw + 3) 1) rfl rfl
    (by omega)
  rcases hs with ⟨h1, h2, h3⟩ | ⟨h1, h2⟩ | ⟨h1, h2, k, ⟨h3, h4⟩, h5, h6⟩
  · exact ⟨_, by rw [h3, ch1_mod]; exact e2 h2 h1⟩
  · rcases h2 with ⟨p, q, r⟩ | ⟨p, q, r⟩ | ⟨p, q, r⟩
    · have := e3 h1 (by omega) (by omega)
      rw [this, r]
      exact ⟨pw + 4, by simp [p, q, mtx.dts.UINT32_MOD]⟩
    · have := e3 h1 (by omega) (by omega)
      rw [this, r]
      exact ⟨pw + 4, by simp [p, q, mtx.dts.UINT32_MOD]⟩
    · have := e3 h1 (by omega) (by omega)
      rw [this, r]
      exact ⟨pw + 4, by simp [p, q, mtx.dts.UINT32_MOD]⟩
  · exact ⟨_, by rw [h6]; exact e4 h1 h2 k h3 h4 h5⟩

/-- The width step after the 26 skipped bits either ends with the
out-of-range condition, the 3-bit code or the escape codes not fitting, or
returns the 32-bit pattern of a width that the specification describes. -/
theorem rv_width_total (buf : memory_c) (size : Nat) (hsz : size ≤ buf.length) :
    (rv_width (size + 1) { buf := buf, size := size, pos := 26 } = cursor_result.out_of_range ∧
      (8 * size < 29 ∨ (bits_value buf 26 3 = 7 ∧
        ∀ i, 29 + 8 * (i + 1) ≤ 8 * size → bits_value buf (29 + 8 * i) 8 = 255))) ∨
    (∃ pw w, spec_width buf size pw w ∧
      rv_width (size + 1) { buf := buf, size := size, pos := 26 }
        = cursor_result.ok
            (w % mtx.dts.UINT32_MOD, { buf := buf, size := size, pos := pw })) := by
  obtain ⟨e1, _, _, _⟩ := rv_width_cases buf size hsz (fun p => bits_value buf p 8)
    (fun _ => rfl) (size + 1) 26 (bits_value buf 26 3) rfl (by omega)
  have hv8 : bits_value buf 26 3 < 8 := by
    have := bits_value_lt buf 26 3
    simpa using this
  by_cases hx : 8 * size < 26 + 3 ∨ (bits_value buf 26 3 = 7 ∧
      ∀ i, 26 + 3 + 8 * (i + 1) ≤ 8 * size → bits_value buf (26 + 3 + 8 * i) 8 = 255)
  · left
    exact ⟨e1.mpr hx, hx⟩
  · right
    have hfit : 29 ≤ 8 * size := by
      by_contra hc
      exact hx (Or.inl (by omega))
    have hspec : ∃ pw w, spec_width buf size pw w := by
      by_cases h7 : bits_value buf 26 3 = 7
      · have hnall : ¬ ∀ i, 29 + 8 * (i + 1) ≤ 8 * size →
            (fun p => bits_value buf p 8) (29 + 8 * i) = 255 := by
          intro hall
          exact hx (Or.inr ⟨h7, hall⟩)
        obtain ⟨k, k1, k2, k3⟩ := escape_first (fun p => bits_value buf p 8) 29 size hnall
        exact ⟨_, _, Or.inr ⟨h7, k, ⟨k1, k2⟩, k3, rfl, rfl⟩⟩
      · exact ⟨_, _, Or.inl ⟨by omega, hfit, rfl, rfl⟩⟩
    obtain ⟨pw, w, hs⟩ := hspec
    exact ⟨pw, w, hs, rv_width_of_spec buf size hsz pw w hs⟩

/-- The height step at bit `pw` either ends with the out-of-range condition,
one of its reads not fitting, or returns the 32-bit pattern of a height that
the specification describes. -/
theorem rv_height_total (buf : memory_c) (size : Nat) (hsz : size ≤ buf.length) (pw : Nat) :
    (rv_height (size + 1) { buf := buf, size := size, pos := pw } = cursor_result.out_of_range ∧
      (8 * size < pw + 3 ∨ (6 ≤ bits_value buf pw 3 ∧ 8 * size < pw + 4) ∨
        (bits_value buf pw 3 = 7 ∧ bits_value buf (pw + 3) 1 = 1 ∧
          ∀ i, pw + 4 + 8 * (i + 1) ≤ 8 * size →
            bits_value buf (pw + 4 + 8 * i) 8 = 255))) ∨
    (∃ h ph, spec_height buf size pw h ∧
      rv_height (size + 1) { buf := buf, size := size, pos := pw }
        = cursor_result.ok
            (h % mtx.dts.UINT32_MOD, { buf := buf, size := size, pos := ph })) := by
  obtain ⟨e1, _, _, _, _⟩ := rv_height_cases buf size hsz (fun p => bits_value buf p 8)
    (fun _ => rfl) (size + 1) pw (bits_value buf pw 3) (bits_value buf (pw + 3) 1) rfl rfl
    (by omega)
  have hc8 : bits_value buf pw 3 < 8 := by
    have := bits_value_lt buf pw 3
    simpa using this
  have hb2 : bits_value buf (pw + 3) 1 < 2 := by
    have := bits_value_lt buf (pw + 3) 1
    simpa using this
  by_cases hx : 8 * size < pw + 3 ∨ (6 ≤ bits_value buf pw 3 ∧ 8 * size < pw + 4) ∨
      (bits_value buf pw 3 = 7 ∧ bits_value buf (pw + 3) 1 = 1 ∧
        ∀ i, pw + 4 + 8 * (i + 1) ≤ 8 * size → bits_value buf (pw + 4 + 8 * i) 8 = 255)
  · left
    exact ⟨e1.mpr hx, hx⟩
  · right
    have hfit : pw + 3 ≤ 8 * size := by
      by_contra hc
      exact hx (Or.inl (by omega))
    have hspec : ∃ h, spec_height buf size pw h := by
      by_cases h6 : bits_value buf pw 3 < 6
      · exact ⟨_, Or.inl ⟨h6, hfit, rfl⟩⟩
      · have hfit4 : pw + 4 ≤ 8 * size := by
          by_contra hc
          exact hx (Or.inr (Or.inl ⟨by omega, by omega⟩))
        by_cases h71 : bits_value buf pw 3 = 7 ∧ bits_value buf (pw + 3) 1 = 1
        · have hnall : ¬ ∀ i, pw + 4 + 8 * (i + 1) ≤ 8 * size →
              (fun p => bits_value buf p 8) (pw + 4 + 8 * i) = 255 := by
            intro hall
            exact hx (Or.inr (Or.inr ⟨h71.1, h71.2, hall⟩))
          obtain ⟨k, k1, k2, k3⟩ :=
            escape_first (fun p => bits_value buf p 8) (pw + 4) size hnall
          exact ⟨_, Or.inr (Or.inr ⟨h71.1, h71.2, k, ⟨k1, k2⟩, k3, rfl⟩)⟩
        · have hcases : (bits_value buf pw 3 = 6 ∧ bits_value buf (pw + 3) 1 = 0) ∨
              (bits_value buf pw 3 = 6 ∧ bits_value buf (pw + 3) 1 = 1) ∨
              (bits_value buf pw 3 = 7 ∧ bits_value buf (pw + 3) 1 = 0) := by omega
          rcases hcases with ⟨p, q⟩ | ⟨p, q⟩ | ⟨p, q⟩
          · exact ⟨180, Or.inr (Or.inl ⟨hfit4, Or.inl ⟨p, q, rfl⟩⟩)⟩
          · exact ⟨360, Or.inr (Or.inl ⟨hfit4, Or.inr (Or.inl ⟨p, q, rfl⟩)⟩)⟩
          · exact ⟨576, Or.inr (Or.inl ⟨hfit4, Or.inr (Or.inr ⟨p, q, rfl⟩)⟩)⟩
    obtain ⟨h, hs⟩ := hspec
    obtain ⟨ph, hph⟩ := rv_height_of_spec buf size hsz pw h hs
    exact ⟨h, ph, hs, hph⟩

/-- The `try` block returns the 32-bit patterns of what the specification
describes. -/
theorem rv_decode_of_spec (buf : memory_c) (size : Nat) (hsz : size ≤ buf.length)
    (pw w h : Nat) (hw : spec_width buf size pw w) (hh : spec_height buf size pw h) :
    rv_decode buf size
      = cursor_result.ok (w % mtx.dts.UINT32_MOD, h % mtx.dts.UINT32_MOD) := by
  have h26 : 26 ≤ 8 * size := by
    rcases hw with ⟨_, h2, _, _⟩ | ⟨_, k, _, h4, _, _⟩ <;> omega
  obtain ⟨ph, hph⟩ := rv_height_of_spec buf size hsz pw h hh
  rw [(rv_decode_steps buf size).2 h26, rv_width_of_spec buf size hsz pw w hw]
  simp only [hph]

/-- The `try` block ends with the out-of-range condition when a read would
cross the end of the buffer. -/
theorem rv_decode_of_over_read (buf : memory_c) (size : Nat) (hsz : size ≤ buf.length)
    (h : spec_over_read buf size) : rv_decode buf size = cursor_result.out_of_range := by
  by_cases h26 : 26 ≤ 8 * size
  · obtain ⟨e1, _, _, _⟩ := rv_width_cases buf size hsz (fun p => bits_value buf p 8)
      (fun _ => rfl) (size + 1) 26 (bits_value buf 26 3) rfl (by omega)
    rw [(rv_decode_steps buf size).2 h26]
    rcases h with h1 | ⟨h1, h2⟩ | ⟨pw, w, hw, hx⟩
    · rw [e1.mpr (Or.inl (by omega))]
    · rw [e1.mpr (Or.inr ⟨h1, h2⟩)]
    · obtain ⟨f1, _, _, _, _⟩ := rv_height_cases buf size hsz (fun p => bits_value buf p 8)
        (fun _ => rfl) (size + 1) pw (bits_value buf pw 3) (bits_value buf (pw + 3) 1) rfl rfl
        (by omega)
      rw [rv_width_of_spec buf size hsz pw w hw]
      simp only [f1.mpr hx]
  · exact (rv_decode_steps buf size).1 (by omega)

/-- The `try` block never faults on a buffer that has `size` bytes: it ends
with the out-of-range condition, a read crossing the end, or with the 32-bit
patterns of the dimensions that the specification describes. -/
theorem rv_decode_total (buf : memory_c) (size : Nat) (hsz : size ≤ buf.length) :
    (rv_decode buf size = cursor_result.out_of_range ∧ spec_over_read buf size) ∨
    (∃ pw w h, spec_width buf size pw w ∧ spec_height buf size pw h ∧
      rv_decode buf size
        = cursor_result.ok (w % mtx.dts.UINT32_MOD, h % mtx.dts.UINT32_MOD)) := by
  by_cases h26 : 26 ≤ 8 * size
  · rcases rv_width_total buf size hsz with ⟨_, h2⟩ | ⟨pw, w, hw, _⟩
    · have hx : spec_over_read buf size := by
        rcases h2 with h3 | h3
        · exact Or.inl h3
        · exact Or.inr (Or.inl h3)
      exact Or.inl ⟨rv_decode_of_over_read buf size hsz hx, hx⟩
    · rcases rv_height_total buf size hsz pw with ⟨_, h2⟩ | ⟨h, ph, hh, _⟩
      · have hx : spec_over_read buf size := Or.inr (Or.inr ⟨pw, w, hw, h2⟩)
        exact Or.inl ⟨rv_decode_of_over_read buf size hsz hx, hx⟩
      · exact Or.inr ⟨pw, w, h, hw, hh, rv_decode_of_spec buf size hsz pw w h hw hh⟩
  · have hx : spec_over_read buf size := Or.inl (by omega)
    exact Or.inl ⟨rv_decode_of_over_read buf size hsz hx, hx⟩

/-- The sum of `k + 1` codes of 8 bits is at most `255 * (k + 1)`. -/
theorem spec_escape_sum_le (buf : memory_c) (p k : Nat) :
    spec_escape_sum buf p k ≤ 255 * (k + 1) := by
  unfold spec_escape_sum
  induction k with
  | zero =>
      have := bits_value_lt buf (p + 8 * 0) 8
      simp only [List.range_succ, List.range_zero, List.nil_append, List.map_cons,
        List.map_nil, List.sum_cons, List.sum_nil]
      omega
  | succ k ih =>
      have := bits_value_lt buf (p + 8 * (k + 1)) 8
      rw [List.range_succ, List.map_append, List.sum_append]
      simp only [List.map_cons, List.map_nil, List.sum_cons, List.sum_nil]
      omega

/-- In a buffer of at most 2 MiB no sum of the dimension code reaches 2^31:
the width that the specification describes fits an `int`. -/
theorem spec_width_lt (buf : memory_c) (size pw w : Nat) (hbound : size ≤ 2097152)
    (h : spec_width buf size pw w) : w < 2147483648 := by
  rcases h with ⟨h1, _, h3, _⟩ | ⟨_, k, _, h4, h5, _⟩
  · rw [h3]
    have := cw_mod (bits_value buf 26 3)
    have h704 : cw.getD (bits_value buf 26 3) 0 ≤ 704 := by
      unfold cw
      interval_cases (bits_value buf 26 3) <;> simp
    omega
  · have := spec_escape_sum_le buf 29 k
    rw [h5]
    omega

/-- In a buffer of at most 2 MiB the height that the specification describes
fits an `int`. -/
theorem spec_height_lt (buf : memory_c) (size pw h : Nat) (hbound : size ≤ 2097152)
    (hs : spec_height buf size pw h) : h < 2147483648 := by
  rcases hs with ⟨h1, _, h3⟩ | ⟨_, h2⟩ | ⟨_, _, k, _, h5, h6⟩
  · rw [h3]
    have h480 : ch1.getD (bits_value buf pw 3) 0 ≤ 480 := by
      unfold ch1
      interval_cases (bits_value buf pw 3) <;> simp
    omega
  · rcases h2 with ⟨_, _, r⟩ | ⟨_, _, r⟩ | ⟨_, _, r⟩ <;> omega
  · have := spec_escape_sum_le buf (pw + 4) k
    rw [h6]
    omega

/-- For every buffer that has `size` bytes, of any size: whenever the bits
of the dimension code lie inside the buffer `get_rv_dimensions` returns true
with the 32-bit patterns of the width and height that the specification
describes, and whenever it returns true the width and height are such
patterns. -/
theorem get_rv_dimensions_patterns (buf : memory_c) (size width height : Nat)
    (hsz : size ≤ buf.length) :
    (∀ pw w h, spec_width buf size pw w → spec_height buf size pw h →
      get_rv_dimensions buf size width height
        = some (true, w % mtx.dts.UINT32_MOD, h % mtx.dts.UINT32_MOD)) ∧
    (∀ w h, get_rv_dimensions buf size width height = some (true, w, h) →
      ∃ pw w0 h0, spec_width buf size pw w0 ∧ spec_height buf size pw h0 ∧
        w = w0 % mtx.dts.UINT32_MOD ∧ h = h0 % mtx.dts.UINT32_MOD) := by
  constructor
  · intro pw w h hw hh
    unfold get_rv_dimensions
    rw [rv_decode_of_spec buf size hsz pw w h hw hh]
  · intro w h hget
    unfold get_rv_dimensions at hget
    rcases rv_decode_total buf size hsz with ⟨h1, _⟩ | ⟨pw, w1, h1, hw, hh, hd⟩
    · rw [h1] at hget
      simp at hget
    · rw [hd] at hget
      simp only [Option.some.injEq, Prod.mk.injEq, true_and] at hget
      obtain ⟨e1, e2⟩ := hget
      exact ⟨pw, w1, h1, hw, hh, e1.symm, e2.symm⟩

/-- C13 (amended): `get_rv_dimensions` on a buffer of at most 2 MiB that has
`size` bytes decodes the dimensions as the specification describes them
(`spec_width`, `spec_height`: 26 bits skipped; width `cw[v]` for the 3-bit
code `v` in 0..6, and for 7 four times the sum of the 8-bit codes up to and
including the first one different from 255; height `ch1[c]` for the next
3-bit code `c` in 0..5, and after one more bit `b` 180, 360, 576 for (6,0),
(6,1), (7,0) and four times the sum of the escape codes for (7,1)).  Whenever
the bits described lie inside the buffer the function returns true with that
width and height, and whenever it returns true the width and height are the
described ones.  Inside the bound no addition on the `int` accumulators
overflows. -/
theorem get_rv_dimensions_decoding (buf : memory_c) (size width height : Nat)
    (hsz : size ≤ buf.length) (hbound : size ≤ 2097152) :
    (∀ pw w h, spec_width buf size pw w → spec_height buf size pw h →
      w < 2147483648 ∧ h < 2147483648 ∧
      get_rv_dimensions buf size width height = some (true, w, h)) ∧
    (∀ w h, get_rv_dimensions buf size width height = some (true, w, h) →
      ∃ pw, spec_width buf size pw w ∧ spec_height buf size pw h) := by
  obtain ⟨p1, p2⟩ := get_rv_dimensions_patterns buf size width height hsz
  have hmod : ∀ x : Nat, x < 2147483648 → x % mtx.dts.UINT32_MOD = x := by
    intro x hx
    apply Nat.mod_eq_of_lt
    unfold mtx.dts.UINT32_MOD
    omega
  constructor
  · intro pw w h hw hh
    have hwl := spec_width_lt buf size pw w hbound hw
    have hhl := spec_height_lt buf size pw h hbound hh
    refine ⟨hwl, hhl, ?_⟩
    rw [p1 pw w h hw hh, hmod w hwl, hmod h hhl]
  · intro w h hget
    obtain ⟨pw, w0, h0, hw, hh, e1, e2⟩ := p2 w h hget
    rw [hmod w0 (spec_width_lt buf size pw w0 hbound hw)] at e1
    rw [hmod h0 (spec_height_lt buf size pw h0 hbound hh)] at e2
    subst e1 e2
    exact ⟨pw, hw, hh⟩

/-- C14: on a buffer that has `size` bytes `get_rv_dimensions` always returns
(the escape loops end, no read leaves the buffer); it returns false exactly
when some bit read or skip would cross the end of the buffer
(`spec_over_read`, which includes an escape sequence of 255-codes that runs to
the end of the buffer); and when it returns false the caller's width and
height are unchanged. -/
theorem get_rv_dimensions_over_read (buf : memory_c) (size width height : Nat)
    (hsz : size ≤ buf.length) :
    ∃ r : Bool × Nat × Nat,
      get_rv_dimensions buf size width height = some r ∧
      (r.1 = false ↔ spec_over_read buf size) ∧
      (r.1 = false → r.2 = (width, height)) := by
  unfold get_rv_dimensions
  rcases rv_decode_total buf size hsz with ⟨h1, hx⟩ | ⟨pw, w, h, hw, hh, hd⟩
  · rw [h1]
    exact ⟨_, rfl, ⟨fun _ => hx, fun _ => rfl⟩, fun _ => rfl⟩
  · rw [hd]
    refine ⟨_, rfl, ⟨(fun hf => by cases hf), ?_⟩, (fun hf => by cases hf)⟩
    intro hx
    have := rv_decode_of_over_read buf size hsz hx
    rw [hd] at this
    cases this

/-- Witness for C13: 8 bytes whose width code is 7 with the escape codes 255,
5 and whose height code is (7, 1) with the escape code 100. -/
theorem get_rv_dimensions_decoding_witness :
    (8 ≤ ([0, 0, 0, 63, 248, 47, 178, 0] : memory_c).length ∧ 8 ≤ 2097152) ∧
    get_rv_dimensions [0, 0, 0, 63, 248, 47, 178, 0] 8 0 0 = some (true, 1040, 400) ∧
    ∃ pw, spec_width [0, 0, 0, 63, 248, 47, 178, 0] 8 pw 1040 ∧
      spec_height [0, 0, 0, 63, 248, 47, 178, 0] 8 pw 400 :=
  ⟨by decide, by decide,
   (get_rv_dimensions_decoding [0, 0, 0, 63, 248, 47, 178, 0] 8 0 0 (by decide) (by decide)).2
     1040 400 (by decide)⟩

/-- Witness for C14: 6 bytes whose width escape codes are 255 up to the end of
the buffer; the function returns false and leaves 7 and 9 in place. -/
theorem get_rv_dimensions_over_read_witness :
    (6 ≤ ([0, 0, 0, 63, 255, 255] : memory_c).length) ∧
    get_rv_dimensions [0, 0, 0, 63, 255, 255] 6 7 9 = some (false, 7, 9) ∧
    ∃ r : Bool × Nat × Nat,
      get_rv_dimensions [0, 0, 0, 63, 255, 255] 6 7 9 = some r ∧
      (r.1 = false ↔ spec_over_read [0, 0, 0, 63, 255, 255] 6) ∧
      (r.1 = false → r.2 = (7, 9)) :=
  ⟨by decide, by decide,
   get_rv_dimensions_over_read [0, 0, 0, 63, 255, 255] 6 7 9 (by decide)⟩

/-- Four buffers evaluated: escape codes for both dimensions; table codes for
both (320 x 240); width escape codes running to the end of the buffer; a
buffer too short for the 26 skipped bits. -/
theorem get_rv_dimensions_examples :
    get_rv_dimensions [0, 0, 0, 63, 248, 47, 178, 0] 8 0 0 = some (true, 1040, 400) ∧
    get_rv_dimensions [0, 0, 0, 27] 4 0 0 = some (true, 320, 240) ∧
    get_rv_dimensions [0, 0, 0, 63, 255, 255] 6 7 9 = some (false, 7, 9) ∧
    get_rv_dimensions [0, 0, 0] 3 7 9 = some (false, 7, 9) := by
  decide

/-- The sum of `m` equal numbers. -/
theorem sum_map_range_const (f : Nat → Nat) (c m : Nat) (h : ∀ i, i < m → f i = c) :
    ((List.range m).map f).sum = c * m := by
  induction m with
  | zero => simp
  | succ m ih =>
      rw [List.range_succ, List.map_append, List.sum_append, ih (fun i hi => h i (by omega)),
        List.map_cons, List.map_nil, List.sum_cons, List.sum_nil, h m (by omega)]
      ring

/-- The length of the sample frame with `n + 1` escape codes. -/
theorem sample_long_escape_frame_length (n : Nat) :
    (sample_long_escape_frame n).length = n + 5 := by
  simp [sample_long_escape_frame]

/-- The bytes of the sample frame with `n + 1` escape codes. -/
theorem sample_long_escape_frame_bytes (n q : Nat) :
    (q = 3 → (sample_long_escape_frame n).getD q 0 = 63) ∧
    (4 ≤ q → q < 4 + n → (sample_long_escape_frame n).getD q 0 = 255) ∧
    (4 + n ≤ q → (sample_long_escape_frame n).getD q 0 = 0) := by
  unfold sample_long_escape_frame
  refine ⟨?_, ?_, ?_⟩
  · intro h
    subst h
    rfl
  · intro h1 h2
    obtain ⟨r, rfl⟩ : ∃ r, q = 4 + r := ⟨q - 4, by omega⟩
    rw [List.getD_eq_getElem?_getD, List.append_assoc, List.getElem?_append_right (by simp)]
    simp only [List.length_cons, List.length_nil, Nat.add_sub_cancel_left]
    rw [List.getElem?_append_left (by simp; omega), List.getElem?_replicate, if_pos (by omega)]
    rfl
  · intro h
    obtain ⟨r, rfl⟩ : ∃ r, q = 4 + n + r := ⟨q - (4 + n), by omega⟩
    rw [List.getD_eq_getElem?_getD, List.append_assoc, List.getElem?_append_right (by simp; omega)]
    simp only [List.length_cons, List.length_nil]
    rw [List.getElem?_append_right (by simp; omega)]
    simp only [List.length_replicate]
    have e : 4 + n + r - (0 + 1 + 1 + 1 + 1) - n = r := by omega
    rw [e]
    cases r with
    | zero => rfl
    | succ r => rfl

/-- The bits of the sample frame with `n + 1` escape codes: 1 from bit 26 up
to the end of the last byte 0xFF, 0 after it. -/
theorem sample_long_escape_frame_bits (n j : Nat) :
    (26 ≤ j → j < 8 * (4 + n) → bit_at (sample_long_escape_frame n) j = 1) ∧
    (8 * (4 + n) ≤ j → bit_at (sample_long_escape_frame n) j = 0) := by
  obtain ⟨b3, bff, b0⟩ := sample_long_escape_frame_bytes n (j / 8)
  have hr : j % 8 < 8 := Nat.mod_lt _ (by decide)
  unfold bit_at
  constructor
  · intro h1 h2
    rcases Nat.lt_or_ge (j / 8) 4 with hq | hq
    · have h3 : j / 8 = 3 := by omega
      have h4 : 2 ≤ j % 8 := by omega
      rw [b3 h3]
      generalize j % 8 = r at hr h4
      interval_cases r <;> rfl
    · rw [bff hq (by omega)]
      generalize j % 8 = r at hr
      interval_cases r <;> rfl
  · intro h
    rw [b0 (by omega)]
    simp

/-- The codes of the sample frame with `n + 1` escape codes: the width code
is 7, the escape codes are `n` times 255 and then 224, and the three bits
after them are 0. -/
theorem sample_long_escape_frame_codes (n : Nat) :
    bits_value (sample_long_escape_frame n) 26 3 = 7 ∧
    (∀ i, i < n → bits_value (sample_long_escape_frame n) (29 + 8 * i) 8 = 255) ∧
    bits_value (sample_long_escape_frame n) (29 + 8 * n) 8 = 224 ∧
    bits_value (sample_long_escape_frame n) (29 + 8 * (n + 1)) 3 = 0 := by
  have one : ∀ j, 26 ≤ j → j < 8 * (4 + n) → bit_at (sample_long_escape_frame n) j = 1 :=
    fun j => (sample_long_escape_frame_bits n j).1
  have zero : ∀ j, 8 * (4 + n) ≤ j → bit_at (sample_long_escape_frame n) j = 0 :=
    fun j => (sample_long_escape_frame_bits n j).2
  refine ⟨?_, ?_, ?_, ?_⟩
  · simp only [bits_value]
    rw [one _ (by omega) (by omega), one _ (by omega) (by omega), one _ (by omega) (by omega)]
  · intro i hi
    simp only [bits_value]
    rw [one _ (by omega) (by omega), one _ (by omega) (by omega), one _ (by omega) (by omega),
      one _ (by omega) (by omega), one _ (by omega) (by omega), one _ (by omega) (by omega),
      one _ (by omega) (by omega), one _ (by omega) (by omega)]
  · simp only [bits_value]
    rw [one _ (by omega) (by omega), one _ (by omega) (by omega), one _ (by omega) (by omega),
      zero _ (by omega), zero _ (by omega), zero _ (by omega), zero _ (by omega),
      zero _ (by omega)]
  · simp only [bits_value]
    rw [zero _ (by omega), zero _ (by omega), zero _ (by omega)]

/-- What the specification describes for the sample frame with `n + 1` escape
codes, and what `get_rv_dimensions` returns for it: the described width is
`4 * (255 * n + 224)`, the described height is 120, and the function returns
the 32-bit pattern of the width. -/
theorem sample_long_escape_frame_dimensions (n width height : Nat) :
    spec_width (sample_long_escape_frame n) (n + 5) (29 + 8 * (n + 1)) (4 * (255 * n + 224)) ∧
    spec_height (sample_long_escape_frame n) (n + 5) (29 + 8 * (n + 1)) 120 ∧
    get_rv_dimensions (sample_long_escape_frame n) (n + 5) width height
      = some (true, 4 * (255 * n + 224) % mtx.dts.UINT32_MOD, 120) := by
  obtain ⟨c7, cff, c224, c0⟩ := sample_long_escape_frame_codes n
  have hw : spec_width (sample_long_escape_frame n) (n + 5) (29 + 8 * (n + 1))
      (4 * (255 * n + 224)) := by
    refine Or.inr ⟨c7, n, ⟨cff, by rw [c224]; decide⟩, by omega, ?_, rfl⟩
    unfold spec_escape_sum
    rw [List.range_succ, List.map_append, List.sum_append,
      sum_map_range_const _ 255 n cff, List.map_cons, List.map_nil, List.sum_cons,
      List.sum_nil, c224]
    rfl
  have hh : spec_height (sample_long_escape_frame n) (n + 5) (29 + 8 * (n + 1)) 120 := by
    refine Or.inl ⟨by rw [c0]; decide, by omega, ?_⟩
    rw [c0]
    rfl
  refine ⟨hw, hh, ?_⟩
  have hsz : n + 5 ≤ (sample_long_escape_frame n).length := by
    rw [sample_long_escape_frame_length]
  have h := (get_rv_dimensions_patterns (sample_long_escape_frame n) (n + 5) width height
    hsz).1 _ _ _ hw hh
  rw [h]
  rfl

/-- C13 (as stated, refuted): the frame of 4210757 bytes whose width is written
with 4210752 escape codes 255 and the code 224.  All bits of its dimension
code lie inside the buffer; the width that the specification describes is
4 * (255 * 4210752 + 224) = 4294967936, which no `uint32_t` holds;
`get_rv_dimensions` returns true with the width 640. -/
theorem get_rv_dimensions_long_escape_counterexample :
    (sample_long_escape_frame 4210752).length = 4210757 ∧
    spec_width (sample_long_escape_frame 4210752) 4210757 33686053 4294967936 ∧
    spec_height (sample_long_escape_frame 4210752) 4210757 33686053 120 ∧
    get_rv_dimensions (sample_long_escape_frame 4210752) 4210757 0 0
      = some (true, 640, 120) ∧
    ¬ get_rv_dimensions (sample_long_escape_frame 4210752) 4210757 0 0
      = some (true, 4294967936, 120) := by
  obtain ⟨hw, hh, hg⟩ := sample_long_escape_frame_dimensions 4210752 0 0
  have e : 4 * (255 * 4210752 + 224) % mtx.dts.UINT32_MOD = 640 := by
    unfold mtx.dts.UINT32_MOD
    norm_num
  rw [e] at hg
  refine ⟨sample_long_escape_frame_length 4210752, hw, hh, hg, ?_⟩
  rw [hg]
  intro hc
  simp at hc

/-! ## Theorems: `set_dimensions` and `assemble_video_packet` -/

/-- C15 (as stated, refuted): a frame whose dimension code says 352 x 288 on a
track declared as 320 x 240, with both an aspect ratio (2) and display
dimensions (640 x 480) given.  `set_dimensions` writes the display dimensions
640 x 480, not the 576 x 288 derived from the aspect ratio: the explicit
display dimensions win over the aspect ratio. -/
theorem set_dimensions_priority_counterexample :
    (set_dimensions sample_ti_both sample_aspect_2 sample_video_dmx sample_rv_frame 20).map
        (fun d => d.track_video)
      = some (some { pixel_width := 352, pixel_height := 288,
                     display_width := 640, display_height := 480 }) ∧
    sample_aspect_2 352 288 = (576, 288) ∧
    ¬ ((set_dimensions sample_ti_both sample_aspect_2 sample_video_dmx sample_rv_frame 20).map
        (fun d => d.track_video)
      = some (some
          { pixel_width := 352, pixel_height := 288,
            display_width :=
              (if sample_ti_both.aspect_ratio_given then sample_aspect_2 352 288
               else if sample_ti_both.display_dimensions_given then
                 (sample_ti_both.display_width, sample_ti_both.display_height)
               else (sample_video_dmx.width, sample_video_dmx.height)).1,
            display_height :=
              (if sample_ti_both.aspect_ratio_given then sample_aspect_2 352 288
               else if sample_ti_both.display_dimensions_given then
                 (sample_ti_both.display_width, sample_ti_both.display_height)
               else (sample_video_dmx.width, sample_video_dmx.height)).2 })) := by
  decide

/-- C15 (amended): whenever the probed pixel dimensions differ from the
declared ones, `set_dimensions` writes to the track entry the probed pixel
dimensions and display dimensions chosen in this order: the explicit display
dimensions if those were given (also when an aspect ratio was given as well);
otherwise the ones derived from the aspect ratio if an aspect ratio was given;
otherwise the previously declared dimensions.  In all three cases the pixel
width and height of the track become the probed values and the dimensions
count as confirmed. -/
theorem set_dimensions_display_priority (ti : track_info_c) (AR : Nat → Nat → Nat × Nat)
    (dmx : real_demuxer_t) (buffer : memory_c) (size b0 w h : Nat)
    (hb : read_u8 buffer 0 = some b0) (hp : 1 + 2 * 4 * (b0 + 1) + 10 < size)
    (hprobe : get_rv_dimensions (buffer.drop (1 + 2 * 4 * (b0 + 1))) size 0 0
      = some (true, w, h))
    (hdiff : dmx.width ≠ w ∨ dmx.height ≠ h) :
    ∃ r : real_demuxer_t,
      set_dimensions ti AR dmx buffer size = some r ∧
      r.width = w ∧ r.height = h ∧ r.rv_dimensions = true ∧
      r.track_video = some
        { pixel_width := w, pixel_height := h,
          display_width :=
            (if ti.display_dimensions_given then (ti.display_width, ti.display_height)
             else if ti.aspect_ratio_given then AR w h
             else (dmx.width, dmx.height)).1,
          display_height :=
            (if ti.display_dimensions_given then (ti.display_width, ti.display_height)
             else if ti.aspect_ratio_given then AR w h
             else (dmx.width, dmx.height)).2 } := by
  have hp' : ¬ (1 + 2 * 4 * (b0 + 1) + 10 ≥ size) := by omega
  unfold set_dimensions
  simp only [hb, hp', if_false, hprobe, hdiff, if_true]
  refine ⟨_, rfl, rfl, rfl, rfl, ?_⟩
  cases ti.display_dimensions_given <;> cases ti.aspect_ratio_given <;> rfl

/-- Witness for C15: the frame of the counterexample with only an aspect ratio
given; the display dimensions are the derived 576 x 288. -/
theorem set_dimensions_display_priority_witness :
    (set_dimensions
        { aspect_ratio_given := true, display_dimensions_given := false,
          display_width := 0, display_height := 0 }
        sample_aspect_2 sample_video_dmx sample_rv_frame 20).map (fun d => d.track_video)
      = some (some { pixel_width := 352, pixel_height := 288,
                     display_width := 576, display_height := 288 }) ∧
    ∃ r : real_demuxer_t,
      set_dimensions
        { aspect_ratio_given := true, display_dimensions_given := false,
          display_width := 0, display_height := 0 }
        sample_aspect_2 sample_video_dmx sample_rv_frame 20 = some r ∧
      r.width = 352 ∧ r.height = 288 ∧ r.rv_dimensions = true :=
  ⟨by decide,
   (set_dimensions_display_priority
      { aspect_ratio_given := true, display_dimensions_given := false,
        display_width := 0, display_height := 0 }
      sample_aspect_2 sample_video_dmx sample_rv_frame 20 0 352 288
      (by decide) (by decide) (by decide) (by decide)).elim
     (fun r h => ⟨r, h.1, h.2.1, h.2.2.1, h.2.2.2.1⟩)⟩

/-- `set_dimensions` hands no packet to the sink. -/
theorem set_dimensions_delivered (ti : track_info_c) (AR : Nat → Nat → Nat × Nat)
    (dmx r : real_demuxer_t) (buffer : memory_c) (size : Nat)
    (h : set_dimensions ti AR dmx buffer size = some r) :
    r.delivered = dmx.delivered := by
  unfold set_dimensions at h
  dsimp only at h
  repeat' split at h
  all_goals first
    | (simp only [Option.some.injEq] at h; subst h; rfl)
    | (simp at h)

/-- The loop of `assemble_video_packet`: whenever it returns, it has handed
one packet per assembled frame to the sink, in order. -/
theorem assemble_video_loop_delivered (vft : vft_t) (KF : Nat) (ti : track_info_c)
    (AR : Nat → Nat → Nat × Nat) :
    ∀ (frames : List rmff_frame_t) (dmx r : real_demuxer_t),
      assemble_video_loop vft KF ti AR frames dmx = some r →
      r.delivered = dmx.delivered ++ frames.map (fun f =>
        ({ data := f.data,
           timecode := some (f.timecode * 1000000),
           duration := some 0,
           bref := some (if f.flags &&& KF = KF then vft.VFT_IFRAME
                         else vft.VFT_PFRAMEAUTOMATIC),
           fref := some vft.VFT_NOBFRAME } : packet_t)) := by
  intro frames
  induction frames with
  | nil =>
      intro dmx r h
      simp only [assemble_video_loop, Option.some.injEq] at h
      subst h
      simp
  | cons f rest ih =>
      intro dmx r h
      simp only [assemble_video_loop] at h
      split at h
      · simp at h
      · rename_i dmx1 hprobe
        have hd : dmx1.delivered = dmx.delivered := by
          by_cases hrv : dmx.rv_dimensions = true
          · simp only [hrv, Bool.not_true, Bool.false_eq_true, if_false,
              Option.some.injEq] at hprobe
            subst hprobe
            rfl
          · simp only [hrv, Bool.not_false, if_true] at hprobe
            exact set_dimensions_delivered ti AR dmx dmx1 f.data f.data.length hprobe
        have := ih _ r h
        rw [this]
        simp [hd]

/-- The loop of `assemble_video_packet` returns when no frame makes
`set_dimensions` read outside the frame. -/
theorem assemble_video_loop_returns (vft : vft_t) (KF : Nat) (ti : track_info_c)
    (AR : Nat → Nat → Nat × Nat) :
    ∀ (frames : List rmff_frame_t) (dmx : real_demuxer_t),
      (dmx.rv_dimensions = true ∨
        ∀ f ∈ frames, ∀ d, ∃ d1, set_dimensions ti AR d f.data f.data.length = some d1) →
      ∃ r, assemble_video_loop vft KF ti AR frames dmx = some r := by
  intro frames
  induction frames with
  | nil => intro dmx _; exact ⟨dmx, rfl⟩
  | cons f rest ih =>
      intro dmx h
      simp only [assemble_video_loop]
      by_cases hrv : dmx.rv_dimensions = true
      · simp only [hrv, Bool.not_true, Bool.false_eq_true, if_false]
        exact ih _ (Or.inl rfl)
      · have hall : ∀ f' ∈ f :: rest, ∀ d,
            ∃ d1, set_dimensions ti AR d f'.data f'.data.length = some d1 := by
          rcases h with h | h
          · exact absurd h hrv
          · exact h
        obtain ⟨d1, hd1⟩ := hall f (List.mem_cons_self _ _) dmx
        simp only [hrv, Bool.not_false, if_true, hd1]
        exact ih _ (Or.inr (fun f' hf' d => hall f' (List.mem_cons_of_mem _ hf') d))

/-- C20: `assemble_video_packet`.  If the assembly reports an error (a negative
result) the track is unchanged and no packet is delivered.  Otherwise,
whenever the function returns, it has delivered exactly one packet per
assembled frame, in the order in which the frames are handed out, each with
timecode = assembled timecode * 1000000, duration 0, backward classification
`VFT_IFRAME` if the frame has the keyframe flag and `VFT_PFRAMEAUTOMATIC`
otherwise, and forward classification `VFT_NOBFRAME`; and it does return when
the dimensions are already confirmed or no frame makes `set_dimensions` read
outside the frame. -/
theorem assemble_video_packet_packets (vft : vft_t) (KF : Nat) (ti : track_info_c)
    (AR : Nat → Nat → Nat × Nat) (dmx : real_demuxer_t) (asm : rmff_assembly) :
    (asm.result < 0 → assemble_video_packet vft KF ti AR dmx asm = some dmx) ∧
    (0 ≤ asm.result → ∀ r, assemble_video_packet vft KF ti AR dmx asm = some r →
      r.delivered = dmx.delivered ++ asm.frames.map (fun f =>
        ({ data := f.data,
           timecode := some (f.timecode * 1000000),
           duration := some 0,
           bref := some (if f.flags &&& KF = KF then vft.VFT_IFRAME
                         else vft.VFT_PFRAMEAUTOMATIC),
           fref := some vft.VFT_NOBFRAME } : packet_t))) ∧
    (0 ≤ asm.result →
      (dmx.rv_dimensions = true ∨
        ∀ f ∈ asm.frames, ∀ d, ∃ d1, set_dimensions ti AR d f.data f.data.length = some d1) →
      ∃ r, assemble_video_packet vft KF ti AR dmx asm = some r) := by
  refine ⟨?_, ?_, ?_⟩
  · intro h
    unfold assemble_video_packet
    rw [if_pos (by omega)]
  · intro h r hr
    unfold assemble_video_packet at hr
    rw [if_neg (by omega)] at hr
    exact assemble_video_loop_delivered vft KF ti AR asm.frames dmx r hr
  · intro h hs
    unfold assemble_video_packet
    rw [if_neg (by omega)]
    exact assemble_video_loop_returns vft KF ti AR asm.frames dmx hs

/-- Two assembled frames, the first a keyframe carrying the dimension code:
two packets in order; and an assembly error: nothing happens. -/
theorem assemble_video_packet_example :
    (assemble_video_packet sample_vft 2 sample_ti_none sample_aspect_2 sample_video_dmx
        { result := 0,
          frames := [{ id := 0, timecode := 40, flags := 2, data := sample_rv_frame },
                     { id := 0, timecode := 80, flags := 0, data := [1, 2, 3] }] }).map
      (fun r => r.delivered)
    = some [{ data := sample_rv_frame, timecode := some 40000000, duration := some 0,
              bref := some (-1), fref := some (-1) },
            { data := [1, 2, 3], timecode := some 80000000, duration := some 0,
              bref := some (-2), fref := some (-1) }] ∧
    (assemble_video_packet sample_vft 2 sample_ti_none sample_aspect_2 sample_video_dmx
        { result := -1,
          frames := [{ id := 0, timecode := 40, flags := 2, data := sample_rv_frame }] })
      = some sample_video_dmx := by
  decide

/-! ## Theorems: the whole of `read` -/

/-- What `find_demuxer` returns is the first demuxer of the list whose track
has the id, together with its position. -/
theorem find_demuxer_from_spec :
    ∀ (demuxers : List real_demuxer_t) (id k i : Nat) (dmx : real_demuxer_t),
      find_demuxer_from demuxers id k = some (i, dmx) →
      k ≤ i ∧ demuxers[i - k]? = some dmx ∧ dmx.track.id = id ∧
      ∀ j d, j < i - k → demuxers[j]? = some d → d.track.id ≠ id := by
  intro demuxers
  induction demuxers with
  | nil => intro id k i dmx h; simp [find_demuxer_from] at h
  | cons x rest ih =>
      intro id k i dmx h
      simp only [find_demuxer_from] at h
      by_cases hx : x.track.id = id
      · rw [if_pos hx] at h
        simp only [Option.some.injEq, Prod.mk.injEq] at h
        obtain ⟨h1, h2⟩ := h
        subst h1 h2
        refine ⟨Nat.le_refl _, by simp, hx, ?_⟩
        intro j d hj
        omega
      · rw [if_neg hx] at h
        obtain ⟨h1, h2, h3, h4⟩ := ih id (k + 1) i dmx h
        refine ⟨by omega, ?_, h3, ?_⟩
        · have : i - k = (i - (k + 1)) + 1 := by omega
          rw [this, List.getElem?_cons_succ]
          exact h2
        · intro j d hj hd
          cases j with
          | zero =>
              simp only [List.getElem?_cons_zero, Option.some.injEq] at hd
              subst hd
              exact hx
          | succ j =>
              simp only [List.getElem?_cons_succ] at hd
              exact h4 j d (by omega) hd

/-- The demuxer that `find_demuxer` returns sits at the returned position, has
the id, and no demuxer before it has the id. -/
theorem find_demuxer_spec (demuxers : List real_demuxer_t) (id i : Nat) (dmx : real_demuxer_t)
    (h : find_demuxer demuxers id = some (i, dmx)) :
    demuxers[i]? = some dmx ∧ dmx.track.id = id ∧
    ∀ j d, j < i → demuxers[j]? = some d → d.track.id ≠ id := by
  obtain ⟨_, h2, h3, h4⟩ := find_demuxer_from_spec demuxers id 0 i dmx h
  exact ⟨h2, h3, h4⟩


/-- Once `done` is set, `read` returns `FILE_STATUS_DONE` and changes
nothing. -/
theorem read_done (KF : Nat) (V : real_demuxer_t → rmff_frame_t → video_effect)
    (rd : reader_state) (size : Int) (next : Option rmff_frame_t) (file : rmff_file_t)
    (hd : rd.done = true) :
    read KF V rd size next file
      = some { state := rd, status := file_status_e.FILE_STATUS_DONE, warned := false } := by
  unfold read
  rw [if_pos hd]

/-- At the end of the stream `read` is the finish sequence. -/
theorem read_end_of_stream (KF : Nat) (V : real_demuxer_t → rmff_frame_t → video_effect)
    (rd : reader_state) (size : Int) (next : Option rmff_frame_t) (file : rmff_file_t)
    (hd : rd.done = false) (heos : size ≤ 0 ∨ next = none) :
    read KF V rd size next file = read_finish KF rd file ∧
    (∀ rd1, finish KF rd = some rd1 →
      rd1.done = true ∧
      read KF V rd size next file
        = some { state := rd1, status := file_status_e.FILE_STATUS_DONE,
                 warned := decide (file.num_packets_read < file.num_packets_in_chunk) } ∧
      ∀ (size1 : Int) (next1 : Option rmff_frame_t) (file1 : rmff_file_t),
        read KF V rd1 size1 next1 file1
          = some { state := rd1, status := file_status_e.FILE_STATUS_DONE,
                   warned := false }) := by
  have hread : read KF V rd size next file = read_finish KF rd file := by
    unfold read
    simp only [hd, Bool.false_eq_true, if_false]
    by_cases hs : 0 ≥ size
    · rw [if_pos hs]
    · rw [if_neg hs]
      rcases heos with h | h
      · omega
      · rw [h]
  refine ⟨hread, ?_⟩
  intro rd1 hfin
  have hdone : rd1.done = true := by
    unfold finish at hfin
    split at hfin
    · simp at hfin
    · simp only [Option.some.injEq] at hfin
      rw [← hfin]
  refine ⟨hdone, ?_, ?_⟩
  · rw [hread]
    unfold read_finish
    rw [hfin]
  · intro size1 next1 file1
    exact read_done KF V rd1 size1 next1 file1 hdone

/-- C17 (evaluation at the failing input): the audio track of `sample_reader`
gets one frame and then the stream ends (frame size 0).  The first `read`
queues the frame and returns `FILE_STATUS_MOREDATA`; the second runs the
finish sequence, which divides the timecode by `num_packets` = 0: `read`
faults instead of returning `FILE_STATUS_DONE`. -/
theorem read_end_of_stream_faults :
    (read 2 sample_no_video sample_reader 1
        (some { id := 1, timecode := 100, flags := 2, data := [7] })
        { num_packets_read := 1, num_packets_in_chunk := 1 }).map (fun o => o.status)
      = some file_status_e.FILE_STATUS_MOREDATA ∧
    (read 2 sample_no_video sample_reader 1
        (some { id := 1, timecode := 100, flags := 2, data := [7] })
        { num_packets_read := 1, num_packets_in_chunk := 1 }).bind
      (fun o => read 2 sample_no_video o.state 0 none
        { num_packets_read := 1, num_packets_in_chunk := 1 })
      = none := by
  decide

/-! ## Theorems: the stored blobs of the track directory -/

/-- A byte that was read is below 256. -/
theorem read_u8_lt (chunk : memory_c) (i v : Nat) (h : read_u8 chunk i = some v) : v < 256 := by
  unfold read_u8 at h
  split at h
  · rename_i b _
    simp only [Option.some.injEq] at h
    subst h
    exact b.isLt
  · simp at h

/-- A 16-bit read yields a number below 2^16. -/
theorem get_uint16_be_lt (chunk : memory_c) (i v : Nat) (h : get_uint16_be chunk i = some v) :
    v < 65536 := by
  unfold get_uint16_be at h
  split at h
  · rename_i hi lo h1 h2
    have := read_u8_lt _ _ _ h1
    have := read_u8_lt _ _ _ h2
    simp only [Option.some.injEq] at h
    omega
  · simp at h

/-- A 32-bit read yields a number below 2^32. -/
theorem get_uint32_be_lt (chunk : memory_c) (i v : Nat) (h : get_uint32_be chunk i = some v) :
    v < 4294967296 := by
  unfold get_uint32_be at h
  split at h
  · rename_i hi lo h1 h2
    have := get_uint16_be_lt _ _ _ h1
    have := get_uint16_be_lt _ _ _ h2
    simp only [Option.some.injEq] at h
    omega
  · simp at h

/-- A mask commutes with a division by a power of two. -/
theorem and_div_two_pow (n : Nat) : ∀ a b : Nat, (a &&& b) / 2 ^ n = a / 2 ^ n &&& b / 2 ^ n := by
  induction n with
  | zero => intro a b; simp
  | succ n ih =>
      intro a b
      rw [pow_succ, ← Nat.div_div_eq_div_mul, ← Nat.div_div_eq_div_mul,
        ← Nat.div_div_eq_div_mul, ih, Nat.and_div_two]

/-- The two halves of a 32-bit number that line 218 takes with masks and a
shift are its quotient and its remainder by 65536. -/
theorem fps_of_eq (i : Nat) (h : i < 4294967296) :
    fps_of i = ((i / 65536 : Nat) : ℚ) + ((i % 65536 : Nat) : ℚ) / 65536 := by
  unfold fps_of
  have h1 : i &&& 0x0000ffff = i % 65536 := Nat.and_pow_two_sub_one_eq_mod i 16
  have h2 : (i &&& 0xffff0000) >>> 16 = i / 65536 := by
    rw [Nat.shiftRight_eq_div_pow, and_div_two_pow]
    have e : (0xffff0000 : Nat) / 2 ^ 16 = 2 ^ 16 - 1 := by decide
    rw [e, Nat.and_pow_two_sub_one_eq_mod]
    omega
  rw [h1, h2]

/-- What the video branch stores, field by field. -/
theorem parse_video_track_fields (L : props_layout) (track : rmff_track_t)
    (dmx r : real_demuxer_t)
    (h : parse_video_track L track dmx = some (track_result.produced r)) :
    ∃ fourcc width height i priv,
      sub_memory track.type_specific_data L.rvp_fourcc2 4 = some fourcc ∧
      get_uint16_be track.type_specific_data L.rvp_width = some width ∧
      get_uint16_be track.type_specific_data L.rvp_height = some height ∧
      get_uint32_be track.type_specific_data L.rvp_fps = some i ∧
      sub_memory track.type_specific_data 0 track.type_specific_size = some priv ∧
      r = { dmx with
        fourcc := fourcc, width := width, height := height, fps_fixed := i,
        private_data := some priv, private_size := track.type_specific_size } := by
  unfold parse_video_track at h
  dsimp only at h
  split at h
  · rename_i fourcc width height i priv e1 e2 e3 e4 e5
    simp only [Option.some.injEq, track_result.produced.injEq] at h
    exact ⟨fourcc, width, height, i, priv, e1, e2, e3, e4, e5, h.symm⟩
  · simp at h

/-- For a video track that the loop body does not skip, the loop body is the
video branch on a new demuxer. -/
theorem parse_track_video (L : props_layout) (requested : Char → Nat → Bool)
    (track : rmff_track_t) (r : real_demuxer_t) (hty : track.type = rmff_track_type.video)
    (h : parse_track L requested track = some (track_result.produced r)) :
    parse_video_track L track (real_demuxer_t.create track)
      = some (track_result.produced r) := by
  unfold parse_track at h
  split at h
  · simp at h
  · split at h
    · simp at h
    · split at h
      · simp at h
      · split at h
        · simp at h
        · simp only [hty, if_true] at h
          exact h

/-- A slice that could be taken is the bytes of the range, and the range ends
inside the buffer. -/
theorem sub_memory_eq (chunk : memory_c) (idx len : Nat) (m : memory_c)
    (h : sub_memory chunk idx len = some m) :
    idx + len ≤ chunk.length ∧ m = (chunk.drop idx).take len ∧ m.length = len := by
  unfold sub_memory at h
  split at h
  · rename_i hle
    simp only [Option.some.injEq] at h
    subst h
    refine ⟨hle, rfl, ?_⟩
    simp only [List.length_take, List.length_drop]
    omega
  · simp at h

/-- C23 (as stated, refuted): a video track of 36 type-specific bytes, the
34-byte properties block and two more bytes.  The blob that the demuxer keeps
is all 36 bytes, the properties block included (the width is read from offset
12 of the very blob), and not the two bytes that remain after the block; no
other blob is stored. -/
theorem parse_headers_video_blob_counterexample :
    ∃ d, parse_track sample_layout (fun _ _ => true) sample_video_track_36
        = some (track_result.produced d) ∧
      d.private_data = some sample_video_track_36.type_specific_data ∧
      d.private_size = 36 ∧
      d.private_data ≠ some [1, 2] ∧
      d.extra_data = none ∧
      d.width = 320 ∧
      get_uint16_be sample_video_track_36.type_specific_data sample_layout.rvp_width = some 320 := by
  refine ⟨_, rfl, ?_⟩
  decide

/-- C23 (amended): for every produced video track, width and height are the
big-endian 16-bit fields of the properties block, the frame rate (in exact
arithmetic) is (upper 16 bits of the 32-bit field) + (lower 16 bits) / 65536,
and the opaque config blob is a copy of all the type-specific bytes, from the
first byte of the properties block to the end of the type-specific data
(`private_size` is the type-specific size); the fourcc is the 4-byte field of
the block, and no separate blob of remaining bytes is stored. -/
theorem parse_headers_video_fields (L : props_layout) (requested : Char → Nat → Bool)
    (track : rmff_track_t) (d : real_demuxer_t) (hty : track.type = rmff_track_type.video)
    (h : parse_track L requested track = some (track_result.produced d)) :
    get_uint16_be track.type_specific_data L.rvp_width = some d.width ∧
    get_uint16_be track.type_specific_data L.rvp_height = some d.height ∧
    (∃ i : Nat, get_uint32_be track.type_specific_data L.rvp_fps = some i ∧
      d.fps = ((i / 65536 : Nat) : ℚ) + ((i % 65536 : Nat) : ℚ) / 65536) ∧
    d.private_data = some (track.type_specific_data.take track.type_specific_size) ∧
    d.private_size = track.type_specific_size ∧
    track.type_specific_size ≤ track.type_specific_data.length ∧
    sub_memory track.type_specific_data L.rvp_fourcc2 4 = some d.fourcc ∧
    d.extra_data = none ∧ d.extra_data_size = 0 := by
  obtain ⟨fourcc, width, height, i, priv, e1, e2, e3, e4, e5, hr⟩ :=
    parse_video_track_fields L track _ d (parse_track_video L requested track d hty h)
  obtain ⟨g1, g2, _⟩ := sub_memory_eq _ _ _ _ e5
  subst hr
  refine ⟨e2, e3, ⟨i, e4, fps_of_eq i (get_uint32_be_lt _ _ _ e4)⟩, ?_, rfl, by omega, e1,
    rfl, rfl⟩
  show some priv = _
  rw [g2, List.drop_zero]

/-- Witness for C23: the video track of 36 bytes, 320 x 240 at 25.5 frames per
second. -/
theorem parse_headers_video_fields_witness :
    ∃ d, parse_track sample_layout (fun _ _ => true) sample_video_track_36
        = some (track_result.produced d) ∧
      get_uint16_be sample_video_track_36.type_specific_data sample_layout.rvp_width
        = some d.width ∧
      d.width = 320 ∧
      d.private_data = some (sample_video_track_36.type_specific_data.take 36) :=
  ⟨_, rfl, (parse_headers_video_fields sample_layout (fun _ _ => true) sample_video_track_36 _
      rfl rfl).1, by decide,
    (parse_headers_video_fields sample_layout (fun _ _ => true) sample_video_track_36 _
      rfl rfl).2.2.2.1⟩

/-- The extra configuration that the version-5 branch stores. -/
theorem parse_audio_v5_extra (L : props_layout) (track : rmff_track_t) (dmx r : real_demuxer_t)
    (ok : Bool) (h : parse_audio_v5 L track dmx = some (ok, r))
    (h0 : dmx.extra_data = none) (h1 : dmx.extra_data_size = 0) :
    sub_memory track.type_specific_data L.ra5p_fourcc3 4 = some r.fourcc ∧
    (L.ra5p_sizeof + 4 < track.type_specific_size →
      r.extra_data = some ((track.type_specific_data.drop (L.ra5p_sizeof + 4)).take
        (track.type_specific_size - (L.ra5p_sizeof + 4))) ∧
      r.extra_data_size = track.type_specific_size - (L.ra5p_sizeof + 4) ∧
      track.type_specific_size ≤ track.type_specific_data.length) ∧
    (track.type_specific_size ≤ L.ra5p_sizeof + 4 →
      r.extra_data = none ∧ r.extra_data_size = 0) := by
  unfold parse_audio_v5 at h
  dsimp only at h
  split at h
  · rename_i rate channels bits fourcc e1 e2 e3 e4
    split at h
    · rename_i hlt
      split at h
      · simp at h
      · rename_i extra he
        simp only [Option.some.injEq, Prod.mk.injEq] at h
        obtain ⟨_, hr⟩ := h
        subst hr
        obtain ⟨g1, g2, _⟩ := sub_memory_eq _ _ _ _ he
        refine ⟨e4, fun _ => ⟨?_, ?_, ?_⟩, fun hle => by omega⟩
        · show some extra = _
          rw [g2, Nat.add_comm 4, Nat.sub_sub, Nat.add_comm 4]
        · show track.type_specific_size - 4 - L.ra5p_sizeof = _
          omega
        · omega
    · rename_i hge
      simp only [Option.some.injEq, Prod.mk.injEq] at h
      obtain ⟨_, hr⟩ := h
      subst hr
      exact ⟨e4, fun hlt => by omega, fun _ => ⟨h0, h1⟩⟩
  · simp at h

/-- The extra configuration that the version-4 branch stores for a track that
it accepts. -/
theorem parse_audio_v4_extra (L : props_layout) (track : rmff_track_t) (dmx r : real_demuxer_t)
    (h : parse_audio_v4 L track dmx = some (true, r))
    (h0 : dmx.extra_data = none) (h1 : dmx.extra_data_size = 0) :
    ∃ s0 : Nat,
      read_u8 track.type_specific_data L.ra4p_sizeof = some s0 ∧
      read_u8 track.type_specific_data (L.ra4p_sizeof + (s0 + 1)) = some 4 ∧
      sub_memory track.type_specific_data (L.ra4p_sizeof + (s0 + 1) + 1) 4 = some r.fourcc ∧
      (L.ra4p_sizeof + (s0 + 1) + 1 + 4 < track.type_specific_size →
        r.extra_data = some ((track.type_specific_data.drop (L.ra4p_sizeof + (s0 + 1) + 1 + 4)).take
          (track.type_specific_size - (L.ra4p_sizeof + (s0 + 1) + 1 + 4))) ∧
        r.extra_data_size = track.type_specific_size - (L.ra4p_sizeof + (s0 + 1) + 1 + 4) ∧
        track.type_specific_size ≤ track.type_specific_data.length) ∧
      (track.type_specific_size ≤ L.ra4p_sizeof + (s0 + 1) + 1 + 4 →
        r.extra_data = none ∧ r.extra_data_size = 0) := by
  unfold parse_audio_v4 at h
  dsimp only at h
  split at h
  · split at h
    · simp at h
    · rename_i s0 hs0
      split at h
      · simp at h
      · rename_i s1 hs1
        split at h
        · simp at h
        · rename_i h4
          have hs4 : s1 = 4 := by
            by_contra hc
            exact h4 (fun hh => hc hh.symm)
          subst hs4
          refine ⟨s0, hs0, hs1, ?_⟩
          split at h
          · simp at h
          · rename_i fourcc hf
            split at h
            · rename_i hgt
              split at h
              · simp at h
              · rename_i extra he
                simp only [Option.some.injEq, Prod.mk.injEq, true_and] at h
                subst h
                obtain ⟨g1, g2, _⟩ := sub_memory_eq _ _ _ _ he
                refine ⟨hf, fun _ => ⟨?_, rfl, by omega⟩, fun hle => by omega⟩
                show some extra = _
                rw [g2]
            · rename_i hle
              simp only [Option.some.injEq, Prod.mk.injEq, true_and] at h
              subst h
              exact ⟨hf, fun hlt => by omega, fun _ => ⟨h0, h1⟩⟩
  · simp at h

/-- A track that the audio branch produces comes from one of the three version
branches with `ok` left set; the loop then only adds the copy of the
type-specific data. -/
theorem parse_audio_track_produced (L : props_layout) (track : rmff_track_t)
    (dmx d : real_demuxer_t)
    (h : parse_audio_track L track dmx = some (track_result.produced d)) :
    ∃ (v : Nat) (dmx1 : real_demuxer_t),
      get_uint16_be track.type_specific_data L.ra4p_version1 = some v ∧
      d.fourcc = dmx1.fourcc ∧ d.extra_data = dmx1.extra_data ∧
      d.extra_data_size = dmx1.extra_data_size ∧
      ((v = 3 ∧ dmx1.extra_data = dmx.extra_data ∧ dmx1.extra_data_size = 0) ∨
       (v = 4 ∧ parse_audio_v4 L track dmx = some (true, dmx1)) ∨
       (v = 5 ∧ parse_audio_v5 L track dmx = some (true, dmx1))) := by
  unfold parse_audio_track at h
  dsimp only at h
  split at h
  · simp at h
  · rename_i v hv
    split at h
    · simp at h
    · rename_i ok dmx1 hparsed
      cases ok with
      | false => simp at h
      | true =>
          simp only [if_true] at h
          split at h
          · simp at h
          · simp only [Option.some.injEq, track_result.produced.injEq] at h
            subst h
            refine ⟨v, dmx1, hv, rfl, rfl, rfl, ?_⟩
            by_cases h3 : 3 = v
            · simp only [h3, if_true, Option.some.injEq, Prod.mk.injEq, true_and] at hparsed
              subst hparsed
              exact Or.inl ⟨h3.symm, rfl, rfl⟩
            · by_cases h4 : 4 = v
              · simp only [h3, if_false, h4, if_true] at hparsed
                exact Or.inr (Or.inl ⟨h4.symm, hparsed⟩)
              · by_cases h5 : 5 = v
                · simp only [h3, if_false, h4, h5, if_true] at hparsed
                  exact Or.inr (Or.inr ⟨h5.symm, hparsed⟩)
                · simp [h3, h4, h5] at hparsed

/-- For an audio track that the loop body does not skip, the loop body is the
audio branch on a new demuxer. -/
theorem parse_track_audio_produced (L : props_layout) (requested : Char → Nat → Bool)
    (track : rmff_track_t) (r : real_demuxer_t) (hty : track.type = rmff_track_type.audio)
    (h : parse_track L requested track = some (track_result.produced r)) :
    parse_audio_track L track (real_demuxer_t.create track)
      = some (track_result.produced r) := by
  unfold parse_track at h
  split at h
  · simp at h
  · split at h
    · simp at h
    · split at h
      · simp at h
      · split at h
        · simp at h
        · simp only [hty, if_true] at h
          rw [if_neg (by decide)] at h
          exact h

/-- C22 (as stated, refuted): the version-5 track `sample_audio_v5_track` of 77
bytes under `sample_layout`.  The codec tag is the member `fourcc3` of the
fixed structure, at the bytes 66 to 69 of its 70 bytes, so the bytes that
follow the fixed header and the codec tag are the 7 bytes from offset 70 on.
The extra configuration that `parse_headers` stores is the 3 bytes from
offset 74 on: the 4 bytes at the offsets 70 to 73 are stepped over, and
70 + extra_data_size is 73, not the type-specific size 77. -/
theorem parse_headers_extra_data_v5_counterexample :
    ∃ d, parse_track sample_layout (fun _ _ => true) sample_audio_v5_track
        = some (track_result.produced d)
      ∧ sample_layout.ra5p_fourcc3 + 4 = sample_layout.ra5p_sizeof
      ∧ sample_layout.ra5p_sizeof = 70
      ∧ d.fourcc = (sample_audio_v5_track.type_specific_data.drop 66).take 4
      ∧ sample_audio_v5_track.type_specific_data.drop 70 = [1, 0, 0, 0, 7, 8, 9]
      ∧ d.extra_data = some [7, 8, 9]
      ∧ d.extra_data ≠ some (sample_audio_v5_track.type_specific_data.drop 70)
      ∧ d.extra_data_size = 3
      ∧ 70 + d.extra_data_size ≠ sample_audio_v5_track.type_specific_size := by
  refine ⟨_, rfl, ?_⟩
  decide

/-- C22 (amended): for every produced audio track the header version v is 4 or
5 (or 3,
which has no extra configuration), and with `off` the offset of the first byte
after the part that the code steps over -- for version 4 the fixed structure,
the first length-prefixed string, the length byte 4 and the 4-byte codec tag;
for version 5 the fixed structure and 4 more bytes -- the extra configuration
blob is exactly the bytes of the type-specific data from `off` to its end, so
off + extra_data_size = type-specific size whenever a byte remains, and the
blob is empty (no blob, size 0) when none remains. -/
theorem parse_headers_extra_data (L : props_layout) (requested : Char → Nat → Bool)
    (track : rmff_track_t) (d : real_demuxer_t) (hty : track.type = rmff_track_type.audio)
    (h : parse_track L requested track = some (track_result.produced d)) :
    ∃ v off : Nat,
      get_uint16_be track.type_specific_data L.ra4p_version1 = some v ∧
      (v = 3 ∨ v = 4 ∨ v = 5) ∧
      (v = 3 → d.extra_data = none ∧ d.extra_data_size = 0) ∧
      (v = 4 → ∃ s0 : Nat,
        read_u8 track.type_specific_data L.ra4p_sizeof = some s0 ∧
        read_u8 track.type_specific_data (L.ra4p_sizeof + (s0 + 1)) = some 4 ∧
        sub_memory track.type_specific_data (L.ra4p_sizeof + (s0 + 1) + 1) 4 = some d.fourcc ∧
        off = L.ra4p_sizeof + (s0 + 1) + 1 + 4) ∧
      (v = 5 →
        sub_memory track.type_specific_data L.ra5p_fourcc3 4 = some d.fourcc ∧
        off = L.ra5p_sizeof + 4) ∧
      (v = 4 ∨ v = 5 →
        (off < track.type_specific_size →
          d.extra_data = some ((track.type_specific_data.drop off).take
            (track.type_specific_size - off)) ∧
          (∀ blob, d.extra_data = some blob → blob.length = d.extra_data_size) ∧
          d.extra_data_size = track.type_specific_size - off ∧
          off + d.extra_data_size = track.type_specific_size ∧
          track.type_specific_size ≤ track.type_specific_data.length) ∧
        (track.type_specific_size ≤ off →
          d.extra_data = none ∧ d.extra_data_size = 0)) := by
  obtain ⟨v, dmx1, hv, f1, f2, f3, hcase⟩ :=
    parse_audio_track_produced L track _ d (parse_track_audio_produced L requested track d hty h)
  rcases hcase with ⟨h3, g1, g2⟩ | ⟨h4, hp⟩ | ⟨h5, hp⟩
  · refine ⟨v, 0, hv, Or.inl h3, fun _ => ⟨?_, ?_⟩, fun h => by omega, fun h => by omega,
      fun h => by omega⟩
    · rw [f2, g1]; rfl
    · rw [f3, g2]
  · obtain ⟨s0, e0, e1, e2, e3, e4⟩ := parse_audio_v4_extra L track _ dmx1 hp rfl rfl
    refine ⟨v, L.ra4p_sizeof + (s0 + 1) + 1 + 4, hv, Or.inr (Or.inl h4), fun h => by omega,
      fun _ => ⟨s0, e0, e1, by rw [f1]; exact e2, rfl⟩, fun h => by omega, fun _ => ⟨?_, ?_⟩⟩
    · intro hlt
      obtain ⟨a1, a2, a3⟩ := e3 hlt
      refine ⟨by rw [f2, a1], ?_, by rw [f3, a2], by rw [f3, a2]; omega, a3⟩
      intro blob hb
      rw [f2, a1, Option.some.injEq] at hb
      subst hb
      rw [f3, a2]
      simp only [List.length_take, List.length_drop]
      omega
    · intro hle
      obtain ⟨a1, a2⟩ := e4 hle
      exact ⟨by rw [f2, a1], by rw [f3, a2]⟩
  · obtain ⟨e2, e3, e4⟩ := parse_audio_v5_extra L track _ dmx1 true hp rfl rfl
    refine ⟨v, L.ra5p_sizeof + 4, hv, Or.inr (Or.inr h5), fun h => by omega,
      fun h => by omega, fun _ => ⟨by rw [f1]; exact e2, rfl⟩, fun _ => ⟨?_, ?_⟩⟩
    · intro hlt
      obtain ⟨a1, a2, a3⟩ := e3 hlt
      refine ⟨by rw [f2, a1], ?_, by rw [f3, a2], by rw [f3, a2]; omega, a3⟩
      intro blob hb
      rw [f2, a1, Option.some.injEq] at hb
      subst hb
      rw [f3, a2]
      simp only [List.length_take, List.length_drop]
      omega
    · intro hle
      obtain ⟨a1, a2⟩ := e4 hle
      exact ⟨by rw [f2, a1], by rw [f3, a2]⟩

/-- The extra configuration of the two audio samples, evaluated: the version-5
track of 77 bytes keeps the three bytes after offset 74, the version-4 track
of 62 bytes ends with its codec tag and keeps none. -/
theorem parse_headers_extra_data_example :
    (∃ d, parse_track sample_layout (fun _ _ => true) sample_audio_v5_track
        = some (track_result.produced d) ∧
      d.extra_data = some [7, 8, 9] ∧ d.extra_data_size = 3 ∧
      d.fourcc = [114, 97, 97, 99]) ∧
    (∃ d, parse_track sample_layout (fun _ _ => true) sample_audio_v4_track
        = some (track_result.produced d) ∧
      d.extra_data = none ∧ d.extra_data_size = 0 ∧
      d.fourcc = [99, 111, 111, 107]) := by
  refine ⟨⟨_, rfl, ?_⟩, ⟨_, rfl, ?_⟩⟩ <;> decide

/-- Witness for C22: the version-5 sample track of 77 bytes under
`sample_layout` (a structure of 70 bytes): the blob is the bytes from offset
74 to the end, and 74 + extra_data_size = 77. -/
theorem parse_headers_extra_data_witness :
    ∃ d, parse_track sample_layout (fun _ _ => true) sample_audio_v5_track
        = some (track_result.produced d) ∧
      d.extra_data = some ((sample_audio_v5_track.type_specific_data.drop 74).take (77 - 74)) ∧
      74 + d.extra_data_size = 77 := by
  refine ⟨_, rfl, ?_⟩
  obtain ⟨v, off, h1, _, _, _, h5, h6⟩ :=
    parse_headers_extra_data sample_layout (fun _ _ => true) sample_audio_v5_track _ rfl rfl
  have hv : v = 5 := by
    have e : get_uint16_be sample_audio_v5_track.type_specific_data sample_layout.ra4p_version1
        = some 5 := by decide
    rw [e, Option.some.injEq] at h1
    exact h1.symm
  have hoff : off = 74 := (h5 hv).2
  subst hoff
  obtain ⟨a1, _, _, a4, _⟩ := (h6 (Or.inr hv)).1 (by decide)
  exact ⟨a1, a4⟩

/-! ## Theorems: `probe_file` -/

/-- The bytes that the case folding takes to one of the four characters of
`.rmf`. -/
theorem tolower_eq_iff_rmf (c : Nat) :
    (tolower c = 46 ↔ c = 46) ∧ (tolower c = 114 ↔ (c = 82 ∨ c = 114)) ∧
    (tolower c = 109 ↔ (c = 77 ∨ c = 109)) ∧ (tolower c = 102 ↔ (c = 70 ∨ c = 102)) := by
  unfold tolower
  refine ⟨?_, ?_, ?_, ?_⟩ <;> split <;> omega

/-- On four bytes, `strncasecmp(data, ".RMF", 4)` is 0 exactly when the bytes
are `.RMF` with each letter in either case. -/
theorem strncasecmp_rmf (a b c d : byte_t) :
    strncasecmp [a, b, c, d] TAG_RMF 4 = 0 ↔
      [tolower a.val, tolower b.val, tolower c.val, tolower d.val] = [46, 114, 109, 102] := by
  have e1 : tolower 46 = 46 := by decide
  have e2 : tolower 82 = 114 := by decide
  have e3 : tolower 77 = 109 := by decide
  have e4 : tolower 70 = 102 := by decide
  have v1 : ((46 : byte_t) : Nat) = 46 := rfl
  have v2 : ((82 : byte_t) : Nat) = 82 := rfl
  have v3 : ((77 : byte_t) : Nat) = 77 := rfl
  have v4 : ((70 : byte_t) : Nat) = 70 := rfl
  simp only [strncasecmp, TAG_RMF, c_head, List.tail_cons, v1, v2, v3, v4, e1, e2, e3, e4]
  generalize tolower a.val = x
  generalize tolower b.val = y
  generalize tolower c.val = z
  generalize tolower d.val = w
  simp only [List.cons.injEq, and_true]
  split_ifs <;> constructor <;> intro h <;> omega

/-- What the read of four bytes at offset 0 yields: the first four bytes of
the file, fewer if the file is shorter. -/
theorem read_four_at_start (io : mm_io_c) :
    ((io.setFilePointer 0).read 4).1 = io.content.take 4 ∧
    (((io.setFilePointer 0).read 4).1.length = 4 ↔ 4 ≤ io.content.length) := by
  simp only [mm_io_c.setFilePointer, mm_io_c.read, List.drop_zero, List.length_take, true_and]
  omega

/-- Four bytes as a list of four. -/
theorem list_of_length_four (l : memory_c) (h : l.length = 4) :
    ∃ a b c d, l = [a, b, c, d] := by
  match l, h with
  | [a, b, c, d], _ => exact ⟨a, b, c, d, rfl⟩

/-- C24 (as stated, refuted): a file that starts with `.rmf` in small letters.
Four bytes can be read at offset 0 and they are not the tag `.RMF`, yet
`probe_file` answers 1. -/
theorem probe_file_lower_case_counterexample :
    (probe_file sample_rmf_lower 10).1 = 1 ∧
    ((sample_rmf_lower.setFilePointer 0).read 4).1 = [46, 114, 109, 102] ∧
    ((sample_rmf_lower.setFilePointer 0).read 4).1 ≠ TAG_RMF := by
  decide

/-- C24 (amended): the result of `probe_file` is 1 or 0, and it is 1 if and
only if the size is at least 4, four bytes can be read from offset 0, and those
four bytes equal the tag `.RMF` when the case of the letters is ignored (so
`.rmf` is accepted as well); on success the read position is back at offset 0
and the file is otherwise as it was. -/
theorem probe_file_magic (io : mm_io_c) (size : Int) :
    ((probe_file io size).1 = 1 ∨ (probe_file io size).1 = 0) ∧
    ((probe_file io size).1 = 1 ↔
      (4 ≤ size ∧ ((io.setFilePointer 0).read 4).1.length = 4 ∧
        (((io.setFilePointer 0).read 4).1).map (fun c => tolower c.val)
          = TAG_RMF.map (fun c => tolower c.val))) ∧
    ((probe_file io size).1 = 1 →
      (probe_file io size).2.pos = 0 ∧ (probe_file io size).2.content = io.content) := by
  have hmap : TAG_RMF.map (fun c => tolower c.val) = [46, 114, 109, 102] := by decide
  rw [hmap]
  have h01 : ∀ x : mm_io_c, ((0 : Int), x).1 = 1 → False := fun x h => by simp at h
  by_cases hs : 4 > size
  · have hp : probe_file io size = (0, io) := by
      unfold probe_file
      rw [if_pos hs]
    rw [hp]
    refine ⟨Or.inr rfl, ⟨fun h => (h01 _ h).elim, fun h => by omega⟩,
      fun h => (h01 _ h).elim⟩
  · by_cases hl : ((io.setFilePointer 0).read 4).1.length = 4
    · obtain ⟨a, b, c, d, hd⟩ := list_of_length_four _ hl
      have hcmp := strncasecmp_rmf a b c d
      by_cases hc : strncasecmp [a, b, c, d] TAG_RMF 4 = 0
      · have hp : probe_file io size
            = (1, ((io.setFilePointer 0).read 4).2.setFilePointer 0) := by
          unfold probe_file
          rw [if_neg hs]
          simp only [hl, ne_eq, not_true_eq_false, if_false]
          rw [hd]
          simp only [hc, not_true_eq_false, if_false]
        rw [hp, hd]
        refine ⟨Or.inl rfl, ⟨fun _ => ⟨by omega, rfl, hcmp.mp hc⟩, fun _ => rfl⟩,
          fun _ => ⟨rfl, rfl⟩⟩
      · have hp : probe_file io size
            = (0, ((io.setFilePointer 0).read 4).2.setFilePointer 0) := by
          unfold probe_file
          rw [if_neg hs]
          simp only [hl, ne_eq, not_true_eq_false, if_false]
          rw [hd]
          simp only [hc, not_false_eq_true, if_true]
        rw [hp, hd]
        refine ⟨Or.inr rfl, ⟨fun h => (h01 _ h).elim,
          fun h => absurd (hcmp.mpr h.2.2) hc⟩, fun h => (h01 _ h).elim⟩
    · have hp : probe_file io size = (0, ((io.setFilePointer 0).read 4).2) := by
        unfold probe_file
        rw [if_neg hs]
        simp only [hl, ne_eq, not_false_eq_true, if_true]
      rw [hp]
      refine ⟨Or.inr rfl, ⟨fun h => (h01 _ h).elim, fun h => absurd h.2.1 hl⟩,
        fun h => (h01 _ h).elim⟩

/-- The tag check in `probe_file` accepts exactly 16 spellings of the first four
bytes; two of them, evaluated: `.RMF` and `.rmf` give 1, a file of three bytes
and a file with another tag give 0, and a size below 4 gives 0 without a
read. -/
theorem probe_file_examples :
    probe_file sample_rmf 10 = (1, { sample_rmf with pos := 0 }) ∧
    probe_file sample_rmf_lower 10 = (1, { sample_rmf_lower with pos := 0 }) ∧
    (probe_file { content := [46, 82, 77], pos := 0 } 4).1 = 0 ∧
    (probe_file { content := [46, 82, 77, 65, 0], pos := 0 } 5).1 = 0 ∧
    probe_file sample_rmf 3 = (0, sample_rmf) := by
  decide

/-! ## Theorems: `get_progress` -/

/-- Inside the range in which the product does not wrap, `get_progress` is the
quotient of the natural numbers. -/
theorem get_progress_exact (W : Nat) (file : rmff_file_t)
    (hd : 0 < file.num_packets_in_chunk) (hdW : file.num_packets_in_chunk < W)
    (hr : file.num_packets_read ≤ file.num_packets_in_chunk)
    (hW : 100 * file.num_packets_read < W) :
    get_progress W file
      = some ((100 * file.num_packets_read / file.num_packets_in_chunk : Nat) : Int) ∧
    100 * file.num_packets_read / file.num_packets_in_chunk ≤ 100 := by
  have hq : 100 * file.num_packets_read / file.num_packets_in_chunk ≤ 100 := by
    apply Nat.div_le_of_le_mul
    calc 100 * file.num_packets_read ≤ 100 * file.num_packets_in_chunk :=
          Nat.mul_le_mul_left _ hr
      _ = file.num_packets_in_chunk * 100 := Nat.mul_comm _ _
  refine ⟨?_, hq⟩
  unfold get_progress
  have h1 : file.num_packets_in_chunk % W = file.num_packets_in_chunk := Nat.mod_eq_of_lt hdW
  have h2 : file.num_packets_read % W = file.num_packets_read := Nat.mod_eq_of_lt (by omega)
  have h3 : 100 * file.num_packets_read % W = 100 * file.num_packets_read :=
    Nat.mod_eq_of_lt hW
  rw [h1, h2, h3, if_neg (by omega)]
  unfold mtx.dts.to_int32 mtx.dts.UINT32_MOD
  have h4 : 100 * file.num_packets_read / file.num_packets_in_chunk % 4294967296
      = 100 * file.num_packets_read / file.num_packets_in_chunk := Nat.mod_eq_of_lt (by omega)
  rw [h4, if_pos (by omega)]

/-- C27 (as stated, refuted): with the 32-bit counters of librmff, a file of
42949673 frames of which 42949672 and then all 42949673 have been read.  The
product 100 * 42949673 = 4294967300 wraps to 4, so the progress falls from 99
to 0, where floor(100 * read / declared) is 100. -/
theorem get_progress_wrap_counterexample :
    get_progress 4294967296
      { num_packets_read := 42949672, num_packets_in_chunk := 42949673 } = some 99 ∧
    get_progress 4294967296
      { num_packets_read := 42949673, num_packets_in_chunk := 42949673 } = some 0 ∧
    100 * 42949673 / 42949673 = 100 := by
  decide

/-- C27 (amended): for every file state with frames-declared > 0,
frames-read <= frames-declared, and 100 * frames-read below the modulus of the
counter type (2^32 for the 32-bit counters of librmff), the result is
floor(100 * frames-read / frames-declared); it lies between 0 and 100 and is
non-decreasing in frames-read: a state with fewer frames read has a result
that is not larger. -/
theorem get_progress_in_range (W : Nat) (file : rmff_file_t)
    (hd : 0 < file.num_packets_in_chunk) (hdW : file.num_packets_in_chunk < W)
    (hr : file.num_packets_read ≤ file.num_packets_in_chunk)
    (hW : 100 * file.num_packets_read < W) :
    get_progress W file
      = some ((100 * file.num_packets_read / file.num_packets_in_chunk : Nat) : Int) ∧
    (∀ p : Int, get_progress W file = some p → 0 ≤ p ∧ p ≤ 100) ∧
    (∀ (earlier : Nat) (p q : Int), earlier ≤ file.num_packets_read →
      get_progress W { file with num_packets_read := earlier } = some p →
      get_progress W file = some q → p ≤ q) := by
  obtain ⟨h1, h2⟩ := get_progress_exact W file hd hdW hr hW
  refine ⟨h1, ?_, ?_⟩
  · intro p hp
    rw [h1, Option.some.injEq] at hp
    subst hp
    constructor
    · exact Int.natCast_nonneg _
    · exact_mod_cast h2
  · intro earlier p q he hp hq
    obtain ⟨g1, _⟩ := get_progress_exact W { file with num_packets_read := earlier } hd hdW
      (Nat.le_trans he hr) (by show 100 * earlier < W; omega)
    rw [g1, Option.some.injEq] at hp
    rw [h1, Option.some.injEq] at hq
    subst hp hq
    have : 100 * earlier / file.num_packets_in_chunk
        ≤ 100 * file.num_packets_read / file.num_packets_in_chunk :=
      Nat.div_le_div_right (Nat.mul_le_mul_left _ he)
    exact_mod_cast this

/-- Witness for C27: 1 frame of 3 read gives 33, with 32-bit counters. -/
theorem get_progress_in_range_witness :
    get_progress 4294967296 { num_packets_read := 1, num_packets_in_chunk := 3 } = some 33 :=
  (get_progress_in_range 4294967296 { num_packets_read := 1, num_packets_in_chunk := 3 }
    (by decide) (by decide) (by decide) (by decide)).1

/-! ## Theorems: `get_information_from_data` -/

/-- Writing to a position of a list the element that is there already leaves
the list as it is. -/
theorem set_same {α : Type} : ∀ (l : List α) (i : Nat) (a : α), l[i]? = some a → l.set i a = l
  | [], _, _, h => by simp at h
  | x :: l, 0, a, h => by
      simp only [List.getElem?_cons_zero, Option.some.injEq] at h
      subst h
      rfl
  | x :: l, i + 1, a, h => by
      simp only [List.getElem?_cons_succ] at h
      simp only [List.set_cons_succ, set_same l i a h]

/-- With `information_found` set, no demuxer with the tag `DNET` has the
bitstream id -1. -/
theorem information_found_spec (demuxers : List real_demuxer_t)
    (h : information_found demuxers = true) (d : real_demuxer_t) (hd : d ∈ demuxers)
    (hdnet : is_dnet d = true) : d.bsid ≠ -1 := by
  unfold information_found at h
  rw [List.all_eq_true] at h
  have := h d hd
  simp only [hdnet, Bool.true_and, Bool.not_eq_true', beq_eq_false_iff_ne, ne_eq] at this
  exact this

/-- The loop of `get_information_from_data`: when it ends, every `DNET` demuxer
has the bitstream id that a frame of its track gave it, the frames read are
appended to the log, and nothing but bitstream ids has changed. -/
theorem information_loop_spec (next : rmff_file_t → Option (rmff_frame_t × rmff_file_t)) :
    ∀ (fuel : Nat) (found : Bool) (file : rmff_file_t) (ds : List real_demuxer_t)
      (log : List rmff_frame_t) (file1 : rmff_file_t) (ds1 : List real_demuxer_t)
      (log1 : List rmff_frame_t),
      information_loop next fuel found file ds log = some (file1, ds1, log1) →
      (found = true → information_found ds = true) →
      (∀ d ∈ ds, is_dnet d = true → d.bsid = -1 ∨
        ∃ frame ∈ log, frame.id = d.track.id ∧
          ∃ b : Nat, read_u8 frame.data 4 = some b ∧ d.bsid = ((b >>> 3 : Nat) : Int)) →
      information_found ds1 = true ∧
      (∀ d ∈ ds1, is_dnet d = true → d.bsid = -1 ∨
        ∃ frame ∈ log1, frame.id = d.track.id ∧
          ∃ b : Nat, read_u8 frame.data 4 = some b ∧ d.bsid = ((b >>> 3 : Nat) : Int)) ∧
      (∃ more, log1 = log ++ more ∧ (found = true → more = [] ∧ ds1 = ds ∧ file1 = file)) ∧
      ds1.map (fun d => { d with bsid := 0 }) = ds.map (fun d => { d with bsid := 0 }) := by
  intro fuel
  induction fuel with
  | zero =>
      intro found file ds log file1 ds1 log1 h hf hinv
      cases found with
      | true =>
          simp only [information_loop, Option.some.injEq, Prod.mk.injEq] at h
          obtain ⟨h1, h2, h3⟩ := h
          subst h1 h2 h3
          exact ⟨hf rfl, hinv, ⟨[], by simp, fun _ => ⟨rfl, rfl, rfl⟩⟩, rfl⟩
      | false => simp [information_loop] at h
  | succ fuel ih =>
      intro found file ds log file1 ds1 log1 h hf hinv
      cases found with
      | true =>
          simp only [information_loop, Option.some.injEq, Prod.mk.injEq] at h
          obtain ⟨h1, h2, h3⟩ := h
          subst h1 h2 h3
          exact ⟨hf rfl, hinv, ⟨[], by simp, fun _ => ⟨rfl, rfl, rfl⟩⟩, rfl⟩
      | false =>
          simp only [information_loop] at h
          split at h
          · simp at h
          · rename_i frame file2 hnext
            split at h
            · -- no demuxer for the frame
              obtain ⟨a1, a2, ⟨more, a3, _⟩, a4⟩ := ih false file2 ds (log ++ [frame]) file1 ds1 log1 h
                (fun hh => by simp at hh)
                (fun d hd hdn => by
                  rcases hinv d hd hdn with g | ⟨fr, hfr, g⟩
                  · exact Or.inl g
                  · exact Or.inr ⟨fr, List.mem_append_left _ hfr, g⟩)
              exact ⟨a1, a2, ⟨frame :: more, by rw [a3]; simp, fun hh => by simp at hh⟩, a4⟩
            · rename_i i dmx hfind
              obtain ⟨hget, hid, _⟩ := find_demuxer_spec ds frame.id i dmx hfind
              have hi : i < ds.length := by
                by_contra hc
                rw [List.getElem?_eq_none (by omega)] at hget
                simp at hget
              split at h
              · simp at h
              · rename_i dmx1 hupd
                have hd1 : dmx1 = dmx ∨ (is_dnet dmx = true ∧ ∃ b : Nat,
                    read_u8 frame.data 4 = some b ∧
                    dmx1 = { dmx with bsid := ((b >>> 3 : Nat) : Int) }) := by
                  by_cases hdn : is_dnet dmx = true
                  · rw [if_pos hdn] at hupd
                    split at hupd
                    · simp at hupd
                    · rename_i b hb
                      simp only [Option.some.injEq] at hupd
                      exact Or.inr ⟨hdn, b, hb, hupd.symm⟩
                  · rw [if_neg hdn] at hupd
                    simp only [Option.some.injEq] at hupd
                    exact Or.inl hupd.symm
                have herase : ({ dmx1 with bsid := 0 } : real_demuxer_t)
                    = { dmx with bsid := 0 } := by
                  rcases hd1 with g | ⟨_, b, _, g⟩ <;> subst g <;> rfl
                obtain ⟨a1, a2, ⟨more, a3, _⟩, a4⟩ := ih (information_found (ds.set i dmx1)) file2
                  (ds.set i dmx1) (log ++ [frame]) file1 ds1 log1 h (fun hh => hh)
                  (fun d hd hdn => by
                    rcases List.mem_or_eq_of_mem_set hd with g | g
                    · rcases hinv d g hdn with g1 | ⟨fr, hfr, g1⟩
                      · exact Or.inl g1
                      · exact Or.inr ⟨fr, List.mem_append_left _ hfr, g1⟩
                    · subst g
                      rcases hd1 with g1 | ⟨_, b, hb, g1⟩
                      · subst g1
                        rcases hinv d (List.getElem?_mem hget) hdn with g2 | ⟨fr, hfr, g2⟩
                        · exact Or.inl g2
                        · exact Or.inr ⟨fr, List.mem_append_left _ hfr, g2⟩
                      · subst g1
                        exact Or.inr ⟨frame, by simp, hid.symm, b, hb, rfl⟩)
                refine ⟨a1, a2, ⟨frame :: more, by rw [a3]; simp, fun hh => by simp at hh⟩, ?_⟩
                rw [a4, List.map_set, herase]
                have : (ds.map (fun d => ({ d with bsid := 0 } : real_demuxer_t)))[i]?
                    = some { dmx with bsid := 0 } := by
                  rw [List.getElem?_map, hget]
                  rfl
                exact set_same _ _ _ this

/-- Without a `DNET` track `get_information_from_data` returns without reading
a frame, whatever the bound on the frames is: the demuxers are as they were,
and only the counter of frames read is reset. -/
theorem get_information_from_data_no_dnet
    (next : rmff_file_t → Option (rmff_frame_t × rmff_file_t)) (fuel : Nat)
    (file : rmff_file_t) (demuxers : List real_demuxer_t)
    (hno : ∀ d ∈ demuxers, is_dnet d = false) :
    get_information_from_data next fuel file demuxers
      = some { demuxers := demuxers, file := { file with num_packets_read := 0 },
               frames := [] } := by
  have hmap : demuxers.map (fun dmx => if is_dnet dmx then { dmx with bsid := -1 } else dmx)
      = demuxers := by
    conv_rhs => rw [← List.map_id demuxers]
    apply List.map_congr_left
    intro d hd
    simp [hno d hd]
  have hany : demuxers.any is_dnet = false := by
    rw [List.any_eq_false]
    intro d hd
    simp [hno d hd]
  unfold get_information_from_data
  simp only [hmap, hany, Bool.not_false]
  cases fuel <;> simp [information_loop]

/-- C21: when `get_information_from_data` returns, the file position equals the
position at entry and the frames-read counter is 0; every track whose codec
tag is `DNET` (compared as the code compares it, ignoring case) has a
bitstream id different from -1, equal to (byte 4 of a frame of that track that
was read) >> 3; nothing but bitstream ids has changed in the demuxers; and if
no track has the `DNET` tag, no frame is read at all and the demuxers are
unchanged. -/
theorem get_information_from_data_contract
    (next : rmff_file_t → Option (rmff_frame_t × rmff_file_t)) (fuel : Nat)
    (file : rmff_file_t) (demuxers : List real_demuxer_t) (r : information_outcome)
    (h : get_information_from_data next fuel file demuxers = some r) :
    r.file.pos = file.pos ∧ r.file.num_packets_read = 0 ∧
    (∀ d ∈ r.demuxers, is_dnet d = true →
      d.bsid ≠ -1 ∧
      ∃ frame ∈ r.frames, frame.id = d.track.id ∧
        ∃ b : Nat, read_u8 frame.data 4 = some b ∧ d.bsid = ((b >>> 3 : Nat) : Int)) ∧
    r.demuxers.map (fun d => { d with bsid := 0 })
      = demuxers.map (fun d => { d with bsid := 0 }) ∧
    ((∀ d ∈ demuxers, is_dnet d = false) → r.frames = [] ∧ r.demuxers = demuxers) := by
  have hcopy := h
  unfold get_information_from_data at h
  dsimp only at h
  split at h
  · simp at h
  · rename_i file1 ds1 log1 hloop
    simp only [Option.some.injEq] at h
    subst h
    have hf0 : (!(demuxers.any is_dnet)) = true →
        information_found (demuxers.map
          (fun dmx => if is_dnet dmx then { dmx with bsid := -1 } else dmx)) = true := by
      intro hh
      unfold information_found
      rw [List.all_eq_true]
      intro d hd
      obtain ⟨d0, hd0, hdd⟩ := List.mem_map.mp hd
      have hnd : is_dnet d0 = false := by
        simp only [Bool.not_eq_true', List.any_eq_false] at hh
        simpa using hh d0 hd0
      simp only [hnd, Bool.false_eq_true, if_false] at hdd
      subst hdd
      simp [hnd]
    have hinv0 : ∀ d ∈ demuxers.map
          (fun dmx => if is_dnet dmx then { dmx with bsid := -1 } else dmx),
        is_dnet d = true → d.bsid = -1 ∨
          ∃ frame ∈ ([] : List rmff_frame_t), frame.id = d.track.id ∧
            ∃ b : Nat, read_u8 frame.data 4 = some b ∧ d.bsid = ((b >>> 3 : Nat) : Int) := by
      intro d hd hdn
      obtain ⟨d0, hd0, hdd⟩ := List.mem_map.mp hd
      by_cases hnd : is_dnet d0 = true
      · simp only [hnd, if_true] at hdd
        subst hdd
        exact Or.inl rfl
      · simp only [hnd, if_false] at hdd
        subst hdd
        exact absurd hdn hnd
    obtain ⟨a1, a2, _, a4⟩ := information_loop_spec next fuel _ file _ [] file1 ds1 log1 hloop
      hf0 hinv0
    refine ⟨rfl, rfl, ?_, ?_, ?_⟩
    · intro d hd hdn
      have hne := information_found_spec ds1 a1 d hd hdn
      rcases a2 d hd hdn with g | g
      · exact absurd g hne
      · exact ⟨hne, g⟩
    · show ds1.map _ = _
      rw [a4, List.map_map]
      apply List.map_congr_left
      intro d _
      simp only [Function.comp]
      split <;> rfl
    · intro hno
      rw [get_information_from_data_no_dnet next fuel file demuxers hno, Option.some.injEq]
        at hcopy
      rw [← hcopy]
      exact ⟨rfl, rfl⟩

/-- Witness for C21: the audio track 1 and the `dnet` track 7 on a stream of
three frames.  All three frames are read, the third gives the bitstream id
64 >> 3 = 8, the position is back at 0 and the counter of frames read is 0. -/
theorem get_information_from_data_contract_witness :
    ∃ r, get_information_from_data sample_stream 5
        { num_packets_read := 0, num_packets_in_chunk := 3, pos := 0 } sample_dnet_demuxers
        = some r ∧
      r.file.pos = 0 ∧ r.file.num_packets_read = 0 ∧
      r.frames.length = 3 ∧
      r.demuxers = [sample_audio_dmx, { sample_dnet_dmx with bsid := 8 }] :=
  ⟨_, rfl,
    (get_information_from_data_contract sample_stream 5
      { num_packets_read := 0, num_packets_in_chunk := 3, pos := 0 } sample_dnet_demuxers _
      rfl).1,
    by decide, by decide, by decide⟩

/-- With the `dnet` track 7 and a stream that ends before a frame of that track
comes, `get_information_from_data` does not return: the null frame that
`rmff_read_next_frame` answers at the end of the stream is dereferenced. -/
theorem get_information_from_data_end_of_stream_example :
    get_information_from_data (fun _ => none) 5
      { num_packets_read := 0, num_packets_in_chunk := 3, pos := 0 } sample_dnet_demuxers
      = none := by
  decide

/-! ## Theorems: `create_aac_audio_packetizer` -/

/-- The local variables of `create_aac_audio_packetizer` after line 351, and
the track after that line. -/
theorem create_aac_audio_packetizer_eq (SBR : Int)
    (parse_aac_data : memory_c → Int → Option aac_header_t)
    (all_aac_is_sbr : Int → Option Bool) (new_ptzr : Int) (dmx : real_demuxer_t)
    (r : aac_outcome)
    (h : create_aac_audio_packetizer SBR parse_aac_data all_aac_is_sbr new_ptzr dmx = some r) :
    aac_parse_extra_data parse_aac_data dmx = some r.header ∧
    r.packetizer.profile
      = (if -1 ≠ r.detected_profile ∧ sbr_denied all_aac_is_sbr (dmx.track.id : Int) = true then
          r.detected_profile
        else if sbr_requested all_aac_is_sbr (dmx.track.id : Int) = true then SBR
        else if r.sbr = true then SBR else r.detected_profile) ∧
    r.packetizer.output_sampling_freq
      = (if SBR = r.packetizer.profile then some r.output_sample_rate else none) ∧
    (r.sbr = true → r.detected_profile = -1 ∨ r.detected_profile = SBR) ∧
    (r.detected_profile = -1 →
      r.packetizer.channels = dmx.channels ∧
      r.packetizer.sample_rate = dmx.samples_per_second ∧
      r.dmx.channels = dmx.channels ∧
      r.dmx.samples_per_second = dmx.samples_per_second ∧
      (∀ hd, r.header = some hd → (if hd.sbr then SBR else hd.profile) = -1) ∧
      ((r.sbr = true ∧ r.output_sample_rate = 2 * dmx.samples_per_second ∧
          2 * dmx.samples_per_second ≤ 2147483647 ∧
          (strcasecmp dmx.fourcc TAG_RACP = 0 ∨ dmx.samples_per_second < 44100)) ∨
       (r.sbr = (match r.header with | none => false | some hd => hd.sbr) ∧
          ¬ (strcasecmp dmx.fourcc TAG_RACP = 0 ∨ dmx.samples_per_second < 44100)))) ∧
    (r.detected_profile ≠ -1 →
      ∃ hd, r.header = some hd ∧
        r.detected_profile = (if hd.sbr then SBR else hd.profile) ∧
        r.sbr = hd.sbr ∧
        r.dmx.channels = hd.channels ∧ r.dmx.samples_per_second = hd.sample_rate ∧
        r.packetizer.channels = hd.channels ∧ r.packetizer.sample_rate = hd.sample_rate ∧
        r.output_sample_rate = hd.output_sample_rate) := by
  unfold create_aac_audio_packetizer at h
  dsimp only at h
  split at h
  · simp at h
  · rename_i header hparse
    refine ⟨?_, ?_⟩
    · split at h
      · simp at h
      · simp only [Option.some.injEq] at h
        subst h
        exact hparse
    · cases header with
      | none =>
          simp only [reduceIte] at h
          by_cases hh : strcasecmp dmx.fourcc TAG_RACP = 0 ∨ 44100 > dmx.samples_per_second
          · simp only [hh, if_true] at h
            by_cases ho : 2 * dmx.samples_per_second > 2147483647
            · simp [ho] at h
            · simp only [ho, if_false, Option.some.injEq] at h
              subst h
              refine ⟨?_, rfl, fun _ => Or.inl rfl, fun _ => ⟨rfl, rfl, rfl, rfl, ?_, ?_⟩, ?_⟩
              · simp
              · intro hd hhd
                simp at hhd
              · exact Or.inl ⟨rfl, rfl, by omega, hh⟩
              · intro hne
                exact absurd rfl hne
          · simp only [hh, if_false, Option.some.injEq] at h
            subst h
            refine ⟨?_, rfl, fun hs => by simp at hs, fun _ => ⟨rfl, rfl, rfl, rfl, ?_, ?_⟩, ?_⟩
            · simp
            · intro hd hhd
              simp at hhd
            · exact Or.inr ⟨rfl, hh⟩
            · intro hne
              exact absurd rfl hne
      | some hd =>
          simp only at h
          obtain ⟨v1, hv1⟩ : ∃ v1 : aac_header_t,
              v1 = (if hd.sbr = true then { hd with profile := SBR } else hd) := ⟨_, rfl⟩
          rw [← hv1] at h
          have e1 : v1.profile = (if hd.sbr then SBR else hd.profile) := by
            rw [hv1]; split <;> rfl
          have e2 : v1.sbr = hd.sbr := by rw [hv1]; split <;> rfl
          have e3 : v1.channels = hd.channels := by rw [hv1]; split <;> rfl
          have e4 : v1.sample_rate = hd.sample_rate := by rw [hv1]; split <;> rfl
          have e5 : v1.output_sample_rate = hd.output_sample_rate := by rw [hv1]; split <;> rfl
          clear hv1
          by_cases hp : -1 = v1.profile
          · simp only [hp, if_true] at h
            by_cases hh : strcasecmp dmx.fourcc TAG_RACP = 0 ∨ 44100 > dmx.samples_per_second
            · simp only [hh, if_true] at h
              by_cases ho : 2 * dmx.samples_per_second > 2147483647
              · simp [ho] at h
              · simp only [ho, if_false, Option.some.injEq] at h
                subst h
                refine ⟨?_, rfl, fun _ => Or.inl hp.symm,
                  fun _ => ⟨rfl, rfl, rfl, rfl, ?_, ?_⟩, ?_⟩
                · simp [← hp]
                · intro hd1 hhd
                  rw [Option.some.injEq] at hhd
                  subst hhd
                  rw [← e1, ← hp]
                · exact Or.inl ⟨rfl, rfl, by omega, hh⟩
                · intro hne
                  exact absurd hp.symm hne
            · simp only [hh, if_false, Option.some.injEq] at h
              subst h
              refine ⟨?_, rfl, fun _ => Or.inl hp.symm,
                fun _ => ⟨rfl, rfl, rfl, rfl, ?_, ?_⟩, ?_⟩
              · simp [← hp]
              · intro hd1 hhd
                rw [Option.some.injEq] at hhd
                subst hhd
                rw [← e1, ← hp]
              · exact Or.inr ⟨e2, hh⟩
              · intro hne
                exact absurd hp.symm hne
          · simp only [hp, if_false, Option.some.injEq] at h
            subst h
            refine ⟨?_, rfl, ?_, fun he => absurd he.symm hp,
              fun _ => ⟨hd, rfl, e1, e2, e3, e4, e3, e4, e5⟩⟩
            · simp only [ne_eq, hp, not_false_eq_true, true_and]
            · intro hs
              refine Or.inr ?_
              show v1.profile = SBR
              have hs1 : v1.sbr = true := hs
              rw [e1]
              rw [e2] at hs1
              simp [hs1]

/-- `create_aac_audio_packetizer` returns whenever the extra data can be read
and parsed (or are too short to be parsed) and the sample rate of the track is
below 2^30, as every rate that `parse_headers` stores is. -/
theorem create_aac_audio_packetizer_returns (SBR : Int)
    (parse_aac_data : memory_c → Int → Option aac_header_t)
    (all_aac_is_sbr : Int → Option Bool) (new_ptzr : Int) (dmx : real_demuxer_t)
    (header : Option aac_header_t)
    (hparse : aac_parse_extra_data parse_aac_data dmx = some header)
    (hrate : dmx.samples_per_second < 1073741824) :
    ∃ r, create_aac_audio_packetizer SBR parse_aac_data all_aac_is_sbr new_ptzr dmx = some r := by
  unfold create_aac_audio_packetizer
  simp only [hparse]
  have ho : ¬ 2 * dmx.samples_per_second > 2147483647 := by omega
  split
  · rename_i hstep
    exfalso
    repeat' split at hstep
    all_goals first
      | omega
      | (simp at hstep)
  · exact ⟨_, rfl⟩

/-- The extra data are not parsed, and nothing can go wrong with them, when
they are at most four bytes long. -/
theorem aac_parse_extra_data_short (parse_aac_data : memory_c → Int → Option aac_header_t)
    (dmx : real_demuxer_t) (h : dmx.extra_data_size ≤ 4) :
    aac_parse_extra_data parse_aac_data dmx = some none := by
  unfold aac_parse_extra_data
  rw [if_neg (by omega)]

/-- C26 (as stated, refuted): two evaluations with `AAC_PROFILE_SBR` = 4.  In the
first, no profile is detected (the track has no extra data, the tag is `raac`
and the rate 44100 Hz, so `detected_profile` is -1 and the SBR flag is clear)
and the user asks for SBR for the track: the final profile is
`AAC_PROFILE_SBR`, the override wins without a detected profile.  In the
second, a profile is detected (`parse_aac_data` finds SBR, `detected_profile`
is 4) and the user says that the track is not SBR: the final profile is
`AAC_PROFILE_SBR` all the same, the override does not win although a profile
was detected. -/
theorem create_aac_audio_packetizer_override_counterexample :
    (∃ r, create_aac_audio_packetizer 4 sample_parse_fails (sample_override 8 true) 0
        sample_raac_dmx = some r ∧
      r.detected_profile = -1 ∧ r.sbr = false ∧ r.packetizer.profile = 4) ∧
    (∃ r, create_aac_audio_packetizer 4 sample_parse_sbr (sample_override 8 false) 0
        sample_raac_extra_dmx = some r ∧
      r.detected_profile ≠ -1 ∧ r.sbr = true ∧ r.packetizer.profile = 4) := by
  refine ⟨⟨_, rfl, ?_⟩, ⟨_, rfl, ?_⟩⟩ <;> decide

/-- C26 (amended): `create_aac_audio_packetizer` returns whenever the extra data
can be read and parsed and the sample rate is below 2^30, and whenever it
returns, the final profile is: the detected profile if some override (for the
track or the global one) says "not SBR" and a profile was detected (detected
profile != -1); otherwise `AAC_PROFILE_SBR` if some override says "SBR" or the
SBR flag is set; otherwise the detected profile.  When the overrides and the
SBR flag disagree this means: an override "SBR" that no other override
contradicts always wins, with or without a detected profile; an override "not
SBR" never wins against a set SBR flag, because the flag is set either with
the detected profile `AAC_PROFILE_SBR` (SBR found in the extra data) or with no
detected profile (the heuristic), and in both cases the final profile is
`AAC_PROFILE_SBR`. -/
theorem create_aac_audio_packetizer_override (SBR : Int)
    (parse_aac_data : memory_c → Int → Option aac_header_t)
    (all_aac_is_sbr : Int → Option Bool) (new_ptzr : Int) (dmx : real_demuxer_t) :
    (∀ header, aac_parse_extra_data parse_aac_data dmx = some header →
      dmx.samples_per_second < 1073741824 →
      ∃ r, create_aac_audio_packetizer SBR parse_aac_data all_aac_is_sbr new_ptzr dmx
        = some r) ∧
    (∀ r, create_aac_audio_packetizer SBR parse_aac_data all_aac_is_sbr new_ptzr dmx = some r →
      r.packetizer.profile
        = (if -1 ≠ r.detected_profile ∧
              sbr_denied all_aac_is_sbr (dmx.track.id : Int) = true then
            r.detected_profile
          else if sbr_requested all_aac_is_sbr (dmx.track.id : Int) = true then SBR
          else if r.sbr = true then SBR else r.detected_profile) ∧
      (r.sbr = false → sbr_requested all_aac_is_sbr (dmx.track.id : Int) = true →
        sbr_denied all_aac_is_sbr (dmx.track.id : Int) = false →
        r.packetizer.profile = SBR) ∧
      (r.sbr = true → r.packetizer.profile = SBR)) := by
  refine ⟨fun header hp hr =>
    create_aac_audio_packetizer_returns SBR parse_aac_data all_aac_is_sbr new_ptzr dmx header
      hp hr, fun r h => ?_⟩
  obtain ⟨_, hprof, _, hsbr, _, _⟩ :=
    create_aac_audio_packetizer_eq SBR parse_aac_data all_aac_is_sbr new_ptzr dmx r h
  refine ⟨hprof, ?_, ?_⟩
  · intro _ hreq hden
    rw [hprof]
    simp [hreq, hden]
  · intro hs
    rw [hprof]
    rcases hsbr hs with hd | hd
    · simp [hd, hs]
    · by_cases hc : -1 ≠ r.detected_profile ∧
          sbr_denied all_aac_is_sbr (dmx.track.id : Int) = true
      · rw [if_pos hc]
        exact hd
      · rw [if_neg hc]
        simp [hs]

/-- Witness for C26: the track without extra data for which the user asks
for SBR gets `AAC_PROFILE_SBR` (4). -/
theorem create_aac_audio_packetizer_override_witness :
    ∃ r, create_aac_audio_packetizer 4 sample_parse_fails (sample_override 8 true) 0
        sample_raac_dmx = some r ∧
      r.sbr = false ∧ r.packetizer.profile = 4 :=
  ⟨_, rfl, by decide,
    ((create_aac_audio_packetizer_override 4 sample_parse_fails (sample_override 8 true) 0
      sample_raac_dmx).2 _ rfl).2.1 (by decide) (by decide) (by decide)⟩

/-- The SBR heuristic, evaluated with `AAC_PROFILE_SBR` = 4 and no overrides: the
tag `raac` at 22050 Hz and the tag `RACP` at 48000 Hz are taken as SBR with the
doubled output rate, the tag `raac` at 44100 Hz is not; parsed extra data
overwrite the channel count and the rate of the track; and a parser that
fails on the extra data ends the program. -/
theorem create_aac_audio_packetizer_examples :
    (∃ r, create_aac_audio_packetizer 4 sample_parse_fails (fun _ => none) 0
        { sample_raac_dmx with samples_per_second := 22050 } = some r ∧
      r.sbr = true ∧ r.packetizer.profile = 4 ∧
      r.packetizer.output_sampling_freq = some 44100) ∧
    (∃ r, create_aac_audio_packetizer 4 sample_parse_fails (fun _ => none) 0
        { sample_raac_dmx with samples_per_second := 48000, fourcc := [82, 65, 67, 80] }
          = some r ∧
      r.sbr = true ∧ r.packetizer.profile = 4 ∧
      r.packetizer.output_sampling_freq = some 96000) ∧
    (∃ r, create_aac_audio_packetizer 4 sample_parse_fails (fun _ => none) 0 sample_raac_dmx
        = some r ∧
      r.sbr = false ∧ r.packetizer.profile = -1 ∧
      r.packetizer.output_sampling_freq = none ∧ r.warned = true) ∧
    (∃ r, create_aac_audio_packetizer 4 sample_parse_sbr (fun _ => none) 0
        sample_raac_extra_dmx = some r ∧
      r.dmx.channels = 2 ∧ r.dmx.samples_per_second = 24000 ∧
      r.packetizer.output_sampling_freq = some 48000) ∧
    create_aac_audio_packetizer 4 sample_parse_fails (fun _ => none) 0 sample_raac_extra_dmx
      = none := by
  refine ⟨⟨_, rfl, ?_⟩, ⟨_, rfl, ?_⟩, ⟨_, rfl, ?_⟩, ⟨_, rfl, ?_⟩, ?_⟩ <;> decide

/-! ## Theorems: sequences of calls of `queue_audio_frames` -/

/-- `queue_audio_frames` keeps the packetizer of the track. -/
theorem queue_audio_frames_ptzr (KF : Nat) (dmx : real_demuxer_t) (mem : memory_c)
    (t flags : Nat) :
    (queue_audio_frames KF dmx mem t flags).ptzr = dmx.ptzr := by
  unfold queue_audio_frames queue_one_audio_frame deliver_audio_frames
  split
  · rfl
  · split <;> rfl

/-- One call of `queue_audio_frames` on a track with a packetizer: either the
frame joins the pending queue (the queue was empty or the timecode is the
last one), or the queue is delivered and the frame is alone in the new
queue. -/
theorem queue_audio_frames_step (KF : Nat) (dmx : real_demuxer_t) (mem : memory_c)
    (t flags : Nat) (hp : dmx.ptzr ≠ -1) :
    (queue_audio_frames KF dmx mem t flags).last_timecode = t
    ∧ (((dmx.segments = [] ∨ dmx.last_timecode = t)
        ∧ (queue_audio_frames KF dmx mem t flags).segments
            = dmx.segments ++ [{ data := mem, flags := flags }]
        ∧ (queue_audio_frames KF dmx mem t flags).num_packets = dmx.num_packets)
      ∨ ((dmx.segments ≠ [] ∧ dmx.last_timecode ≠ t)
        ∧ (queue_audio_frames KF dmx mem t flags).segments = [{ data := mem, flags := flags }]
        ∧ (queue_audio_frames KF dmx mem t flags).num_packets
            = dmx.num_packets + dmx.segments.length)) := by
  by_cases hk : dmx.segments = []
  · refine ⟨?_, Or.inl ⟨Or.inl hk, ?_, ?_⟩⟩ <;>
      simp [queue_audio_frames, queue_one_audio_frame, hk]
  · by_cases ht : dmx.last_timecode = t
    · refine ⟨?_, Or.inl ⟨Or.inr ht, ?_, ?_⟩⟩ <;>
        simp [queue_audio_frames, queue_one_audio_frame, ht]
    · obtain ⟨ps, _, _, _, h4, h5, h6⟩ := queue_audio_frames_change KF dmx mem t flags hp hk ht
      exact ⟨h5, Or.inr ⟨⟨hk, ht⟩, h4, h6⟩⟩

/-- One call of `queue_audio_frames` on any track adds one to the sum of the
packet count and the length of the pending queue. -/
theorem queue_audio_frames_count (KF : Nat) (dmx : real_demuxer_t) (mem : memory_c)
    (t flags : Nat) :
    (queue_audio_frames KF dmx mem t flags).num_packets
        + (queue_audio_frames KF dmx mem t flags).segments.length
      = dmx.num_packets + dmx.segments.length + 1 := by
  unfold queue_audio_frames queue_one_audio_frame deliver_audio_frames
  split
  · simp
    omega
  · split
    · simp
      omega
    · simp

/-- Part (b) of the pending-queue invariant holds for every track, with or
without a packetizer: after any calls, the packet count and the length of the
pending queue have grown by the number of calls. -/
theorem queue_all_count (KF : Nat) (calls : List queue_call) :
    ∀ dmx : real_demuxer_t,
      (queue_all KF dmx calls).num_packets + (queue_all KF dmx calls).segments.length
        = dmx.num_packets + dmx.segments.length + calls.length := by
  induction calls with
  | nil => intro dmx; rfl
  | cons call rest ih =>
      intro dmx
      have h := ih (queue_audio_frames KF dmx call.mem call.timecode call.flags)
      have h1 := queue_audio_frames_count KF dmx call.mem call.timecode call.flags
      simp only [queue_all, List.foldl_cons, List.length_cons] at h ⊢
      omega

/-- The pending-queue invariant along a list of calls, from a state in which
it holds: the pending queue holds the frames of the last calls, all made with
the current `last_timecode`, and `num_packets` has grown by the number of the
calls before them. -/
theorem queue_all_invariant (KF : Nat) (calls : List queue_call) :
    ∀ (dmx : real_demuxer_t) (before : List queue_call), dmx.ptzr ≠ -1 →
      dmx.segments = before.map queue_call.segment →
      (∀ call ∈ before, call.timecode = dmx.last_timecode) →
      ∃ delivered pending : List queue_call,
        before ++ calls = delivered ++ pending
        ∧ (queue_all KF dmx calls).segments = pending.map queue_call.segment
        ∧ (∀ call ∈ pending, call.timecode = (queue_all KF dmx calls).last_timecode)
        ∧ (queue_all KF dmx calls).num_packets = dmx.num_packets + delivered.length
        ∧ (queue_all KF dmx calls).ptzr = dmx.ptzr := by
  induction calls with
  | nil =>
      intro dmx before _ hs ht
      exact ⟨[], before, by simp, hs, ht, by simp [queue_all], rfl⟩
  | cons call rest ih =>
      intro dmx before hp hs ht
      have hq : queue_all KF dmx (call :: rest)
          = queue_all KF (queue_audio_frames KF dmx call.mem call.timecode call.flags) rest := rfl
      have hp1 : (queue_audio_frames KF dmx call.mem call.timecode call.flags).ptzr ≠ -1 := by
        rw [queue_audio_frames_ptzr]
        exact hp
      obtain ⟨hl, hcase⟩ := queue_audio_frames_step KF dmx call.mem call.timecode call.flags hp
      rcases hcase with ⟨hc, hseg, hnum⟩ | ⟨hc, hseg, hnum⟩
      · obtain ⟨delivered, pending, h1, h2, h3, h4, h5⟩ :=
          ih (queue_audio_frames KF dmx call.mem call.timecode call.flags) (before ++ [call]) hp1
            (by rw [hseg, hs]; simp [queue_call.segment])
            (by
              intro c hmem
              rw [hl]
              rcases List.mem_append.mp hmem with hm | hm
              · rcases hc with hc | hc
                · rw [hs] at hc
                  have : before = [] := by simpa using hc
                  rw [this] at hm
                  simp at hm
                · rw [ht c hm, hc]
              · simp only [List.mem_singleton] at hm
                rw [hm])
        refine ⟨delivered, pending, ?_, ?_, ?_, ?_, ?_⟩
        · rw [← h1]
          simp
        · rw [hq]
          exact h2
        · rw [hq]
          exact h3
        · rw [hq, h4, hnum]
        · rw [hq, h5, queue_audio_frames_ptzr]
      · obtain ⟨delivered, pending, h1, h2, h3, h4, h5⟩ :=
          ih (queue_audio_frames KF dmx call.mem call.timecode call.flags) [call] hp1
            (by rw [hseg]; simp [queue_call.segment])
            (by
              intro c hmem
              simp only [List.mem_singleton] at hmem
              rw [hl, hmem])
        refine ⟨before ++ delivered, pending, ?_, ?_, ?_, ?_, ?_⟩
        · rw [List.append_assoc, ← h1]
          simp
        · rw [hq]
          exact h2
        · rw [hq]
          exact h3
        · rw [hq, h4, hnum, hs]
          simp
          omega
        · rw [hq, h5, queue_audio_frames_ptzr]

/-- C33: the pending-queue invariant.  `read` routes a frame to a track, and so
calls `queue_audio_frames`, only when the track has a packetizer (line 493).
In every state reached from a track with a packetizer, an empty pending queue
and a packet count of 0 by any sequence of calls of `queue_audio_frames`, the
calls split into the delivered ones and the pending ones: the pending queue
holds the frames of the pending calls in order, (a) every pending call was
made with the current `last_timecode`, and (b) `num_packets` is the number of
delivered calls, so `num_packets` plus the number of pending frames is the
number of frames queued so far. -/
theorem queue_all_pending_invariant (KF : Nat) (dmx : real_demuxer_t)
    (calls : List queue_call) (hp : dmx.ptzr ≠ -1) (hs : dmx.segments = [])
    (hn : dmx.num_packets = 0) :
    ∃ delivered pending : List queue_call,
      calls = delivered ++ pending
      ∧ (queue_all KF dmx calls).segments = pending.map queue_call.segment
      ∧ (∀ call ∈ pending, call.timecode = (queue_all KF dmx calls).last_timecode)
      ∧ (queue_all KF dmx calls).num_packets = delivered.length
      ∧ (queue_all KF dmx calls).num_packets + (queue_all KF dmx calls).segments.length
          = calls.length := by
  obtain ⟨delivered, pending, h1, h2, h3, h4, _⟩ :=
    queue_all_invariant KF calls dmx [] hp (by rw [hs]; rfl) (by simp)
  simp only [List.nil_append] at h1
  refine ⟨delivered, pending, h1, h2, h3, by rw [h4, hn]; simp, ?_⟩
  rw [h4, hn, h2, h1]
  simp

/-- Witness for C33: the calls of `sample_calls` (timecodes 100, 100
and 200) on `sample_audio_dmx`. -/
theorem queue_all_pending_invariant_witness :
    (sample_audio_dmx.ptzr ≠ -1 ∧ sample_audio_dmx.segments = []
      ∧ sample_audio_dmx.num_packets = 0)
    ∧ ∃ delivered pending : List queue_call,
        sample_calls = delivered ++ pending
        ∧ (queue_all 2 sample_audio_dmx sample_calls).segments
            = pending.map queue_call.segment
        ∧ (∀ call ∈ pending,
            call.timecode = (queue_all 2 sample_audio_dmx sample_calls).last_timecode)
        ∧ (queue_all 2 sample_audio_dmx sample_calls).num_packets = delivered.length
        ∧ (queue_all 2 sample_audio_dmx sample_calls).num_packets
            + (queue_all 2 sample_audio_dmx sample_calls).segments.length
            = sample_calls.length :=
  ⟨by decide,
    queue_all_pending_invariant 2 sample_audio_dmx sample_calls
      (by decide) (by decide) (by decide)⟩

/-- The state that the calls of `sample_calls` lead to: the two frames at
timecode 100 are delivered, the frame at timecode 200 is pending. -/
theorem queue_all_example :
    (queue_all 2 sample_audio_dmx sample_calls).segments = [{ data := [3], flags := 0 }]
    ∧ (queue_all 2 sample_audio_dmx sample_calls).num_packets = 2
    ∧ (queue_all 2 sample_audio_dmx sample_calls).last_timecode = 200 := by
  decide

/-! ## Theorems: the duration of a flush and the timecode gap -/

/-- The subtraction in `uint64_t` when the timecode goes backwards: the
difference wraps. -/
theorem sub_u64_of_lt (a b : Nat) (hab : a < b) (hb : b < UINT64_MOD) :
    sub_u64 a b = UINT64_MOD - (b - a) := by
  unfold sub_u64 UINT64_MOD at *
  omega

/-- C34 (as stated, refuted): three frames are pending at timecode 150 and the
next frame has the timecode 149.  The unsigned subtraction wraps, every
delivered packet gets the duration 6148914691236517205, and three times this
duration is far above the gap of 1 between the two timecodes. -/
theorem flush_duration_backwards_counterexample :
    sample_pending_150.segments.length = 3
    ∧ sample_pending_150.last_timecode = 150
    ∧ (queue_audio_frames 2 sample_pending_150 [4] 149 0).delivered.map (fun p => p.duration)
        = [some 6148914691236517205, some 6148914691236517205, some 6148914691236517205]
    ∧ ¬ (3 * 6148914691236517205 ≤ 150 - 149) := by
  decide

/-- C34 (amended): for every flush triggered by a timecode change from `L` to
`t` with `k` pending frames, every delivered packet has the duration
`d = ((t - L) mod 2 ^ 64) div k`, and `k * d` is at most the difference in
`uint64_t`.  For `t > L` that difference is the gap `t - L`, so
`k * d ≤ t - L`; for `t < L` it is `2 ^ 64 - (L - t)`, and `k * d` is above
`2 ^ 64 - (L - t) - k`. -/
theorem flush_duration_bound (KF : Nat) (dmx : real_demuxer_t) (mem : memory_c)
    (t flags : Nat) (hp : dmx.ptzr ≠ -1) (hk : dmx.segments ≠ [])
    (hne : dmx.last_timecode ≠ t) (hL : dmx.last_timecode < UINT64_MOD)
    (ht : t < UINT64_MOD) :
    ∃ (ps : List packet_t) (d : Nat),
      (queue_audio_frames KF dmx mem t flags).delivered = dmx.delivered ++ ps
      ∧ ps.length = dmx.segments.length
      ∧ (∀ p ∈ ps, p.duration = some d)
      ∧ d = sub_u64 t dmx.last_timecode / dmx.segments.length
      ∧ dmx.segments.length * d ≤ sub_u64 t dmx.last_timecode
      ∧ (dmx.last_timecode < t → dmx.segments.length * d ≤ t - dmx.last_timecode)
      ∧ (t < dmx.last_timecode →
          dmx.segments.length * d ≤ UINT64_MOD - (dmx.last_timecode - t)
          ∧ UINT64_MOD - (dmx.last_timecode - t) < dmx.segments.length * d
              + dmx.segments.length) := by
  obtain ⟨ps, h1, h2, h3, _, _, _⟩ := queue_audio_frames_change KF dmx mem t flags hp hk hne
  have hlen : ps.length = dmx.segments.length := by
    have := congrArg List.length h2
    simpa using this
  have hpos : 0 < dmx.segments.length := List.length_pos.mpr hk
  have hmul : dmx.segments.length * (sub_u64 t dmx.last_timecode / dmx.segments.length)
      ≤ sub_u64 t dmx.last_timecode := Nat.mul_div_le _ _
  have hup : sub_u64 t dmx.last_timecode
      < dmx.segments.length * (sub_u64 t dmx.last_timecode / dmx.segments.length)
        + dmx.segments.length := by
    have := Nat.lt_mul_div_succ (sub_u64 t dmx.last_timecode) hpos
    rw [Nat.mul_add, Nat.mul_one] at this
    exact this
  refine ⟨ps, sub_u64 t dmx.last_timecode / dmx.segments.length, h1, hlen,
    fun p hmem => (h3 p hmem).2, rfl, hmul, ?_, ?_⟩
  · intro hlt
    rw [← sub_u64_of_le t dmx.last_timecode (le_of_lt hlt) ht]
    exact hmul
  · intro hlt
    rw [← sub_u64_of_lt t dmx.last_timecode hlt hL]
    exact ⟨hmul, hup⟩

/-- C34 (amended), witness: three frames pending at timecode 100 and a frame at
timecode 150 on `sample_pending_100`. -/
theorem flush_duration_bound_witness :
    (sample_pending_100.ptzr ≠ -1 ∧ sample_pending_100.segments ≠ []
      ∧ sample_pending_100.last_timecode ≠ 150
      ∧ sample_pending_100.last_timecode < UINT64_MOD ∧ 150 < UINT64_MOD)
    ∧ ∃ (ps : List packet_t) (d : Nat),
      (queue_audio_frames 2 sample_pending_100 [4] 150 0).delivered
        = sample_pending_100.delivered ++ ps
      ∧ ps.length = sample_pending_100.segments.length
      ∧ (∀ p ∈ ps, p.duration = some d)
      ∧ d = sub_u64 150 sample_pending_100.last_timecode / sample_pending_100.segments.length
      ∧ sample_pending_100.segments.length * d ≤ sub_u64 150 sample_pending_100.last_timecode
      ∧ (sample_pending_100.last_timecode < 150 →
          sample_pending_100.segments.length * d ≤ 150 - sample_pending_100.last_timecode)
      ∧ (150 < sample_pending_100.last_timecode →
          sample_pending_100.segments.length * d
            ≤ UINT64_MOD - (sample_pending_100.last_timecode - 150)
          ∧ UINT64_MOD - (sample_pending_100.last_timecode - 150)
            < sample_pending_100.segments.length * d
              + sample_pending_100.segments.length) :=
  ⟨by decide,
    flush_duration_bound 2 sample_pending_100 [4] 150 0 (by decide) (by decide) (by decide)
      (by decide) (by decide)⟩

/-! ## Theorems: a stream with one timecode, routed through `read` -/

/-- One call of `read` with a frame of track 1 at the timecode `t` on a reader
whose one track is in a state in which nothing has been delivered: the frame
joins the pending queue and nothing is delivered. -/
theorem read_one_timecode_step (KF : Nat) (V : real_demuxer_t → rmff_frame_t → video_effect)
    (file : rmff_file_t) (t n : Nat) (dmx : real_demuxer_t) (frame : rmff_frame_t)
    (hd : one_timecode_state t n dmx) (hid : frame.id = 1) (ht : frame.timecode = t) :
    ∃ dmx1, read KF V { demuxers := [dmx], done := false } 1 (some frame) file
        = some { state := { demuxers := [dmx1], done := false },
                 status := file_status_e.FILE_STATUS_MOREDATA, warned := false }
      ∧ one_timecode_state t (n + 1) dmx1
      ∧ dmx1.last_timecode = t * 1000000 := by
  obtain ⟨h1, h2, h3, h4, h5, h6, h7, h8⟩ := hd
  have hfind : find_demuxer [dmx] frame.id = some (0, dmx) := by
    simp [find_demuxer, find_demuxer_from, h2, hid, sample_audio_track]
  have hfk : force_keyframe KF dmx frame.flags = (dmx, frame.flags) := by
    simp [force_keyframe, h4, h5]
  have hty : dmx.track.type ≠ rmff_track_type.video := by
    rw [h2]
    decide
  have hrf : read_frame KF V dmx frame
      = some { queue_audio_frames KF dmx frame.data (frame.timecode * 1000000) frame.flags with
                first_frame := false } := by
    simp [read_frame, hfk, hty, h3]
  have hq : queue_audio_frames KF dmx frame.data (frame.timecode * 1000000) frame.flags
      = queue_one_audio_frame dmx frame.data (frame.timecode * 1000000) frame.flags := by
    unfold queue_audio_frames
    rcases h8 with h8 | h8
    · simp [h8]
    · simp [h8, ht]
  refine ⟨{ queue_audio_frames KF dmx frame.data (frame.timecode * 1000000) frame.flags with
            first_frame := false }, ?_, ?_, ?_⟩
  · have hp : ¬ dmx.ptzr = -1 := by
      rw [h1]
      decide
    simp [read, hfind, hp, hrf]
  · rw [hq]
    refine ⟨h1, h2, h3, h4, h5, h6, ?_, Or.inr ?_⟩
    · simp [queue_one_audio_frame, h7]
    · simp [queue_one_audio_frame, ht]
  · rw [hq]
    simp [queue_one_audio_frame, ht]

/-- Frames of track 1 that share one timecode, routed through `read` one after
the other: all of them are pending afterwards and nothing has been
delivered. -/
theorem read_all_one_timecode (KF : Nat) (V : real_demuxer_t → rmff_frame_t → video_effect)
    (file : rmff_file_t) (t : Nat) (frames : List rmff_frame_t)
    (hall : ∀ frame ∈ frames, frame.id = 1 ∧ frame.timecode = t) :
    ∀ (n : Nat) (dmx : real_demuxer_t), one_timecode_state t n dmx →
      ∃ dmx1, read_all KF V file { demuxers := [dmx], done := false } frames
          = some { demuxers := [dmx1], done := false }
        ∧ one_timecode_state t (n + frames.length) dmx1 := by
  induction frames with
  | nil =>
      intro n dmx hd
      exact ⟨dmx, rfl, hd⟩
  | cons frame rest ih =>
      intro n dmx hd
      obtain ⟨hid, ht⟩ := hall frame (List.mem_cons_self _ _)
      obtain ⟨dmx1, hr, hd1, _⟩ := read_one_timecode_step KF V file t n dmx frame hd hid ht
      obtain ⟨dmx2, hr2, hd2⟩ :=
        ih (fun f hf => hall f (List.mem_cons_of_mem _ hf)) (n + 1) dmx1 hd1
      refine ⟨dmx2, ?_, ?_⟩
      · simp only [read_all, hr]
        exact hr2
      · rw [List.length_cons]
        have : n + (rest.length + 1) = n + 1 + rest.length := by omega
        rw [this]
        exact hd2

/-- C31 (refuted by the code): every non-empty stream of frames of the audio
track of `sample_reader` that share one timecode, routed through `read`, leads
to a state in which the track has all the frames pending and `num_packets` is
0: the state that `read` hands to `finish` at the end of the stream has a
non-empty pending queue and a divisor of zero, and both `finish` and the
`read` at the end of the stream fault. -/
theorem read_one_timecode_divides_by_zero (KF : Nat)
    (V : real_demuxer_t → rmff_frame_t → video_effect) (file : rmff_file_t) (t : Nat)
    (frames : List rmff_frame_t) (hne : frames ≠ [])
    (hall : ∀ frame ∈ frames, frame.id = 1 ∧ frame.timecode = t) :
    ∃ (rd : reader_state) (dmx : real_demuxer_t),
      read_all KF V file sample_reader frames = some rd
      ∧ rd.demuxers = [dmx] ∧ rd.done = false
      ∧ dmx.track.type = rmff_track_type.audio
      ∧ dmx.segments.length = frames.length ∧ dmx.segments ≠ []
      ∧ dmx.num_packets = 0
      ∧ finish_one KF dmx = none
      ∧ finish KF rd = none
      ∧ read KF V rd 0 none file = none := by
  have h0 : one_timecode_state t 0 sample_audio_dmx := by
    refine ⟨?_, ?_, ?_, ?_, ?_, ?_, ?_, Or.inl ?_⟩ <;> decide
  obtain ⟨dmx, hr, h1, h2, h3, h4, h5, h6, h7, h8⟩ :=
    read_all_one_timecode KF V file t frames hall 0 sample_audio_dmx h0
  have hlen : dmx.segments.length = frames.length := by omega
  have hseg : dmx.segments ≠ [] := by
    intro h
    rw [h] at hlen
    exact hne (List.length_eq_zero.mp hlen.symm)
  have hty : dmx.track.type = rmff_track_type.audio := by
    rw [h2]
    rfl
  have hempty : dmx.segments.isEmpty = false := by
    cases hs : dmx.segments with
    | nil => exact absurd hs hseg
    | cons a l => rfl
  have hf1 : finish_one KF dmx = none := by
    simp [finish_one, hty, hempty, h6]
  have hf : finish KF { demuxers := [dmx], done := false } = none := by
    simp [finish, finish_loop, hf1]
  refine ⟨{ demuxers := [dmx], done := false }, dmx, hr, rfl, rfl, hty, hlen, hseg, h6,
    hf1, hf, ?_⟩
  simp [read, read_finish, hf]

/-- C31, witness: the three frames of `sample_frames_one_timecode`, which
share the timecode 7. -/
theorem read_one_timecode_divides_by_zero_witness :
    (sample_frames_one_timecode ≠ []
      ∧ ∀ frame ∈ sample_frames_one_timecode, frame.id = 1 ∧ frame.timecode = 7)
    ∧ ∃ (rd : reader_state) (dmx : real_demuxer_t),
      read_all 2 sample_no_video { num_packets_read := 3, num_packets_in_chunk := 3 }
          sample_reader sample_frames_one_timecode = some rd
      ∧ rd.demuxers = [dmx] ∧ rd.done = false
      ∧ dmx.track.type = rmff_track_type.audio
      ∧ dmx.segments.length = sample_frames_one_timecode.length ∧ dmx.segments ≠ []
      ∧ dmx.num_packets = 0
      ∧ finish_one 2 dmx = none
      ∧ finish 2 rd = none
      ∧ read 2 sample_no_video rd 0 none { num_packets_read := 3, num_packets_in_chunk := 3 }
          = none :=
  ⟨by decide,
    read_one_timecode_divides_by_zero 2 sample_no_video
      { num_packets_read := 3, num_packets_in_chunk := 3 } 7 sample_frames_one_timecode
      (by decide) (by decide)⟩

/-- The divisor of `finish` is positive exactly when a flush has happened: a
track in which the pending-queue invariant holds and to which frames of at
least two different timecodes were queued has `num_packets > 0`. -/
theorem queue_all_two_timecodes (KF : Nat) (dmx : real_demuxer_t) (first second : List queue_call)
    (call : queue_call) (hp : dmx.ptzr ≠ -1)
    (hne : (queue_all KF dmx first).segments ≠ [])
    (ht : (queue_all KF dmx first).last_timecode ≠ call.timecode) :
    0 < (queue_all KF dmx (first ++ call :: second)).num_packets := by
  have hq : queue_all KF dmx (first ++ call :: second)
      = queue_all KF (queue_audio_frames KF (queue_all KF dmx first) call.mem call.timecode
          call.flags) second := by
    simp [queue_all, List.foldl_append]
  have hp1 : (queue_all KF dmx first).ptzr ≠ -1 := by
    have : ∀ (cs : List queue_call) (d : real_demuxer_t), (queue_all KF d cs).ptzr = d.ptzr := by
      intro cs
      induction cs with
      | nil => intro d; rfl
      | cons c rest ih =>
          intro d
          have h := ih (queue_audio_frames KF d c.mem c.timecode c.flags)
          simp only [queue_all, List.foldl_cons] at h ⊢
          rw [h, queue_audio_frames_ptzr]
    rw [this]
    exact hp
  obtain ⟨_, _, _, _, _, h6⟩ :=
    queue_audio_frames_change KF (queue_all KF dmx first) call.mem call.timecode call.flags
      hp1 hne ht
  have hpos : 0 < (queue_all KF dmx first).segments.length := List.length_pos.mpr hne
  have hmono : ∀ (cs : List queue_call) (d : real_demuxer_t),
      d.num_packets ≤ (queue_all KF d cs).num_packets := by
    intro cs
    induction cs with
    | nil => intro d; exact le_refl _
    | cons c rest ih =>
        intro d
        have h := ih (queue_audio_frames KF d c.mem c.timecode c.flags)
        have h1 : d.num_packets ≤ (queue_audio_frames KF d c.mem c.timecode c.flags).num_packets := by
          unfold queue_audio_frames queue_one_audio_frame deliver_audio_frames
          split
          · simp
          · split <;> simp
        simp only [queue_all, List.foldl_cons] at h ⊢
        exact le_trans h1 h
  rw [hq]
  have := hmono second (queue_audio_frames KF (queue_all KF dmx first) call.mem call.timecode
    call.flags)
  omega

/-! ## Theorems: the bound of the dimension probe in `set_dimensions` -/

/-- When fewer than 11 bytes remain after the prefix table (`P + 10 ≥ size`),
`set_dimensions` makes no probe and leaves the track as it is. -/
theorem set_dimensions_no_probe (ti : track_info_c) (AR : Nat → Nat → Nat × Nat)
    (dmx : real_demuxer_t) (buffer : memory_c) (size b0 : Nat)
    (h0 : read_u8 buffer 0 = some b0) (hshort : 1 + 2 * 4 * (b0 + 1) + 10 ≥ size) :
    set_dimensions ti AR dmx buffer size = some dmx := by
  unfold set_dimensions
  simp only [h0]
  rw [if_pos hshort]

/-- When at least 11 bytes remain after the prefix table, the probe is made on
the bytes after the table, and the cursor is given the size of the whole
frame, not the number of bytes that remain. -/
theorem set_dimensions_probe (ti : track_info_c) (AR : Nat → Nat → Nat × Nat)
    (dmx : real_demuxer_t) (buffer : memory_c) (size b0 : Nat)
    (h0 : read_u8 buffer 0 = some b0) (hlong : 1 + 2 * 4 * (b0 + 1) + 10 < size)
    (hfault : get_rv_dimensions (buffer.drop (1 + 2 * 4 * (b0 + 1))) size 0 0 = none) :
    set_dimensions ti AR dmx buffer size = none := by
  unfold set_dimensions
  simp only [h0]
  rw [if_neg (by omega)]
  simp only [hfault]

/-- C32 (refuted by the code): `set_dimensions` gives the cursor of the probe
the size of the whole frame, not the `size - P` bytes that remain after the
prefix table, so whenever the probe reads past the remaining bytes inside
that bound, `set_dimensions` has read past the frame.  A frame of 20 bytes
does it: its prefix table occupies `P = 9` bytes, so that 11 bytes remain;
the width code is 7, every escape code in the frame is 255, and the eighth
escape code is read at the bits 85 to 92 of the remaining bytes, of which only
the bits 0 to 87 belong to the frame.  With the bound `size - P = 11` the same
probe stops with the out-of-range condition and the track stays
unconfirmed. -/
theorem set_dimensions_reads_past_frame :
    (∀ (ti : track_info_c) (AR : Nat → Nat → Nat × Nat) (dmx : real_demuxer_t)
        (buffer : memory_c) (size b0 : Nat),
        read_u8 buffer 0 = some b0 → 1 + 2 * 4 * (b0 + 1) + 10 < size →
        get_rv_dimensions (buffer.drop (1 + 2 * 4 * (b0 + 1))) size 0 0 = none →
        set_dimensions ti AR dmx buffer size = none)
    ∧ sample_escape_frame.length = 20
    ∧ read_u8 sample_escape_frame 0 = some 0
    ∧ (sample_escape_frame.drop 9).length = 11
    ∧ set_dimensions sample_ti_none sample_aspect_2 sample_video_dmx sample_escape_frame 20 = none
    ∧ get_rv_dimensions (sample_escape_frame.drop 9) 20 0 0 = none
    ∧ (List.range 7).map (fun k => bits_value (sample_escape_frame.drop 9) (29 + 8 * k) 8)
        = [255, 255, 255, 255, 255, 255, 255]
    ∧ bit_cursor_c.get_bits { buf := sample_escape_frame.drop 9, size := 20, pos := 85 } 8
        = cursor_result.fault
    ∧ get_rv_dimensions (sample_escape_frame.drop 9) (20 - 9) 0 0 = some (false, 0, 0) := by
  refine ⟨fun ti AR dmx buffer size b0 h0 hlong hfault =>
    set_dimensions_probe ti AR dmx buffer size b0 h0 hlong hfault, ?_⟩
  decide

/-! ## Theorems: the `dnet` tag in the probe and in `create_audio_packetizer` -/

/-- The bytes that the case folding takes to one of the four characters of
`dnet`. -/
theorem tolower_eq_iff_dnet (c : Nat) :
    (tolower c = 100 ↔ (c = 68 ∨ c = 100)) ∧ (tolower c = 110 ↔ (c = 78 ∨ c = 110)) ∧
    (tolower c = 101 ↔ (c = 69 ∨ c = 101)) ∧ (tolower c = 116 ↔ (c = 84 ∨ c = 116)) := by
  unfold tolower
  refine ⟨?_, ?_, ?_, ?_⟩ <;> split <;> omega

/-- On four bytes, `strncmp(fourcc, "dnet", 4)` is 0 exactly when the bytes are
`dnet` in small letters. -/
theorem strncmp_dnet (a b c d : byte_t) :
    strncmp [a, b, c, d] TAG_dnet 4 = 0 ↔ [a.val, b.val, c.val, d.val] = [100, 110, 101, 116] := by
  have v1 : ((100 : byte_t) : Nat) = 100 := rfl
  have v2 : ((110 : byte_t) : Nat) = 110 := rfl
  have v3 : ((101 : byte_t) : Nat) = 101 := rfl
  have v4 : ((116 : byte_t) : Nat) = 116 := rfl
  simp only [strncmp, TAG_dnet, c_head, List.tail_cons, v1, v2, v3, v4]
  generalize a.val = x
  generalize b.val = y
  generalize c.val = z
  generalize d.val = w
  simp only [List.cons.injEq, and_true]
  split_ifs <;> constructor <;> intro h <;> omega

/-- One step of `strncasecmp` against a character that is not the NUL: the
result is 0 exactly when the two characters agree up to case and the rest
compares as 0. -/
theorem strncasecmp_cons_zero (a b : byte_t) (as bs : List byte_t) (n : Nat)
    (hb : tolower b.val ≠ 0) :
    strncasecmp (a :: as) (b :: bs) (n + 1) = 0
      ↔ tolower a.val = tolower b.val ∧ strncasecmp as bs n = 0 := by
  simp only [strncasecmp, c_head, List.tail_cons]
  generalize tolower a.val = x at *
  generalize tolower b.val = y at *
  split_ifs with h1 h2
  · constructor
    · intro h
      omega
    · intro h
      exact absurd h.1 h1
  · exact absurd (by omega : y = 0) hb
  · constructor
    · intro h
      exact ⟨by omega, h⟩
    · intro h
      exact h.2

/-- On four bytes, `strcasecmp(fourcc, "DNET")` is 0 exactly when the bytes are
`dnet` with each letter in either case. -/
theorem strcasecmp_dnet (a b c d : byte_t) :
    strcasecmp [a, b, c, d] TAG_DNET = 0 ↔
      [tolower a.val, tolower b.val, tolower c.val, tolower d.val] = [100, 110, 101, 116] := by
  have e1 : tolower (68 : byte_t).val = 100 := by decide
  have e2 : tolower (78 : byte_t).val = 110 := by decide
  have e3 : tolower (69 : byte_t).val = 101 := by decide
  have e4 : tolower (84 : byte_t).val = 116 := by decide
  have hend : strncasecmp ([] : List byte_t) [] 5 = 0 := by decide
  have hs : strcasecmp [a, b, c, d] TAG_DNET
      = strncasecmp [a, b, c, d] [68, 78, 69, 84] (((5 + 1) + 1 + 1) + 1) := rfl
  rw [hs, strncasecmp_cons_zero a 68 _ _ _ (by rw [e1]; decide),
    strncasecmp_cons_zero b 78 _ _ _ (by rw [e2]; decide),
    strncasecmp_cons_zero c 69 _ _ _ (by rw [e3]; decide),
    strncasecmp_cons_zero d 84 _ _ _ (by rw [e4]; decide), e1, e2, e3, e4]
  simp only [hend, and_true, List.cons.injEq]

/-- A tag of four bytes that is `dnet` when the case is ignored is neither
`raac` nor `racp` nor `COOK` when the case is ignored: the first letters
differ. -/
theorem strcasecmp_other_tags (a b c d : byte_t) (h : tolower a.val = 100) :
    strcasecmp [a, b, c, d] TAG_raac ≠ 0 ∧ strcasecmp [a, b, c, d] TAG_RACP ≠ 0
    ∧ strcasecmp [a, b, c, d] TAG_COOK ≠ 0 := by
  have e1 : tolower 114 = 114 := by decide
  have e2 : tolower 67 = 99 := by decide
  have v1 : ((114 : byte_t) : Nat) = 114 := rfl
  have v2 : ((67 : byte_t) : Nat) = 67 := rfl
  refine ⟨?_, ?_, ?_⟩
  · simp [strcasecmp, strncasecmp, TAG_raac, c_head, v1, e1, h]
  · simp [strcasecmp, strncasecmp, TAG_RACP, c_head, v1, e1, h]
  · simp [strcasecmp, strncasecmp, TAG_COOK, c_head, v2, e2, h]

/-- C35 (refuted by the code): the probe tests the tag with `strcasecmp`
against `DNET`, `create_audio_packetizer` tests it with `strncmp` against
`dnet`.  For every tag of four bytes: the AC3 packetizer is made exactly for
the tag `dnet` in small letters; the probe treats the track as DNET exactly
when the tag is `dnet` in any mix of cases; a track that gets the AC3
packetizer is probed; but a probed track whose tag is not `dnet` in small
letters gets the RealAudio packetizer.  The tag `DNET` is such a tag. -/
theorem create_audio_packetizer_dnet_mismatch (base : real_demuxer_t) (a b c d : byte_t) :
    ((create_audio_packetizer { base with fourcc := [a, b, c, d] }).1 = audio_packetizer_e.ac3
      ↔ [a, b, c, d] = TAG_dnet)
    ∧ (is_dnet { base with fourcc := [a, b, c, d] } = true
      ↔ [tolower a.val, tolower b.val, tolower c.val, tolower d.val] = [100, 110, 101, 116])
    ∧ ((create_audio_packetizer { base with fourcc := [a, b, c, d] }).1 = audio_packetizer_e.ac3
      → is_dnet { base with fourcc := [a, b, c, d] } = true)
    ∧ (is_dnet { base with fourcc := [a, b, c, d] } = true → [a, b, c, d] ≠ TAG_dnet →
        (create_audio_packetizer { base with fourcc := [a, b, c, d] }).1
          = audio_packetizer_e.realaudio)
    ∧ (is_dnet { base with fourcc := TAG_DNET } = true
      ∧ (create_audio_packetizer { base with fourcc := TAG_DNET }).1
          = audio_packetizer_e.realaudio) := by
  have hn := strncmp_dnet a b c d
  have hc := strcasecmp_dnet a b c d
  have hlist : [a, b, c, d] = TAG_dnet ↔ [a.val, b.val, c.val, d.val] = [100, 110, 101, 116] := by
    simp only [TAG_dnet, List.cons.injEq, and_true]
    constructor
    · rintro ⟨rfl, rfl, rfl, rfl⟩
      exact ⟨rfl, rfl, rfl, rfl⟩
    · rintro ⟨h1, h2, h3, h4⟩
      exact ⟨Fin.ext h1, Fin.ext h2, Fin.ext h3, Fin.ext h4⟩
  have hac3 : (create_audio_packetizer { base with fourcc := [a, b, c, d] }).1
      = audio_packetizer_e.ac3 ↔ strncmp [a, b, c, d] TAG_dnet 4 = 0 := by
    unfold create_audio_packetizer
    dsimp only
    split_ifs with h1 h2 h3 <;> simp [h1]
  have hdn : is_dnet { base with fourcc := [a, b, c, d] } = true
      ↔ strcasecmp [a, b, c, d] TAG_DNET = 0 := by
    simp [is_dnet]
  have hfold : [a.val, b.val, c.val, d.val] = [100, 110, 101, 116] →
      [tolower a.val, tolower b.val, tolower c.val, tolower d.val] = [100, 110, 101, 116] := by
    intro h
    simp only [List.cons.injEq, and_true] at h ⊢
    obtain ⟨h1, h2, h3, h4⟩ := h
    rw [h1, h2, h3, h4]
    decide
  refine ⟨hac3.trans (hn.trans hlist.symm), hdn.trans hc, ?_, ?_, ?_⟩
  · intro h
    exact (hdn.trans hc).mpr (hfold (hn.mp (hac3.mp h)))
  · intro hd hne
    have hlow := (hdn.trans hc).mp hd
    have ha : tolower a.val = 100 := by
      simp only [List.cons.injEq, and_true] at hlow
      exact hlow.1
    obtain ⟨o1, o2, o3⟩ := strcasecmp_other_tags a b c d ha
    have hns : ¬ strncmp [a, b, c, d] TAG_dnet 4 = 0 := fun h => hne (hlist.mpr (hn.mp h))
    unfold create_audio_packetizer
    dsimp only
    rw [if_neg hns, if_neg (by simp [o1, o2]), if_neg o3]
  · have h1 : is_dnet { base with fourcc := TAG_DNET } = true := by
      simp only [is_dnet]
      decide
    refine ⟨h1, ?_⟩
    unfold create_audio_packetizer
    dsimp only
    have s1 : ¬ strncmp TAG_DNET TAG_dnet 4 = 0 := by decide
    have s2 : ¬ (strcasecmp TAG_DNET TAG_raac = 0 ∨ strcasecmp TAG_DNET TAG_RACP = 0) := by decide
    have s3 : ¬ strcasecmp TAG_DNET TAG_COOK = 0 := by decide
    rw [if_neg s1, if_neg s2, if_neg s3]

/-- The packetizers of some tags: `dnet` gets the AC3 packetizer, `DNET` and
`Dnet` the RealAudio packetizer although the probe reads their bitstream id,
`racp` the AAC packetizer, and `COOK` the RealAudio packetizer with the
keyframe fix. -/
theorem create_audio_packetizer_examples :
    create_audio_packetizer sample_dnet_dmx = (audio_packetizer_e.ac3, false)
    ∧ is_dnet sample_dnet_dmx = true
    ∧ create_audio_packetizer { sample_dnet_dmx with fourcc := TAG_DNET }
        = (audio_packetizer_e.realaudio, false)
    ∧ is_dnet { sample_dnet_dmx with fourcc := TAG_DNET } = true
    ∧ create_audio_packetizer { sample_dnet_dmx with fourcc := [68, 110, 101, 116] }
        = (audio_packetizer_e.realaudio, false)
    ∧ is_dnet { sample_dnet_dmx with fourcc := [68, 110, 101, 116] } = true
    ∧ create_audio_packetizer { sample_dnet_dmx with fourcc := TAG_RACP }
        = (audio_packetizer_e.aac, false)
    ∧ create_audio_packetizer { sample_dnet_dmx with fourcc := TAG_COOK }
        = (audio_packetizer_e.realaudio, true)
    ∧ is_dnet { sample_dnet_dmx with fourcc := TAG_COOK } = false := by
  decide

end real_reader_c

namespace mtx.dts

/-! ## Theorems: the length of a DTS packet -/

/-- For a header whose block count is below 2^26 and whose deficit is at most
2^31 the sample count is computed without wrap-around. -/
theorem core_samples_in_range (h : header_t) (hb : h.num_pcm_sample_blocks < 67108864)
    (hd : h.deficit_sample_count ≤ 2147483648) :
    h.get_packet_length_in_core_samples
      = if h.frametype = frametype_e.termination then
          32 * (h.num_pcm_sample_blocks : Int) - (h.deficit_sample_count : Int)
        else 32 * (h.num_pcm_sample_blocks : Int) := by
  unfold header_t.get_packet_length_in_core_samples to_int32 to_uint32 UINT32_MOD
  have h1 : h.num_pcm_sample_blocks % 4294967296 = h.num_pcm_sample_blocks := by omega
  have h2 : h.num_pcm_sample_blocks * 32 % 4294967296 = h.num_pcm_sample_blocks * 32 := by omega
  have h3 : h.num_pcm_sample_blocks * 32 < 2147483648 := by omega
  simp only [h1, h2, h3, if_true]
  split
  · have h4 : (((h.num_pcm_sample_blocks * 32 : Nat) : Int) % 4294967296).toNat
        = h.num_pcm_sample_blocks * 32 := by omega
    rw [h4]
    split <;> omega
  · omega

/-- C16 (as stated, refuted): a normal frame with 134217728 = 2^27 sample
blocks.  The product 2^27 * 32 is computed in `unsigned int` and wraps to 0,
so `get_packet_length_in_core_samples` returns 0, not 32 * 2^27. -/
theorem packet_length_overflow_counterexample :
    (header_t.get_packet_length_in_core_samples
      { frametype := frametype_e.normal, deficit_sample_count := 0,
        num_pcm_sample_blocks := 134217728, core_sampling_frequency := 48000 }) = 0 ∧
    ¬ ((header_t.get_packet_length_in_core_samples
      { frametype := frametype_e.normal, deficit_sample_count := 0,
        num_pcm_sample_blocks := 134217728, core_sampling_frequency := 48000 })
        = 32 * (134217728 : Int)) := by
  decide

/-- C16 (amended): for every header with fewer than 2^26 sample blocks and a
deficit of at most 2^31, `get_packet_length_in_core_samples` returns
32 * num_pcm_sample_blocks - deficit_sample_count when the frame type is
termination and 32 * num_pcm_sample_blocks when it is normal; and for a
non-zero sampling frequency `get_packet_length_in_nanoseconds`, taken in exact
rational arithmetic, is that sample count * 1000000000 /
core_sampling_frequency. -/
theorem packet_length_in_range (h : header_t) (hb : h.num_pcm_sample_blocks < 67108864)
    (hd : h.deficit_sample_count ≤ 2147483648) (hf : 0 < h.core_sampling_frequency) :
    h.get_packet_length_in_core_samples
      = (if h.frametype = frametype_e.termination then
          32 * (h.num_pcm_sample_blocks : Int) - (h.deficit_sample_count : Int)
        else 32 * (h.num_pcm_sample_blocks : Int)) ∧
    h.get_packet_length_in_nanoseconds
      = (((if h.frametype = frametype_e.termination then
            32 * (h.num_pcm_sample_blocks : Int) - (h.deficit_sample_count : Int)
          else 32 * (h.num_pcm_sample_blocks : Int)) : Int) : ℚ) * 1000000000
          / (h.core_sampling_frequency : ℚ) ∧
    h.get_packet_length_in_nanoseconds * (h.core_sampling_frequency : ℚ)
      = (((if h.frametype = frametype_e.termination then
            32 * (h.num_pcm_sample_blocks : Int) - (h.deficit_sample_count : Int)
          else 32 * (h.num_pcm_sample_blocks : Int)) : Int) : ℚ) * 1000000000 := by
  have hs := core_samples_in_range h hb hd
  have hne : (h.core_sampling_frequency : ℚ) ≠ 0 := by
    have : h.core_sampling_frequency ≠ 0 := by omega
    exact_mod_cast this
  refine ⟨hs, ?_, ?_⟩
  · unfold header_t.get_packet_length_in_nanoseconds
    rw [hs]
  · unfold header_t.get_packet_length_in_nanoseconds
    rw [hs]
    field_simp

/-- Witness for C16: a termination frame of 16 blocks with a deficit of 12 at
48000 Hz has 500 samples and lasts 31250000 / 3 nanoseconds. -/
theorem packet_length_in_range_witness :
    header_t.get_packet_length_in_core_samples
        { frametype := frametype_e.termination, deficit_sample_count := 12,
          num_pcm_sample_blocks := 16, core_sampling_frequency := 48000 } = 500 ∧
    header_t.get_packet_length_in_nanoseconds
        { frametype := frametype_e.termination, deficit_sample_count := 12,
          num_pcm_sample_blocks := 16, core_sampling_frequency := 48000 } = 31250000 / 3 := by
  have h := packet_length_in_range
    { frametype := frametype_e.termination, deficit_sample_count := 12,
      num_pcm_sample_blocks := 16, core_sampling_frequency := 48000 }
    (by decide) (by decide) (by decide)
  refine ⟨?_, ?_⟩
  · rw [h.1]
    decide
  · rw [h.2.1]
    norm_num

end mtx.dts

namespace kax_analyzer_c

/-! ## Theorems: `kax_analyzer_c::find` -/

/-- The loop of `find` steps over entries that do not have the id. -/
theorem find_loop_skip (data : List analyzer_data_c) (id : EbmlId) (fuel : Nat) :
    ∀ (k i : Nat), i + k < 4294967296 → i + k ≤ data.length →
      (∀ j e, i ≤ j → j < i + k → data[j]? = some e → e.id ≠ id) →
      find_loop data id (fuel + k) i = find_loop data id fuel (i + k) := by
  intro k
  induction k with
  | zero => intro i _ _ _; rfl
  | succ k ih =>
      intro i hlt hle hno
      have hi : i < data.length := by omega
      have hget : data[i]? = some data[i] := List.getElem?_eq_getElem hi
      have hne : ¬ id = (data[i]).id := fun hh => hno i _ (Nat.le_refl _) (by omega) hget hh.symm
      have hmod : (i + 1) % mtx.dts.UINT32_MOD = i + 1 :=
        Nat.mod_eq_of_lt (by unfold mtx.dts.UINT32_MOD; omega)
      rw [show fuel + (k + 1) = (fuel + k) + 1 by omega, find_loop, if_pos hi, hget]
      simp only [hne, if_false, hmod]
      rw [ih (i + 1) (by omega) (by omega)
        (fun j e h1 h2 h3 => hno j e (by omega) (by omega) h3)]
      congr 1
      omega

/-- The loop of `find` from position `i`, when no entry before `i` has the id
and every position fits the `int` result. -/
theorem find_loop_spec (data : List analyzer_data_c) (id : EbmlId)
    (hlen : data.length ≤ 2147483648) :
    ∀ (n i : Nat), i + n = data.length →
      (∀ j e, j < i → data[j]? = some e → e.id ≠ id) →
      ∃ r : Int, find_loop data id (n + 1) i = some r ∧
        (r = -1 ↔ ∀ e ∈ data, e.id ≠ id) ∧
        (∀ k : Nat, r = (k : Int) →
          (∃ e, data[k]? = some e ∧ e.id = id) ∧
          ∀ j e, j < k → data[j]? = some e → e.id ≠ id) ∧
        (r = -1 ∨ (0 ≤ r ∧ r < (data.length : Int))) := by
  intro n
  induction n with
  | zero =>
      intro i hi hno
      refine ⟨-1, ?_, ?_, ?_, Or.inl rfl⟩
      · rw [find_loop, if_neg (by omega)]
      · refine ⟨fun _ e he => ?_, fun _ => rfl⟩
        obtain ⟨j, hj, hje⟩ := List.getElem_of_mem he
        exact hno j e (by omega) (by rw [List.getElem?_eq_getElem hj, hje])
      · intro k hk
        omega
  | succ n ih =>
      intro i hi hno
      have hlt : i < data.length := by omega
      have hget : data[i]? = some data[i] := List.getElem?_eq_getElem hlt
      by_cases hid : id = (data[i]).id
      · refine ⟨(i : Int), ?_, ?_, ?_, Or.inr ⟨Int.natCast_nonneg _, by exact_mod_cast hlt⟩⟩
        · rw [find_loop, if_pos hlt, hget]
          simp only [hid, if_true]
          unfold mtx.dts.to_int32 mtx.dts.UINT32_MOD
          have : i % 4294967296 = i := Nat.mod_eq_of_lt (by omega)
          rw [this, if_pos (by omega)]
        · constructor
          · intro h
            omega
          · intro h
            exact absurd hid.symm (h _ (List.getElem_mem hlt))
        · intro k hk
          have hki : k = i := by exact_mod_cast hk.symm
          subst hki
          exact ⟨⟨_, hget, hid.symm⟩, hno⟩
      · have hmod : (i + 1) % mtx.dts.UINT32_MOD = i + 1 :=
          Nat.mod_eq_of_lt (by unfold mtx.dts.UINT32_MOD; omega)
        have hstep : find_loop data id (n + 1 + 1) i = find_loop data id (n + 1) (i + 1) := by
          rw [find_loop, if_pos hlt, hget]
          simp only [hid, if_false, hmod]
        rw [hstep]
        apply ih (i + 1) (by omega)
        intro j e hj hje
        by_cases hji : j = i
        · subst hji
          rw [hget, Option.some.injEq] at hje
          subst hje
          exact fun hh => hid hh.symm
        · exact hno j e (by omega) hje

/-- The entries of `sample_long_index n`: `n + 1` entries, void elements at the
positions below `n` and the element with the id 0x1254C367 at position `n`. -/
theorem sample_long_index_entries (n : Nat) :
    (sample_long_index n).length = n + 1 ∧
    (sample_long_index n)[n]? = some sample_tags ∧
    (∀ j e, j < n → (sample_long_index n)[j]? = some e → e = sample_void) ∧
    sample_tags ∈ sample_long_index n := by
  unfold sample_long_index
  refine ⟨by simp, ?_, ?_, by simp⟩
  · rw [List.getElem?_append_right (by simp)]
    simp
  · intro j e hj he
    rw [List.getElem?_append_left (by simpa using hj), List.getElem?_replicate] at he
    simp only [hj, if_true, Option.some.injEq] at he
    exact he.symm

/-- In an index of `n` void elements and then the element that is looked for,
with `n` below 2^32, the loop of `find` arrives at position `n` and answers with
the conversion of `n` to `int`. -/
theorem find_sample_long_index (n : Nat) (hn : n < 4294967296) :
    find (sample_long_index n) sample_tags.id = some (mtx.dts.to_int32 n) := by
  obtain ⟨hlen, hlast, hvoid, _⟩ := sample_long_index_entries n
  unfold find
  rw [hlen]
  have hskip := find_loop_skip (sample_long_index n) sample_tags.id 2 n 0 (by omega)
    (by omega) (by
      intro j e _ hj he
      rw [hvoid j e (by omega) he]
      decide)
  rw [show n + 1 + 1 = 2 + n by omega, hskip]
  rw [show 0 + n = n by omega, find_loop, if_pos (by omega), hlast]
  simp

/-- C25 (as stated, refuted): an index of 2^32 entries in which only the last
one, at position 4294967295, has the id that is looked for.  The loop counter
reaches 4294967295 and the position is converted to the `int` result -1: `find`
answers -1 although an entry of the index has the id. -/
theorem find_wrap_counterexample :
    find (sample_long_index 4294967295) sample_tags.id = some (-1) ∧
    (sample_long_index 4294967295)[4294967295]? = some sample_tags ∧
    sample_tags ∈ sample_long_index 4294967295 := by
  obtain ⟨_, hlast, _, hmem⟩ := sample_long_index_entries 4294967295
  refine ⟨?_, hlast, hmem⟩
  rw [find_sample_long_index 4294967295 (by omega)]
  decide

/-- C25 (amended): for every index of at most 2^31 entries (every position then
fits the `int` result) and every element id, `find` returns; the result is the
smallest position whose entry has that id, so no entry before it has the id;
it is -1 exactly when no entry of the index has the id, and otherwise lies
between 0 and the size of the index.  The function reads the index only. -/
theorem find_first_match (data : List analyzer_data_c) (id : EbmlId)
    (hlen : data.length ≤ 2147483648) :
    ∃ r : Int, find data id = some r ∧
      (r = -1 ↔ ∀ e ∈ data, e.id ≠ id) ∧
      (∀ k : Nat, r = (k : Int) →
        (∃ e, data[k]? = some e ∧ e.id = id) ∧
        ∀ j e, j < k → data[j]? = some e → e.id ≠ id) ∧
      (r = -1 ∨ (0 ≤ r ∧ r < (data.length : Int))) :=
  find_loop_spec data id hlen data.length 0 (by omega) (fun j e hj _ => by omega)

/-- Witness for C25: in the index of three entries the id 0x1549A966, which
occurs at positions 1 and 2, is found at position 1, and an id that does not
occur gives -1. -/
theorem find_first_match_witness :
    (∃ r : Int, find sample_index { Value := 0x1549A966, Length := 4 } = some r ∧
      (r = -1 ↔ ∀ e ∈ sample_index, e.id ≠ { Value := 0x1549A966, Length := 4 }) ∧
      (∀ k : Nat, r = (k : Int) →
        (∃ e, sample_index[k]? = some e ∧ e.id = { Value := 0x1549A966, Length := 4 }) ∧
        ∀ j e, j < k → sample_index[j]? = some e →
          e.id ≠ { Value := 0x1549A966, Length := 4 }) ∧
      (r = -1 ∨ (0 ≤ r ∧ r < (sample_index.length : Int)))) ∧
    find sample_index { Value := 0x1549A966, Length := 4 } = some 1 ∧
    find sample_index { Value := 0xEC, Length := 1 } = some (-1) :=
  ⟨find_first_match sample_index { Value := 0x1549A966, Length := 4 } (by decide),
    by decide, by decide⟩

end kax_analyzer_c

namespace iso639

/-! ## Theorems: `map_to_iso639_2_code` -/

/-- What a loop over the table returns is the index of the first entry, from
the start of the loop on, that satisfies the condition. -/
theorem table_loop_some (p : iso639_language_t → Bool) :
    ∀ (l : List iso639_language_t) (k i : Nat), table_loop p l k = some i →
      k ≤ i ∧ ∃ e, l[i - k]? = some e ∧ p e = true ∧
        ∀ j other, j < i - k → l[j]? = some other → p other = false := by
  intro l
  induction l with
  | nil => intro k i h; simp [table_loop] at h
  | cons x rest ih =>
      intro k i h
      simp only [table_loop] at h
      by_cases hx : p x = true
      · rw [if_pos hx, Option.some.injEq] at h
        subst h
        refine ⟨Nat.le_refl _, x, by simp, hx, ?_⟩
        intro j other hj
        omega
      · rw [if_neg hx] at h
        obtain ⟨h1, e, h2, h3, h4⟩ := ih (k + 1) i h
        refine ⟨by omega, e, ?_, h3, ?_⟩
        · have : i - k = (i - (k + 1)) + 1 := by omega
          rw [this, List.getElem?_cons_succ]
          exact h2
        · intro j other hj hget
          cases j with
          | zero =>
              simp only [List.getElem?_cons_zero, Option.some.injEq] at hget
              subst hget
              simpa using hx
          | succ j =>
              simp only [List.getElem?_cons_succ] at hget
              exact h4 j other (by omega) hget

/-- A loop over the table reaches the end of the table exactly when no entry
satisfies the condition. -/
theorem table_loop_none (p : iso639_language_t → Bool) :
    ∀ (l : List iso639_language_t) (k : Nat),
      table_loop p l k = none ↔ ∀ e ∈ l, p e = false := by
  intro l
  induction l with
  | nil => intro k; simp [table_loop]
  | cons x rest ih =>
      intro k
      simp only [table_loop]
      by_cases hx : p x = true
      · rw [if_pos hx]
        constructor
        · intro h; simp at h
        · intro h
          have := h x (List.mem_cons_self _ _)
          rw [hx] at this
          exact absurd this (by decide)
      · rw [if_neg hx, ih (k + 1)]
        constructor
        · intro h e he
          rcases List.mem_cons.mp he with g | g
          · subst g; simpa using hx
          · exact h e g
        · intro h e he
          exact h e (List.mem_cons_of_mem _ he)

/-- The condition of the first loop says that `s` is one of the three codes of
the entry. -/
theorem code_matches_iff (s : String) (e : iso639_language_t) :
    code_matches s e = true ↔ is_code_of s e := by
  unfold code_matches is_code_of
  cases h1 : e.terminology_abbrev <;> cases h2 : e.iso639_1_code <;> simp [or_assoc]

/-- The loop of `strcasecmp` finds no difference exactly when the two strings
are equal character by character after the case folding. -/
theorem strcasecmp_chars_eq_zero :
    ∀ a b : List Char, strcasecmp_chars a b = 0 ↔ a.map tolower = b.map tolower := by
  intro a
  induction a with
  | nil =>
      intro b
      cases b with
      | nil => simp [strcasecmp_chars]
      | cons y ys => simp [strcasecmp_chars]
  | cons x xs ih =>
      intro b
      cases b with
      | nil => simp [strcasecmp_chars]
      | cons y ys =>
          simp only [strcasecmp_chars, List.map_cons, List.cons.injEq]
          by_cases hxy : tolower x = tolower y
          · simp only [hxy, ne_eq, not_true_eq_false, if_false, true_and]
            exact ih ys
          · simp only [ne_eq, hxy, not_false_eq_true, if_true, false_and, iff_false]
            omega

/-- The condition of the second loop says that `s` is one of the names of the
entry when the case of letters is ignored. -/
theorem name_matches_iff (s : String) (e : iso639_language_t) :
    name_matches s e = true ↔ is_name_of s e := by
  unfold name_matches is_name_of
  rw [List.any_eq_true]
  constructor
  · rintro ⟨name, hn, h⟩
    unfold names at hn
    obtain ⟨piece, hp, rfl⟩ := List.mem_map.mp hn
    refine ⟨piece, hp, ?_⟩
    have h0 : strcasecmp_chars s.data (strip_chars piece) = 0 := by
      simpa [strcasecmp] using h
    exact ((strcasecmp_chars_eq_zero _ _).mp h0).symm
  · rintro ⟨piece, hp, h⟩
    refine ⟨String.mk (strip_chars piece), List.mem_map.mpr ⟨piece, hp, rfl⟩, ?_⟩
    have h0 : strcasecmp_chars s.data (strip_chars piece) = 0 :=
      (strcasecmp_chars_eq_zero _ _).mpr h.symm
    simpa [strcasecmp] using h0

/-- The search of `map_to_iso639_2_code` without the short names, in closed
form: the first entry that matches by code if there is one, otherwise the first
entry that matches by name, otherwise -1. -/
theorem map_to_iso639_2_code_eq (table : List iso639_language_t) (s : String) :
    map_to_iso639_2_code table s false
      = match table_loop (code_matches s) table 0 with
        | some i => (i : Int)
        | none =>
            match table_loop (name_matches s) table 0 with
            | some i => (i : Int)
            | none => -1 := by
  unfold map_to_iso639_2_code
  split
  · rfl
  · split
    · rfl
    · rfl

/-- The three ways in which the search without the short names ends: at the
first entry that matches by code; or, when no entry matches by code, at the
first entry that matches by name; or, when no entry matches in either way,
with -1. -/
theorem map_to_iso639_2_code_cases (table : List iso639_language_t) (s : String) :
    (∃ (i : Nat) (e : iso639_language_t),
      map_to_iso639_2_code table s false = (i : Int) ∧ table[i]? = some e ∧ is_code_of s e ∧
      ∀ j other, j < i → table[j]? = some other → ¬ is_code_of s other) ∨
    ((∀ e ∈ table, ¬ is_code_of s e) ∧
      ∃ (i : Nat) (e : iso639_language_t),
        map_to_iso639_2_code table s false = (i : Int) ∧ table[i]? = some e ∧
        is_name_of s e ∧
        ∀ j other, j < i → table[j]? = some other → ¬ is_name_of s other) ∨
    ((∀ e ∈ table, ¬ is_code_of s e) ∧ (∀ e ∈ table, ¬ is_name_of s e) ∧
      map_to_iso639_2_code table s false = -1) := by
  rw [map_to_iso639_2_code_eq]
  cases hc : table_loop (code_matches s) table 0 with
  | some i =>
      obtain ⟨_, e, h2, h3, h4⟩ := table_loop_some _ table 0 i hc
      simp only [Nat.sub_zero] at h2 h4
      refine Or.inl ⟨i, e, rfl, h2, (code_matches_iff s e).mp h3, ?_⟩
      intro j other hj hget hco
      have := h4 j other hj hget
      rw [(code_matches_iff s other).mpr hco] at this
      exact absurd this (by decide)
  | none =>
      have hnocode : ∀ e ∈ table, ¬ is_code_of s e := by
        intro e he hco
        have := (table_loop_none _ table 0).mp hc e he
        rw [(code_matches_iff s e).mpr hco] at this
        exact absurd this (by decide)
      cases hn : table_loop (name_matches s) table 0 with
      | some i =>
          obtain ⟨_, e, h2, h3, h4⟩ := table_loop_some _ table 0 i hn
          simp only [Nat.sub_zero] at h2 h4
          refine Or.inr (Or.inl ⟨hnocode, i, e, rfl, h2, (name_matches_iff s e).mp h3, ?_⟩)
          intro j other hj hget hna
          have := h4 j other hj hget
          rw [(name_matches_iff s other).mpr hna] at this
          exact absurd this (by decide)
      | none =>
          refine Or.inr (Or.inr ⟨hnocode, ?_, rfl⟩)
          intro e he hna
          have := (table_loop_none _ table 0).mp hn e he
          rw [(name_matches_iff s e).mpr hna] at this
          exact absurd this (by decide)

/-- A position of a list at which an entry stands is below the length. -/
theorem lt_length_of_getElem? (table : List iso639_language_t) (i : Nat)
    (e : iso639_language_t) (h : table[i]? = some e) : i < table.length := by
  by_contra hc
  rw [List.getElem?_eq_none (by omega)] at h
  simp at h

/-- C28: `map_to_iso639_2_code` with `allow_short_english_name = false` is a
correct search, for every table and every string `s`.  The result is -1 or an
index of the table; a result i >= 0 is the index of an entry that has `s` as
its ISO 639-2 code, terminology abbreviation or ISO 639-1 code, or has a
semicolon-separated, stripped English name equal to `s` ignoring case; the
result is -1 exactly when no entry matches in any of these ways; if any entry
matches by code, the result is the first such entry, also when an earlier
entry matches by name; and if none matches by code, the result is the first
entry that matches by name. -/
theorem map_to_iso639_2_code_search (table : List iso639_language_t) (s : String) :
    (map_to_iso639_2_code table s false = -1 ∨
      ∃ i : Nat, map_to_iso639_2_code table s false = (i : Int) ∧ i < table.length) ∧
    (∀ i : Nat, map_to_iso639_2_code table s false = (i : Int) →
      ∃ e, table[i]? = some e ∧ (is_code_of s e ∨ is_name_of s e)) ∧
    (map_to_iso639_2_code table s false = -1 ↔
      ∀ e ∈ table, ¬ is_code_of s e ∧ ¬ is_name_of s e) ∧
    ((∃ e ∈ table, is_code_of s e) →
      ∃ i : Nat, map_to_iso639_2_code table s false = (i : Int) ∧
        (∃ e, table[i]? = some e ∧ is_code_of s e) ∧
        ∀ j other, j < i → table[j]? = some other → ¬ is_code_of s other) ∧
    ((∀ e ∈ table, ¬ is_code_of s e) → (∃ e ∈ table, is_name_of s e) →
      ∃ i : Nat, map_to_iso639_2_code table s false = (i : Int) ∧
        (∃ e, table[i]? = some e ∧ is_name_of s e) ∧
        ∀ j other, j < i → table[j]? = some other → ¬ is_name_of s other) := by
  rcases map_to_iso639_2_code_cases table s with
    ⟨i, e, hr, hget, hcode, hfirst⟩ | ⟨hnocode, i, e, hr, hget, hname, hfirst⟩ |
    ⟨hnocode, hnoname, hr⟩
  · rw [hr]
    refine ⟨Or.inr ⟨i, rfl, lt_length_of_getElem? table i e hget⟩, ?_, ?_, ?_, ?_⟩
    · intro k hk
      have : k = i := by exact_mod_cast hk.symm
      subst this
      exact ⟨e, hget, Or.inl hcode⟩
    · constructor
      · intro h
        omega
      · intro h
        exact absurd hcode (h e (List.getElem?_mem hget)).1
    · intro _
      exact ⟨i, rfl, ⟨e, hget, hcode⟩, hfirst⟩
    · intro hno _
      exact absurd hcode (hno e (List.getElem?_mem hget))
  · rw [hr]
    refine ⟨Or.inr ⟨i, rfl, lt_length_of_getElem? table i e hget⟩, ?_, ?_, ?_, ?_⟩
    · intro k hk
      have : k = i := by exact_mod_cast hk.symm
      subst this
      exact ⟨e, hget, Or.inr hname⟩
    · constructor
      · intro h
        omega
      · intro h
        exact absurd hname (h e (List.getElem?_mem hget)).2
    · rintro ⟨e1, he1, hco⟩
      exact absurd hco (hnocode e1 he1)
    · intro _ _
      exact ⟨i, rfl, ⟨e, hget, hname⟩, hfirst⟩
  · rw [hr]
    refine ⟨Or.inl rfl, ?_, ?_, ?_, ?_⟩
    · intro k hk
      omega
    · exact ⟨fun _ e he => ⟨hnocode e he, hnoname e he⟩, fun _ => rfl⟩
    · rintro ⟨e1, he1, hco⟩
      exact absurd hco (hnocode e1 he1)
    · rintro _ ⟨e1, he1, hna⟩
      exact absurd hna (hnoname e1 he1)

/-- A small table in which the string `fr` is the English name of the first
entry and the ISO 639-1 code of the second. -/
theorem map_to_iso639_2_code_code_first_example :
    map_to_iso639_2_code
      [iso639_language_t.mk "FR; Frankish" "frk" none none,
       iso639_language_t.mk "French" "fre" (some "fr") (some "fra")] "fr" false = 1 ∧
    map_to_iso639_2_code
      [iso639_language_t.mk "FR; Frankish" "frk" none none,
       iso639_language_t.mk "French" "fre" (some "fr") (some "fra")] "fRANKISH" false = 0 ∧
    map_to_iso639_2_code
      [iso639_language_t.mk "FR; Frankish" "frk" none none,
       iso639_language_t.mk "French" "fre" (some "fr") (some "fra")] "Fre" false = -1 ∧
    map_to_iso639_2_code
      [iso639_language_t.mk "FR; Frankish" "frk" none none,
       iso639_language_t.mk "French" "fre" (some "fr") (some "fra")] "Fre" true = 1 := by
  decide

/-- No piece that `split` returns contains a semicolon. -/
theorem split_chars_no_semicolon :
    ∀ (l : List Char), ∀ piece ∈ split_chars l, ∀ c ∈ piece, c.toNat ≠ 59 := by
  intro l
  induction l with
  | nil =>
      intro piece hp c hc
      simp only [split_chars, List.mem_singleton] at hp
      subst hp
      simp at hc
  | cons x xs ih =>
      intro piece hp c hc
      simp only [split_chars] at hp
      by_cases hx : x.toNat = 59
      · rw [if_pos hx] at hp
        rcases List.mem_cons.mp hp with g | g
        · subst g
          simp at hc
        · exact ih piece g c hc
      · rw [if_neg hx] at hp
        cases hs : split_chars xs with
        | nil =>
            rw [hs] at hp
            simp only [List.mem_singleton] at hp
            subst hp
            simp only [List.mem_singleton] at hc
            subst hc
            exact hx
        | cons p ps =>
            rw [hs] at hp
            rcases List.mem_cons.mp hp with g | g
            · subst g
              rcases List.mem_cons.mp hc with g1 | g1
              · subst g1
                exact hx
              · exact ih p (by rw [hs]; exact List.mem_cons_self _ _) c g1
            · exact ih piece (by rw [hs]; exact List.mem_cons_of_mem _ g) c hc

/-- A string without a semicolon is its own single piece. -/
theorem split_chars_single :
    ∀ (l : List Char), (∀ c ∈ l, c.toNat ≠ 59) → split_chars l = [l] := by
  intro l
  induction l with
  | nil => intro _; rfl
  | cons x xs ih =>
      intro h
      have hx : ¬ x.toNat = 59 := h x (List.mem_cons_self _ _)
      have hxs := ih (fun c hc => h c (List.mem_cons_of_mem _ hc))
      simp only [split_chars, hx, if_false, hxs]

/-- The characters that `strip` leaves are characters of the string. -/
theorem strip_chars_subset (s : List Char) (c : Char) (h : c ∈ strip_chars s) : c ∈ s := by
  unfold strip_chars at h
  rw [List.mem_reverse] at h
  have h1 := (List.dropWhile_sublist isblanktab).subset h
  rw [List.mem_reverse] at h1
  exact (List.dropWhile_sublist isblanktab).subset h1

/-- The case folding takes no other character to the semicolon. -/
theorem tolower_eq_semicolon (c : Char) : tolower c = 59 ↔ c.toNat = 59 := by
  unfold tolower
  split <;> omega

/-- A string with a semicolon is not a name of any entry. -/
theorem not_name_of_semicolon (s : String) (e : iso639_language_t)
    (hs : ∃ c ∈ s.data, c.toNat = 59) : ¬ is_name_of s e := by
  rintro ⟨piece, hp, heq⟩
  obtain ⟨c, hc, hc59⟩ := hs
  have h1 : tolower c ∈ s.data.map tolower := List.mem_map.mpr ⟨c, hc, rfl⟩
  rw [← heq] at h1
  obtain ⟨d, hd, hdc⟩ := List.mem_map.mp h1
  have hd59 : d.toNat = 59 := by
    rw [← tolower_eq_semicolon, hdc, tolower_eq_semicolon]
    exact hc59
  exact split_chars_no_semicolon _ piece hp d (strip_chars_subset _ _ hd) hd59

/-- A plain code has no semicolon and does not start with a capital letter. -/
theorem is_plain_code_spec (code : String) (h : is_plain_code code = true) :
    (∀ c ∈ code.data, c.toNat ≠ 59) ∧
    (∀ c rest, code.data = c :: rest → ¬ (65 ≤ c.toNat ∧ c.toNat ≤ 90)) := by
  unfold is_plain_code at h
  simp only [Bool.and_eq_true, List.all_eq_true, decide_eq_true_eq] at h
  refine ⟨h.2, ?_⟩
  intro c rest hcr
  have h1 := h.1
  rw [hcr] at h1
  simp only [Bool.not_eq_true', Bool.and_eq_false_iff, decide_eq_false_iff_not] at h1
  omega

/-- What the plain way of writing an entry gives: a string that has a
semicolon, or starts with a capital letter, is none of the codes of the
entry. -/
theorem not_code_of_plain (s : String) (e : iso639_language_t) (he : is_plain_entry e = true)
    (hs : (∃ c ∈ s.data, c.toNat = 59) ∨
      (∃ c rest, s.data = c :: rest ∧ 65 ≤ c.toNat ∧ c.toNat ≤ 90)) :
    ¬ is_code_of s e := by
  unfold is_plain_entry at he
  simp only [Bool.and_eq_true] at he
  obtain ⟨⟨⟨⟨_, h2⟩, h3⟩, h4⟩, _⟩ := he
  have hplain : ∀ code : String, is_plain_code code = true → code ≠ s := by
    intro code hc heq
    obtain ⟨g1, g2⟩ := is_plain_code_spec code hc
    subst heq
    rcases hs with ⟨c, hc1, hc2⟩ | ⟨c, rest, hc1, hc2⟩
    · exact g1 c hc1 hc2
    · exact g2 c rest hc1 hc2
  rintro (h | h | h)
  · exact hplain _ h2 h
  · rw [h] at h3
    exact hplain _ h3 rfl
  · rw [h] at h4
    exact hplain _ h4 rfl

/-- What the plain way of writing an entry gives for its English name: it
starts with a capital letter, and when it has no semicolon it is the single
name of the entry. -/
theorem english_name_of_plain (e : iso639_language_t) (he : is_plain_entry e = true) :
    (∃ c rest, e.english_name.data = c :: rest ∧ 65 ≤ c.toNat ∧ c.toNat ≤ 90) ∧
    (lists_several_names e = false → names e = [e.english_name]) := by
  unfold is_plain_entry at he
  simp only [Bool.and_eq_true, Bool.or_eq_true, beq_iff_eq] at he
  obtain ⟨⟨⟨⟨h1, _⟩, _⟩, _⟩, h5⟩ := he
  constructor
  · cases hd : e.english_name.data with
    | nil => rw [hd] at h1; simp at h1
    | cons c rest =>
        rw [hd] at h1
        simp only [Bool.and_eq_true, decide_eq_true_eq] at h1
        exact ⟨c, rest, rfl, h1.1, h1.2⟩
  · intro hl
    rcases h5 with g | g
    · rw [hl] at g
      exact absurd g (by decide)
    · exact g

/-- Every name of an entry is a name of that entry. -/
theorem is_name_of_names (e : iso639_language_t) (name : String) (h : name ∈ names e) :
    is_name_of name e := by
  unfold names at h
  obtain ⟨piece, hp, rfl⟩ := List.mem_map.mp h
  exact ⟨piece, hp, rfl⟩

set_option maxRecDepth 1000000 in
/-- Every entry of `iso639_languages` is written in the plain way. -/
theorem iso639_languages_plain : iso639_languages.all is_plain_entry = true := by
  decide

set_option maxRecDepth 1000000 in
/-- The table has 482 entries, and 41 of them list several names. -/
theorem iso639_languages_counts :
    iso639_languages.length = 482 ∧
    (iso639_languages.filter lists_several_names).length = 41 := by
  decide

set_option maxRecDepth 1000000 in
/-- C29 (as stated, refuted): two entries of `iso639_languages`.  The entry at
index 25 has the English name `Asturian; Bable` and the code `ast`; the call
with that name, as stored, returns -1.  The entry at index 100 has the English
name `Creoles and pidgins,` and the code `cpf`; the call with that name returns
99, the index of an entry with the code `cpe`. -/
theorem map_to_iso639_2_code_stored_name_counterexample :
    iso639_languages[25]? = some (iso639_language_t.mk "Asturian; Bable" "ast" none none) ∧
    map_to_iso639_2_code iso639_languages "Asturian; Bable" false = -1 ∧
    iso639_languages[100]? = some (iso639_language_t.mk "Creoles and pidgins," "cpf" none none) ∧
    map_to_iso639_2_code iso639_languages "Creoles and pidgins," false = 99 ∧
    iso639_languages[99]? = some (iso639_language_t.mk "Creoles and pidgins," "cpe" none none) := by
  decide

/-- What `agree_all` checks. -/
theorem agree_all_sound (a : name_key_t) :
    ∀ l : List name_key_t, agree_all a l = true →
      ∀ c ∈ l, a.key = c.key → a.code = c.code := by
  intro l
  induction l with
  | nil => intro _ c hc; simp at hc
  | cons x rest ih =>
      intro h c hc hk
      simp only [agree_all, Bool.and_eq_true, Bool.or_eq_true, bne_iff_ne, ne_eq,
        beq_iff_eq] at h
      rcases List.mem_cons.mp hc with g | g
      · subst g
        rcases h.1 with g1 | g1
        · exact absurd hk g1
        · exact g1
      · exact ih h.2 c g hk

/-- What `agree_pairwise` checks. -/
theorem agree_pairwise_sound :
    ∀ l : List name_key_t, agree_pairwise l = true →
      ∀ a ∈ l, ∀ c ∈ l, a.key = c.key → a.code = c.code := by
  intro l
  induction l with
  | nil => intro _ a ha; simp at ha
  | cons x rest ih =>
      intro h a ha c hc hk
      simp only [agree_pairwise, Bool.and_eq_true] at h
      rcases List.mem_cons.mp ha with g | g
      · rcases List.mem_cons.mp hc with g1 | g1
        · rw [g, g1]
        · rw [g] at hk ⊢
          exact agree_all_sound x rest h.1 c g1 hk
      · rcases List.mem_cons.mp hc with g1 | g1
        · rw [g1] at hk ⊢
          exact (agree_all_sound x rest h.1 a g hk.symm).symm
        · exact ih h.2 a g c g1 hk

/-- What `buckets_agree` checks. -/
theorem buckets_agree_sound (l : List (Nat × name_key_t)) :
    ∀ n : Nat, buckets_agree l n = true →
      ∀ p ∈ l, ∀ q ∈ l, p.1 < n → p.1 = q.1 → p.2.key = q.2.key → p.2.code = q.2.code := by
  intro n
  induction n with
  | zero => intro _ p _ q _ hp; omega
  | succ n ih =>
      intro h p hp q hq hlt heq hk
      simp only [buckets_agree, Bool.and_eq_true] at h
      by_cases hn : p.1 = n
      · refine agree_pairwise_sound _ h.1 p.2 ?_ q.2 ?_ hk
        · exact List.mem_map.mpr ⟨p, List.mem_filter.mpr ⟨hp, by simpa using hn⟩, rfl⟩
        · exact List.mem_map.mpr ⟨q, List.mem_filter.mpr ⟨hq, by simpa using heq ▸ hn⟩, rfl⟩
      · exact ih h.2 p hp q hq (by omega) heq hk

/-- When the buckets of a table agree, any two entries that have a regular
name in common have the same ISO 639-2 code. -/
theorem table_name_keys_agree (table : List iso639_language_t)
    (h : buckets_agree (table_name_keys table) 128 = true)
    (e x : iso639_language_t) (he : e ∈ table) (hx : x ∈ table)
    (hce : is_cut_short e = false) (hcx : is_cut_short x = false)
    (key : List Nat) (hkey : key ≠ [])
    (hke : ∃ piece ∈ split_chars e.english_name.data, (strip_chars piece).map tolower = key)
    (hkx : ∃ piece ∈ split_chars x.english_name.data, (strip_chars piece).map tolower = key) :
    x.iso639_2_code = e.iso639_2_code := by
  have hmem : ∀ y : iso639_language_t, y ∈ table → is_cut_short y = false →
      (∃ piece ∈ split_chars y.english_name.data, (strip_chars piece).map tolower = key) →
      (key_hash key, name_key_t.mk key y.iso639_2_code) ∈ table_name_keys table := by
    intro y hy hcy ⟨piece, hp, hpk⟩
    unfold table_name_keys
    refine List.mem_map.mpr ⟨name_key_t.mk key y.iso639_2_code, ?_, rfl⟩
    refine List.mem_filter.mpr ⟨?_, ?_⟩
    · refine List.mem_flatMap.mpr ⟨y, hy, ?_⟩
      unfold name_keys
      exact List.mem_map.mpr ⟨piece, hp, by rw [hpk]⟩
    · unfold is_cut_short at hcy
      unfold is_regular_key
      cases key with
      | nil => exact absurd rfl hkey
      | cons k ks =>
          simp only [Bool.or_eq_false_iff, beq_eq_false_iff_ne, ne_eq] at hcy
          simp [hcy.1, hcy.2]
  have hlt : key_hash key < 128 := Nat.mod_lt _ (by decide)
  exact buckets_agree_sound _ 128 h _ (hmem x hx hcx hkx) _ (hmem e he hce hke) hlt rfl rfl

set_option maxRecDepth 1000000 in
/-- In `iso639_languages` any two equal regular names are names of entries
with the same ISO 639-2 code. -/
theorem iso639_languages_names_agree :
    buckets_agree (table_name_keys iso639_languages) 128 = true := by
  decide

set_option maxRecDepth 1000000 in
/-- Every entry of `iso639_languages` has codes of at most seven characters
and names that are shaped as names. -/
theorem iso639_languages_regular : iso639_languages.all is_regular_entry = true := by
  decide

set_option maxRecDepth 1000000 in
/-- The entries `cpf` and `cpp` of `iso639_languages` have the English name
`Creoles and pidgins,`; they are not among the first 100 entries; and the
entry at index 99 has that name and the code `cpe`. -/
theorem iso639_languages_cut_short :
    iso639_languages.all
      (fun x => !is_cut_short x || x.english_name == "Creoles and pidgins,") = true ∧
    (iso639_languages.take 100).all (fun x => !is_cut_short x) = true ∧
    iso639_languages[99]?
      = some (iso639_language_t.mk "Creoles and pidgins," "cpe" none none) := by
  decide

set_option maxRecDepth 1000000 in
/-- The call with the name `Creoles and pidgins,` returns 99. -/
theorem map_to_iso639_2_code_creoles :
    map_to_iso639_2_code iso639_languages "Creoles and pidgins," false = 99 := by
  decide

/-- A non-empty string that is shaped as a name is none of the codes of an
entry whose codes are plain and have at most seven characters. -/
theorem not_code_of_regular (name : String) (x : iso639_language_t)
    (hplain : is_plain_entry x = true) (hreg : is_regular_entry x = true)
    (hshape : is_name_shaped name = true) (hne : name.data ≠ []) :
    ¬ is_code_of name x := by
  unfold is_name_shaped at hshape
  cases hd : name.data with
  | nil => exact absurd hd hne
  | cons c rest =>
      rw [hd] at hshape
      simp only [Bool.or_eq_true, Bool.and_eq_true, decide_eq_true_eq] at hshape
      rcases hshape with g | g
      · exact not_code_of_plain name x hplain (Or.inr ⟨c, rest, hd, g.1, g.2⟩)
      · unfold is_regular_entry at hreg
        simp only [Bool.and_eq_true] at hreg
        obtain ⟨⟨⟨h1, h2⟩, h3⟩, _⟩ := hreg
        have hshort : ∀ code : String, is_short_code code = true → code ≠ name := by
          intro code hc heq
          unfold is_short_code at hc
          simp only [decide_eq_true_eq] at hc
          rw [heq, hd] at hc
          simp only [List.length_cons] at hc
          omega
        rintro (h | h | h)
        · exact hshort _ h1 h
        · rw [h] at h2
          exact hshort _ h2 rfl
        · rw [h] at h3
          exact hshort _ h3 rfl

/-- The first entry of `iso639_languages` that has a given non-empty name has
the ISO 639-2 code of every entry, other than `cpf` and `cpp`, that has the
name. -/
theorem first_name_same_code (e found : iso639_language_t) (name : String) (i : Nat)
    (he : e ∈ iso639_languages) (hn : is_name_of name e) (hne : name.data ≠ [])
    (hcut : is_cut_short e = false)
    (hget : iso639_languages[i]? = some found) (hfn : is_name_of name found)
    (hfirst : ∀ j other, j < i → iso639_languages[j]? = some other → ¬ is_name_of name other) :
    found.iso639_2_code = e.iso639_2_code := by
  obtain ⟨c1, c2, c3⟩ := iso639_languages_cut_short
  have hfound : found ∈ iso639_languages := List.getElem?_mem hget
  have hfcut : is_cut_short found = false := by
    by_contra hc
    have hc1 : is_cut_short found = true := by simpa using hc
    have hname := List.all_eq_true.mp c1 found hfound
    simp only [hc1, Bool.not_true, Bool.false_or, beq_iff_eq] at hname
    have h99 : is_name_of name (iso639_language_t.mk "Creoles and pidgins," "cpe" none none) := by
      unfold is_name_of at hfn ⊢
      rw [hname] at hfn
      exact hfn
    have hi : i < 100 := by
      by_contra hge
      exact hfirst 99 _ (by omega) c3 h99
    have hmem : found ∈ iso639_languages.take 100 := by
      apply List.getElem?_mem (n := i)
      rw [List.getElem?_take_of_lt hi]
      exact hget
    have := List.all_eq_true.mp c2 found hmem
    rw [hc1] at this
    exact absurd this (by decide)
  have hkey : name.data.map tolower ≠ [] := by
    intro h
    exact hne (List.map_eq_nil_iff.mp h)
  exact table_name_keys_agree iso639_languages iso639_languages_names_agree e found he hfound
    hcut hfcut (name.data.map tolower) hkey hn hfn

/-- C29 (amended): for every entry of `iso639_languages`.  If its English
name, as stored, lists several names separated by semicolons, the call with
the stored name returns -1.  If it has no semicolon, the call returns the
index of the first entry of the table that has this name among its
semicolon-separated, stripped names (ignoring case), never -1, no entry has
the name as a code, and the entry returned has the same ISO 639-2 code as the
entry asked for, unless that is one of the two entries `cpf` and `cpp`: the
table cuts their names short to `Creoles and pidgins,`, the name of the entry
`cpe` before them, and the call with it returns 99, the index of `cpe`.  Each
single name that an entry lists, stripped, is found: the call with it returns
the index of an entry that has it as a code or as a name, never -1, and for a
name that is not empty, of an entry other than `cpf` and `cpp`, the entry
returned has the same ISO 639-2 code. -/
theorem map_to_iso639_2_code_english_names (e : iso639_language_t)
    (he : e ∈ iso639_languages) :
    (lists_several_names e = true →
      map_to_iso639_2_code iso639_languages e.english_name false = -1) ∧
    (lists_several_names e = false →
      ∃ i : Nat, map_to_iso639_2_code iso639_languages e.english_name false = (i : Int) ∧
        (∃ found, iso639_languages[i]? = some found ∧ is_name_of e.english_name found ∧
          (e.iso639_2_code ≠ "cpf" → e.iso639_2_code ≠ "cpp" →
            found.iso639_2_code = e.iso639_2_code)) ∧
        (∀ j other, j < i → iso639_languages[j]? = some other →
          ¬ is_name_of e.english_name other) ∧
        (∀ other ∈ iso639_languages, ¬ is_code_of e.english_name other)) ∧
    (e.iso639_2_code = "cpf" ∨ e.iso639_2_code = "cpp" →
      e.english_name = "Creoles and pidgins," ∧
      map_to_iso639_2_code iso639_languages e.english_name false = 99 ∧
      ∃ found, iso639_languages[99]? = some found ∧ found.iso639_2_code = "cpe") ∧
    (∀ name ∈ names e,
      ∃ i : Nat, map_to_iso639_2_code iso639_languages name false = (i : Int) ∧
        ∃ found, iso639_languages[i]? = some found ∧
          (is_code_of name found ∨ is_name_of name found) ∧
          (name ≠ "" → e.iso639_2_code ≠ "cpf" → e.iso639_2_code ≠ "cpp" →
            found.iso639_2_code = e.iso639_2_code)) := by
  have hall : ∀ x ∈ iso639_languages, is_plain_entry x = true :=
    List.all_eq_true.mp iso639_languages_plain
  have hreg : ∀ x ∈ iso639_languages, is_regular_entry x = true :=
    List.all_eq_true.mp iso639_languages_regular
  have hcutoff : e.iso639_2_code ≠ "cpf" → e.iso639_2_code ≠ "cpp" →
      is_cut_short e = false := by
    intro h1 h2
    unfold is_cut_short
    simp [h1, h2]
  obtain ⟨hcap, hsingle⟩ := english_name_of_plain e (hall e he)
  refine ⟨?_, ?_, ?_, ?_⟩
  · intro hl
    have hsemi : ∃ c ∈ e.english_name.data, c.toNat = 59 := by
      unfold lists_several_names at hl
      rw [List.any_eq_true] at hl
      obtain ⟨c, hc, h59⟩ := hl
      exact ⟨c, hc, by simpa using h59⟩
    rcases map_to_iso639_2_code_cases iso639_languages e.english_name with
      ⟨i, x, _, hget, hcode, _⟩ | ⟨_, i, x, _, _, hname, _⟩ | ⟨_, _, hr⟩
    · exact absurd hcode
        (not_code_of_plain _ x (hall x (List.getElem?_mem hget)) (Or.inl hsemi))
    · exact absurd hname (not_name_of_semicolon _ x hsemi)
    · exact hr
  · intro hl
    have hnocode : ∀ other ∈ iso639_languages, ¬ is_code_of e.english_name other :=
      fun x hx => not_code_of_plain _ x (hall x hx) (Or.inr hcap)
    have hname : is_name_of e.english_name e :=
      is_name_of_names e _ (by rw [hsingle hl]; exact List.mem_singleton_self _)
    have hne : e.english_name.data ≠ [] := by
      obtain ⟨c, rest, hd, _⟩ := hcap
      rw [hd]
      simp
    rcases map_to_iso639_2_code_cases iso639_languages e.english_name with
      ⟨i, x, _, hget, hcode, _⟩ | ⟨_, i, x, hr, hget, hn, hfirst⟩ | ⟨_, hnoname, _⟩
    · exact absurd hcode (hnocode x (List.getElem?_mem hget))
    · exact ⟨i, hr, ⟨x, hget, hn, fun h1 h2 =>
        first_name_same_code e x _ i he hname hne (hcutoff h1 h2) hget hn hfirst⟩,
        hfirst, hnocode⟩
    · exact absurd hname (hnoname e he)
  · intro hc
    have hcut : is_cut_short e = true := by
      unfold is_cut_short
      rcases hc with g | g <;> simp [g]
    have hname := List.all_eq_true.mp iso639_languages_cut_short.1 e he
    simp only [hcut, Bool.not_true, Bool.false_or, beq_iff_eq] at hname
    refine ⟨hname, ?_, _, iso639_languages_cut_short.2.2, rfl⟩
    rw [hname]
    exact map_to_iso639_2_code_creoles
  · intro name hn
    have hname : is_name_of name e := is_name_of_names e name hn
    have hshape : is_name_shaped name = true := by
      have h := hreg e he
      unfold is_regular_entry at h
      simp only [Bool.and_eq_true] at h
      exact List.all_eq_true.mp h.2 name hn
    have hdata : name ≠ "" → name.data ≠ [] := by
      intro h1 h2
      apply h1
      cases name with
      | mk data =>
          simp only at h2
          rw [h2]
    rcases map_to_iso639_2_code_cases iso639_languages name with
      ⟨i, x, hr, hget, hcode, _⟩ | ⟨_, i, x, hr, hget, hn1, hfirst⟩ | ⟨_, hnoname, _⟩
    · refine ⟨i, hr, x, hget, Or.inl hcode, ?_⟩
      intro h0 _ _
      have hx := List.getElem?_mem hget
      exact absurd hcode (not_code_of_regular name x (hall x hx) (hreg x hx) hshape (hdata h0))
    · exact ⟨i, hr, x, hget, Or.inr hn1, fun h0 h1 h2 =>
        first_name_same_code e x name i he hname (hdata h0) (hcutoff h1 h2) hget hn1 hfirst⟩
    · exact absurd hname (hnoname e he)

set_option maxRecDepth 1000000 in
/-- Witness for C29: the entry `Abkhazian` (code `abk`), the first of the table,
is found at index 0 under its English name, and the entry found has the code
`abk`. -/
theorem map_to_iso639_2_code_english_names_witness :
    iso639_language_t.mk "Abkhazian" "abk" (some "ab") none ∈ iso639_languages ∧
    map_to_iso639_2_code iso639_languages "Abkhazian" false = 0 ∧
    ∃ i : Nat, map_to_iso639_2_code iso639_languages "Abkhazian" false = (i : Int) ∧
      (∃ found, iso639_languages[i]? = some found ∧ is_name_of "Abkhazian" found ∧
        found.iso639_2_code = "abk") ∧
      (∀ j other, j < i → iso639_languages[j]? = some other →
        ¬ is_name_of "Abkhazian" other) ∧
      (∀ other ∈ iso639_languages, ¬ is_code_of "Abkhazian" other) := by
  obtain ⟨i, h1, ⟨found, h2, h3, h4⟩, h5, h6⟩ :=
    (map_to_iso639_2_code_english_names
      (iso639_language_t.mk "Abkhazian" "abk" (some "ab") none)
      (List.mem_cons_self _ _)).2.1 (by decide)
  exact ⟨List.mem_cons_self _ _, by decide,
    i, h1, ⟨found, h2, h3, h4 (by decide) (by decide)⟩, h5, h6⟩

end iso639

namespace mtx.math

/-! ## Theorems: `round_to_nearest_pow2` and `int_log2` -/

/-- The test value after `n` runs of the loop body is `2 ^ n` in `uint64_t`. -/
theorem iterate_test_value (value : Nat) (n : Nat) :
    ((loop_body value)^[n] pow2_start).test_value = 2 ^ n % UINT64_RANGE := by
  induction n with
  | zero => rfl
  | succ n ih =>
      rw [Function.iterate_succ_apply']
      simp only [loop_body]
      rw [ih, Nat.shiftLeft_eq, pow_one, Nat.mod_mul_mod, pow_succ]

/-- In `uint64_t` the power `2 ^ n` is 0 from `n = 64` on. -/
theorem two_pow_mod_of_ge (n : Nat) (h : 64 ≤ n) : 2 ^ n % UINT64_RANGE = 0 := by
  obtain ⟨m, rfl⟩ : ∃ m, n = 64 + m := ⟨n - 64, by omega⟩
  rw [pow_add]
  have : (2 : Nat) ^ 64 = UINT64_RANGE := by norm_num [UINT64_RANGE]
  rw [this]
  exact Nat.mul_mod_right _ _

/-- Below `n = 64` the power `2 ^ n` is a `uint64_t`. -/
theorem two_pow_mod_of_lt (n : Nat) (h : n < 64) : 2 ^ n % UINT64_RANGE = 2 ^ n := by
  apply Nat.mod_eq_of_lt
  calc 2 ^ n < 2 ^ 64 := Nat.pow_lt_pow_right (by decide) h
    _ = UINT64_RANGE := by norm_num [UINT64_RANGE]

/-- The loop condition holds after every number of runs of the loop body. -/
theorem iterate_loop_condition (value : Nat) (n : Nat) :
    loop_condition ((loop_body value)^[n] pow2_start) = true := by
  simp only [loop_condition, decide_eq_true_eq, iterate_test_value]
  rcases Nat.lt_or_ge n 64 with h | h
  · rw [two_pow_mod_of_lt n h]
    calc 2 ^ n ≤ 2 ^ 63 := Nat.pow_le_pow_right (by decide) (by omega)
      _ = 0x8000000000000000 := by norm_num
  · rw [two_pow_mod_of_ge n h]
    exact Nat.zero_le _

/-- The loop started in the state reached after `n` runs of the body uses up
every bound. -/
theorem loop_never_ends (value : Nat) (fuel : Nat) :
    ∀ n, round_to_nearest_pow2_loop value fuel ((loop_body value)^[n] pow2_start) = none := by
  induction fuel with
  | zero => intro n; rfl
  | succ fuel ih =>
      intro n
      simp only [round_to_nearest_pow2_loop, iterate_loop_condition, if_true]
      have h := ih (n + 1)
      rw [Function.iterate_succ_apply'] at h
      exact h

/-- C36: the loop of `round_to_nearest_pow2` does not end.  For every value
the loop condition holds after every number of iterations: after 64
iterations `test_value` is 0 and stays 0, and 0 is not above
`0x8000000000000000`.  So for every bound on the number of iterations the
function has not returned. -/
theorem round_to_nearest_pow2_never_returns (value : Nat) :
    (∀ n, loop_condition ((loop_body value)^[n] pow2_start) = true)
    ∧ (∀ n, 64 ≤ n → ((loop_body value)^[n] pow2_start).test_value = 0)
    ∧ (∀ fuel, round_to_nearest_pow2 fuel value = none) := by
  refine ⟨iterate_loop_condition value, ?_, ?_⟩
  · intro n hn
    rw [iterate_test_value, two_pow_mod_of_ge n hn]
  · intro fuel
    exact loop_never_ends value fuel 0

/-- The best value after `n` runs of the loop body, for `n` up to 64, is what
the update rule leaves when it is applied to `2 ^ 0, ..., 2 ^ (n - 1)`. -/
theorem iterate_best_value (value : Nat) (n : Nat) (hn : n ≤ 64) :
    ((loop_body value)^[n] pow2_start).best_value
      = ((List.range n).map (fun k => 2 ^ k)).foldl (update value) 0 := by
  induction n with
  | zero => rfl
  | succ n ih =>
      rw [Function.iterate_succ_apply']
      simp only [loop_body]
      rw [ih (by omega), iterate_test_value, two_pow_mod_of_lt n (by omega), List.range_succ,
        List.map_append, List.foldl_append]
      rfl

/-- The update rule applied to `2 ^ 0, ..., 2 ^ n` for a value that is not 0:
the result is the first of these powers that is nearest to the value. -/
theorem foldl_update_nearest (value : Nat) (hv : 0 < value) (n : Nat) :
    ∃ k, k ≤ n
      ∧ ((List.range (n + 1)).map (fun k => 2 ^ k)).foldl (update value) 0 = 2 ^ k
      ∧ (∀ j, j ≤ n → distance value (2 ^ k) ≤ distance value (2 ^ j))
      ∧ (∀ j, j ≤ n → distance value (2 ^ j) = distance value (2 ^ k) → k ≤ j) := by
  induction n with
  | zero =>
      refine ⟨0, le_refl _, ?_, ?_, ?_⟩
      · simp only [List.range_succ, List.range_zero, List.nil_append, List.map_cons,
          List.map_nil, List.foldl_cons, List.foldl_nil, pow_zero, update, distance]
        split_ifs <;> omega
      · intro j hj
        have : j = 0 := by omega
        subst this
        exact le_refl _
      · intro j _ _
        exact Nat.zero_le _
  | succ n ih =>
      obtain ⟨k, hk, hfold, hmin, htie⟩ := ih
      rw [List.range_succ, List.map_append, List.foldl_append, hfold]
      simp only [List.map_cons, List.map_nil, List.foldl_cons, List.foldl_nil, update]
      by_cases hlt : distance value (2 ^ (n + 1)) < distance value (2 ^ k)
      · rw [if_pos hlt]
        refine ⟨n + 1, le_refl _, rfl, ?_, ?_⟩
        · intro j hj
          rcases Nat.lt_or_ge j (n + 1) with h | h
          · exact le_trans (le_of_lt hlt) (hmin j (by omega))
          · have : j = n + 1 := by omega
            subst this
            exact le_refl _
        · intro j hj hd
          rcases Nat.lt_or_ge j (n + 1) with h | h
          · have := hmin j (by omega)
            omega
          · exact h
      · rw [if_neg hlt]
        refine ⟨k, by omega, rfl, ?_, ?_⟩
        · intro j hj
          rcases Nat.lt_or_ge j (n + 1) with h | h
          · exact hmin j (by omega)
          · have : j = n + 1 := by omega
            subst this
            omega
        · intro j hj hd
          rcases Nat.lt_or_ge j (n + 1) with h | h
          · exact htie j (by omega) hd
          · omega

/-- C37, counterexample: for the value 0 the update rule never replaces the
initial `best_value = 0` (no candidate is strictly nearer to 0 than 0 itself),
so after the 64 candidates, which are the first 64 runs of the loop body,
`best_value` is 0, which is not a power of two. -/
theorem round_to_nearest_pow2_zero_counterexample :
    best_of_candidates 0 = 0
    ∧ ((loop_body 0)^[64] pow2_start).best_value = 0
    ∧ ¬ ∃ k, best_of_candidates 0 = 2 ^ k := by
  have h0 : best_of_candidates 0 = 0 := by
    set_option maxRecDepth 100000 in decide
  refine ⟨h0, ?_, ?_⟩
  · rw [iterate_best_value 0 64 (le_refl _)]
    exact h0
  · rintro ⟨k, hk⟩
    rw [h0] at hk
    exact absurd hk.symm (by positivity)

/-- C37, amended: for every value that is not 0, applying the update rule of
the loop to the candidates `2 ^ 0, ..., 2 ^ 63` in order, which is what the
first 64 runs of the loop body do, leaves `best_value` equal to a power
`2 ^ k` with `k ≤ 63` that minimises the distance to the value over all these
powers, and `k` is the smallest such exponent (of two equally near powers the
smaller is chosen). -/
theorem round_to_nearest_pow2_nearest (value : Nat) (hv : 0 < value) :
    ((loop_body value)^[64] pow2_start).best_value = best_of_candidates value
    ∧ ∃ k, k ≤ 63
      ∧ best_of_candidates value = 2 ^ k
      ∧ (∀ j, j ≤ 63 → distance value (2 ^ k) ≤ distance value (2 ^ j))
      ∧ (∀ j, j ≤ 63 → distance value (2 ^ j) = distance value (2 ^ k) → k ≤ j) := by
  refine ⟨iterate_best_value value 64 (le_refl _), ?_⟩
  exact foldl_update_nearest value hv 63

/-- C37, witness: the value 3 is as near to 2 as to 4, and the smaller power
is chosen; the value 6 goes to 4 and the value 7 to 8. -/
theorem round_to_nearest_pow2_nearest_witness :
    (0 < 3)
    ∧ (((loop_body 3)^[64] pow2_start).best_value = best_of_candidates 3
      ∧ ∃ k, k ≤ 63
        ∧ best_of_candidates 3 = 2 ^ k
        ∧ (∀ j, j ≤ 63 → distance 3 (2 ^ k) ≤ distance 3 (2 ^ j))
        ∧ (∀ j, j ≤ 63 → distance 3 (2 ^ j) = distance 3 (2 ^ k) → k ≤ j)) :=
  ⟨by decide, round_to_nearest_pow2_nearest 3 (by decide)⟩

set_option maxRecDepth 100000 in
/-- The values of `best_of_candidates` at some inputs, among them the largest
`uint64_t`. -/
theorem best_of_candidates_examples :
    best_of_candidates 1 = 1 ∧ best_of_candidates 3 = 2 ∧ best_of_candidates 6 = 4
    ∧ best_of_candidates 7 = 8 ∧ best_of_candidates 1000 = 1024
    ∧ best_of_candidates 18446744073709551615 = 9223372036854775808 := by
  decide

/-- The test `value & (1ull << bit)` of `int_log2` is the test of bit `bit`. -/
theorem and_shift_ne_zero (value bit : Nat) :
    value &&& (1 <<< bit) ≠ 0 ↔ value.testBit bit = true := by
  rw [Nat.one_shiftLeft, Nat.and_two_pow]
  cases h : value.testBit bit
  · simp
  · simp

/-- The loop of `int_log2` over the lowest `bits` bits of a value below
`2 ^ bits`. -/
theorem int_log2_loop_spec (value : Nat) :
    ∀ bits, value < 2 ^ bits →
      (value = 0 → int_log2_loop value bits = -1)
      ∧ (0 < value → ∃ k, k < bits ∧ int_log2_loop value bits = (k : Int)
          ∧ 2 ^ k ≤ value ∧ value < 2 ^ (k + 1) ∧ value.testBit k = true
          ∧ ∀ j, k < j → value.testBit j = false) := by
  intro bits
  induction bits with
  | zero =>
      intro h
      refine ⟨fun _ => rfl, fun hv => ?_⟩
      simp at h
      omega
  | succ n ih =>
      intro h
      by_cases hb : value.testBit n = true
      · have hstep : int_log2_loop value (n + 1) = (n : Int) := by
          simp only [int_log2_loop]
          rw [if_pos ((and_shift_ne_zero value n).mpr hb)]
        have hge : 2 ^ n ≤ value := Nat.testBit_implies_ge hb
        refine ⟨fun h0 => ?_, fun _ => ⟨n, by omega, hstep, hge, h, hb, ?_⟩⟩
        · subst h0
          simp at hb
        · intro j hj
          apply Nat.testBit_lt_two_pow
          calc value < 2 ^ (n + 1) := h
            _ ≤ 2 ^ j := Nat.pow_le_pow_right (by decide) hj
      · have hstep : int_log2_loop value (n + 1) = int_log2_loop value n := by
          simp only [int_log2_loop]
          rw [if_neg (fun hc => hb ((and_shift_ne_zero value n).mp hc))]
        have hlt : value < 2 ^ n := by
          apply Nat.lt_pow_two_of_testBit
          intro i hi
          rcases Nat.lt_or_ge n i with h1 | h1
          · apply Nat.testBit_lt_two_pow
            calc value < 2 ^ (n + 1) := h
              _ ≤ 2 ^ i := Nat.pow_le_pow_right (by decide) h1
          · have : i = n := by omega
            subst this
            simpa using hb
        obtain ⟨ih0, ih1⟩ := ih hlt
        rw [hstep]
        refine ⟨ih0, fun hv => ?_⟩
        obtain ⟨k, hk, hr⟩ := ih1 hv
        exact ⟨k, by omega, hr⟩

/-- C38: `int_log2` is the floor of the binary logarithm.  For every value of
a `uint64_t` that is not 0 the result is the `k` between 0 and 63 with
`2 ^ k ≤ value < 2 ^ (k + 1)`, which is the index of the highest set bit and
equals `Nat.log 2 value`; for the value 0 the result is `-1`. -/
theorem int_log2_floor (value : Nat) (hlt : value < 2 ^ 64) :
    (value = 0 → int_log2 value = -1)
    ∧ (0 < value →
        ∃ k : Nat, k ≤ 63 ∧ int_log2 value = (k : Int)
          ∧ 2 ^ k ≤ value ∧ value < 2 ^ (k + 1)
          ∧ value.testBit k = true ∧ (∀ j : Nat, k < j → value.testBit j = false)
          ∧ k = Nat.log 2 value) := by
  refine ⟨(int_log2_loop_spec value 64 hlt).1, ?_⟩
  intro hv
  obtain ⟨k, hk, hr, hle, hlt1, hb, hhigh⟩ := (int_log2_loop_spec value 64 hlt).2 hv
  have hlog : Nat.log 2 value = k :=
    (Nat.log_eq_iff (Or.inr ⟨by decide, Nat.pos_iff_ne_zero.mp hv⟩)).mpr ⟨hle, hlt1⟩
  exact ⟨k, by omega, hr, hle, hlt1, hb, hhigh, hlog.symm⟩

/-- C38, witness: the theorem at the value 1000, which lies between `2 ^ 9`
and `2 ^ 10`. -/
theorem int_log2_floor_witness :
    (1000 < 2 ^ 64)
    ∧ ((1000 = 0 → int_log2 1000 = -1)
      ∧ (0 < 1000 →
          ∃ k : Nat, k ≤ 63 ∧ int_log2 1000 = (k : Int)
            ∧ 2 ^ k ≤ 1000 ∧ 1000 < 2 ^ (k + 1)
            ∧ Nat.testBit 1000 k = true ∧ (∀ j : Nat, k < j → Nat.testBit 1000 j = false)
            ∧ k = Nat.log 2 1000)) :=
  ⟨by norm_num, int_log2_floor 1000 (by norm_num)⟩

/-- The values of `int_log2` at some inputs, among them 0 and the largest
`uint64_t`. -/
theorem int_log2_examples :
    int_log2 0 = -1 ∧ int_log2 1 = 0 ∧ int_log2 2 = 1 ∧ int_log2 3 = 1
    ∧ int_log2 1000 = 9 ∧ int_log2 18446744073709551615 = 63 := by
  decide

end mtx.math

namespace mtx.gui.Merge

/-! ## Theorems: the builders of `MuxConfig` -/

/-- A loop that appends `f x` for the elements that pass a test collects the
images of the filtered list. -/
theorem foldl_push_filter {α β : Type} (p : α → Bool) (f : α → β) (xs : List α) :
    ∀ init : List β,
      xs.foldl (fun acc x => if p x then acc ++ [f x] else acc) init
        = init ++ (xs.filter p).map f := by
  induction xs with
  | nil => intro init; simp
  | cons x xs ih =>
      intro init
      rw [List.foldl_cons, ih]
      by_cases hp : p x = true
      · simp [hp, List.filter_cons]
      · simp [hp, List.filter_cons]

/-- The condition of `buildTrackOrder` is the qualification of the claim. -/
theorem inTrackOrder_eq_qualifies (cfg : MuxConfig) (track : Track) :
    cfg.inTrackOrder track = cfg.qualifies track := by
  simp only [MuxConfig.inTrackOrder, MuxConfig.qualifies, Track.isMuxable, Track.isAudio,
    Track.isVideo, Track.isSubtitles, Track.isButtons]
  cases track.m_appendedTo <;> simp

/-- The list that the loop of `buildTrackOrder` collects. -/
theorem trackOrder_loop (cfg : MuxConfig) (fileNumbers : FileNumbers) :
    cfg.m_tracks.foldl
      (fun trackOrder address =>
        let track := cfg.track_at address
        if cfg.inTrackOrder track then
          trackOrder ++ [formatTrack (fileNumbers.value track.m_file) track.m_id]
        else trackOrder)
      []
      = (((cfg.m_tracks.map cfg.track_at).filter cfg.qualifies).map
          (fun track => formatTrack (fileNumbers.value track.m_file) track.m_id)) := by
  have h := foldl_push_filter (fun address => cfg.inTrackOrder (cfg.track_at address))
    (fun address => formatTrack (fileNumbers.value (cfg.track_at address).m_file)
      (cfg.track_at address).m_id) cfg.m_tracks []
  simp only [List.nil_append] at h
  rw [h, List.filter_map, List.map_map]
  congr 2
  funext address
  simp only [Function.comp, inTrackOrder_eq_qualifies]

/-- The numbering of a list of files, one after the other, from a counter
below the range of `unsigned int`: a file of the list gets the counter plus
its position, every other address keeps what it had. -/
theorem numberFile_foldl (files : List Nat) :
    ∀ state : FileNumbers × Nat, state.2 < UINT_RANGE → files.Nodup →
      (files.foldl numberFile state).2 = (state.2 + files.length) % UINT_RANGE
      ∧ (∀ i (h : i < files.length),
          (files.foldl numberFile state).1.lookup (files.get ⟨i, h⟩)
            = some ((state.2 + i) % UINT_RANGE))
      ∧ (∀ address, address ∉ files →
          (files.foldl numberFile state).1.lookup address = state.1.lookup address) := by
  induction files with
  | nil =>
      intro state hlt _
      refine ⟨by simp [Nat.mod_eq_of_lt hlt], ?_, ?_⟩
      · intro i h
        simp at h
      · intro address _
        rfl
  | cons file rest ih =>
      intro state hlt hnd
      rw [List.nodup_cons] at hnd
      obtain ⟨ih1, ih2, ih3⟩ := ih (numberFile state file)
        (Nat.mod_lt _ (by decide)) hnd.2
      rw [List.foldl_cons]
      refine ⟨?_, ?_, ?_⟩
      · rw [ih1]
        simp only [numberFile, List.length_cons]
        rw [Nat.mod_add_mod]
        congr 1
        omega
      · intro i h
        cases i with
        | zero =>
            simp only [List.get_eq_getElem, List.getElem_cons_zero]
            rw [ih3 file hnd.1]
            simp [numberFile, FileNumbers.insert, Nat.mod_eq_of_lt hlt]
        | succ i =>
            simp only [List.get_eq_getElem, List.getElem_cons_succ]
            have h1 : i < rest.length := by simpa using h
            have := ih2 i h1
            simp only [List.get_eq_getElem] at this
            rw [this]
            simp only [numberFile]
            rw [Nat.mod_add_mod]
            congr 2
            omega
      · intro address hmem
        rw [List.mem_cons, not_or] at hmem
        rw [ih3 address hmem.2]
        simp [numberFile, FileNumbers.insert, hmem.1]

/-- The two loops of `buildFileNumbers` are one pass over `allFiles`. -/
theorem buildFileNumbers_loop (cfg : MuxConfig) (files : List Nat) :
    ∀ state : FileNumbers × Nat,
      files.foldl
        (fun state file =>
          (cfg.file_at file).m_appendedFiles.foldl numberFile (numberFile state file))
        state
        = (files.flatMap (fun file => file :: (cfg.file_at file).m_appendedFiles)).foldl
            numberFile state := by
  induction files with
  | nil => intro state; rfl
  | cons file rest ih =>
      intro state
      rw [List.foldl_cons, ih, List.flatMap_cons, List.foldl_append, List.foldl_cons]

/-- The inner loop of `buildAppendToMapping` appends the texts of the chain of
the destination. -/
theorem appendSource_foldl (cfg : MuxConfig) (fileNumbers : FileNumbers) (sources : List Nat) :
    ∀ state : AppendState,
      (sources.foldl (appendSource cfg fileNumbers) state).appendToMapping
        = state.appendToMapping
          ++ (chain ⟨state.currentDestinationFileNumber, state.currentDestinationTrackId⟩
                (((sources.map cfg.track_at).filter
                    (fun track => track.m_muxThis && track.isMuxable)).map
                  (trackName fileNumbers))).map AppendEntry.text := by
  induction sources with
  | nil => intro state; simp [chain]
  | cons address rest ih =>
      intro state
      rw [List.foldl_cons, ih]
      by_cases hq : ((cfg.track_at address).m_muxThis && (cfg.track_at address).isMuxable) = true
      · simp only [appendSource, hq, if_true, List.map_cons, List.filter_cons, chain,
          List.zipWith_cons_cons, List.append_assoc, List.singleton_append, AppendEntry.text,
          trackName]
      · simp only [appendSource, hq, List.map_cons, List.filter_cons]
        rfl

/-- The outer loop of `buildAppendToMapping` appends the chains of the
destination tracks, one after the other. -/
theorem appendToMapping_loop (cfg : MuxConfig) (fileNumbers : FileNumbers) (tracks : List Nat) :
    ∀ init : List String,
      tracks.foldl
        (fun appendToMapping address =>
          let destinationTrack := cfg.track_at address
          (destinationTrack.m_appendedTracks.foldl (appendSource cfg fileNumbers)
            { appendToMapping := appendToMapping,
              currentDestinationFileNumber := fileNumbers.value destinationTrack.m_file,
              currentDestinationTrackId := destinationTrack.m_id }).appendToMapping)
        init
        = init ++ (((tracks.map cfg.track_at).flatMap
            (fun destination =>
              chain (trackName fileNumbers destination)
                ((cfg.chainSources destination).map (trackName fileNumbers)))).map
            AppendEntry.text) := by
  induction tracks with
  | nil => intro init; simp
  | cons address rest ih =>
      intro init
      rw [List.foldl_cons, ih]
      simp only [appendSource_foldl, List.map_cons, List.flatMap_cons, List.map_append,
        List.append_assoc, MuxConfig.chainSources, trackName]

/-- The shape of a chain: one entry per source, in order; the first entry has
the destination as its target, every later entry the source of the entry
before it. -/
theorem chain_shape (destination : TrackName) (sources : List TrackName) :
    (chain destination sources).map AppendEntry.source = sources
    ∧ (∀ entry, (chain destination sources)[0]? = some entry → entry.target = destination)
    ∧ (∀ j entry later, (chain destination sources)[j]? = some entry →
        (chain destination sources)[j + 1]? = some later → later.target = entry.source) := by
  induction sources generalizing destination with
  | nil => simp [chain]
  | cons s rest ih =>
      obtain ⟨ih1, ih2, ih3⟩ := ih s
      have hc : chain destination (s :: rest) = ⟨s, destination⟩ :: chain s rest := by
        simp [chain]
      rw [hc]
      refine ⟨by simp [ih1], ?_, ?_⟩
      · intro entry h
        simp only [List.getElem?_cons_zero, Option.some.injEq] at h
        rw [← h]
      · intro j entry later h1 h2
        rw [List.getElem?_cons_succ] at h2
        cases j with
        | zero =>
            simp only [List.getElem?_cons_zero, Option.some.injEq] at h1
            rw [← h1]
            exact ih2 later h2
        | succ j =>
            rw [List.getElem?_cons_succ] at h1
            exact ih3 j entry later h1 h2

/-- C39: `buildAppendToMapping` builds chains.  For every destination track
the entries come from its appended tracks that are muxed and of kind audio,
video, subtitles or buttons, in list order; the first entry of the chain has
the destination track (file number and track id) as its target and every
later entry the source of the entry before it.  The result is the empty list
if and only if there is no entry, and otherwise `--append-to` followed by the
texts of the entries of all chains, in the order of `m_tracks`, joined with
commas. -/
theorem buildAppendToMapping_chains (cfg : MuxConfig) (fileNumbers : FileNumbers) :
    (∀ destination : Track,
      let name := trackName fileNumbers destination
      let sources := (cfg.chainSources destination).map (trackName fileNumbers)
      (chain name sources).map AppendEntry.source = sources
      ∧ (∀ entry, (chain name sources)[0]? = some entry → entry.target = name)
      ∧ (∀ j entry later, (chain name sources)[j]? = some entry →
          (chain name sources)[j + 1]? = some later → later.target = entry.source))
    ∧ (cfg.buildAppendToMapping fileNumbers = [] ↔ cfg.appendEntries fileNumbers = [])
    ∧ (cfg.appendEntries fileNumbers ≠ [] →
        cfg.buildAppendToMapping fileNumbers
          = ["--append-to",
             String.intercalate "," ((cfg.appendEntries fileNumbers).map AppendEntry.text)]) := by
  have hloop := appendToMapping_loop cfg fileNumbers cfg.m_tracks []
  simp only [List.nil_append] at hloop
  have hres : cfg.buildAppendToMapping fileNumbers
      = if ((cfg.appendEntries fileNumbers).map AppendEntry.text).isEmpty then []
        else ["--append-to",
          String.intercalate "," ((cfg.appendEntries fileNumbers).map AppendEntry.text)] := by
    simp only [MuxConfig.buildAppendToMapping, MuxConfig.appendEntries]
    rw [hloop]
  refine ⟨fun destination => chain_shape _ _, ?_, ?_⟩
  · rw [hres]
    cases h : cfg.appendEntries fileNumbers with
    | nil => simp
    | cons e es => simp
  · intro hne
    rw [hres]
    cases h : cfg.appendEntries fileNumbers with
    | nil => exact absurd h hne
    | cons e es => simp

/-- The append mapping of `sample_config`: the video track of file 10 has the
video tracks of the appended files 11 and 12 as its chain (the audio track of
file 11 is not muxed and is skipped). -/
theorem buildAppendToMapping_example :
    sample_config.buildAppendToMapping sample_config.buildFileNumbers
      = ["--append-to", "1:0:0:0,2:0:1:0"]
    ∧ sample_config.appendEntries sample_config.buildFileNumbers
      = [⟨⟨1, 0⟩, ⟨0, 0⟩⟩, ⟨⟨2, 0⟩, ⟨1, 0⟩⟩]
    ∧ ({ sample_config with m_tracks := [101, 200] }).buildAppendToMapping
        sample_config.buildFileNumbers = [] := by
  decide

/-- The result of `buildTrackOrder` for every configuration and every table of
file numbers: the option and the joined names of the qualifying tracks when
at least two tracks qualify, the empty list otherwise. -/
theorem buildTrackOrder_eq (cfg : MuxConfig) (fileNumbers : FileNumbers) :
    cfg.buildTrackOrder fileNumbers
      = if 2 ≤ ((cfg.m_tracks.map cfg.track_at).filter cfg.qualifies).length then
          ["--track-order",
           String.intercalate ","
             (((cfg.m_tracks.map cfg.track_at).filter cfg.qualifies).map
               (fun track => formatTrack (fileNumbers.value track.m_file) track.m_id))]
        else [] := by
  simp only [MuxConfig.buildTrackOrder]
  rw [trackOrder_loop, List.length_map]
  by_cases h : 2 ≤ ((cfg.m_tracks.map cfg.track_at).filter cfg.qualifies).length
  · rw [if_pos h, if_pos (by omega)]
  · rw [if_neg h, if_neg (by omega)]

/-- The table that `buildFileNumbers` builds is the numbering of `allFiles`
from 0. -/
theorem buildFileNumbers_eq (cfg : MuxConfig) :
    cfg.buildFileNumbers = (cfg.allFiles.foldl numberFile (FileNumbers.empty, 0)).1 := by
  simp only [MuxConfig.buildFileNumbers, MuxConfig.allFiles, buildFileNumbers_loop]

/-- C40: `buildTrackOrder` and `buildFileNumbers`.  The result of
`buildTrackOrder` is `--track-order` followed by the comma-joined
`fileNumber:trackId` of the qualifying tracks, in the order of `m_tracks`, if
at least two tracks qualify, and the empty list otherwise.  When the files
are distinct objects and an `unsigned int` can count them, the file at
position `i` of the order "each file of `m_files`, followed at once by its
appended files" has the number `i`, and no other address has a number: the
numbers are 0, 1, 2, ... without gaps or repeats. -/
theorem buildTrackOrder_and_file_numbers (cfg : MuxConfig) (fileNumbers : FileNumbers)
    (hdistinct : cfg.allFiles.Nodup) (hcount : cfg.allFiles.length ≤ UINT_RANGE) :
    (cfg.buildTrackOrder fileNumbers
      = if 2 ≤ ((cfg.m_tracks.map cfg.track_at).filter cfg.qualifies).length then
          ["--track-order",
           String.intercalate ","
             (((cfg.m_tracks.map cfg.track_at).filter cfg.qualifies).map
               (fun track => formatTrack (fileNumbers.value track.m_file) track.m_id))]
        else [])
    ∧ (∀ i (h : i < cfg.allFiles.length),
        cfg.buildFileNumbers.lookup (cfg.allFiles.get ⟨i, h⟩) = some i
        ∧ cfg.buildFileNumbers.value (cfg.allFiles.get ⟨i, h⟩) = i)
    ∧ (∀ address, address ∉ cfg.allFiles → cfg.buildFileNumbers.lookup address = none) := by
  refine ⟨buildTrackOrder_eq cfg fileNumbers, ?_, ?_⟩
  · intro i h
    have hn := (numberFile_foldl cfg.allFiles (FileNumbers.empty, 0) (by decide) hdistinct).2.1 i h
    have hi : (0 + i) % UINT_RANGE = i := by
      rw [Nat.zero_add]
      exact Nat.mod_eq_of_lt (by omega)
    rw [buildFileNumbers_eq]
    simp only [hi] at hn
    refine ⟨hn, ?_⟩
    simp only [FileNumbers.value, hn, Option.getD_some]
  · intro address hmem
    have hn := (numberFile_foldl cfg.allFiles (FileNumbers.empty, 0) (by decide) hdistinct).2.2
      address hmem
    rw [buildFileNumbers_eq, hn]
    rfl

/-- C40, witness: `sample_config`, whose files in the order of the numbering
are 10, 11, 12 and 20. -/
theorem buildTrackOrder_and_file_numbers_witness :
    (sample_config.allFiles.Nodup ∧ sample_config.allFiles.length ≤ UINT_RANGE)
    ∧ ((sample_config.buildTrackOrder sample_config.buildFileNumbers
        = if 2 ≤ ((sample_config.m_tracks.map sample_config.track_at).filter
              sample_config.qualifies).length then
            ["--track-order",
             String.intercalate ","
               (((sample_config.m_tracks.map sample_config.track_at).filter
                  sample_config.qualifies).map
                 (fun track =>
                   formatTrack (sample_config.buildFileNumbers.value track.m_file) track.m_id))]
          else [])
      ∧ (∀ i (h : i < sample_config.allFiles.length),
          sample_config.buildFileNumbers.lookup (sample_config.allFiles.get ⟨i, h⟩) = some i
          ∧ sample_config.buildFileNumbers.value (sample_config.allFiles.get ⟨i, h⟩) = i)
      ∧ (∀ address, address ∉ sample_config.allFiles →
          sample_config.buildFileNumbers.lookup address = none)) :=
  ⟨by decide,
    buildTrackOrder_and_file_numbers sample_config sample_config.buildFileNumbers
      (by decide) (by decide)⟩

/-- The track order and the file numbers of `sample_config`: the video and the
audio track of file 10 and the subtitle track of file 20 qualify (the chapter
track does not); with only one qualifying track the result is empty; the
files 10, 11, 12 and 20 have the numbers 0, 1, 2 and 3, and an address that is
not a file of the configuration has the default 0 of `value`. -/
theorem buildTrackOrder_example :
    sample_config.allFiles = [10, 11, 12, 20]
    ∧ sample_config.buildTrackOrder sample_config.buildFileNumbers
        = ["--track-order", "0:0,0:1,3:0"]
    ∧ ({ sample_config with m_tracks := [100, 201] }).buildTrackOrder
        sample_config.buildFileNumbers = []
    ∧ [10, 11, 12, 20, 30].map sample_config.buildFileNumbers.value = [0, 1, 2, 3, 0]
    ∧ [10, 11, 12, 20, 30].map sample_config.buildFileNumbers.lookup
        = [some 0, some 1, some 2, some 3, none] := by
  decide

end mtx.gui.Merge
